import Mathlib

/-!
# The pattern-format interpreter of fontconfig (`src/fcformat.c`)

A shallow embedding of the interpreter and the properties of it that are
checked against the specification.

Conventions of the embedding.

* A byte (`FcChar8`, `char`) is a natural number; the character constants of
  the source are written as their ASCII codes with the character in a comment.
* A C string is a list of bytes that is read up to its first `0` byte (or up
  to the end of the list, which stands for the terminating `NUL`).
* The template cursor `c->format` is the suffix of the template that is still
  to be read; `*c->format` is its first byte, `0` at the end.
* A function that modifies `*c` or `*buf` returns the new value next to its
  result.
* The recursive descent is defined by recursion on a fuel argument; a result
  of `none` means that the fuel ran out, never that the render failed. Twice
  the length of the template plus two units of fuel are enough for every
  render (`interpret_total`, `render_result`).
-/

namespace FcFormat

/-! ## Output buffer -/

/-- Modelled from the spec: the output buffer `FcStrBuf` (declared in fcint.h,
which is not part of the sources): the bytes written so far, `buf->buf[0..len)`,
and the sticky failure flag. -/
structure FcStrBuf where
  buf : List Nat
  failed : Bool
  deriving DecidableEq, Repr

/-- The bytes of a C string: everything before the first `NUL`. -/
def cstr (s : List Nat) : List Nat := s.takeWhile (fun b => b != 0)

/-- Modelled from the spec: `FcStrBufChar` of the output buffer (fcstr.c is not
part of the sources). It appends one byte; once `failed` is set every append is
a no-op. Allocation is taken to succeed. -/
def FcStrBufChar (buf : FcStrBuf) (ch : Nat) : FcStrBuf :=
  if buf.failed then buf else { buf with buf := buf.buf ++ [ch] }

/-- Modelled from the spec: `FcStrBufData`, append-range of the output buffer:
appends the first `len` bytes of `s`. -/
def FcStrBufData (buf : FcStrBuf) (s : List Nat) (len : Nat) : FcStrBuf :=
  if buf.failed then buf else { buf with buf := buf.buf ++ s.take len }

/-- Modelled from the spec: `FcStrBufString`, append-nul-terminated of the
output buffer: appends the C string `s`. -/
def FcStrBufString (buf : FcStrBuf) (s : List Nat) : FcStrBuf :=
  if buf.failed then buf else { buf with buf := buf.buf ++ cstr s }

/-- Modelled from the spec: `FcStrBufInit`, an empty buffer that has not failed. -/
def FcStrBufInit : FcStrBuf := { buf := [], failed := false }

/-- Modelled from the spec: `FcStrBufDone`, finalize-to-owned-string: the
contents as a C string, or `NULL` when the buffer has failed. -/
def FcStrBufDone (buf : FcStrBuf) : Option (List Nat) :=
  if buf.failed then none else some (cstr buf.buf)

/-- The libc `memmove (b + dst, b + src, n)` on the bytes `b`. -/
def memmove (b : List Nat) (dst src n : Nat) : List Nat :=
  b.take dst ++ (b.drop src).take n ++ b.drop (dst + n)

/-- The libc `memset (b + dst, ch, n)` on the bytes `b`. -/
def memset (b : List Nat) (dst ch n : Nat) : List Nat :=
  b.take dst ++ List.replicate n ch ++ b.drop (dst + n)

/-- Conversion of an integer to the 32-bit `int` of the source. -/
def toInt32 (x : Int) : Int := (x + 2147483648) % 4294967296 - 2147483648

/-! ## Width alignment -/

/-- The loop `while (len++ < bound) FcStrBufChar (buf, ' ');`, which runs
`n = bound - len` times. -/
def pad_loop : Nat → FcStrBuf → FcStrBuf
  | 0, buf => buf
  | n + 1, buf => pad_loop n (FcStrBufChar buf 32)

/-- The function `align_to_width`. -/
def align_to_width (buf : FcStrBuf) (start : Nat) (width : Int) : Bool × FcStrBuf :=
  if buf.failed then (false, buf)
  else
    let len : Int := (buf.buf.length : Int) - (start : Int)
    if len < toInt32 (-width) then
      /- left align -/
      let buf := pad_loop (toInt32 (-width) - len).toNat buf
      (!buf.failed, buf)
    else if len < width then
      let old_len := len
      /- right align -/
      let buf := pad_loop (width - len).toNat buf
      if buf.failed then (false, buf)
      else
        let len := old_len
        let blen : Int := buf.buf.length
        let b := memmove buf.buf (blen - len).toNat (blen - width).toNat len.toNat
        let b := memset b (blen - width).toNat 32 (width - len).toNat
        let buf := { buf with buf := b }
        (!buf.failed, buf)
    else (!buf.failed, buf)

/-! ## Lexer context and diagnostics -/

/-- One call of `message (fmt, ...)`: the format string used and its arguments.
The line written to `stderr` is `Message.text`. -/
inductive Message where
  /-- The call `message ("format ended while expecting '%c'", term)`. -/
  | format_ended (term : Nat)
  /-- The call `message ("expected '%c' at %d", term, pos)`. -/
  | expected_char (term : Nat) (pos : Nat)
  /-- The call `message ("expected element name at %d", pos)`. -/
  | expected_element_name (pos : Nat)
  /-- The call `message ("expected character data at %d", pos)`. -/
  | expected_character_data (pos : Nat)
  /-- The call `message ("unknown converter \"%s\"", word)`. -/
  | unknown_converter (word : List Nat)
  deriving DecidableEq, Repr

/-- The lexer context `FcFormatContext`. `format` is the part of the template
from the cursor on, so that `c->format - c->format_orig` is the difference of
the two lengths. `err` is the error stream: the diagnostics that `message` has
written so far, oldest first. -/
structure FcFormatContext where
  format_orig : List Nat
  format : List Nat
  format_len : Nat
  word : List Nat
  err : List Message
  deriving DecidableEq, Repr

/-- The function `message`: writes one diagnostic line to the error stream. -/
def message (c : FcFormatContext) (m : Message) : FcFormatContext :=
  { c with err := c.err ++ [m] }

/-- The function `FcFormatContextInit` (the allocation of the scratch slot is
taken to succeed). -/
def FcFormatContextInit (format : List Nat) : FcFormatContext :=
  { format_orig := format, format := format, format_len := (cstr format).length,
    word := [], err := [] }

/-- The byte under the cursor, `*c->format`. -/
def peek (c : FcFormatContext) : Nat := c.format.headD 0

/-- The step `c->format++`. -/
def advance (c : FcFormatContext) : FcFormatContext := { c with format := c.format.tail }

/-- The offset of the cursor, `c->format - c->format_orig`. -/
def offset (c : FcFormatContext) : Nat := c.format_orig.length - c.format.length

/-- The function `consume_char`. -/
def consume_char (c : FcFormatContext) (term : Nat) : Bool × FcFormatContext :=
  if peek c ≠ term then (false, c)
  else (true, advance c)

/-- The function `expect_char`. -/
def expect_char (c : FcFormatContext) (term : Nat) : Bool × FcFormatContext :=
  match consume_char c term with
  | (false, c) =>
    if offset c = c.format_len then (false, message c (.format_ended term))
    else (false, message c (.expected_char term (offset c + 1)))
  | (true, c) => (true, c)

/-- The function `FcCharIsPunct`. -/
def FcCharIsPunct (c : Nat) : Bool :=
  if c < 48 /- '0' -/ then true
  else if c ≤ 57 /- '9' -/ then false
  else if c < 65 /- 'A' -/ then true
  else if c ≤ 90 /- 'Z' -/ then false
  else if c < 97 /- 'a' -/ then true
  else if c ≤ 122 /- 'z' -/ then false
  else if c ≤ 126 /- '~' -/ then true
  else false

/-- The function `escaped_char`. -/
def escaped_char (ch : Nat) : Nat :=
  if ch = 97 /- 'a' -/ then 7
  else if ch = 98 /- 'b' -/ then 8
  else if ch = 102 /- 'f' -/ then 12
  else if ch = 110 /- 'n' -/ then 10
  else if ch = 114 /- 'r' -/ then 13
  else if ch = 116 /- 't' -/ then 9
  else if ch = 118 /- 'v' -/ then 11
  else ch

/-- The loop of `read_word`, on the cursor and the bytes written to the scratch
slot so far; it returns the cursor and the scratch slot at the end of the loop. -/
def read_word_loop : List Nat → List Nat → List Nat × List Nat
  | [], p => ([], p)
  | ch :: fmt, p =>
    if ch = 0 then (ch :: fmt, p)
    else if ch = 92 /- '\\' -/ then
      match fmt with
      | [] => ([], p)
      | x :: fmt' =>
        if x = 0 then (x :: fmt', p)
        else read_word_loop fmt' (p ++ [escaped_char x])
    else if FcCharIsPunct ch then (ch :: fmt, p)
    else read_word_loop fmt (p ++ [ch])

/-- The function `read_word`. -/
def read_word (c : FcFormatContext) : Bool × FcFormatContext :=
  let r := read_word_loop c.format []
  let c := { c with format := r.1, word := r.2 }
  if r.2 = [] then (false, message c (.expected_element_name (offset c + 1)))
  else (true, c)

/-- The loop of `read_chars`, as `read_word_loop`. -/
def read_chars_loop (term : Nat) : List Nat → List Nat → List Nat × List Nat
  | [], p => ([], p)
  | ch :: fmt, p =>
    if ch = 0 ∨ ch = 125 /- '}' -/ ∨ ch = term then (ch :: fmt, p)
    else if ch = 92 /- '\\' -/ then
      match fmt with
      | [] => ([], p)
      | x :: fmt' =>
        if x = 0 then (x :: fmt', p)
        else read_chars_loop term fmt' (p ++ [escaped_char x])
    else read_chars_loop term fmt (p ++ [ch])

/-- The function `read_chars`. -/
def read_chars (c : FcFormatContext) (term : Nat) : Bool × FcFormatContext :=
  let r := read_chars_loop term c.format []
  let c := { c with format := r.1, word := r.2 }
  if r.2 = [] then (false, message c (.expected_character_data (offset c + 1)))
  else (true, c)

/-! ## The pattern and the external string utilities -/

/-- Modelled from the spec: an element of a pattern, a key (object name) with
its list of values. The pattern data structure is not part of the sources. -/
structure FcPatternElt (V : Type) where
  object : List Nat
  values : List V

/-- Modelled from the spec: a pattern, a multimap from keys to value lists. -/
abbrev FcPattern (V : Type) := List (FcPatternElt V)

/-- Modelled from the spec: lookup-by-key,
`FcPatternObjectFindElt (pat, FcObjectFromName (object))`. -/
def FcPatternObjectFindElt {V : Type} (pat : FcPattern V) (object : List Nat) :
    Option (FcPatternElt V) :=
  pat.find? (fun e => decide (e.object = object))

/-- Modelled from the spec: `FcResultMatch == FcPatternGet (pat, object, 0, &v)`,
the key is present and has a value of index 0. -/
def FcPatternGet_match {V : Type} (pat : FcPattern V) (object : List Nat) : Bool :=
  match FcPatternObjectFindElt pat object with
  | some e => !e.values.isEmpty
  | none => false

/-- Modelled from the spec: `FcPatternDuplicate`. -/
def FcPatternDuplicate {V : Type} (pat : FcPattern V) : FcPattern V := pat

/-- Modelled from the spec: delete-key, `FcPatternDel (pat, object)`. -/
def FcPatternDel {V : Type} (pat : FcPattern V) (object : List Nat) : FcPattern V :=
  pat.filter (fun e => !decide (e.object = object))

/-- Modelled from the spec: filter-to-keyset, `FcPatternFilter (pat, os)`: a new
pattern containing only the keys of `os`. -/
def FcPatternFilter {V : Type} (pat : FcPattern V) (os : List (List Nat)) : FcPattern V :=
  pat.filter (fun e => decide (e.object ∈ os))

/-- Modelled from the spec: `FcObjectSetAdd (os, object)` on a keyset. -/
def FcObjectSetAdd (os : List (List Nat)) (object : List Nat) : List (List Nat) :=
  os ++ [object]

/-- The functions of the library that the interpreter calls and whose results
the specification leaves open: the text that `FcNameUnparseValueList` writes for
a value list, and the string utilities `FcStrDowncase`, `FcStrBasename` and
`FcStrDirname` on the bytes of a C string. -/
structure Externals (V : Type) where
  unparse : List V → List Nat
  FcStrDowncase : List Nat → List Nat
  FcStrBasename : List Nat → List Nat
  FcStrDirname : List Nat → List Nat

/-- The call `FcNameUnparseValueList (buf, l, '\0')`: appends the text of the
value list. -/
def FcNameUnparseValueList {V : Type} (ext : Externals V) (buf : FcStrBuf) (l : List V) :
    FcStrBuf :=
  FcStrBufData buf (ext.unparse l) (ext.unparse l).length

/-! ## libc -/

/-- The libc `isspace` in the C locale. -/
def isspace (c : Nat) : Bool := c = 32 || (9 ≤ c && c ≤ 13)

/-- The digits of `strtol` in base 10: the value read so far and the rest. -/
def strtol_digits : List Nat → Nat → Nat × List Nat
  | [], acc => (acc, [])
  | ch :: s, acc =>
    if 48 ≤ ch ∧ ch ≤ 57 then strtol_digits s (10 * acc + (ch - 48))
    else (acc, ch :: s)

/-- The libc `strtol (s, &end, 10)` with a 64-bit `long`: white space, an
optional sign and decimal digits; the value is clamped to the range of `long`;
without a digit the value is 0 and `end` is `s`. -/
def strtol (s : List Nat) : Int × List Nat :=
  let t := s.dropWhile isspace
  let sign : Bool × List Nat :=
    match t with
    | 45 /- '-' -/ :: r => (true, r)
    | 43 /- '+' -/ :: r => (false, r)
    | _ => (false, t)
  if 48 ≤ sign.2.headD 0 ∧ sign.2.headD 0 ≤ 57 then
    let r := strtol_digits sign.2 0
    let v : Int := if sign.1 then -(r.1 : Int) else (r.1 : Int)
    (max (-9223372036854775808) (min v 9223372036854775807), r.2)
  else (0, s)

/-- The libc `strpbrk (s, accept)`: the offset of the first byte of the C string
`s` that occurs in the C string `accept`, if there is one. -/
def strpbrk : List Nat → List Nat → Option Nat
  | [], _ => none
  | ch :: s, accept =>
    if ch = 0 then none
    else if ch ∈ cstr accept then some 0
    else (strpbrk s accept).map (fun i => i + 1)

/-- The libc `strchr (s, ch)` for a byte `ch` other than `NUL`: the offset of
its first occurrence in the C string `s`. -/
def strchr : List Nat → Nat → Option Nat
  | [], _ => none
  | x :: s, ch =>
    if x = 0 then none
    else if x = ch then some 0
    else (strchr s ch).map (fun i => i + 1)

/-- The text that `snprintf (buf_static, 64, "%d", n)` writes for `n ≥ 0`: the
decimal digits of `n`. -/
def snprintf_d (n : Nat) : List Nat := (Nat.toDigits 10 n).map Char.toNat

/-! ## Converters -/

/-- The loop of `cescape`. -/
def cescape_loop : List Nat → FcStrBuf → FcStrBuf
  | [], buf => buf
  | ch :: str, buf =>
    if ch = 0 then buf
    else
      let buf := if ch = 92 /- '\\' -/ ∨ ch = 34 /- '"' -/ then FcStrBufChar buf 92 else buf
      cescape_loop str (FcStrBufChar buf ch)

/-- The function `cescape`. -/
def cescape (str : List Nat) : Option (List Nat) :=
  FcStrBufDone (cescape_loop str FcStrBufInit)

/-- The loop of `shescape`. -/
def shescape_loop : List Nat → FcStrBuf → FcStrBuf
  | [], buf => buf
  | ch :: str, buf =>
    if ch = 0 then buf
    else if ch = 39 /- '\'' -/ then
      shescape_loop str (FcStrBufString buf [39, 92, 39, 39] /- "'\\''" -/)
    else shescape_loop str (FcStrBufChar buf ch)

/-- The function `shescape`. -/
def shescape (str : List Nat) : Option (List Nat) :=
  let buf := FcStrBufChar FcStrBufInit 39
  let buf := shescape_loop str buf
  FcStrBufDone (FcStrBufChar buf 39)

/-- The loop of `xmlescape`. -/
def xmlescape_loop : List Nat → FcStrBuf → FcStrBuf
  | [], buf => buf
  | ch :: str, buf =>
    if ch = 0 then buf
    else if ch = 38 /- '&' -/ then
      xmlescape_loop str (FcStrBufString buf [38, 97, 109, 112, 59] /- "&amp;" -/)
    else if ch = 60 /- '<' -/ then
      xmlescape_loop str (FcStrBufString buf [38, 108, 116, 59] /- "&lt;" -/)
    else if ch = 62 /- '>' -/ then
      xmlescape_loop str (FcStrBufString buf [38, 103, 116, 59] /- "&gt;" -/)
    else xmlescape_loop str (FcStrBufChar buf ch)

/-- The function `xmlescape`. -/
def xmlescape (str : List Nat) : Option (List Nat) :=
  FcStrBufDone (xmlescape_loop str FcStrBufInit)

/-- The loop of `delete_chars` with `c->word = word`. Every round moves `str`
forward, so that a fuel of the length of `str` lets the loop run to its end. -/
def delete_chars_loop (word : List Nat) : Nat → List Nat → FcStrBuf → FcStrBuf
  | 0, _, buf => buf
  | fuel + 1, str, buf =>
    if str.headD 0 = 0 then buf
    else
      match strpbrk str word with
      | some p => delete_chars_loop word fuel (str.drop (p + 1)) (FcStrBufData buf str p)
      | none => FcStrBufString buf str

/-- The function `delete_chars`. -/
def delete_chars (c : FcFormatContext) (str : List Nat) :
    Option (List Nat) × FcFormatContext :=
  match expect_char c 40 /- '(' -/ with
  | (false, c) => (none, c)
  | (true, c) =>
    match read_chars c 41 /- ')' -/ with
    | (false, c) => (none, c)
    | (true, c) =>
      match expect_char c 41 /- ')' -/ with
      | (false, c) => (none, c)
      | (true, c) =>
        (FcStrBufDone (delete_chars_loop c.word str.length str FcStrBufInit), c)

/-- The loop of `escape_chars` with `c->word = word`, as `delete_chars_loop`. -/
def escape_chars_loop (word : List Nat) : Nat → List Nat → FcStrBuf → FcStrBuf
  | 0, _, buf => buf
  | fuel + 1, str, buf =>
    if str.headD 0 = 0 then buf
    else
      match strpbrk str word with
      | some p =>
        let buf := FcStrBufData buf str p
        let buf := FcStrBufChar buf (word.headD 0)
        let buf := FcStrBufChar buf (str.getD p 0)
        escape_chars_loop word fuel (str.drop (p + 1)) buf
      | none => FcStrBufString buf str

/-- The function `escape_chars`. -/
def escape_chars (c : FcFormatContext) (str : List Nat) :
    Option (List Nat) × FcFormatContext :=
  match expect_char c 40 /- '(' -/ with
  | (false, c) => (none, c)
  | (true, c) =>
    match read_chars c 41 /- ')' -/ with
    | (false, c) => (none, c)
    | (true, c) =>
      match expect_char c 41 /- ')' -/ with
      | (false, c) => (none, c)
      | (true, c) =>
        (FcStrBufDone (escape_chars_loop c.word str.length str FcStrBufInit), c)

/-- The loop of `translate_chars`, as `delete_chars_loop`; `rep` is the local
`repeat`. -/
def translate_chars_loop (from_ to_ : List Nat) (to_len : Nat) (rep : Nat) :
    Nat → List Nat → FcStrBuf → FcStrBuf
  | 0, _, buf => buf
  | fuel + 1, str, buf =>
    if str.headD 0 = 0 then buf
    else
      match strpbrk str from_ with
      | some p =>
        let buf := FcStrBufData buf str p
        let i := (strchr from_ (str.getD p 0)).getD 0
        let buf := FcStrBufChar buf (if i < to_len then to_.getD i 0 else rep)
        translate_chars_loop from_ to_ to_len rep fuel (str.drop (p + 1)) buf
      | none => FcStrBufString buf str

/-- The function `translate_chars`. The two arguments are read into the one
scratch slot, `to` behind `from`; here `from_` keeps the first while the slot
holds the second, and the slot is set back to `from_` afterwards. -/
def translate_chars (c : FcFormatContext) (str : List Nat) :
    Option (List Nat) × FcFormatContext :=
  match expect_char c 40 /- '(' -/ with
  | (false, c) => (none, c)
  | (true, c) =>
    match read_chars c 44 /- ',' -/ with
    | (false, c) => (none, c)
    | (true, c) =>
      match expect_char c 44 /- ',' -/ with
      | (false, c) => (none, c)
      | (true, c) =>
        let from_ := c.word
        match read_chars c 41 /- ')' -/ with
        | (false, c) => (none, { c with word := from_ })
        | (true, c) =>
          let to_ := c.word
          let c := { c with word := from_ }
          let to_len := (cstr to_).length
          let rep := to_.getD (to_len - 1) 0
          match expect_char c 41 /- ')' -/ with
          | (false, c) => (none, c)
          | (true, c) =>
            (FcStrBufDone (translate_chars_loop from_ to_ to_len rep str.length str FcStrBufInit), c)

/-- The function `convert`. The names are the byte strings `"downcase"`,
`"basename"`, `"dirname"`, `"cescape"`, `"shescape"`, `"xmlescape"`, `"delete"`,
`"escape"` and `"translate"`. -/
def convert {V : Type} (ext : Externals V) (c : FcFormatContext) (str : List Nat) :
    Option (List Nat) × FcFormatContext :=
  match read_word c with
  | (false, c) => (none, c)
  | (true, c) =>
    if c.word = [100, 111, 119, 110, 99, 97, 115, 101] then
      (some (ext.FcStrDowncase (cstr str)), c)
    else if c.word = [98, 97, 115, 101, 110, 97, 109, 101] then
      (some (ext.FcStrBasename (cstr str)), c)
    else if c.word = [100, 105, 114, 110, 97, 109, 101] then
      (some (ext.FcStrDirname (cstr str)), c)
    else if c.word = [99, 101, 115, 99, 97, 112, 101] then (cescape str, c)
    else if c.word = [115, 104, 101, 115, 99, 97, 112, 101] then (shescape str, c)
    else if c.word = [120, 109, 108, 101, 115, 99, 97, 112, 101] then (xmlescape str, c)
    else if c.word = [100, 101, 108, 101, 116, 101] then delete_chars c str
    else if c.word = [101, 115, 99, 97, 112, 101] then escape_chars c str
    else if c.word = [116, 114, 97, 110, 115, 108, 97, 116, 101] then translate_chars c str
    else (none, message c (.unknown_converter c.word))

/-- The function `maybe_interpret_converts`; one unit of fuel for each round of
its loop. -/
def maybe_interpret_converts {V : Type} (ext : Externals V) :
    Nat → FcFormatContext → FcStrBuf → Nat → Option (Bool × FcFormatContext × FcStrBuf)
  | 0, _, _, _ => none
  | fuel + 1, c, buf, start =>
    match consume_char c 124 /- '|' -/ with
    | (false, c) => some (true, c, buf)
    | (true, c) =>
      /- nul-terminate the buffer -/
      let buf := FcStrBufChar buf 0
      if buf.failed then some (false, c, buf)
      else
        let str := buf.buf.drop start
        match convert ext c str with
        | (none, c) => some (false, c, buf)
        | (some new_str, c) =>
          /- replace in the buffer -/
          let buf := { buf with buf := buf.buf.take start }
          maybe_interpret_converts ext fuel c (FcStrBufString buf new_str) start

/-! ## Skipper -/

mutual

/-- The function `skip_percent` up to its loop. -/
def skip_percent : Nat → FcFormatContext → Option (Bool × FcFormatContext)
  | 0, _ => none
  | fuel + 1, c =>
    match expect_char c 37 /- '%' -/ with
    | (false, c) => some (false, c)
    | (true, c) =>
      /- skip an optional width specifier -/
      let c := { c with format := (strtol c.format).2 }
      match expect_char c 123 /- '{' -/ with
      | (false, c) => some (false, c)
      | (true, c) => skip_percent_loop fuel c

/-- The loop of `skip_percent` and the `expect_char (c, '}')` after it. -/
def skip_percent_loop : Nat → FcFormatContext → Option (Bool × FcFormatContext)
  | 0, _ => none
  | fuel + 1, c =>
    if peek c ≠ 0 ∧ peek c ≠ 125 /- '}' -/ then
      if peek c = 92 /- '\\' -/ then
        let c := advance c /- skip over '\\' -/
        if peek c ≠ 0 then skip_percent_loop fuel (advance c)
        else skip_percent_loop fuel c
      else if peek c = 123 /- '{' -/ then
        match skip_subexpr fuel c with
        | none => none
        | some (false, c) => some (false, c)
        | some (true, c) => skip_percent_loop fuel c
      else skip_percent_loop fuel (advance c)
    else some (expect_char c 125 /- '}' -/)

/-- The function `skip_expr`. -/
def skip_expr : Nat → FcFormatContext → Option (Bool × FcFormatContext)
  | 0, _ => none
  | fuel + 1, c =>
    if peek c ≠ 0 ∧ peek c ≠ 125 /- '}' -/ then
      if peek c = 92 /- '\\' -/ then
        let c := advance c /- skip over '\\' -/
        if peek c ≠ 0 then skip_expr fuel (advance c)
        else skip_expr fuel c
      else if peek c = 37 /- '%' -/ then
        match skip_percent fuel c with
        | none => none
        | some (false, c) => some (false, c)
        | some (true, c) => skip_expr fuel c
      else skip_expr fuel (advance c)
    else some (true, c)

/-- The function `skip_subexpr`. -/
def skip_subexpr : Nat → FcFormatContext → Option (Bool × FcFormatContext)
  | 0, _ => none
  | fuel + 1, c =>
    match expect_char c 123 /- '{' -/ with
    | (false, c) => some (false, c)
    | (true, c) =>
      match skip_expr fuel c with
      | none => none
      | some (false, c) => some (false, c)
      | some (true, c) => some (expect_char c 125 /- '}' -/)

end

/-- The function `maybe_skip_subexpr`. -/
def maybe_skip_subexpr (fuel : Nat) (c : FcFormatContext) : Option (Bool × FcFormatContext) :=
  if peek c = 123 /- '{' -/ then skip_subexpr fuel c
  else some (true, c)

/-! ## Directive evaluators -/

/-- The loop `do ... while (consume_char (c, ','))` of `interpret_filter`, which
reads the key list into the object set `os`. -/
def interpret_filter_loop :
    Nat → FcFormatContext → List (List Nat) → Option (Bool × FcFormatContext × List (List Nat))
  | 0, _, _ => none
  | fuel + 1, c, os =>
    match read_word c with
    | (false, c) => some (false, c, os)
    | (true, c) =>
      let os := FcObjectSetAdd os c.word
      match consume_char c 44 /- ',' -/ with
      | (true, c) => interpret_filter_loop fuel c os
      | (false, c) => some (true, c, os)

/-- The loop `do ... while (consume_char (c, ','))` of `interpret_delete`, which
deletes the listed keys from `subpat`. -/
def interpret_delete_loop {V : Type} :
    Nat → FcFormatContext → FcPattern V → Option (Bool × FcFormatContext × FcPattern V)
  | 0, _, _ => none
  | fuel + 1, c, subpat =>
    match read_word c with
    | (false, c) => some (false, c, subpat)
    | (true, c) =>
      let subpat := FcPatternDel subpat c.word
      match consume_char c 44 /- ',' -/ with
      | (true, c) => interpret_delete_loop fuel c subpat
      | (false, c) => some (true, c, subpat)

/-- The loop `do ... while (consume_char (c, ','))` of `interpret_cond`, which
computes `pass`. -/
def interpret_cond_loop {V : Type} (pat : FcPattern V) :
    Nat → FcFormatContext → Bool → Option (Bool × FcFormatContext × Bool)
  | 0, _, _ => none
  | fuel + 1, c, pass =>
    match consume_char c 33 /- '!' -/ with
    | (negate, c) =>
      match read_word c with
      | (false, c) => some (false, c, pass)
      | (true, c) =>
        let pass := pass && (xor negate (FcPatternGet_match pat c.word))
        match consume_char c 44 /- ',' -/ with
        | (true, c) => interpret_cond_loop pat fuel c pass
        | (false, c) => some (true, c, pass)

/-- The loop `for (l = FcPatternEltValues (e); l->next; l = l->next) count++;`
of `interpret_count`. -/
def interpret_count_loop {V : Type} : List V → Nat → Nat
  | _ :: x :: l, count => interpret_count_loop (x :: l) (count + 1)
  | _, count => count

/-- The function `interpret_count`. The `int count` of the source is a natural
number here: a value list has far fewer than `2^31` entries. -/
def interpret_count {V : Type} (c : FcFormatContext) (pat : FcPattern V) (buf : FcStrBuf) :
    Bool × FcFormatContext × FcStrBuf :=
  match expect_char c 35 /- '#' -/ with
  | (false, c) => (false, c, buf)
  | (true, c) =>
    match read_word c with
    | (false, c) => (false, c, buf)
    | (true, c) =>
      let count :=
        match FcPatternObjectFindElt pat c.word with
        | some e => interpret_count_loop e.values 1
        | none => 0
      (true, c, FcStrBufString buf (snprintf_d count))

/-- The function `interpret_simple`. -/
def interpret_simple {V : Type} (ext : Externals V) (c : FcFormatContext) (pat : FcPattern V)
    (buf : FcStrBuf) : Bool × FcFormatContext × FcStrBuf :=
  match consume_char c 58 /- ':' -/ with
  | (add_colon, c) =>
    match read_word c with
    | (false, c) => (false, c, buf)
    | (true, c) =>
      match consume_char c 61 /- '=' -/ with
      | (add_elt_name, c) =>
        match FcPatternObjectFindElt pat c.word with
        | some e =>
          let buf := if add_colon then FcStrBufChar buf 58 else buf
          let buf :=
            if add_elt_name then FcStrBufChar (FcStrBufString buf c.word) 61 else buf
          (true, c, FcNameUnparseValueList ext buf e.values)
        | none => (true, c, buf)

mutual

/-- The function `interpret_subexpr`. -/
def interpret_subexpr {V : Type} (ext : Externals V) :
    Nat → FcFormatContext → FcPattern V → FcStrBuf → Option (Bool × FcFormatContext × FcStrBuf)
  | 0, _, _, _ => none
  | fuel + 1, c, pat, buf =>
    match expect_char c 123 /- '{' -/ with
    | (false, c) => some (false, c, buf)
    | (true, c) =>
      match interpret_expr ext fuel c pat buf 125 /- '}' -/ with
      | none => none
      | some (false, c, buf) => some (false, c, buf)
      | some (true, c, buf) =>
        match expect_char c 125 /- '}' -/ with
        | (res, c) => some (res, c, buf)

/-- The function `maybe_interpret_subexpr`. -/
def maybe_interpret_subexpr {V : Type} (ext : Externals V) :
    Nat → FcFormatContext → FcPattern V → FcStrBuf → Option (Bool × FcFormatContext × FcStrBuf)
  | 0, _, _, _ => none
  | fuel + 1, c, pat, buf =>
    if peek c = 123 /- '{' -/ then interpret_subexpr ext fuel c pat buf
    else some (true, c, buf)

/-- The function `interpret_filter`. -/
def interpret_filter {V : Type} (ext : Externals V) :
    Nat → FcFormatContext → FcPattern V → FcStrBuf → Option (Bool × FcFormatContext × FcStrBuf)
  | 0, _, _, _ => none
  | fuel + 1, c, pat, buf =>
    match expect_char c 43 /- '+' -/ with
    | (false, c) => some (false, c, buf)
    | (true, c) =>
      match interpret_filter_loop fuel c [] with
      | none => none
      | some (false, c, _) => some (false, c, buf)
      | some (true, c, os) =>
        let subpat := FcPatternFilter pat os
        interpret_subexpr ext fuel c subpat buf

/-- The function `interpret_delete`. -/
def interpret_delete {V : Type} (ext : Externals V) :
    Nat → FcFormatContext → FcPattern V → FcStrBuf → Option (Bool × FcFormatContext × FcStrBuf)
  | 0, _, _, _ => none
  | fuel + 1, c, pat, buf =>
    match expect_char c 45 /- '-' -/ with
    | (false, c) => some (false, c, buf)
    | (true, c) =>
      let subpat := FcPatternDuplicate pat
      match interpret_delete_loop fuel c subpat with
      | none => none
      | some (false, c, _) => some (false, c, buf)
      | some (true, c, subpat) => interpret_subexpr ext fuel c subpat buf

/-- The function `interpret_cond`. -/
def interpret_cond {V : Type} (ext : Externals V) :
    Nat → FcFormatContext → FcPattern V → FcStrBuf → Option (Bool × FcFormatContext × FcStrBuf)
  | 0, _, _, _ => none
  | fuel + 1, c, pat, buf =>
    match expect_char c 63 /- '?' -/ with
    | (false, c) => some (false, c, buf)
    | (true, c) =>
      match interpret_cond_loop pat fuel c true with
      | none => none
      | some (false, c, _) => some (false, c, buf)
      | some (true, c, true) =>
        match interpret_subexpr ext fuel c pat buf with
        | none => none
        | some (false, c, buf) => some (false, c, buf)
        | some (true, c, buf) =>
          match maybe_skip_subexpr fuel c with
          | none => none
          | some (res, c) => some (res, c, buf)
      | some (true, c, false) =>
        match skip_subexpr fuel c with
        | none => none
        | some (false, c) => some (false, c, buf)
        | some (true, c) => maybe_interpret_subexpr ext fuel c pat buf

/-- The function `interpret_percent`. -/
def interpret_percent {V : Type} (ext : Externals V) :
    Nat → FcFormatContext → FcPattern V → FcStrBuf → Option (Bool × FcFormatContext × FcStrBuf)
  | 0, _, _, _ => none
  | fuel + 1, c, pat, buf =>
    match expect_char c 37 /- '%' -/ with
    | (false, c) => some (false, c, buf)
    | (true, c) =>
      match consume_char c 37 /- "%%" -/ with
      | (true, c) => some (true, c, FcStrBufChar buf 37)
      | (false, c) =>
        /- parse an optional width specifier -/
        let width := toInt32 (strtol c.format).1
        let c := { c with format := (strtol c.format).2 }
        match expect_char c 123 /- '{' -/ with
        | (false, c) => some (false, c, buf)
        | (true, c) =>
          let start := buf.buf.length
          let ret :=
            if peek c = 123 /- '{' -/ then interpret_subexpr ext fuel c pat buf
            else if peek c = 43 /- '+' -/ then interpret_filter ext fuel c pat buf
            else if peek c = 45 /- '-' -/ then interpret_delete ext fuel c pat buf
            else if peek c = 63 /- '?' -/ then interpret_cond ext fuel c pat buf
            else if peek c = 35 /- '#' -/ then some (interpret_count c pat buf)
            else some (interpret_simple ext c pat buf)
          match ret with
          | none => none
          | some (false, c, buf) => some (false, c, buf)
          | some (true, c, buf) =>
            match maybe_interpret_converts ext fuel c buf start with
            | none => none
            | some (false, c, buf) => some (false, c, buf)
            | some (true, c, buf) =>
              match align_to_width buf start width with
              | (false, buf) => some (false, c, buf)
              | (true, buf) =>
                match expect_char c 125 /- '}' -/ with
                | (res, c) => some (res, c, buf)

/-- The function `interpret_expr`; one unit of fuel for each round of its loop. -/
def interpret_expr {V : Type} (ext : Externals V) :
    Nat → FcFormatContext → FcPattern V → FcStrBuf → Nat →
      Option (Bool × FcFormatContext × FcStrBuf)
  | 0, _, _, _, _ => none
  | fuel + 1, c, pat, buf, term =>
    if peek c ≠ 0 ∧ peek c ≠ term then
      if peek c = 92 /- '\\' -/ then
        let c := advance c /- skip over '\\' -/
        if peek c ≠ 0 then
          interpret_expr ext fuel (advance c) pat (FcStrBufChar buf (escaped_char (peek c))) term
        else interpret_expr ext fuel c pat buf term
      else if peek c = 37 /- '%' -/ then
        match interpret_percent ext fuel c pat buf with
        | none => none
        | some (false, c, buf) => some (false, c, buf)
        | some (true, c, buf) => interpret_expr ext fuel c pat buf term
      else interpret_expr ext fuel (advance c) pat (FcStrBufChar buf (peek c)) term
    else some (true, c, buf)

end

/-- The function `FcPatternFormat`, with the fuel for the recursive descent:
the rendered string, or `NULL` on failure, and what was written to the error
stream. -/
def FcPatternFormat {V : Type} (ext : Externals V) (fuel : Nat) (pat : FcPattern V)
    (format : List Nat) : Option (Option (List Nat) × List Message) :=
  let buf := FcStrBufInit
  let c := FcFormatContextInit format
  match interpret_expr ext fuel c pat buf 0 with
  | none => none
  | some (true, c, buf) => some (FcStrBufDone buf, c.err)
  | some (false, c, _) => some (none, c.err)

/-! ## Reference definitions of the specification and examples -/

/-- The byte that `translate(from,to)` writes for the byte `b`, in the words of
the specification: `b` itself when it does not occur in `from`; otherwise, with
`i` the index of `b` in `from`, the byte `to[i]` when `i < |to|` and the last
byte of `to` when `i ≥ |to|`. -/
def translate_byte (from_ to_ : List Nat) (b : Nat) : Nat :=
  if b ∈ from_ then
    if from_.indexOf b < to_.length then to_.getD (from_.indexOf b) 0 else to_.getLastD 0
  else b

/-- What `shescape` writes for one byte, in the words of the specification: the
four bytes `'\''` for a single quote, the byte itself otherwise. -/
def shescape_byte (b : Nat) : List Nat :=
  if b = 39 /- '\'' -/ then [39, 92, 39, 39] else [b]

/-- The reading of a word by the quoting rules of the POSIX shell, as far as
single quotes and the backslash go: outside quotes a `'` opens a quoted part, a
backslash makes the byte after it literal (and is dropped with it when that byte
is a newline), and a word with any other byte outside quotes is not read, as such
a byte can have a meaning of its own; inside quotes every byte up to the next
`'` is literal and that `'` closes the quoted part. The flag tells whether the
reader is inside quotes; a word that ends inside quotes or on a backslash is not
read. -/
def sh_read : Bool → List Nat → Option (List Nat)
  | false, [] => some []
  | true, [] => none
  | false, b :: r =>
    if b = 39 /- '\'' -/ then sh_read true r
    else if b = 92 /- '\\' -/ then
      match r with
      | [] => none
      | x :: r' =>
        if x = 10 then sh_read false r'
        else (sh_read false r').map (fun t => x :: t)
    else none
  | true, b :: r =>
    if b = 39 /- '\'' -/ then sh_read false r
    else (sh_read true r).map (fun t => b :: t)

/-- A key as it is written in a template without escapes: a non-empty run of
non-punctuation bytes. -/
def plain_word (k : List Nat) : Prop := k ≠ [] ∧ ∀ b ∈ k, FcCharIsPunct b = false

instance (k : List Nat) : Decidable (plain_word k) := by
  unfold plain_word; exact inferInstance

/-- The rest of a template at which `read_word` stops: the end of the template,
or a punctuation byte other than the backslash. -/
def word_end (rest : List Nat) : Prop :=
  rest.headD 0 = 0 ∨ (rest.headD 0 ≠ 92 ∧ FcCharIsPunct (rest.headD 0) = true)

instance (rest : List Nat) : Decidable (word_end rest) := by
  unfold word_end; exact inferInstance

/-- The text of a simple field directive between the braces: an optional `:`,
the key, an optional `=`. -/
def simple_directive (add_colon : Bool) (k : List Nat) (add_elt_name : Bool) : List Nat :=
  (if add_colon then [58] else []) ++ k ++ (if add_elt_name then [61] else [])

/-- The text that the simple directive `%{k}` renders: the unparsed value list
of `k`, nothing when `k` is absent. -/
def simple_value {V : Type} (ext : Externals V) (pat : FcPattern V) (k : List Nat) : List Nat :=
  match FcPatternObjectFindElt pat k with
  | none => []
  | some el => ext.unparse el.values

/-- The text of a comma-separated key list. -/
def key_list : List (List Nat) → List Nat
  | [] => []
  | [k] => k
  | k :: k' :: ks => k ++ 44 :: key_list (k' :: ks)

/-- The text of a comma-separated condition list: each term is a key with the
flag that tells whether it is written with a leading `!`. -/
def cond_list : List (Bool × List Nat) → List Nat
  | [] => []
  | [t] => (if t.1 then [33] else []) ++ t.2
  | t :: t' :: ts => (if t.1 then [33] else []) ++ t.2 ++ 44 :: cond_list (t' :: ts)

/-- The predicate of a condition list, in the words of the specification: the
conjunction over all terms of (key present in the pattern) XOR (term negated). -/
def cond_pass {V : Type} (pat : FcPattern V) (ts : List (Bool × List Nat)) : Bool :=
  ts.all (fun t => xor (FcPatternObjectFindElt pat t.2).isSome t.1)

/-- The bytes of a string literal. -/
def bytes (s : String) : List Nat := s.toList.map Char.toNat

/-- An instance of the external functions for the examples: a value is the text
it is unparsed to, the values of a list are separated by a space, `FcStrDowncase`
lowers the ASCII capitals, and the two path functions return their argument. -/
def example_ext : Externals (List Nat) where
  unparse := fun l => List.intercalate [32] l
  FcStrDowncase := fun s => s.map (fun b => if 65 ≤ b ∧ b ≤ 90 then b + 32 else b)
  FcStrBasename := fun s => s
  FcStrDirname := fun s => s

/-- The pattern `P` of the end-to-end scenarios of the specification. -/
def example_P : FcPattern (List Nat) :=
  [⟨bytes "family", [bytes "DejaVu Sans"]⟩, ⟨bytes "size", [bytes "10", bytes "12"]⟩,
   ⟨bytes "style", [bytes "Book"]⟩]

/-- The pattern `Q` of the end-to-end scenarios: `P` without `style`. -/
def example_Q : FcPattern (List Nat) :=
  [⟨bytes "family", [bytes "DejaVu Sans"]⟩, ⟨bytes "size", [bytes "10", bytes "12"]⟩]

/-- The text that `message` formats for one call: the format string with `%c`,
`%d` and `%s` filled in. -/
def Message.text : Message → List Nat
  | .format_ended term => bytes "format ended while expecting '" ++ [term] ++ bytes "'"
  | .expected_char term pos =>
    bytes "expected '" ++ [term] ++ bytes "' at " ++ snprintf_d pos
  | .expected_element_name pos => bytes "expected element name at " ++ snprintf_d pos
  | .expected_character_data pos => bytes "expected character data at " ++ snprintf_d pos
  | .unknown_converter word => bytes "unknown converter \"" ++ word ++ bytes "\""

/-- The line that `message` writes to `stderr` for one call. -/
def Message.line (m : Message) : List Nat :=
  bytes "Fontconfig: Pattern format error: " ++ m.text ++ bytes ".\n"

/-- A template of literal bytes and `%%` forms: `some b` stands for the literal
byte `b` and `none` for the two bytes `%%`. -/
def literal_template : List (Option Nat) → List Nat
  | [] => []
  | some b :: items => b :: literal_template items
  | none :: items => 37 :: 37 :: literal_template items

/-- The text that the specification expects for a template of literal bytes and
`%%` forms: every literal byte itself and one `%` for every `%%`. -/
def literal_render : List (Option Nat) → List Nat
  | [] => []
  | some b :: items => b :: literal_render items
  | none :: items => 37 :: literal_render items

/-- The items that a template of literals may hold: a literal byte is neither
NUL nor `\` nor `%`; the form `%%` is always allowed. -/
def literal_item (it : Option Nat) : Prop :=
  match it with
  | some b => b ≠ 0 ∧ b ≠ 92 ∧ b ≠ 37
  | none => True

instance (it : Option Nat) : Decidable (literal_item it) := by
  unfold literal_item; split <;> exact inferInstance

/-- The cursor of `c'` is the cursor of `c` moved forward in the same template,
over bytes none of which is NUL. -/
def cursor_moved (c c' : FcFormatContext) : Prop :=
  c'.format_orig = c.format_orig ∧ c'.format_len = c.format_len ∧
  ∃ consumed, c.format = consumed ++ c'.format ∧ ∀ b ∈ consumed, b ≠ 0

/-- The diagnostic `m` describes the place where the context `c` stands: a
position it names is the offset of the cursor counted from one, "format ended"
is said at the end of the template and "expected" before it, and the converter
it names is the word in the scratch slot. -/
def diagnostic_site (c : FcFormatContext) : Message → Prop
  | .format_ended _ => offset c = c.format_len
  | .expected_char _ pos => pos = offset c + 1 ∧ offset c ≠ c.format_len
  | .expected_element_name pos => pos = offset c + 1
  | .expected_character_data pos => pos = offset c + 1
  | .unknown_converter w => w = c.word

/-- The diagnostics of one call that takes the context `c` to `c'` with the
result `res`: none is written on success and exactly one on failure, which
describes the place where the call has left the context. -/
def one_diagnostic (res : Bool) (c c' : FcFormatContext) : Prop :=
  if res then c'.err = c.err else ∃ m, c'.err = c.err ++ [m] ∧ diagnostic_site c' m

/-- A call that takes `c` to `c'` with the result `res` moves the cursor forward
over bytes other than NUL and writes a diagnostic exactly when it fails. -/
def step_ok (res : Bool) (c c' : FcFormatContext) : Prop :=
  cursor_moved c c' ∧ one_diagnostic res c c'

/-- A context whose cursor lies inside the template: the bytes before the
cursor are not NUL, and `format_len` is the length of the template as a C
string. -/
def cursor_ok (c : FcFormatContext) : Prop :=
  c.format_len = (cstr c.format_orig).length ∧
  ∃ pre, c.format_orig = pre ++ c.format ∧ ∀ b ∈ pre, b ≠ 0


/-! ## Branch texts by their brace structure -/

/-- A brace-free run: bytes other than NUL, backslash and the two braces, and
pairs of a backslash and a byte other than NUL. The head of a directive
(element names, key lists) and its converter pipeline are runs of this form when
no brace is written in them without a backslash. -/
def brace_free : List Nat → Bool
  | [] => true
  | b :: t =>
    if b = 92 then
      match t with
      | [] => false
      | x :: t' => x != 0 && brace_free t'
    else b != 0 && b != 123 && b != 125 && brace_free t

/-- The text of a branch, by its brace structure: literal bytes, backslash
pairs, and directives `%w{...}` whose body is a brace-free run `p` (`plain`), or
a brace-free head `r`, one branch `{e}` and a brace-free run `p` (`one`), or a
head, two branches `{e1}{e2}` and a run (`two`). -/
inductive Branch where
  | nil
  | lit (b : Nat) (t : Branch)
  | esc (x : Nat) (t : Branch)
  | plain (w p : List Nat) (t : Branch)
  | one (w r : List Nat) (e : Branch) (p : List Nat) (t : Branch)
  | two (w r : List Nat) (e1 e2 : Branch) (p : List Nat) (t : Branch)

/-- The bytes of a branch text. -/
def Branch.text : Branch → List Nat
  | .nil => []
  | .lit b t => b :: t.text
  | .esc x t => 92 :: x :: t.text
  | .plain w p t => 37 :: (w ++ 123 :: (p ++ 125 :: t.text))
  | .one w r e p t => 37 :: (w ++ 123 :: (r ++ 123 :: (e.text ++ 125 :: (p ++ 125 :: t.text))))
  | .two w r e1 e2 p t =>
    37 :: (w ++ 123 :: (r ++ 123 :: (e1.text ++ 125 :: 123 ::
      (e2.text ++ 125 :: (p ++ 125 :: t.text)))))

/-- A width specifier: a text that `strtol` reads in full in front of the `{`
of a directive (the empty text, or white space, a sign and digits). -/
def width_text (w : List Nat) : Prop := ∀ s, (strtol (w ++ 123 :: s)).2 = 123 :: s

/-- The well-formed branch texts: a literal byte is not NUL, `%`, backslash or
`}`; a backslash is followed by a byte other than NUL; a directive has a width
specifier and brace-free head and pipeline; a directive without a branch is not
a filter, delete or conditional; a directive with one branch is a subexpression
(empty head), a filter, a delete or a conditional; a directive with two branches
is a conditional. -/
def Branch.ok : Branch → Prop
  | .nil => True
  | .lit b t => (b ≠ 0 ∧ b ≠ 37 ∧ b ≠ 92 ∧ b ≠ 125) ∧ t.ok
  | .esc x t => x ≠ 0 ∧ t.ok
  | .plain w p t =>
    width_text w ∧ brace_free p = true ∧
      (p.headD 0 ≠ 43 ∧ p.headD 0 ≠ 45 ∧ p.headD 0 ≠ 63) ∧ t.ok
  | .one w r e p t =>
    width_text w ∧ brace_free r = true ∧
      (r = [] ∨ r.headD 0 = 43 ∨ r.headD 0 = 45 ∨ r.headD 0 = 63) ∧
      e.ok ∧ brace_free p = true ∧ t.ok
  | .two w r e1 e2 p t =>
    width_text w ∧ brace_free r = true ∧ r.headD 0 = 63 ∧
      e1.ok ∧ e2.ok ∧ brace_free p = true ∧ t.ok

/-- The cursor of `c` stands inside a brace-free run that ends in front of the
text `s`, at a byte of the run that is not the second of a backslash pair. -/
def in_run (s : List Nat) (c : FcFormatContext) : Prop :=
  ∃ p, brace_free p = true ∧ c.format = p ++ s


/-- The names of the converter table of `convert`. -/
def converter_names : List (List Nat) :=
  [bytes "downcase", bytes "basename", bytes "dirname", bytes "cescape", bytes "shescape",
   bytes "xmlescape", bytes "delete", bytes "escape", bytes "translate"]


/-! ## Live subpatterns of the filter and delete directives -/

/-- The subpatterns of one call of `interpret_filter` that are live when it
returns, by the exit paths of the source: none has been created when `+` or a
key name is missing; `subpat = FcPatternFilter (pat, os)` is created before the
body is rendered; `FcPatternDestroy (subpat)` is called when the body has
succeeded, and the `return FcFalse` after a failed body calls nothing. -/
def interpret_filter_live {V : Type} (ext : Externals V) :
    Nat → FcFormatContext → FcPattern V → FcStrBuf → Option (List (FcPattern V))
  | 0, _, _, _ => none
  | fuel + 1, c, pat, buf =>
    match expect_char c 43 /- '+' -/ with
    | (false, _) => some []
    | (true, c) =>
      match interpret_filter_loop fuel c [] with
      | none => none
      | some (false, _, _) => some []
      | some (true, c, os) =>
        let subpat := FcPatternFilter pat os
        match interpret_subexpr ext fuel c subpat buf with
        | none => none
        | some (false, _, _) => some [subpat] /- return FcFalse -/
        | some (true, _, _) => some [] /- FcPatternDestroy (subpat) -/

/-- The subpatterns of one call of `interpret_delete` that are live when it
returns, by the exit paths of the source: `subpat = FcPatternDuplicate (pat)` is
created behind the `-`; `FcPatternDestroy (subpat)` is called when a key name is
missing and when the body has succeeded, and the `return FcFalse` after a failed
body calls nothing. -/
def interpret_delete_live {V : Type} (ext : Externals V) :
    Nat → FcFormatContext → FcPattern V → FcStrBuf → Option (List (FcPattern V))
  | 0, _, _, _ => none
  | fuel + 1, c, pat, buf =>
    match expect_char c 45 /- '-' -/ with
    | (false, _) => some []
    | (true, c) =>
      let subpat := FcPatternDuplicate pat
      match interpret_delete_loop fuel c subpat with
      | none => none
      | some (false, _, _) => some [] /- FcPatternDestroy (subpat) -/
      | some (true, c, subpat) =>
        match interpret_subexpr ext fuel c subpat buf with
        | none => none
        | some (false, _, _) => some [subpat] /- return FcFalse -/
        | some (true, _, _) => some [] /- FcPatternDestroy (subpat) -/

/-! # Properties -/

/-! ## Width alignment (C1) -/

/-- The padding loop appends `n` spaces to a buffer that has not failed. -/
theorem pad_loop_eq (n : Nat) (buf : FcStrBuf) (h : buf.failed = false) :
    pad_loop n buf = { buf := buf.buf ++ List.replicate n 32, failed := false } := by
  induction n generalizing buf with
  | zero => cases buf; simp_all [pad_loop]
  | succ n ih =>
    have h1 : FcStrBufChar buf 32 = { buf := buf.buf ++ [32], failed := false } := by
      cases buf; simp_all [FcStrBufChar]
    rw [pad_loop, h1, ih _ rfl]
    simp [List.replicate_succ]

/-- A value in the range of `int` is kept by the conversion. -/
theorem toInt32_eq (x : Int) (h1 : -2147483648 ≤ x) (h2 : x < 2147483648) : toInt32 x = x := by
  unfold toInt32; omega

/-- Left alignment: a content shorter than `k` is padded on the right to `k` bytes. -/
theorem align_left (pre content : List Nat) (k : Nat) (hk : content.length < k)
    (hk2 : (k : Int) < 2147483648) :
    align_to_width ⟨pre ++ content, false⟩ pre.length (-(k : Int)) =
      (true, ⟨pre ++ (content ++ List.replicate (k - content.length) 32), false⟩) := by
  unfold align_to_width
  have e : toInt32 (- -(k:Int)) = k := by rw [toInt32_eq] <;> omega
  have h1 : ((pre ++ content).length : Int) - pre.length < k := by
    simp only [List.length_append, Nat.cast_add]; omega
  have h2 : (((k:Int) - (((pre ++ content).length : Int) - pre.length)).toNat) = k - content.length := by
    simp only [List.length_append, Nat.cast_add]; omega
  simp only [e, h1, h2, pad_loop_eq, if_true, if_false, Bool.false_eq_true]
  simp

/-- Right alignment: a content shorter than `k` is moved behind `k - l` spaces. -/
theorem align_right (pre content : List Nat) (k : Nat) (hk : content.length < k)
    (hk2 : (k : Int) < 2147483648) :
    align_to_width ⟨pre ++ content, false⟩ pre.length (k : Int) =
      (true, ⟨pre ++ (List.replicate (k - content.length) 32 ++ content), false⟩) := by
  unfold align_to_width
  have e : toInt32 (-(k:Int)) = -k := by rw [toInt32_eq] <;> omega
  have h0 : ¬ (((pre ++ content).length : Int) - pre.length < -(k:Int)) := by
    simp only [List.length_append, Nat.cast_add]; omega
  have h1 : ((pre ++ content).length : Int) - pre.length < k := by
    simp only [List.length_append, Nat.cast_add]; omega
  have h2 : (((k:Int) - (((pre ++ content).length : Int) - pre.length)).toNat) = k - content.length := by
    simp only [List.length_append, Nat.cast_add]; omega
  have a1 : ((((pre ++ content ++ List.replicate (k - content.length) 32).length : Int)) - (((pre ++ content).length : Int) - pre.length)).toNat = pre.length + (k - content.length) := by
    simp only [List.length_append, Nat.cast_add, List.length_replicate]; omega
  have a2 : ((((pre ++ content ++ List.replicate (k - content.length) 32).length : Int)) - (k:Int)).toNat = pre.length := by
    simp only [List.length_append, Nat.cast_add, List.length_replicate]; omega
  have a3 : ((((pre ++ content).length : Int) - pre.length)).toNat = content.length := by
    simp only [List.length_append, Nat.cast_add]; omega
  simp only [e, h0, h1, h2, pad_loop_eq, if_true, if_false, Bool.false_eq_true, a1, a2, a3]
  have d : List.drop (pre.length + (k - content.length) + content.length)
      (pre ++ (content ++ List.replicate (k - content.length) 32)) = [] :=
    List.drop_eq_nil_of_le (by simp only [List.length_append, List.length_replicate]; omega)
  have t : List.take (pre.length + (k - content.length))
      (pre ++ (content ++ List.replicate (k - content.length) 32))
      = pre ++ List.take (k - content.length) (content ++ List.replicate (k - content.length) 32) := by
    rw [List.take_append]
  simp only [memmove, memset, List.append_assoc, d, t, List.append_nil, List.take_left, List.drop_left]
  simp [List.take_left']

/-- A content of at least `|w|` bytes is left alone. -/
theorem align_unchanged (buf : FcStrBuf) (start : Nat) (w : Int) (hf : buf.failed = false)
    (hw1 : -2147483648 < w) (hw2 : w < 2147483648)
    (h : |w| ≤ (buf.buf.length : Int) - start) :
    align_to_width buf start w = (true, buf) := by
  unfold align_to_width
  have e : toInt32 (-w) = -w := by rw [toInt32_eq] <;> omega
  have h0 : ¬ ((buf.buf.length : Int) - start < -w) := by
    have := neg_abs_le w; have := le_abs_self w; omega
  have h1 : ¬ ((buf.buf.length : Int) - start < w) := by
    have := le_abs_self w; omega
  simp [hf, e, h0, h1]

/-- C1. Width alignment: on a buffer that has not failed, with `start` inside the
buffer and a width `w` whose negation is an `int`, `align_to_width` succeeds,
keeps the bytes before `start`, and leaves behind `start` a content of length
`max l |w|`, where `l` is the length of the content before: it is the old
content after `w - l` spaces when `0 < w` and `l < w`, the old content followed
by `-w - l` spaces when `w < 0` and `l < -w`, and the buffer is unchanged when
`w = 0` or `|w| ≤ l`. -/
theorem align_to_width_spec (buf : FcStrBuf) (start : Nat) (w : Int)
    (hf : buf.failed = false) (hs : start ≤ buf.buf.length)
    (hw1 : -2147483648 < w) (hw2 : w < 2147483648) :
    (align_to_width buf start w).1 = true ∧
    (align_to_width buf start w).2.failed = false ∧
    (align_to_width buf start w).2.buf.take start = buf.buf.take start ∧
    (((align_to_width buf start w).2.buf.drop start).length : Int)
      = max ((buf.buf.length : Int) - start) |w| ∧
    (0 < w → (buf.buf.length : Int) - start < w →
      (align_to_width buf start w).2.buf.drop start
        = List.replicate (w - ((buf.buf.length : Int) - start)).toNat 32 ++ buf.buf.drop start) ∧
    (w < 0 → (buf.buf.length : Int) - start < -w →
      (align_to_width buf start w).2.buf.drop start
        = buf.buf.drop start ++ List.replicate (-w - ((buf.buf.length : Int) - start)).toNat 32) ∧
    ((w = 0 ∨ |w| ≤ (buf.buf.length : Int) - start) → (align_to_width buf start w).2 = buf) := by
  obtain ⟨b, f⟩ := buf
  simp only at hf hs
  subst hf
  obtain ⟨pre, content, rfl, rfl⟩ : ∃ pre content, b = pre ++ content ∧ start = pre.length :=
    ⟨b.take start, b.drop start, (List.take_append_drop start b).symm, by simp [hs]⟩
  have hlen : ((pre ++ content).length : Int) - pre.length = content.length := by
    simp only [List.length_append, Nat.cast_add]; omega
  simp only [hlen, List.take_left, List.drop_left]
  by_cases hc : |w| ≤ (content.length : Int)
  · have hu := align_unchanged ⟨pre ++ content, false⟩ pre.length w rfl hw1 hw2
      (by rw [hlen]; exact hc)
    rw [hu]
    have := neg_abs_le w; have := le_abs_self w
    refine ⟨rfl, rfl, by simp, by simp [hc], ?_, ?_, fun _ => rfl⟩
    · intro _ h; omega
    · intro _ h; omega
  · rcases lt_trichotomy w 0 with hneg | hzero | hpos
    · obtain ⟨k, rfl⟩ : ∃ k : Nat, w = -(k : Int) := ⟨(-w).toNat, by omega⟩
      have habs : |(-(k : Int))| = k := by simp
      rw [habs] at hc ⊢
      have hk : content.length < k := by omega
      rw [align_left pre content k hk (by omega)]
      refine ⟨rfl, rfl, by simp, ?_, ?_, ?_, ?_⟩
      · simp only [List.drop_left, List.length_append, List.length_replicate, Nat.cast_add]
        rw [max_eq_right (by omega)]; omega
      · intro h; omega
      · intro _ _
        have : (- -(k : Int) - content.length).toNat = k - content.length := by omega
        simp [this]
      · intro h; omega
    · subst hzero; simp at hc
    · obtain ⟨k, rfl⟩ : ∃ k : Nat, w = (k : Int) := ⟨w.toNat, by omega⟩
      have habs : |(k : Int)| = k := by simp
      rw [habs] at hc ⊢
      have hk : content.length < k := by omega
      rw [align_right pre content k hk (by omega)]
      refine ⟨rfl, rfl, by simp, ?_, ?_, ?_, ?_⟩
      · simp only [List.drop_left, List.length_append, List.length_replicate, Nat.cast_add]
        rw [max_eq_right (by omega)]; omega
      · intro _ _
        have : ((k : Int) - content.length).toNat = k - content.length := by omega
        simp [this]
      · intro h; omega
      · intro h; omega

/-- C1, at the buffer `xab` with `start = 1` and width 5: the content `ab` becomes
three spaces and `ab`. -/
theorem align_to_width_spec_witness :
    (1 ≤ ([120, 97, 98] : List Nat).length ∧ (-2147483648 : Int) < 5 ∧ (5 : Int) < 2147483648) ∧
    (align_to_width ⟨[120, 97, 98], false⟩ 1 5).2.buf.drop 1 = [32, 32, 32, 97, 98] :=
  ⟨by decide,
   (align_to_width_spec ⟨[120, 97, 98], false⟩ 1 5 rfl (by decide) (by decide)
      (by decide)).2.2.2.2.1 (by decide) (by decide)⟩

/-! ## C strings and the lexer -/

theorem cstr_nil : cstr [] = [] := rfl

theorem cstr_cons (x : Nat) (s : List Nat) :
    cstr (x :: s) = if x = 0 then [] else x :: cstr s := by
  by_cases h : x = 0 <;> simp [cstr, List.takeWhile_cons, h]

theorem cstr_append_cons (pre : List Nat) (x : Nat) (post : List Nat)
    (hpre : ∀ b ∈ pre, b ≠ 0) (hx : x ≠ 0) :
    cstr (pre ++ x :: post) = pre ++ x :: cstr post := by
  induction pre with
  | nil => simp [cstr_cons, hx]
  | cons a pre ih =>
    have ha : a ≠ 0 := hpre a (by simp)
    simp only [List.cons_append, cstr_cons, ha, if_false]
    rw [ih (fun b hb => hpre b (by simp [hb]))]

theorem cstr_eq_self (s : List Nat) (h : ∀ b ∈ s, b ≠ 0) : cstr s = s := by
  induction s with
  | nil => rfl
  | cons a s ih =>
    have ha : a ≠ 0 := h a (by simp)
    simp only [cstr_cons, ha, if_false]
    rw [ih (fun b hb => h b (by simp [hb]))]

theorem cstr_nonzero (s : List Nat) : ∀ b ∈ cstr s, b ≠ 0 := by
  intro b hb
  have := List.mem_takeWhile_imp hb
  simpa using this

theorem cstr_cstr (s : List Nat) : cstr (cstr s) = cstr s :=
  cstr_eq_self _ (cstr_nonzero s)

theorem strpbrk_none (str accept : List Nat) (h : strpbrk str accept = none) :
    ∀ b ∈ cstr str, b ∉ cstr accept := by
  induction str with
  | nil => simp [cstr_nil]
  | cons a str ih =>
    rw [strpbrk] at h
    by_cases ha : a = 0
    · simp [cstr_cons, ha]
    · by_cases hm : a ∈ cstr accept
      · simp [ha, hm] at h
      · simp only [ha, hm, if_false, Option.map_eq_none'] at h
        simp only [cstr_cons, ha, if_false, List.mem_cons]
        rintro b (rfl | hb)
        · exact hm
        · exact ih h b hb

theorem strpbrk_some (str accept : List Nat) (p : Nat) (h : strpbrk str accept = some p) :
    ∃ pre x post, str = pre ++ x :: post ∧ pre.length = p ∧
      (∀ b ∈ pre, b ≠ 0 ∧ b ∉ cstr accept) ∧ x ≠ 0 ∧ x ∈ cstr accept := by
  induction str generalizing p with
  | nil => simp [strpbrk] at h
  | cons a str ih =>
    rw [strpbrk] at h
    by_cases ha : a = 0
    · simp [ha] at h
    · by_cases hm : a ∈ cstr accept
      · simp only [ha, hm, if_true, if_false, Option.some.injEq] at h
        exact ⟨[], a, str, rfl, by simpa using h, by simp, ha, hm⟩
      · simp only [ha, hm, if_false, Option.map_eq_some'] at h
        obtain ⟨q, hq, rfl⟩ := h
        obtain ⟨pre, x, post, rfl, rfl, h1, h2, h3⟩ := ih q hq
        refine ⟨a :: pre, x, post, rfl, rfl, ?_, h2, h3⟩
        intro b hb
        rcases List.mem_cons.mp hb with rfl | hb
        · exact ⟨ha, hm⟩
        · exact h1 b hb

theorem escaped_char_ne_zero (x : Nat) (h : x ≠ 0) : escaped_char x ≠ 0 := by
  unfold escaped_char
  split_ifs <;> omega

theorem read_chars_loop_stop (term ch : Nat) (fmt p : List Nat)
    (h : ch = 0 ∨ ch = 125 ∨ ch = term) : read_chars_loop term (ch :: fmt) p = (ch :: fmt, p) := by
  rw [read_chars_loop.eq_def]; simp [h]

theorem read_chars_loop_plain (term ch : Nat) (fmt p : List Nat)
    (h : ¬ (ch = 0 ∨ ch = 125 ∨ ch = term)) (h2 : ch ≠ 92) :
    read_chars_loop term (ch :: fmt) p = read_chars_loop term fmt (p ++ [ch]) := by
  rw [read_chars_loop.eq_def]; simp [h, h2]

theorem read_chars_loop_esc (term x : Nat) (fmt p : List Nat)
    (h : ¬ (92 = 0 ∨ 92 = 125 ∨ 92 = term)) (hx : x ≠ 0) :
    read_chars_loop term (92 :: x :: fmt) p = read_chars_loop term fmt (p ++ [escaped_char x]) := by
  have ht : ¬ 92 = term := fun e => h (Or.inr (Or.inr e))
  rw [read_chars_loop.eq_def]; simp [ht, hx]

theorem read_chars_loop_esc_end (term : Nat) (fmt p : List Nat)
    (h : ¬ (92 = 0 ∨ 92 = 125 ∨ 92 = term)) (hx : fmt.headD 0 = 0) :
    (read_chars_loop term (92 :: fmt) p).2 = p := by
  have ht : ¬ 92 = term := fun e => h (Or.inr (Or.inr e))
  rw [read_chars_loop.eq_def]
  cases fmt with
  | nil => simp [ht]
  | cons x fmt => simp at hx; simp [ht, hx]

theorem read_word_loop_stop (ch : Nat) (fmt p : List Nat)
    (h : ch = 0 ∨ (ch ≠ 92 ∧ FcCharIsPunct ch = true)) :
    read_word_loop (ch :: fmt) p = (ch :: fmt, p) := by
  rw [read_word_loop.eq_def]
  rcases h with h | ⟨h1, h2⟩
  · simp [h]
  · simp [h1, h2]

theorem read_word_loop_plain (ch : Nat) (fmt p : List Nat)
    (h : FcCharIsPunct ch = false) :
    read_word_loop (ch :: fmt) p = read_word_loop fmt (p ++ [ch]) := by
  have h0 : ch ≠ 0 := by rintro rfl; simp [FcCharIsPunct] at h
  have h1 : ch ≠ 92 := by rintro rfl; simp [FcCharIsPunct] at h
  rw [read_word_loop.eq_def]; simp [h, h0, h1]

theorem read_word_loop_esc (x : Nat) (fmt p : List Nat) (hx : x ≠ 0) :
    read_word_loop (92 :: x :: fmt) p = read_word_loop fmt (p ++ [escaped_char x]) := by
  rw [read_word_loop.eq_def]; simp [hx]

theorem read_word_loop_esc_end (fmt p : List Nat) (hx : fmt.headD 0 = 0) :
    (read_word_loop (92 :: fmt) p).2 = p := by
  rw [read_word_loop.eq_def]
  cases fmt with
  | nil => simp
  | cons x fmt => simp at hx; simp [hx]

theorem read_chars_loop_nonzero (term : Nat) (fmt p : List Nat) (hp : ∀ b ∈ p, b ≠ 0) :
    ∀ b ∈ (read_chars_loop term fmt p).2, b ≠ 0 := by
  induction fmt, p using read_chars_loop.induct term with
  | case1 p => simpa [read_chars_loop] using hp
  | case2 ch fmt p h => rw [read_chars_loop_stop _ _ _ _ h]; exact hp
  | case3 p h => rw [read_chars_loop_esc_end _ [] _ h rfl]; exact hp
  | case4 p fmt h => rw [read_chars_loop_esc_end _ (0 :: fmt) _ h rfl]; exact hp
  | case5 p x fmt hx h ih =>
    rw [read_chars_loop_esc _ _ _ _ h hx]
    apply ih
    intro b hb
    rcases List.mem_append.mp hb with hb | hb
    · exact hp b hb
    · simp at hb; subst hb; exact escaped_char_ne_zero x hx
  | case6 ch fmt p h1 h2 ih =>
    rw [read_chars_loop_plain _ _ _ _ h1 h2]
    apply ih
    intro b hb
    rcases List.mem_append.mp hb with hb | hb
    · exact hp b hb
    · simp at hb; subst hb; intro h0; exact h1 (Or.inl h0)

theorem read_word_loop_nonzero (fmt p : List Nat) (hp : ∀ b ∈ p, b ≠ 0) :
    ∀ b ∈ (read_word_loop fmt p).2, b ≠ 0 := by
  induction fmt, p using read_word_loop.induct with
  | case1 p => simpa [read_word_loop] using hp
  | case2 fmt p => rw [read_word_loop_stop _ _ _ (Or.inl rfl)]; exact hp
  | case3 p h => rw [read_word_loop_esc_end [] _ rfl]; exact hp
  | case4 p fmt h => rw [read_word_loop_esc_end (0 :: fmt) _ rfl]; exact hp
  | case5 p x fmt hx h ih =>
    rw [read_word_loop_esc _ _ _ hx]
    apply ih
    intro b hb
    rcases List.mem_append.mp hb with hb | hb
    · exact hp b hb
    · simp at hb; subst hb; exact escaped_char_ne_zero x hx
  | case6 ch fmt p h1 h2 h3 => rw [read_word_loop_stop _ _ _ (Or.inr ⟨h2, h3⟩)]; exact hp
  | case7 ch fmt p h1 h2 h3 ih =>
    rw [read_word_loop_plain _ _ _ (by simpa using h3)]
    apply ih
    intro b hb
    rcases List.mem_append.mp hb with hb | hb
    · exact hp b hb
    · simp at hb; subst hb; exact h1

theorem read_chars_word (c c2 : FcFormatContext) (term : Nat) (h : read_chars c term = (true, c2)) :
    c2.word ≠ [] ∧ (∀ b ∈ c2.word, b ≠ 0) ∧ cstr c2.word = c2.word := by
  unfold read_chars at h
  by_cases he : (read_chars_loop term c.format []).2 = []
  · simp [he] at h
  · simp only [he, if_false, Prod.mk.injEq, true_and] at h
    subst h
    have hz := read_chars_loop_nonzero term c.format [] (by simp)
    exact ⟨he, hz, cstr_eq_self _ hz⟩

theorem read_word_word (c c2 : FcFormatContext) (h : read_word c = (true, c2)) :
    c2.word ≠ [] ∧ (∀ b ∈ c2.word, b ≠ 0) ∧ cstr c2.word = c2.word := by
  unfold read_word at h
  by_cases he : (read_word_loop c.format []).2 = []
  · simp [he] at h
  · simp only [he, if_false, Prod.mk.injEq, true_and] at h
    subst h
    have hz := read_word_loop_nonzero c.format [] (by simp)
    exact ⟨he, hz, cstr_eq_self _ hz⟩

theorem expect_char_word (c c2 : FcFormatContext) (term : Nat) (r : Bool) (h : expect_char c term = (r, c2)) :
    c2.word = c.word := by
  unfold expect_char consume_char at h
  by_cases hp : peek c = term
  · simp [hp, advance] at h; rw [← h.2]
  · simp only [hp, ne_eq, not_false_eq_true, if_true] at h
    split_ifs at h <;> simp [message] at h <;> rw [← h.2]

theorem read_word_loop_append (k rest p : List Nat) (hk : ∀ b ∈ k, FcCharIsPunct b = false)
    (hr : word_end rest) : read_word_loop (k ++ rest) p = (rest, p ++ k) := by
  induction k generalizing p with
  | nil =>
    cases rest with
    | nil => simp [read_word_loop]
    | cons a rest =>
      simp only [List.nil_append, List.append_nil]
      apply read_word_loop_stop
      simpa [word_end] using hr
  | cons a k ih =>
    rw [List.cons_append, read_word_loop_plain _ _ _ (hk a (by simp)),
      ih _ (fun b hb => hk b (by simp [hb]))]
    simp

theorem read_word_plain (orig : List Nat) (len : Nat) (w : List Nat) (e : List Message)
    (k rest : List Nat) (hk : plain_word k) (hr : word_end rest) :
    read_word ⟨orig, k ++ rest, len, w, e⟩ = (true, ⟨orig, rest, len, k, e⟩) := by
  unfold read_word
  simp only [read_word_loop_append k rest [] hk.2 hr, List.nil_append, hk.1, if_false]

theorem consume_char_hit (orig : List Nat) (len : Nat) (w : List Nat) (e : List Message)
    (t : Nat) (rest : List Nat) :
    consume_char ⟨orig, t :: rest, len, w, e⟩ t = (true, ⟨orig, rest, len, w, e⟩) := by
  simp [consume_char, peek, advance]

theorem consume_char_miss (c : FcFormatContext) (t : Nat) (h : c.format.headD 0 ≠ t) :
    consume_char c t = (false, c) := by
  simp only [consume_char, peek, h, ne_eq, not_false_eq_true, if_true]

theorem expect_char_hit (orig : List Nat) (len : Nat) (w : List Nat) (e : List Message)
    (t : Nat) (rest : List Nat) :
    expect_char ⟨orig, t :: rest, len, w, e⟩ t = (true, ⟨orig, rest, len, w, e⟩) := by
  simp [expect_char, consume_char_hit]

theorem plain_word_head (k rest : List Nat) (hk : plain_word k) :
    FcCharIsPunct ((k ++ rest).headD 0) = false := by
  obtain ⟨hne, hp⟩ := hk
  cases k with
  | nil => exact absurd rfl hne
  | cons a k => simpa using hp a (by simp)

theorem strtol_no_digits (s : List Nat) (h : FcCharIsPunct (s.headD 0) = true)
    (h1 : s.headD 0 ≠ 32) (h2 : ¬ (9 ≤ s.headD 0 ∧ s.headD 0 ≤ 13))
    (h3 : s.headD 0 ≠ 45) (h4 : s.headD 0 ≠ 43) : strtol s = (0, s) := by
  cases s with
  | nil => simp [strtol]
  | cons a s =>
    simp only [List.headD_cons] at h h1 h2 h3 h4
    have hsp : isspace a = false := by
      simp only [isspace, Bool.or_eq_false_iff, decide_eq_false_iff_not, Bool.and_eq_false_imp,
        decide_eq_true_eq]
      exact ⟨h1, fun h9 => by omega⟩
    have hd : ¬ (48 ≤ a ∧ a ≤ 57) := by
      intro hd
      simp only [FcCharIsPunct] at h
      split_ifs at h <;> omega
    unfold strtol
    simp only [List.dropWhile_cons, hsp]
    split <;> simp_all

/-! ## Converters (C7, C8, C9, C10) -/

theorem delete_chars_loop_eq (word : List Nat) (fuel : Nat) (str : List Nat) (b : List Nat)
    (hfuel : str.length ≤ fuel) :
    delete_chars_loop word fuel str ⟨b, false⟩
      = ⟨b ++ (cstr str).filter (fun x => !decide (x ∈ cstr word)), false⟩ := by
  induction fuel generalizing str b with
  | zero =>
    have : str = [] := List.length_eq_zero.mp (by omega)
    subst this
    simp [delete_chars_loop, cstr_nil]
  | succ fuel ih =>
    rw [delete_chars_loop]
    by_cases h0 : str.headD 0 = 0
    · have : cstr str = [] := by
        cases str with
        | nil => rfl
        | cons a s => simp at h0; simp [cstr_cons, h0]
      rw [if_pos h0, this]; simp
    · rw [if_neg h0]
      cases hp : strpbrk str word with
      | none =>
        have hn := strpbrk_none str word hp
        have : (cstr str).filter (fun x => !decide (x ∈ cstr word)) = cstr str :=
          List.filter_eq_self.mpr (fun x hx => by simpa using hn x hx)
        simp [FcStrBufString, this]
      | some p =>
        obtain ⟨pre, x, post, rfl, rfl, h1, h2, h3⟩ := strpbrk_some str word p hp
        have hd : (pre ++ x :: post).drop (pre.length + 1) = post := by
          rw [← List.drop_drop]; simp
        have hb : FcStrBufData ⟨b, false⟩ (pre ++ x :: post) pre.length = ⟨b ++ pre, false⟩ := by
          simp [FcStrBufData]
        simp only [hd, hb]
        rw [ih post (b ++ pre) (by simp at hfuel; omega)]
        rw [cstr_append_cons pre x post (fun b hb => (h1 b hb).1) h2]
        have hf : pre.filter (fun x => !decide (x ∈ cstr word)) = pre :=
          List.filter_eq_self.mpr (fun y hy => by simpa using (h1 y hy).2)
        simp [List.filter_append, hf, List.filter_cons, h3]

theorem filter_nonzero (s : List Nat) (q : Nat → Bool) : ∀ b ∈ (cstr s).filter q, b ≠ 0 :=
  fun b hb => cstr_nonzero s b (List.mem_of_mem_filter hb)

/-- C9. `delete(chars)`: when the argument list parses (`(`, a non-empty
character class `chars` read by `read_chars`, `)`), `delete_chars` returns the
input string with exactly the bytes that occur in `chars` removed, the others
in their order; the output holds no byte of `chars`, and deleting again from the
output gives the output. -/
theorem delete_chars_spec (c c1 c2 c3 : FcFormatContext) (s : List Nat)
    (h1 : expect_char c 40 = (true, c1)) (h2 : read_chars c1 41 = (true, c2))
    (h3 : expect_char c2 41 = (true, c3)) :
    c2.word ≠ [] ∧
    delete_chars c s = (some ((cstr s).filter (fun b => !decide (b ∈ c2.word))), c3) ∧
    (∀ b ∈ (cstr s).filter (fun b => !decide (b ∈ c2.word)), b ∉ c2.word) ∧
    delete_chars c ((cstr s).filter (fun b => !decide (b ∈ c2.word)))
      = (some ((cstr s).filter (fun b => !decide (b ∈ c2.word))), c3) := by
  obtain ⟨hne, _, hcw⟩ := read_chars_word c1 c2 41 h2
  have hw : c3.word = c2.word := expect_char_word c2 c3 41 true h3
  have key : ∀ t : List Nat,
      delete_chars c t = (some ((cstr t).filter (fun b => !decide (b ∈ c2.word))), c3) := by
    intro t
    unfold delete_chars
    simp only [h1, h2, h3, FcStrBufInit, hw]
    rw [delete_chars_loop_eq _ _ _ _ (le_refl _)]
    simp only [FcStrBufDone, hcw, List.nil_append, if_false, Bool.false_eq_true]
    rw [cstr_eq_self _ (filter_nonzero t _)]
  refine ⟨hne, key s, ?_, ?_⟩
  · intro b hb
    simpa using (List.mem_filter.mp hb).2
  · rw [key, cstr_eq_self _ (filter_nonzero s _), List.filter_filter]
    simp

/-- C9, at the argument list `(a )` and the input `a ba` followed by `c`: the
output is `bc`. -/
theorem delete_chars_spec_witness :
    (expect_char ⟨[40, 97, 32, 41, 125], [40, 97, 32, 41, 125], 5, [], []⟩ 40
        = (true, ⟨[40, 97, 32, 41, 125], [97, 32, 41, 125], 5, [], []⟩) ∧
      read_chars ⟨[40, 97, 32, 41, 125], [97, 32, 41, 125], 5, [], []⟩ 41
        = (true, ⟨[40, 97, 32, 41, 125], [41, 125], 5, [97, 32], []⟩) ∧
      expect_char ⟨[40, 97, 32, 41, 125], [41, 125], 5, [97, 32], []⟩ 41
        = (true, ⟨[40, 97, 32, 41, 125], [125], 5, [97, 32], []⟩)) ∧
    delete_chars ⟨[40, 97, 32, 41, 125], [40, 97, 32, 41, 125], 5, [], []⟩ [97, 32, 98, 97, 99]
      = (some [98, 99], ⟨[40, 97, 32, 41, 125], [125], 5, [97, 32], []⟩) :=
  ⟨⟨by decide, by decide, by decide⟩,
   (delete_chars_spec ⟨[40, 97, 32, 41, 125], [40, 97, 32, 41, 125], 5, [], []⟩
      ⟨[40, 97, 32, 41, 125], [97, 32, 41, 125], 5, [], []⟩
      ⟨[40, 97, 32, 41, 125], [41, 125], 5, [97, 32], []⟩
      ⟨[40, 97, 32, 41, 125], [125], 5, [97, 32], []⟩
      [97, 32, 98, 97, 99] (by decide) (by decide) (by decide)).2.1⟩

theorem flatMap_eq_self (l : List Nat) (f : Nat → List Nat) (h : ∀ x ∈ l, f x = [x]) :
    l.flatMap f = l := by
  induction l with
  | nil => rfl
  | cons a l ih =>
    rw [List.flatMap_cons, h a (by simp), ih (fun x hx => h x (by simp [hx]))]
    rfl

theorem getD_append_cons (pre : List Nat) (x : Nat) (post : List Nat) (d : Nat) :
    (pre ++ x :: post).getD pre.length d = x := by
  induction pre with
  | nil => rfl
  | cons a pre ih => simpa using ih

theorem escape_chars_loop_eq (word : List Nat) (fuel : Nat) (str : List Nat) (b : List Nat)
    (hfuel : str.length ≤ fuel) :
    escape_chars_loop word fuel str ⟨b, false⟩
      = ⟨b ++ (cstr str).flatMap (fun x => if x ∈ cstr word then [word.headD 0, x] else [x]),
          false⟩ := by
  induction fuel generalizing str b with
  | zero =>
    have : str = [] := List.length_eq_zero.mp (by omega)
    subst this
    simp [escape_chars_loop, cstr_nil]
  | succ fuel ih =>
    rw [escape_chars_loop]
    by_cases h0 : str.headD 0 = 0
    · have : cstr str = [] := by
        cases str with
        | nil => rfl
        | cons a s => simp at h0; simp [cstr_cons, h0]
      rw [if_pos h0, this]; simp
    · rw [if_neg h0]
      cases hp : strpbrk str word with
      | none =>
        have hn := strpbrk_none str word hp
        have : (cstr str).flatMap (fun x => if x ∈ cstr word then [word.headD 0, x] else [x])
            = cstr str := by
          exact flatMap_eq_self _ _ (fun x hx => by simp [hn x hx])
        simp only [FcStrBufString, this]; simp
      | some p =>
        obtain ⟨pre, x, post, rfl, rfl, h1, h2, h3⟩ := strpbrk_some str word p hp
        have hd : (pre ++ x :: post).drop (pre.length + 1) = post := by
          rw [← List.drop_drop]; simp
        have hg : (pre ++ x :: post).getD pre.length 0 = x := getD_append_cons pre x post 0
        have hb : FcStrBufData ⟨b, false⟩ (pre ++ x :: post) pre.length = ⟨b ++ pre, false⟩ := by
          simp [FcStrBufData]
        simp only [hd, hb, hg, FcStrBufChar, if_false, Bool.false_eq_true]
        rw [ih post _ (by simp at hfuel; omega)]
        rw [cstr_append_cons pre x post (fun b hb => (h1 b hb).1) h2]
        have hf : pre.flatMap (fun x => if x ∈ cstr word then [word.headD 0, x] else [x]) = pre := by
          exact flatMap_eq_self _ _ (fun y hy => by simp [(h1 y hy).2])
        simp [-List.headD_eq_head?_getD, List.flatMap_append, hf, List.flatMap_cons, h3]

/-- C10. `escape(chars)`: when the argument list parses, `escape_chars` returns
the input string with the byte `chars[0]` put before each byte that occurs in
`chars` and every other byte copied; its length is that of the input plus the
number of bytes of the input that occur in `chars`. -/
theorem escape_chars_spec (c c1 c2 c3 : FcFormatContext) (s : List Nat)
    (h1 : expect_char c 40 = (true, c1)) (h2 : read_chars c1 41 = (true, c2))
    (h3 : expect_char c2 41 = (true, c3)) :
    c2.word ≠ [] ∧
    escape_chars c s
      = (some ((cstr s).flatMap (fun b => if b ∈ c2.word then [c2.word.headD 0, b] else [b])), c3) ∧
    ((cstr s).flatMap (fun b => if b ∈ c2.word then [c2.word.headD 0, b] else [b])).length
      = (cstr s).length + (cstr s).countP (fun b => decide (b ∈ c2.word)) := by
  obtain ⟨hne, hz, hcw⟩ := read_chars_word c1 c2 41 h2
  have hw : c3.word = c2.word := expect_char_word c2 c3 41 true h3
  refine ⟨hne, ?_, ?_⟩
  · unfold escape_chars
    simp only [h1, h2, h3, FcStrBufInit, hw]
    rw [escape_chars_loop_eq _ _ _ _ (le_refl _)]
    simp only [FcStrBufDone, hcw, List.nil_append, if_false, Bool.false_eq_true]
    rw [cstr_eq_self]
    intro b hb
    obtain ⟨a, ha, hba⟩ := List.mem_flatMap.mp hb
    have ha0 := cstr_nonzero s a ha
    have hh : c2.word.headD 0 ≠ 0 := by
      cases hcs : c2.word with
      | nil => exact absurd hcs hne
      | cons y ys => simpa using hz y (by simp [hcs])
    split_ifs at hba <;> simp [-List.headD_eq_head?_getD] at hba
    · rcases hba with rfl | rfl
      · exact hh
      · exact ha0
    · subst hba; exact ha0
  · induction cstr s with
    | nil => simp
    | cons a l ih =>
      simp only [List.flatMap_cons, List.length_append, ih, List.length_cons, List.countP_cons]
      by_cases ha : a ∈ c2.word <;> simp [ha] <;> omega

/-- C10, at the argument list `(eV)` and the input `DeV`: the output is `DeeeV`. -/
theorem escape_chars_spec_witness :
    (expect_char ⟨[40, 101, 86, 41, 125], [40, 101, 86, 41, 125], 5, [], []⟩ 40
        = (true, ⟨[40, 101, 86, 41, 125], [101, 86, 41, 125], 5, [], []⟩) ∧
      read_chars ⟨[40, 101, 86, 41, 125], [101, 86, 41, 125], 5, [], []⟩ 41
        = (true, ⟨[40, 101, 86, 41, 125], [41, 125], 5, [101, 86], []⟩) ∧
      expect_char ⟨[40, 101, 86, 41, 125], [41, 125], 5, [101, 86], []⟩ 41
        = (true, ⟨[40, 101, 86, 41, 125], [125], 5, [101, 86], []⟩)) ∧
    escape_chars ⟨[40, 101, 86, 41, 125], [40, 101, 86, 41, 125], 5, [], []⟩ [68, 101, 86]
      = (some [68, 101, 101, 101, 86], ⟨[40, 101, 86, 41, 125], [125], 5, [101, 86], []⟩) :=
  ⟨⟨by decide, by decide, by decide⟩,
   (escape_chars_spec ⟨[40, 101, 86, 41, 125], [40, 101, 86, 41, 125], 5, [], []⟩
      ⟨[40, 101, 86, 41, 125], [101, 86, 41, 125], 5, [], []⟩
      ⟨[40, 101, 86, 41, 125], [41, 125], 5, [101, 86], []⟩
      ⟨[40, 101, 86, 41, 125], [125], 5, [101, 86], []⟩
      [68, 101, 86] (by decide) (by decide) (by decide)).2.1⟩

theorem strchr_eq_indexOf (s : List Nat) (ch : Nat) (hs : ∀ b ∈ s, b ≠ 0) (hm : ch ∈ s) :
    strchr s ch = some (s.indexOf ch) := by
  induction s with
  | nil => simp at hm
  | cons a s ih =>
    have ha : a ≠ 0 := hs a (by simp)
    rw [strchr]
    by_cases hac : a = ch
    · subst hac; simp [ha]
    · have hm2 : ch ∈ s := by
        rcases List.mem_cons.mp hm with h | h
        · exact absurd h.symm hac
        · exact h
      rw [ih (fun b hb => hs b (by simp [hb])) hm2]
      simp [ha, hac, List.indexOf_cons_ne _ hac]

theorem getD_length_sub_one (l : List Nat) : l.getD (l.length - 1) 0 = l.getLastD 0 := by
  induction l with
  | nil => rfl
  | cons a l ih =>
    cases l with
    | nil => rfl
    | cons b l => simpa using ih

theorem translate_chars_loop_eq (from_ to_ : List Nat) (fuel : Nat) (str : List Nat)
    (b : List Nat) (hfrom : ∀ x ∈ from_, x ≠ 0) (hto : ∀ x ∈ to_, x ≠ 0)
    (hfuel : str.length ≤ fuel) :
    translate_chars_loop from_ to_ (cstr to_).length (to_.getD ((cstr to_).length - 1) 0)
        fuel str ⟨b, false⟩
      = ⟨b ++ (cstr str).map (translate_byte from_ to_), false⟩ := by
  have hcf : cstr from_ = from_ := cstr_eq_self _ hfrom
  have hct : cstr to_ = to_ := cstr_eq_self _ hto
  induction fuel generalizing str b with
  | zero =>
    have : str = [] := List.length_eq_zero.mp (by omega)
    subst this
    simp [translate_chars_loop, cstr_nil]
  | succ fuel ih =>
    rw [translate_chars_loop]
    by_cases h0 : str.headD 0 = 0
    · have : cstr str = [] := by
        cases str with
        | nil => rfl
        | cons a s => simp at h0; simp [cstr_cons, h0]
      rw [if_pos h0, this]; simp
    · rw [if_neg h0]
      cases hp : strpbrk str from_ with
      | none =>
        have hn := strpbrk_none str from_ hp
        rw [hcf] at hn
        have : (cstr str).map (translate_byte from_ to_) = cstr str := by
          conv_rhs => rw [← List.map_id (cstr str)]
          exact List.map_congr_left (fun x hx => by simp [translate_byte, hn x hx])
        simp only [FcStrBufString, this]; simp
      | some p =>
        obtain ⟨pre, x, post, rfl, rfl, h1, h2, h3⟩ := strpbrk_some str from_ p hp
        rw [hcf] at h1 h3
        have hd : (pre ++ x :: post).drop (pre.length + 1) = post := by
          rw [← List.drop_drop]; simp
        have hg : (pre ++ x :: post).getD pre.length 0 = x := getD_append_cons pre x post 0
        have hb : FcStrBufData ⟨b, false⟩ (pre ++ x :: post) pre.length = ⟨b ++ pre, false⟩ := by
          simp [FcStrBufData]
        simp only [hd, hb, hg, FcStrBufChar, if_false, Bool.false_eq_true]
        rw [ih post _ (by simp at hfuel; omega)]
        rw [cstr_append_cons pre x post (fun b hb => (h1 b hb).1) h2]
        have hf : pre.map (translate_byte from_ to_) = pre := by
          conv_rhs => rw [← List.map_id pre]
          exact List.map_congr_left (fun y hy => by simp [translate_byte, (h1 y hy).2])
        have hx : translate_byte from_ to_ x
            = if (strchr from_ x).getD 0 < (cstr to_).length then to_.getD ((strchr from_ x).getD 0) 0
              else to_.getD ((cstr to_).length - 1) 0 := by
          rw [strchr_eq_indexOf from_ x hfrom h3, hct, getD_length_sub_one]
          simp [translate_byte, h3]
        simp only [List.map_append, List.map_cons, hf, hx, List.append_assoc, List.singleton_append]

/-- C7. `translate(from,to)`: when the argument list parses (`(`, a non-empty
`from`, `,`, a non-empty `to`, `)`), `translate_chars` returns a string of the
length of the input whose byte at every position is `translate_byte from to` of
the input byte there: the byte itself when it does not occur in `from`, else
`to[i]` for its index `i` in `from` when `i < |to|` and the last byte of `to`
when `i ≥ |to|`. -/
theorem translate_chars_spec (c c1 c2 c3 c4 c5 : FcFormatContext) (s : List Nat)
    (h1 : expect_char c 40 = (true, c1)) (h2 : read_chars c1 44 = (true, c2))
    (h3 : expect_char c2 44 = (true, c3)) (h4 : read_chars c3 41 = (true, c4))
    (h5 : expect_char { c4 with word := c2.word } 41 = (true, c5)) :
    c2.word ≠ [] ∧ c4.word ≠ [] ∧
    translate_chars c s = (some ((cstr s).map (translate_byte c2.word c4.word)), c5) ∧
    ((cstr s).map (translate_byte c2.word c4.word)).length = (cstr s).length ∧
    ∀ j, ((cstr s).map (translate_byte c2.word c4.word)).get? j
      = ((cstr s).get? j).map (translate_byte c2.word c4.word) := by
  obtain ⟨hne2, hz2, _⟩ := read_chars_word c1 c2 44 h2
  obtain ⟨hne4, hz4, _⟩ := read_chars_word c3 c4 41 h4
  have hw : c3.word = c2.word := expect_char_word c2 c3 44 true h3
  refine ⟨hne2, hne4, ?_, by simp, fun j => by simp⟩
  unfold translate_chars
  simp only [h1, h2, h3, h4, hw, h5, FcStrBufInit]
  rw [translate_chars_loop_eq _ _ _ _ _ hz2 hz4 (le_refl _)]
  simp only [FcStrBufDone, List.nil_append, if_false, Bool.false_eq_true]
  rw [cstr_eq_self]
  intro b hb
  obtain ⟨a, ha, rfl⟩ := List.mem_map.mp hb
  have ha0 := cstr_nonzero s a ha
  unfold translate_byte
  split_ifs with hm hi
  · rw [List.getD_eq_getElem _ _ hi]; exact hz4 _ (List.getElem_mem _)
  · rw [List.getLastD_eq_getLast?, List.getLast?_eq_getLast _ hne4]
    exact hz4 _ (List.getLast_mem hne4)
  · exact ha0

/-- C7, at the argument list `(abc,XY)` and the input `cabd`: the output is
`YXYd`. -/
theorem translate_chars_spec_witness :
    (expect_char ⟨[40, 97, 98, 99, 44, 88, 89, 41], [40, 97, 98, 99, 44, 88, 89, 41], 8, [], []⟩ 40
        = (true, ⟨[40, 97, 98, 99, 44, 88, 89, 41], [97, 98, 99, 44, 88, 89, 41], 8, [], []⟩) ∧
      read_chars ⟨[40, 97, 98, 99, 44, 88, 89, 41], [97, 98, 99, 44, 88, 89, 41], 8, [], []⟩ 44
        = (true, ⟨[40, 97, 98, 99, 44, 88, 89, 41], [44, 88, 89, 41], 8, [97, 98, 99], []⟩) ∧
      expect_char ⟨[40, 97, 98, 99, 44, 88, 89, 41], [44, 88, 89, 41], 8, [97, 98, 99], []⟩ 44
        = (true, ⟨[40, 97, 98, 99, 44, 88, 89, 41], [88, 89, 41], 8, [97, 98, 99], []⟩) ∧
      read_chars ⟨[40, 97, 98, 99, 44, 88, 89, 41], [88, 89, 41], 8, [97, 98, 99], []⟩ 41
        = (true, ⟨[40, 97, 98, 99, 44, 88, 89, 41], [41], 8, [88, 89], []⟩) ∧
      expect_char ⟨[40, 97, 98, 99, 44, 88, 89, 41], [41], 8, [97, 98, 99], []⟩ 41
        = (true, ⟨[40, 97, 98, 99, 44, 88, 89, 41], [], 8, [97, 98, 99], []⟩)) ∧
    translate_chars ⟨[40, 97, 98, 99, 44, 88, 89, 41], [40, 97, 98, 99, 44, 88, 89, 41], 8, [], []⟩
        [99, 97, 98, 100]
      = (some [89, 88, 89, 100], ⟨[40, 97, 98, 99, 44, 88, 89, 41], [], 8, [97, 98, 99], []⟩) :=
  ⟨⟨by decide, by decide, by decide, by decide, by decide⟩,
   (translate_chars_spec
      ⟨[40, 97, 98, 99, 44, 88, 89, 41], [40, 97, 98, 99, 44, 88, 89, 41], 8, [], []⟩
      ⟨[40, 97, 98, 99, 44, 88, 89, 41], [97, 98, 99, 44, 88, 89, 41], 8, [], []⟩
      ⟨[40, 97, 98, 99, 44, 88, 89, 41], [44, 88, 89, 41], 8, [97, 98, 99], []⟩
      ⟨[40, 97, 98, 99, 44, 88, 89, 41], [88, 89, 41], 8, [97, 98, 99], []⟩
      ⟨[40, 97, 98, 99, 44, 88, 89, 41], [41], 8, [88, 89], []⟩
      ⟨[40, 97, 98, 99, 44, 88, 89, 41], [], 8, [97, 98, 99], []⟩
      [99, 97, 98, 100] (by decide) (by decide) (by decide) (by decide) (by decide)).2.2.1⟩

theorem shescape_loop_eq (str b : List Nat) :
    shescape_loop str ⟨b, false⟩ = ⟨b ++ (cstr str).flatMap shescape_byte, false⟩ := by
  induction str generalizing b with
  | nil => simp [shescape_loop, cstr_nil]
  | cons a str ih =>
    rw [shescape_loop, cstr_cons]
    by_cases h0 : a = 0
    · simp [h0]
    · by_cases h39 : a = 39
      · subst h39
        have : FcStrBufString ⟨b, false⟩ [39, 92, 39, 39] = ⟨b ++ [39, 92, 39, 39], false⟩ := by
          simp [FcStrBufString, cstr_cons, cstr_nil]
        simp only [this, ih]
        simp [shescape_byte]
      · simp only [h0, h39, if_false, FcStrBufChar, Bool.false_eq_true, ih]
        simp [shescape_byte, h39]

theorem sh_read_open (r : List Nat) : sh_read false (39 :: r) = sh_read true r := by
  rw [sh_read.eq_def]; simp

theorem sh_read_backslash (x : Nat) (r : List Nat) (hx : x ≠ 10) :
    sh_read false (92 :: x :: r) = (sh_read false r).map (fun t => x :: t) := by
  rw [sh_read.eq_def]; simp [hx]

theorem sh_read_close (r : List Nat) : sh_read true (39 :: r) = sh_read false r := by
  rw [sh_read.eq_def]; simp

theorem sh_read_inside (b : Nat) (r : List Nat) (h : b ≠ 39) :
    sh_read true (b :: r) = (sh_read true r).map (fun t => b :: t) := by
  rw [sh_read.eq_def]; simp [h]

theorem sh_read_quoted (xs rest : List Nat) :
    sh_read true (xs.flatMap shescape_byte ++ 39 :: rest)
      = (sh_read false rest).map (fun t => xs ++ t) := by
  induction xs with
  | nil => simp [sh_read_close]
  | cons a xs ih =>
    by_cases h39 : a = 39
    · subst h39
      simp only [List.flatMap_cons, shescape_byte, if_true, List.cons_append, List.nil_append,
        List.append_assoc]
      rw [sh_read_close, sh_read_backslash _ _ (by decide), sh_read_open, ih]
      simp [Option.map_map, Function.comp_def]
    · simp only [List.flatMap_cons, shescape_byte, h39, if_false, List.cons_append,
        List.nil_append, List.append_assoc]
      rw [sh_read_inside _ _ h39, ih]
      simp [Option.map_map, Function.comp_def]

/-- C8. `shescape`: the output is a single quote, the bytes of the input with
each single quote replaced by the four bytes `'\''`, and a single quote; it
starts and ends with `'`, and reading it by the single-quoting rules of the
shell (`sh_read`) gives back exactly the input, so that no quote of the input is
left unquoted. -/
theorem shescape_spec (s : List Nat) :
    shescape s = some (39 :: ((cstr s).flatMap shescape_byte ++ [39])) ∧
    (∃ out, shescape s = some out ∧ out.head? = some 39 ∧ out.getLast? = some 39 ∧
      sh_read false out = some (cstr s)) := by
  have h : shescape s = some (39 :: ((cstr s).flatMap shescape_byte ++ [39])) := by
    unfold shescape
    simp only [FcStrBufInit, FcStrBufChar, if_false, Bool.false_eq_true, List.nil_append,
      shescape_loop_eq, FcStrBufDone]
    rw [cstr_eq_self]
    · simp
    · intro b hb
      simp only [List.append_assoc, List.mem_append, List.mem_singleton, List.mem_flatMap] at hb
      rcases hb with rfl | ⟨a, ha, hba⟩ | rfl
      · decide
      · have := cstr_nonzero s a ha
        unfold shescape_byte at hba
        split_ifs at hba <;> simp at hba
        · rcases hba with rfl | rfl | rfl <;> decide
        · omega
      · decide
  refine ⟨h, _, h, rfl, ?_, ?_⟩
  · rw [← List.cons_append]; exact List.getLast?_concat _
  rw [sh_read_open, sh_read_quoted]
  simp [sh_read.eq_def]

/-! ## Simple field and count directives (C4, C5) -/

theorem interpret_simple_eq {V : Type} (ext : Externals V) (pat : FcPattern V)
    (orig : List Nat) (len : Nat) (w : List Nat) (e : List Message) (b : List Nat)
    (k rest : List Nat) (add_colon add_elt_name : Bool)
    (hk : plain_word k) (hr : word_end rest) (hr2 : rest.headD 0 ≠ 61) :
    interpret_simple ext ⟨orig, simple_directive add_colon k add_elt_name ++ rest, len, w, e⟩ pat
        ⟨b, false⟩
      = (true, ⟨orig, rest, len, k, e⟩,
          match FcPatternObjectFindElt pat k with
          | none => ⟨b, false⟩
          | some el =>
            ⟨b ++ (if add_colon then [58] else []) ++ (if add_elt_name then k ++ [61] else [])
              ++ ext.unparse el.values, false⟩) := by
  have hkz : ∀ x ∈ k, x ≠ 0 := by
    intro x hx h0; subst h0; have := hk.2 0 hx; simp [FcCharIsPunct] at this
  have hck : cstr k = k := cstr_eq_self k hkz
  have h1 : consume_char ⟨orig, simple_directive add_colon k add_elt_name ++ rest, len, w, e⟩ 58
      = (add_colon, ⟨orig, k ++ ((if add_elt_name then [61] else []) ++ rest), len, w, e⟩) := by
    cases add_colon
    · rw [consume_char_miss]
      · simp [simple_directive]
      · have := plain_word_head k ((if add_elt_name then [61] else []) ++ rest) hk
        simp only [simple_directive, Bool.false_eq_true, if_false, List.nil_append,
          List.append_assoc]
        intro h58; rw [h58] at this; simp [FcCharIsPunct] at this
    · simp [simple_directive, consume_char_hit]
  have h2 : read_word ⟨orig, k ++ ((if add_elt_name then [61] else []) ++ rest), len, w, e⟩
      = (true, ⟨orig, (if add_elt_name then [61] else []) ++ rest, len, k, e⟩) := by
    apply read_word_plain _ _ _ _ _ _ hk
    cases add_elt_name
    · simpa using hr
    · right; simp [FcCharIsPunct]
  have h3 : consume_char ⟨orig, (if add_elt_name then [61] else []) ++ rest, len, k, e⟩ 61
      = (add_elt_name, ⟨orig, rest, len, k, e⟩) := by
    cases add_elt_name
    · rw [consume_char_miss]
      · simp
      · simpa using hr2
    · simp [consume_char_hit]
  unfold interpret_simple
  simp only [h1, h2, h3]
  cases hf : FcPatternObjectFindElt pat k with
  | none => rfl
  | some el =>
    cases add_colon <;> cases add_elt_name <;>
      simp [FcNameUnparseValueList, FcStrBufData, FcStrBufChar, FcStrBufString, hck]

theorem strtol_brace (s : List Nat) : strtol (123 :: s) = (0, 123 :: s) :=
  strtol_no_digits _ (by simp [FcCharIsPunct]) (by simp) (by simp) (by simp) (by simp)

theorem toInt32_zero : toInt32 0 = 0 := by decide

theorem align_zero (b : List Nat) (start : Nat) (h : start ≤ b.length) :
    align_to_width ⟨b, false⟩ start 0 = (true, ⟨b, false⟩) :=
  align_unchanged ⟨b, false⟩ start 0 rfl (by decide) (by decide) (by simp; omega)

/-- The directive `%{...}` without a width: what `interpret_percent` does after
the two bytes `%{`. -/
theorem interpret_percent_open {V : Type} (ext : Externals V) (fuel : Nat) (pat : FcPattern V)
    (orig : List Nat) (len : Nat) (w : List Nat) (e : List Message) (body : List Nat)
    (buf : FcStrBuf) :
    interpret_percent ext (fuel + 1) ⟨orig, 37 :: 123 :: body, len, w, e⟩ pat buf
      = match (if body.headD 0 = 123 then interpret_subexpr ext fuel ⟨orig, body, len, w, e⟩ pat buf
            else if body.headD 0 = 43 then interpret_filter ext fuel ⟨orig, body, len, w, e⟩ pat buf
            else if body.headD 0 = 45 then interpret_delete ext fuel ⟨orig, body, len, w, e⟩ pat buf
            else if body.headD 0 = 63 then interpret_cond ext fuel ⟨orig, body, len, w, e⟩ pat buf
            else if body.headD 0 = 35 then some (interpret_count ⟨orig, body, len, w, e⟩ pat buf)
            else some (interpret_simple ext ⟨orig, body, len, w, e⟩ pat buf)) with
        | none => none
        | some (false, c1, buf1) => some (false, c1, buf1)
        | some (true, c1, buf1) =>
          match maybe_interpret_converts ext fuel c1 buf1 buf.buf.length with
          | none => none
          | some (false, c2, buf2) => some (false, c2, buf2)
          | some (true, c2, buf2) =>
            match align_to_width buf2 buf.buf.length 0 with
            | (false, buf3) => some (false, c2, buf3)
            | (true, buf3) =>
              some ((expect_char c2 125).1, (expect_char c2 125).2, buf3) := by
  rw [interpret_percent]
  simp only [expect_char_hit]
  rw [consume_char_miss _ _ (by simp)]
  simp only [strtol_brace, toInt32_zero, expect_char_hit, peek]

theorem maybe_interpret_converts_none {V : Type} (ext : Externals V) (fuel : Nat)
    (c : FcFormatContext) (buf : FcStrBuf) (start : Nat) (h : c.format.headD 0 ≠ 124) :
    maybe_interpret_converts ext (fuel + 1) c buf start = some (true, c, buf) := by
  rw [maybe_interpret_converts, consume_char_miss _ _ h]

/-- C4. Simple field directive: for a key `k` written as a non-empty run of
non-punctuation bytes, each of `%{k}`, `%{:k}`, `%{k=}` and `%{:k=}` is rendered
with success, the cursor behind the closing brace; it appends nothing when `k` is
absent from the pattern, and when `k` is present it appends `:` if the colon was
given, then `k=` if the `=` was given, then the unparsed value list of `k`. -/
theorem interpret_simple_spec {V : Type} (ext : Externals V) (fuel : Nat) (pat : FcPattern V)
    (orig : List Nat) (len : Nat) (w : List Nat) (e : List Message) (b : List Nat)
    (k rest : List Nat) (add_colon add_elt_name : Bool) (hk : plain_word k) :
    interpret_percent ext (fuel + 2)
        ⟨orig, 37 :: 123 :: (simple_directive add_colon k add_elt_name ++ 125 :: rest), len, w, e⟩
        pat ⟨b, false⟩
      = some (true, ⟨orig, rest, len, k, e⟩,
          match FcPatternObjectFindElt pat k with
          | none => ⟨b, false⟩
          | some el =>
            ⟨b ++ (if add_colon then [58] else []) ++ (if add_elt_name then k ++ [61] else [])
              ++ ext.unparse el.values, false⟩) := by
  have hhead : FcCharIsPunct ((simple_directive add_colon k add_elt_name ++ 125 :: rest).headD 0)
      = false ∨ (simple_directive add_colon k add_elt_name ++ 125 :: rest).headD 0 = 58 := by
    cases add_colon
    · left
      have := plain_word_head k ((if add_elt_name then [61] else []) ++ 125 :: rest) hk
      simpa [simple_directive] using this
    · right; simp [simple_directive]
  have hd : ∀ t : Nat, FcCharIsPunct t = true → t ≠ 58 →
      (simple_directive add_colon k add_elt_name ++ 125 :: rest).headD 0 ≠ t := by
    intro t ht h58 heq
    rcases hhead with h | h
    · rw [heq, ht] at h; exact absurd h (by simp)
    · rw [heq] at h; exact h58 h
  rw [interpret_percent_open]
  rw [if_neg (hd 123 (by decide) (by decide)), if_neg (hd 43 (by decide) (by decide)),
    if_neg (hd 45 (by decide) (by decide)), if_neg (hd 63 (by decide) (by decide)),
    if_neg (hd 35 (by decide) (by decide))]
  rw [interpret_simple_eq ext pat orig len w e b k (125 :: rest) add_colon add_elt_name hk
    (by right; simp [FcCharIsPunct]) (by simp)]
  simp only []
  rw [maybe_interpret_converts_none _ _ _ _ _ (by simp)]
  simp only []
  cases hf : FcPatternObjectFindElt pat k with
  | none => simp only [align_zero _ _ (le_refl _), expect_char_hit]
  | some el =>
    rw [align_zero _ _ (by simp only [List.length_append]; omega)]
    simp only [expect_char_hit]

/-- C4, at the template `%{:family=}` and the pattern `P`: the render is
`:family=DejaVu Sans`. -/
theorem interpret_simple_spec_witness :
    plain_word (bytes "family") ∧
    interpret_percent example_ext 2
        ⟨bytes "%\x7b:family=\x7d",
          37 :: 123 :: (simple_directive true (bytes "family") true ++ 125 :: []), 11, [], []⟩
        example_P ⟨[], false⟩
      = some (true, ⟨bytes "%\x7b:family=\x7d", [], 11, bytes "family", []⟩,
          ⟨bytes ":family=DejaVu Sans", false⟩) :=
  ⟨by decide,
   interpret_simple_spec example_ext 0 example_P (bytes "%\x7b:family=\x7d") 11 [] [] []
     (bytes "family") [] true true (by decide)⟩

theorem digitChar_toNat (d : Nat) (h : d < 10) : (Nat.digitChar d).toNat = 48 + d := by
  interval_cases d <;> rfl

theorem toDigitsCore_nonzero (fuel n : Nat) (ds : List Char) (h : ∀ c ∈ ds, c.toNat ≠ 0) :
    ∀ c ∈ Nat.toDigitsCore 10 fuel n ds, c.toNat ≠ 0 := by
  induction fuel generalizing n ds with
  | zero => simpa [Nat.toDigitsCore] using h
  | succ fuel ih =>
    rw [Nat.toDigitsCore]
    have h2 : ∀ c ∈ Nat.digitChar (n % 10) :: ds, c.toNat ≠ 0 := by
      intro c hc
      rcases List.mem_cons.mp hc with rfl | hc
      · rw [digitChar_toNat _ (Nat.mod_lt _ (by decide))]; omega
      · exact h c hc
    split_ifs
    · exact h2
    · exact ih _ _ h2

theorem snprintf_d_nonzero (n : Nat) : ∀ b ∈ snprintf_d n, b ≠ 0 := by
  intro b hb
  obtain ⟨c, hc, rfl⟩ := List.mem_map.mp hb
  exact toDigitsCore_nonzero _ _ _ (by simp) c hc

theorem interpret_count_loop_eq {V : Type} (x : V) (l : List V) (n : Nat) :
    interpret_count_loop (x :: l) n = n + l.length := by
  induction l generalizing x n with
  | nil => simp [interpret_count_loop]
  | cons y l ih =>
    rw [interpret_count_loop, ih]
    simp only [List.length_cons]; omega

/-- C5. Count directive: for a key `k` and a pattern whose value lists are not
empty, `%{#k}` is rendered with success and appends exactly the decimal digits
of `N`, the length of the value list of `k`, or of 0 when `k` is absent; the
digits are those of `Nat.repr`. -/
theorem interpret_count_spec {V : Type} (ext : Externals V) (fuel : Nat) (pat : FcPattern V)
    (orig : List Nat) (len : Nat) (w : List Nat) (e : List Message) (b : List Nat)
    (k rest : List Nat) (hk : plain_word k) (hpat : ∀ el ∈ pat, el.values ≠ []) :
    interpret_percent ext (fuel + 2) ⟨orig, 37 :: 123 :: 35 :: (k ++ 125 :: rest), len, w, e⟩
        pat ⟨b, false⟩
      = some (true, ⟨orig, rest, len, k, e⟩,
          ⟨b ++ snprintf_d (match FcPatternObjectFindElt pat k with
                            | some el => el.values.length
                            | none => 0), false⟩) ∧
    snprintf_d (match FcPatternObjectFindElt pat k with
                | some el => el.values.length
                | none => 0)
      = (Nat.repr (match FcPatternObjectFindElt pat k with
                   | some el => el.values.length
                   | none => 0)).toList.map Char.toNat := by
  refine ⟨?_, rfl⟩
  have hcount : (match FcPatternObjectFindElt pat k with
        | some el => interpret_count_loop el.values 1
        | none => 0)
      = (match FcPatternObjectFindElt pat k with
        | some el => el.values.length
        | none => 0) := by
    cases hf : FcPatternObjectFindElt pat k with
    | none => rfl
    | some el =>
      have hmem : el ∈ pat := List.mem_of_find?_eq_some hf
      have hne := hpat el hmem
      obtain ⟨x, l, hv⟩ := List.exists_cons_of_ne_nil hne
      simp only [hv, interpret_count_loop_eq, List.length_cons]
      exact Nat.add_comm _ _
  have hic : interpret_count ⟨orig, 35 :: (k ++ 125 :: rest), len, w, e⟩ pat ⟨b, false⟩
      = (true, ⟨orig, 125 :: rest, len, k, e⟩,
          ⟨b ++ snprintf_d (match FcPatternObjectFindElt pat k with
                            | some el => el.values.length
                            | none => 0), false⟩) := by
    unfold interpret_count
    simp only [expect_char_hit]
    rw [read_word_plain _ _ _ _ k (125 :: rest) hk (by right; simp [FcCharIsPunct])]
    simp only [hcount, FcStrBufString, Bool.false_eq_true, if_false,
      cstr_eq_self _ (snprintf_d_nonzero _)]
  rw [interpret_percent_open]
  simp only [List.headD_cons, show ¬ (35 = 123) by decide, show ¬ (35 = 43) by decide,
    show ¬ (35 = 45) by decide, show ¬ (35 = 63) by decide, if_false, if_true, hic]
  rw [maybe_interpret_converts_none _ _ _ _ _ (by simp)]
  simp only []
  rw [align_zero _ _ (by simp only [List.length_append]; omega)]
  simp only [expect_char_hit]

/-- C5, at the template `%{#size}` and the pattern `P`: the render is `2`. -/
theorem interpret_count_spec_witness :
    (plain_word (bytes "size") ∧ ∀ el ∈ example_P, el.values ≠ []) ∧
    interpret_percent example_ext 2
        ⟨bytes "%\x7b#size\x7d", 37 :: 123 :: 35 :: (bytes "size" ++ 125 :: []), 8, [], []⟩
        example_P ⟨[], false⟩
      = some (true, ⟨bytes "%\x7b#size\x7d", [], 8, bytes "size", []⟩, ⟨bytes "2", false⟩) :=
  ⟨by decide,
   (interpret_count_spec example_ext 0 example_P (bytes "%\x7b#size\x7d") 8 [] [] []
     (bytes "size") [] (by decide) (by decide)).1⟩

/-! ## Converter pipeline (C2) -/

theorem maybe_interpret_converts_step {V : Type} (ext : Externals V) (fuel : Nat)
    (orig : List Nat) (len : Nat) (w : List Nat) (e : List Message) (t : List Nat)
    (pre s s' : List Nat) (c' : FcFormatContext)
    (h : convert ext ⟨orig, t, len, w, e⟩ (s ++ [0]) = (some s', c')) :
    maybe_interpret_converts ext (fuel + 1) ⟨orig, 124 :: t, len, w, e⟩ ⟨pre ++ s, false⟩ pre.length
      = maybe_interpret_converts ext fuel c' ⟨pre ++ cstr s', false⟩ pre.length := by
  rw [maybe_interpret_converts]
  simp only [consume_char_hit, FcStrBufChar, Bool.false_eq_true, if_false, List.append_assoc,
    List.drop_left, h, List.take_left, FcStrBufString]

theorem interpret_simple_value {V : Type} (ext : Externals V) (pat : FcPattern V)
    (orig : List Nat) (len : Nat) (w : List Nat) (e : List Message) (b : List Nat)
    (k rest : List Nat) (hk : plain_word k) (hr : word_end rest) (hr2 : rest.headD 0 ≠ 61) :
    interpret_simple ext ⟨orig, k ++ rest, len, w, e⟩ pat ⟨b, false⟩
      = (true, ⟨orig, rest, len, k, e⟩, ⟨b ++ simple_value ext pat k, false⟩) := by
  have := interpret_simple_eq ext pat orig len w e b k rest false false hk hr hr2
  simp only [simple_directive, Bool.false_eq_true, if_false, List.nil_append, List.append_nil]
    at this
  rw [this]
  unfold simple_value
  cases FcPatternObjectFindElt pat k <;> simp

theorem plain_word_dispatch (k rest : List Nat) (hk : plain_word k) (t : Nat)
    (ht : FcCharIsPunct t = true) : (k ++ rest).headD 0 ≠ t := by
  intro h
  have := plain_word_head k rest hk
  rw [h, ht] at this
  exact absurd this (by simp)

/-- C2. Converter pipeline: for a key `k` and two converter invocations `a` and
`b` that parse (`convert` at the cursor of `a` on the value `v` of `%{k}` gives
`s1` and stops at `|`; `convert` at the cursor of `b` on `s1` gives `s2` and
stops at `}`), rendering `%{k}` appends `v` and rendering `%{k|a|b}` succeeds and
appends `s2 = b(a(v))`. In general `maybe_interpret_converts` does nothing when no
`|` follows, and for each `|` it replaces the bytes of the buffer from `start` on
by the result of the converter on them, keeps the bytes before `start`, and goes
on with the next converter of the template. -/
theorem convert_pipeline_spec {V : Type} (ext : Externals V) (fuel : Nat) (pat : FcPattern V)
    (orig : List Nat) (len : Nat) (w : List Nat) (e : List Message) (b : List Nat)
    (k ta tb rest : List Nat) (s1 s2 : List Nat) (c1 c2 : FcFormatContext)
    (hk : plain_word k)
    (ha : convert ext ⟨orig, ta, len, k, e⟩ (simple_value ext pat k ++ [0]) = (some s1, c1))
    (hc1 : c1.format = 124 :: tb)
    (hb : convert ext { c1 with format := tb } (cstr s1 ++ [0]) = (some s2, c2))
    (hc2 : c2.format = 125 :: rest) :
    interpret_percent ext (fuel + 2) ⟨orig, 37 :: 123 :: (k ++ 125 :: rest), len, w, e⟩ pat
        ⟨b, false⟩
      = some (true, ⟨orig, rest, len, k, e⟩, ⟨b ++ simple_value ext pat k, false⟩) ∧
    interpret_percent ext (fuel + 4) ⟨orig, 37 :: 123 :: (k ++ 124 :: ta), len, w, e⟩ pat
        ⟨b, false⟩
      = some (true, { c2 with format := rest }, ⟨b ++ cstr s2, false⟩) ∧
    (∀ (n : Nat) (c : FcFormatContext) (buf : FcStrBuf) (start : Nat), c.format.headD 0 ≠ 124 →
      maybe_interpret_converts ext (n + 1) c buf start = some (true, c, buf)) ∧
    (∀ (n : Nat) (orig' : List Nat) (len' : Nat) (w' : List Nat) (e' : List Message)
      (t pre s s' : List Nat) (c' : FcFormatContext),
      convert ext ⟨orig', t, len', w', e'⟩ (s ++ [0]) = (some s', c') →
      maybe_interpret_converts ext (n + 1) ⟨orig', 124 :: t, len', w', e'⟩ ⟨pre ++ s, false⟩
          pre.length
        = maybe_interpret_converts ext n c' ⟨pre ++ cstr s', false⟩ pre.length) := by
  refine ⟨?_, ?_, fun n c buf start h => maybe_interpret_converts_none ext n c buf start h,
    fun n orig' len' w' e' t pre s s' c' h =>
      maybe_interpret_converts_step ext n orig' len' w' e' t pre s s' c' h⟩
  · rw [interpret_percent_open]
    rw [if_neg (plain_word_dispatch k _ hk 123 (by decide)),
      if_neg (plain_word_dispatch k _ hk 43 (by decide)),
      if_neg (plain_word_dispatch k _ hk 45 (by decide)),
      if_neg (plain_word_dispatch k _ hk 63 (by decide)),
      if_neg (plain_word_dispatch k _ hk 35 (by decide))]
    rw [interpret_simple_value ext pat orig len w e b k (125 :: rest) hk
      (by right; simp [FcCharIsPunct]) (by simp)]
    simp only []
    rw [maybe_interpret_converts_none _ _ _ _ _ (by simp)]
    simp only []
    rw [align_zero _ _ (by simp only [List.length_append]; omega)]
    simp only [expect_char_hit]
  · rw [interpret_percent_open]
    rw [if_neg (plain_word_dispatch k _ hk 123 (by decide)),
      if_neg (plain_word_dispatch k _ hk 43 (by decide)),
      if_neg (plain_word_dispatch k _ hk 45 (by decide)),
      if_neg (plain_word_dispatch k _ hk 63 (by decide)),
      if_neg (plain_word_dispatch k _ hk 35 (by decide))]
    rw [interpret_simple_value ext pat orig len w e b k (124 :: ta) hk
      (by right; simp [FcCharIsPunct]) (by simp)]
    simp only []
    rw [maybe_interpret_converts_step ext _ orig len k e ta b _ s1 c1 ha]
    obtain ⟨o1, f1, l1, w1, e1⟩ := c1
    simp only at hc1 hb
    subst hc1
    rw [maybe_interpret_converts_step ext _ o1 l1 w1 e1 tb b _ s2 c2 hb]
    obtain ⟨o2, f2, l2, w2, e2⟩ := c2
    simp only at hc2
    subst hc2
    rw [maybe_interpret_converts_none _ _ _ _ _ (by simp)]
    simp only []
    rw [align_zero _ _ (by simp only [List.length_append]; omega)]
    simp only [expect_char_hit]

/-- C2, at the template `%{family|downcase|delete(a )}` and the pattern `P`: the
render is `dejvusns`, the deletion applied to the lower-cased family. -/
theorem convert_pipeline_spec_witness :
    (plain_word (bytes "family") ∧
      convert example_ext ⟨[], bytes "downcase|delete(a )\x7d", 0, bytes "family", []⟩
          (simple_value example_ext example_P (bytes "family") ++ [0])
        = (some (bytes "dejavu sans"), ⟨[], bytes "|delete(a )\x7d", 0, bytes "downcase", []⟩) ∧
      convert example_ext ⟨[], bytes "delete(a )\x7d", 0, bytes "downcase", []⟩
          (cstr (bytes "dejavu sans") ++ [0])
        = (some (bytes "dejvusns"), ⟨[], bytes "\x7d", 0, bytes "a ", []⟩)) ∧
    interpret_percent example_ext 4
        ⟨[], 37 :: 123 :: (bytes "family" ++ 124 :: bytes "downcase|delete(a )\x7d"), 0, [], []⟩
        example_P ⟨[], false⟩
      = some (true, ⟨[], [], 0, bytes "a ", []⟩, ⟨bytes "dejvusns", false⟩) :=
  ⟨by decide,
   (convert_pipeline_spec example_ext 0 example_P [] 0 [] [] [] (bytes "family")
     (bytes "downcase|delete(a )\x7d") (bytes "delete(a )\x7d") [] (bytes "dejavu sans")
     (bytes "dejvusns") ⟨[], bytes "|delete(a )\x7d", 0, bytes "downcase", []⟩
     ⟨[], bytes "\x7d", 0, bytes "a ", []⟩ (by decide) (by decide) (by decide) (by decide)
     (by decide)).2.1⟩

/-! ## Subpattern directives (C6) -/

theorem interpret_delete_loop_eq {V : Type} (ks : List (List Nat)) (hne : ks ≠ [])
    (hks : ∀ k ∈ ks, plain_word k) (fuel : Nat) (hfuel : ks.length ≤ fuel)
    (orig : List Nat) (len : Nat) (w : List Nat) (e : List Message) (rest : List Nat)
    (hr : word_end rest) (hr2 : rest.headD 0 ≠ 44) (subpat : FcPattern V) :
    interpret_delete_loop fuel ⟨orig, key_list ks ++ rest, len, w, e⟩ subpat
      = some (true, ⟨orig, rest, len, ks.getLastD w, e⟩, ks.foldl FcPatternDel subpat) := by
  induction ks generalizing fuel w subpat with
  | nil => exact absurd rfl hne
  | cons k ks ih =>
    obtain ⟨fuel, rfl⟩ : ∃ f, fuel = f + 1 := ⟨fuel - 1, by simp at hfuel; omega⟩
    have hk := hks k (by simp)
    cases ks with
    | nil =>
      rw [interpret_delete_loop]
      simp only [key_list]
      rw [read_word_plain _ _ _ _ k rest hk hr]
      simp only []
      rw [consume_char_miss _ _ hr2]
      simp
    | cons k' ks =>
      rw [interpret_delete_loop]
      simp only [key_list, List.append_assoc, List.cons_append]
      rw [read_word_plain _ _ _ _ k _ hk (by right; simp [FcCharIsPunct])]
      simp only [consume_char_hit]
      rw [ih (by simp) (fun x hx => hks x (by simp [hx])) fuel (by simp at hfuel ⊢; omega)]
      rfl

theorem interpret_filter_loop_eq (ks : List (List Nat)) (hne : ks ≠ [])
    (hks : ∀ k ∈ ks, plain_word k) (fuel : Nat) (hfuel : ks.length ≤ fuel)
    (orig : List Nat) (len : Nat) (w : List Nat) (e : List Message) (rest : List Nat)
    (hr : word_end rest) (hr2 : rest.headD 0 ≠ 44) (os : List (List Nat)) :
    interpret_filter_loop fuel ⟨orig, key_list ks ++ rest, len, w, e⟩ os
      = some (true, ⟨orig, rest, len, ks.getLastD w, e⟩, os ++ ks) := by
  induction ks generalizing fuel w os with
  | nil => exact absurd rfl hne
  | cons k ks ih =>
    obtain ⟨fuel, rfl⟩ : ∃ f, fuel = f + 1 := ⟨fuel - 1, by simp at hfuel; omega⟩
    have hk := hks k (by simp)
    cases ks with
    | nil =>
      rw [interpret_filter_loop]
      simp only [key_list]
      rw [read_word_plain _ _ _ _ k rest hk hr]
      simp only []
      rw [consume_char_miss _ _ hr2]
      simp [FcObjectSetAdd]
    | cons k' ks =>
      rw [interpret_filter_loop]
      simp only [key_list, List.append_assoc, List.cons_append]
      rw [read_word_plain _ _ _ _ k _ hk (by right; simp [FcCharIsPunct])]
      simp only [consume_char_hit]
      rw [ih (by simp) (fun x hx => hks x (by simp [hx])) fuel (by simp at hfuel ⊢; omega)]
      simp only [FcObjectSetAdd, List.append_assoc, List.singleton_append]
      rfl

theorem find_del {V : Type} (pat : FcPattern V) (k k' : List Nat) :
    FcPatternObjectFindElt (FcPatternDel pat k) k'
      = if k' = k then none else FcPatternObjectFindElt pat k' := by
  unfold FcPatternObjectFindElt FcPatternDel
  rw [List.find?_filter]
  by_cases h : k' = k
  · subst h
    rw [if_pos rfl, List.find?_eq_none]
    intro x _
    by_cases hx : x.object = k' <;> simp [hx]
  · rw [if_neg h]
    congr 1
    funext x
    by_cases hx : x.object = k'
    · have : ¬ x.object = k := fun h2 => h (hx ▸ h2)
      simp [hx, this, h]
    · simp [hx]

theorem find_foldl_del {V : Type} (ks : List (List Nat)) (pat : FcPattern V) (k : List Nat) :
    FcPatternObjectFindElt (ks.foldl FcPatternDel pat) k
      = if k ∈ ks then none else FcPatternObjectFindElt pat k := by
  induction ks generalizing pat with
  | nil => simp
  | cons a ks ih =>
    rw [List.foldl_cons, ih, find_del]
    by_cases h1 : k ∈ ks
    · simp [h1]
    · by_cases h2 : k = a <;> simp [h1, h2]

theorem find_filter {V : Type} (pat : FcPattern V) (os : List (List Nat)) (k : List Nat) :
    FcPatternObjectFindElt (FcPatternFilter pat os) k
      = if k ∈ os then FcPatternObjectFindElt pat k else none := by
  unfold FcPatternObjectFindElt FcPatternFilter
  rw [List.find?_filter]
  by_cases h : k ∈ os
  · rw [if_pos h]
    congr 1
    funext x
    by_cases hx : x.object = k
    · simp [hx, h]
    · simp [hx]
  · rw [if_neg h, List.find?_eq_none]
    intro x _
    by_cases hx : x.object = k
    · simp [hx, h]
    · simp [hx]

/-- C6. Subpattern directives: for a non-empty list `K` of keys written without
escapes, `-K{B}` rendered against `P` is `{B}` rendered against `P` with every
key of `K` deleted, and `+K{B}` rendered against `P` is `{B}` rendered against `P`
filtered to the keys of `K`; a lookup in the first subpattern finds nothing for
a key of `K` and what `P` holds otherwise, a lookup in the second finds what `P`
holds for a key of `K` and nothing otherwise; and after a directive
`interpret_expr` goes on with the pattern `P` it was called with. -/
theorem subpattern_spec {V : Type} (ext : Externals V) (fuel : Nat) (pat : FcPattern V)
    (orig : List Nat) (len : Nat) (w : List Nat) (e : List Message) (buf : FcStrBuf)
    (ks : List (List Nat)) (body : List Nat)
    (hne : ks ≠ []) (hks : ∀ k ∈ ks, plain_word k) (hfuel : ks.length ≤ fuel) :
    interpret_delete ext (fuel + 1) ⟨orig, 45 :: (key_list ks ++ 123 :: body), len, w, e⟩ pat buf
      = interpret_subexpr ext fuel ⟨orig, 123 :: body, len, ks.getLastD w, e⟩
          (ks.foldl FcPatternDel pat) buf ∧
    interpret_filter ext (fuel + 1) ⟨orig, 43 :: (key_list ks ++ 123 :: body), len, w, e⟩ pat buf
      = interpret_subexpr ext fuel ⟨orig, 123 :: body, len, ks.getLastD w, e⟩
          (FcPatternFilter pat ks) buf ∧
    (∀ k, FcPatternObjectFindElt (ks.foldl FcPatternDel pat) k
      = if k ∈ ks then none else FcPatternObjectFindElt pat k) ∧
    (∀ k, FcPatternObjectFindElt (FcPatternFilter pat ks) k
      = if k ∈ ks then FcPatternObjectFindElt pat k else none) ∧
    (∀ (n : Nat) (c : FcFormatContext) (b : FcStrBuf) (term : Nat), peek c = 37 → term ≠ 37 →
      interpret_expr ext (n + 1) c pat b term
        = match interpret_percent ext n c pat b with
          | none => none
          | some (false, c1, b1) => some (false, c1, b1)
          | some (true, c1, b1) => interpret_expr ext n c1 pat b1 term) := by
  refine ⟨?_, ?_, find_foldl_del ks pat, find_filter pat ks, ?_⟩
  · rw [interpret_delete]
    simp only [expect_char_hit, FcPatternDuplicate]
    rw [interpret_delete_loop_eq ks hne hks fuel hfuel orig len w e (123 :: body)
      (by right; simp [FcCharIsPunct]) (by simp)]
  · rw [interpret_filter]
    simp only [expect_char_hit]
    rw [interpret_filter_loop_eq ks hne hks fuel hfuel orig len w e (123 :: body)
      (by right; simp [FcCharIsPunct]) (by simp)]
    simp
  · intro n c b term hp ht
    rw [interpret_expr]
    have h1 : peek c ≠ 0 ∧ peek c ≠ term := by
      rw [hp]; exact ⟨by decide, fun h => ht h.symm⟩
    rw [if_pos h1, if_neg (by rw [hp]; decide), if_pos hp]

/-- C6, at the directive text `-size{%{#size}}` and the pattern `P`. -/
theorem subpattern_spec_witness :
    ([bytes "size"] ≠ [] ∧ (∀ k ∈ [bytes "size"], plain_word k) ∧ [bytes "size"].length ≤ 10) ∧
    interpret_delete example_ext 11
        ⟨[], 45 :: (key_list [bytes "size"] ++ 123 :: bytes "%\x7b#size\x7d\x7d\x7d"), 0, [], []⟩
        example_P ⟨[], false⟩
      = interpret_subexpr example_ext 10
          ⟨[], 123 :: bytes "%\x7b#size\x7d\x7d\x7d", 0, [bytes "size"].getLastD [], []⟩
          ([bytes "size"].foldl FcPatternDel example_P) ⟨[], false⟩ :=
  ⟨by decide,
   (subpattern_spec example_ext 10 example_P [] 0 [] [] ⟨[], false⟩ [bytes "size"]
     (bytes "%\x7b#size\x7d\x7d\x7d") (by decide) (by decide) (by decide)).1⟩

/-- The subpattern examples of the specification: `%{-size{%{family}}}` renders
the family, `%{-size{%{#size}}}%{#size}` renders `0` and the count in `P`, and
after a filter to `family` the count of `size` is `0` inside and `2` behind. -/
theorem example_subpattern :
    FcPatternFormat example_ext 40 example_P (bytes "%\x7b-size\x7b%\x7bfamily\x7d\x7d\x7d")
      = some (some (bytes "DejaVu Sans"), []) ∧
    FcPatternFormat example_ext 40 example_P
        (bytes "%\x7b-size\x7b%\x7b#size\x7d\x7d\x7d%\x7b#size\x7d")
      = some (some (bytes "02"), []) ∧
    FcPatternFormat example_ext 40 example_P
        (bytes "%\x7b+family\x7b%\x7b#size\x7d%\x7bfamily\x7d\x7d\x7d%\x7b#size\x7d")
      = some (some (bytes "0DejaVu Sans2"), []) := by
  decide

/-! ## Conditional directive (C3) -/

theorem consume_bang (orig : List Nat) (len : Nat) (w : List Nat) (e : List Message)
    (neg : Bool) (k rest : List Nat) (hk : plain_word k) :
    consume_char ⟨orig, (if neg then [33] else []) ++ k ++ rest, len, w, e⟩ 33
      = (neg, ⟨orig, k ++ rest, len, w, e⟩) := by
  cases neg
  · rw [consume_char_miss]
    · simp
    · simpa using plain_word_dispatch k rest hk 33 (by decide)
  · simp [consume_char_hit]

theorem interpret_cond_loop_eq {V : Type} (pat : FcPattern V) (ts : List (Bool × List Nat))
    (hne : ts ≠ []) (hts : ∀ t ∈ ts, plain_word t.2) (fuel : Nat) (hfuel : ts.length ≤ fuel)
    (orig : List Nat) (len : Nat) (w : List Nat) (e : List Message) (rest : List Nat)
    (hr : word_end rest) (hr2 : rest.headD 0 ≠ 44) (pass : Bool) :
    interpret_cond_loop pat fuel ⟨orig, cond_list ts ++ rest, len, w, e⟩ pass
      = some (true, ⟨orig, rest, len, (ts.map (fun t => t.2)).getLastD w, e⟩,
          pass && ts.all (fun t => xor t.1 (FcPatternGet_match pat t.2))) := by
  induction ts generalizing fuel w pass with
  | nil => exact absurd rfl hne
  | cons t ts ih =>
    obtain ⟨fuel, rfl⟩ : ∃ f, fuel = f + 1 := ⟨fuel - 1, by simp at hfuel; omega⟩
    have hk := hts t (by simp)
    cases ts with
    | nil =>
      rw [interpret_cond_loop]
      simp only [cond_list]
      rw [consume_bang _ _ _ _ _ _ _ hk]
      simp only []
      rw [read_word_plain _ _ _ _ t.2 rest hk hr]
      simp only []
      rw [consume_char_miss _ _ hr2]
      simp
    | cons t' ts =>
      rw [interpret_cond_loop]
      simp only [cond_list, List.append_assoc, List.cons_append]
      rw [← List.append_assoc, consume_bang _ _ _ _ _ _ _ hk]
      simp only []
      rw [read_word_plain _ _ _ _ t.2 _ hk (by right; simp [FcCharIsPunct])]
      simp only [consume_char_hit]
      rw [ih (by simp) (fun x hx => hts x (by simp [hx])) fuel (by simp at hfuel ⊢; omega)]
      simp only [List.all_cons, Bool.and_assoc, List.map_cons]
      rfl

theorem get_match_eq_isSome {V : Type} (pat : FcPattern V) (hpat : ∀ el ∈ pat, el.values ≠ [])
    (k : List Nat) : FcPatternGet_match pat k = (FcPatternObjectFindElt pat k).isSome := by
  unfold FcPatternGet_match
  cases hf : FcPatternObjectFindElt pat k with
  | none => rfl
  | some el =>
    have := hpat el (List.mem_of_find?_eq_some hf)
    simp [this]

theorem cond_pass_eq {V : Type} (pat : FcPattern V) (hpat : ∀ el ∈ pat, el.values ≠ [])
    (ts : List (Bool × List Nat)) :
    ts.all (fun t => xor t.1 (FcPatternGet_match pat t.2)) = cond_pass pat ts := by
  unfold cond_pass
  congr 1
  funext t
  rw [get_match_eq_isSome pat hpat, Bool.xor_comm]

theorem interpret_cond_eq {V : Type} (ext : Externals V) (fuel : Nat) (pat : FcPattern V)
    (orig : List Nat) (len : Nat) (w : List Nat) (e : List Message) (buf : FcStrBuf)
    (ts : List (Bool × List Nat)) (rest : List Nat)
    (hne : ts ≠ []) (hts : ∀ t ∈ ts, plain_word t.2) (hfuel : ts.length ≤ fuel)
    (hpat : ∀ el ∈ pat, el.values ≠ []) :
    interpret_cond ext (fuel + 1) ⟨orig, 63 :: (cond_list ts ++ 123 :: rest), len, w, e⟩ pat buf
      = if cond_pass pat ts = true then
          match interpret_subexpr ext fuel
              ⟨orig, 123 :: rest, len, (ts.map (fun t => t.2)).getLastD w, e⟩ pat buf with
          | none => none
          | some (false, c1, buf1) => some (false, c1, buf1)
          | some (true, c1, buf1) =>
            match maybe_skip_subexpr fuel c1 with
            | none => none
            | some (res, c2) => some (res, c2, buf1)
        else
          match skip_subexpr fuel
              ⟨orig, 123 :: rest, len, (ts.map (fun t => t.2)).getLastD w, e⟩ with
          | none => none
          | some (false, c1) => some (false, c1, buf)
          | some (true, c1) => maybe_interpret_subexpr ext fuel c1 pat buf := by
  rw [interpret_cond]
  simp only [expect_char_hit]
  rw [interpret_cond_loop_eq pat ts hne hts fuel hfuel orig len w e (123 :: rest)
    (by right; simp [FcCharIsPunct]) (by simp)]
  simp only [Bool.true_and, cond_pass_eq pat hpat]
  cases cond_pass pat ts <;> simp

/-- C3 as stated fails: with `style` absent the predicate of `?style` is false,
the then-branch `%{family|delete({)}` and the else-branch `no` are rendered with
success on their own, but `%{?style{%{family|delete({)}}{no}}` renders the empty
string and not `no`: the skipper balances the `{` of the converter argument
against the brace that closes the directive and takes the else-branch for a part
of the then-branch. -/
theorem interpret_cond_counterexample :
    cond_pass example_Q [(false, bytes "style")] = false ∧
    FcPatternFormat example_ext 40 example_Q (bytes "no") = some (some (bytes "no"), []) ∧
    FcPatternFormat example_ext 40 example_Q (bytes "%\x7bfamily|delete(\x7b)\x7d")
      = some (some (bytes "DejaVu Sans"), []) ∧
    FcPatternFormat example_ext 40 example_Q
        (bytes "%\x7b?style\x7b%\x7bfamily|delete(\x7b)\x7d\x7d\x7bno\x7d\x7d")
      = some (some [], []) := by
  decide

/-- The conditional examples of the specification: with `style` absent,
`%{?style{yes}{no}}` renders `no` and `%{?!style{missing}}` renders `missing`. -/
theorem example_cond_else :
    FcPatternFormat example_ext 40 example_Q (bytes "%\x7b?style\x7byes\x7d\x7bno\x7d\x7d")
      = some (some (bytes "no"), []) ∧
    FcPatternFormat example_ext 40 example_Q (bytes "%\x7b?!style\x7bmissing\x7d\x7d")
      = some (some (bytes "missing"), []) := by
  decide

/-! ## Punctuation classifier (C20) -/

/-- C20. Punctuation classifier: `FcCharIsPunct b` holds exactly when `b ≤ 0x7E`
and `b` is none of `0-9`, `A-Z`, `a-z`; a byte above `~` is not punctuation and
`read_word` takes it into the word; and NUL, space, `{`, `}`, `|`, `,`, `=`, `(`,
`_` and the backslash are punctuation. -/
theorem FcCharIsPunct_spec (b : Nat) :
    (FcCharIsPunct b = true ↔
      b ≤ 126 ∧ ¬ ((48 ≤ b ∧ b ≤ 57) ∨ (65 ≤ b ∧ b ≤ 90) ∨ (97 ≤ b ∧ b ≤ 122))) ∧
    (126 < b → FcCharIsPunct b = false ∧
      ∀ fmt p, read_word_loop (b :: fmt) p = read_word_loop fmt (p ++ [b])) ∧
    (FcCharIsPunct 0 = true ∧ FcCharIsPunct 32 = true ∧ FcCharIsPunct 123 = true ∧
      FcCharIsPunct 125 = true ∧ FcCharIsPunct 124 = true ∧ FcCharIsPunct 44 = true ∧
      FcCharIsPunct 61 = true ∧ FcCharIsPunct 40 = true ∧ FcCharIsPunct 95 = true ∧
      FcCharIsPunct 92 = true) := by
  refine ⟨?_, ?_, by decide⟩
  · unfold FcCharIsPunct
    split_ifs <;> simp <;> omega
  · intro hb
    have h : FcCharIsPunct b = false := by
      unfold FcCharIsPunct
      split_ifs <;> first | rfl | omega
    exact ⟨h, fun fmt p => read_word_loop_plain b fmt p h⟩

/-- C20, at the byte `0xC8`: it is not punctuation and is read into a word. -/
theorem FcCharIsPunct_spec_witness :
    126 < 200 ∧ FcCharIsPunct 200 = false ∧
      ∀ fmt p, read_word_loop (200 :: fmt) p = read_word_loop fmt (p ++ [200]) :=
  ⟨by decide, (FcCharIsPunct_spec 200).2.1 (by decide)⟩

/-! ## Backslash decoding (C12) -/

theorem interpret_expr_backslash {V : Type} (ext : Externals V) (fuel : Nat) (pat : FcPattern V)
    (orig : List Nat) (len : Nat) (w : List Nat) (e : List Message) (x : Nat) (rest : List Nat)
    (b : List Nat) (term : Nat) (hx : x ≠ 0) (ht : term ≠ 92) :
    interpret_expr ext (fuel + 1) ⟨orig, 92 :: x :: rest, len, w, e⟩ pat ⟨b, false⟩ term
      = interpret_expr ext fuel ⟨orig, rest, len, w, e⟩ pat ⟨b ++ [escaped_char x], false⟩ term := by
  rw [interpret_expr]
  have h1 : peek ⟨orig, 92 :: x :: rest, len, w, e⟩ = 92 := rfl
  have h2 : peek (advance ⟨orig, 92 :: x :: rest, len, w, e⟩) = x := rfl
  rw [if_pos ⟨by rw [h1]; decide, by rw [h1]; exact fun h => ht h.symm⟩, if_pos h1]
  simp only [h2, ne_eq, hx, not_false_eq_true, if_true]
  rfl

/-- C12. Backslash decoding: `escaped_char` maps `a b f n r t v` to the control
bytes 7, 8, 12, 10, 13, 9, 11 and every other byte to itself; and for a byte `x`
other than NUL the two bytes `\x` contribute the one byte `escaped_char x` in the
literal text of `interpret_expr`, whatever the terminator (NUL at top level, `}`
inside a subexpression), in a word read by `read_word` and in a character class
read by `read_chars`. -/
theorem backslash_spec (x : Nat) (hx : x ≠ 0) :
    (escaped_char 97 = 7 ∧ escaped_char 98 = 8 ∧ escaped_char 102 = 12 ∧ escaped_char 110 = 10 ∧
      escaped_char 114 = 13 ∧ escaped_char 116 = 9 ∧ escaped_char 118 = 11 ∧
      (x ∉ [97, 98, 102, 110, 114, 116, 118] → escaped_char x = x)) ∧
    (∀ {V : Type} (ext : Externals V) (fuel : Nat) (pat : FcPattern V) (orig : List Nat)
      (len : Nat) (w : List Nat) (e : List Message) (rest b : List Nat) (term : Nat),
      term ≠ 92 →
      interpret_expr ext (fuel + 1) ⟨orig, 92 :: x :: rest, len, w, e⟩ pat ⟨b, false⟩ term
        = interpret_expr ext fuel ⟨orig, rest, len, w, e⟩ pat ⟨b ++ [escaped_char x], false⟩
            term) ∧
    (∀ rest p, read_word_loop (92 :: x :: rest) p = read_word_loop rest (p ++ [escaped_char x])) ∧
    (∀ term rest p, term ≠ 92 →
      read_chars_loop term (92 :: x :: rest) p
        = read_chars_loop term rest (p ++ [escaped_char x])) := by
  refine ⟨⟨by decide, by decide, by decide, by decide, by decide, by decide, by decide, ?_⟩,
    ?_, fun rest p => read_word_loop_esc x rest p hx, ?_⟩
  · intro h
    simp only [List.mem_cons, List.mem_singleton, List.not_mem_nil, or_false, not_or] at h
    unfold escaped_char
    simp [h.1, h.2.1, h.2.2.1, h.2.2.2.1, h.2.2.2.2.1, h.2.2.2.2.2.1, h.2.2.2.2.2.2]
  · intro V ext fuel pat orig len w e rest b term ht
    exact interpret_expr_backslash ext fuel pat orig len w e x rest b term hx ht
  · intro term rest p ht
    exact read_chars_loop_esc term x rest p
      (by rintro (h | h | h) <;> first | exact absurd h (by decide) | exact ht h.symm) hx

/-- C12, at the bytes `\n` and `\}`: in a word the first is read as the byte 10,
and in a subexpression the second is rendered as `}`. -/
theorem backslash_spec_witness :
    ((110 : Nat) ≠ 0 ∧ (125 : Nat) ≠ 0) ∧
    (∀ rest p, read_word_loop (92 :: 110 :: rest) p
      = read_word_loop rest (p ++ [escaped_char 110])) ∧
    interpret_expr example_ext 3 ⟨[], [92, 125, 125], 0, [], []⟩ example_P ⟨[], false⟩ 125
      = interpret_expr example_ext 2 ⟨[], [125], 0, [], []⟩ example_P
          ⟨[] ++ [escaped_char 125], false⟩ 125 :=
  ⟨by decide, (backslash_spec 110 (by decide)).2.2.1,
   (backslash_spec 125 (by decide)).2.1 example_ext 2 example_P [] 0 [] [] [125] [] 125
     (by decide)⟩
/-! ## Literal streaming (C11) -/

theorem literal_render_nonzero (items : List (Option Nat))
    (h : ∀ it ∈ items, literal_item it) : ∀ x ∈ literal_render items, x ≠ 0 := by
  induction items with
  | nil => simp [literal_render]
  | cons it items ih =>
    have ih' := ih (fun it hit => h it (List.mem_cons_of_mem _ hit))
    cases it with
    | none =>
      intro x hx
      simp only [literal_render, List.mem_cons] at hx
      rcases hx with rfl | hx
      · decide
      · exact ih' x hx
    | some a =>
      intro x hx
      simp only [literal_render, List.mem_cons] at hx
      rcases hx with rfl | hx
      · exact (h (some x) (by simp)).1
      · exact ih' x hx

theorem interpret_expr_literal {V : Type} (ext : Externals V) (pat : FcPattern V)
    (orig : List Nat) (len : Nat) (w : List Nat) (e : List Message)
    (items : List (Option Nat)) (h : ∀ it ∈ items, literal_item it)
    (fuel : Nat) (hfuel : items.length + 1 ≤ fuel) (b : List Nat) :
    interpret_expr ext fuel ⟨orig, literal_template items, len, w, e⟩ pat ⟨b, false⟩ 0
      = some (true, ⟨orig, [], len, w, e⟩, ⟨b ++ literal_render items, false⟩) := by
  induction items generalizing fuel b with
  | nil =>
    obtain ⟨f, rfl⟩ : ∃ f, fuel = f + 1 := ⟨fuel - 1, by simp at hfuel; omega⟩
    rw [interpret_expr]
    simp [literal_template, literal_render, peek]
  | cons it items ih =>
    obtain ⟨f, rfl⟩ : ∃ f, fuel = f + 1 := ⟨fuel - 1, by simp at hfuel; omega⟩
    have hf : items.length + 1 ≤ f := by simp at hfuel; omega
    have ih' := ih (fun it hit => h it (List.mem_cons_of_mem _ hit)) f hf
    cases it with
    | none =>
      obtain ⟨g, rfl⟩ : ∃ g, f = g + 1 := ⟨f - 1, by omega⟩
      rw [interpret_expr]
      have hp : peek ⟨orig, literal_template (none :: items), len, w, e⟩ = 37 := rfl
      rw [if_pos ⟨by rw [hp]; decide, by rw [hp]; decide⟩, if_neg (by rw [hp]; decide), if_pos hp]
      have hper : interpret_percent ext (g + 1) ⟨orig, literal_template (none :: items), len, w, e⟩
          pat ⟨b, false⟩ = some (true, ⟨orig, literal_template items, len, w, e⟩,
            ⟨b ++ [37], false⟩) := by
        rw [interpret_percent]
        simp only [literal_template, expect_char_hit, consume_char_hit, FcStrBufChar,
          Bool.false_eq_true, if_false]
      rw [hper]
      simp only []
      rw [ih' (b ++ [37])]
      simp [literal_render]
    | some a =>
      obtain ⟨h0, h92, h37⟩ := h (some a) (by simp)
      rw [interpret_expr]
      have hp : peek ⟨orig, literal_template (some a :: items), len, w, e⟩ = a := rfl
      rw [if_pos ⟨by rw [hp]; exact h0, by rw [hp]; exact h0⟩, if_neg (by rw [hp]; exact h92),
        if_neg (by rw [hp]; exact h37)]
      simp only [hp, FcStrBufChar, Bool.false_eq_true, if_false]
      have hadv : advance ⟨orig, literal_template (some a :: items), len, w, e⟩
          = ⟨orig, literal_template items, len, w, e⟩ := rfl
      rw [hadv, ih' (b ++ [a])]
      simp [literal_render]

theorem literal_template_map_some (t : List Nat) :
    literal_template (t.map some) = t ∧ literal_render (t.map some) = t := by
  induction t with
  | nil => exact ⟨rfl, rfl⟩
  | cons a t ih => simp [literal_template, literal_render, ih.1, ih.2]

/-- C11. Literal streaming at top level: a template made of literal bytes other
than NUL, `\` and `%` and of `%%` forms is rendered with success, without a
diagnostic, to the same bytes with one `%` for each `%%`, whatever the pattern;
in particular a template without NUL, `\` and `%` is rendered to itself. The fuel
needed is the number of items and one more. -/
theorem literal_spec {V : Type} (ext : Externals V) (pat : FcPattern V)
    (items : List (Option Nat)) (h : ∀ it ∈ items, literal_item it)
    (fuel : Nat) (hfuel : items.length + 1 ≤ fuel) :
    FcPatternFormat ext fuel pat (literal_template items)
      = some (some (literal_render items), []) ∧
    (∀ t : List Nat, (∀ b ∈ t, b ≠ 0 ∧ b ≠ 92 ∧ b ≠ 37) → ∀ n, t.length + 1 ≤ n →
      FcPatternFormat ext n pat t = some (some t, [])) := by
  have key : ∀ (its : List (Option Nat)), (∀ it ∈ its, literal_item it) →
      ∀ n, its.length + 1 ≤ n →
      FcPatternFormat ext n pat (literal_template its) = some (some (literal_render its), []) := by
    intro its hits n hn
    unfold FcPatternFormat FcFormatContextInit FcStrBufInit
    simp only [interpret_expr_literal ext pat _ _ _ _ its hits n hn, List.nil_append,
      FcStrBufDone, Bool.false_eq_true, if_false, cstr_eq_self _ (literal_render_nonzero its hits)]
  refine ⟨key items h fuel hfuel, ?_⟩
  intro t ht n hn
  have := key (t.map some) (by
    intro it hit
    obtain ⟨a, ha, rfl⟩ := List.mem_map.mp hit
    exact ht a ha) n (by simpa using hn)
  rwa [(literal_template_map_some t).1, (literal_template_map_some t).2] at this

/-- C11, at the template `100%% ok` and the pattern `P` with fuel 9: the render
is `100% ok`. -/
theorem literal_spec_witness :
    ((∀ it ∈ [some 49, some 48, some 48, none, some 32, some 111, some 107], literal_item it) ∧
      [some 49, some 48, some 48, none, some 32, some 111, some 107].length + 1 ≤ 9) ∧
    FcPatternFormat example_ext 9 example_P
        (literal_template [some 49, some 48, some 48, none, some 32, some 111, some 107])
      = some (some (literal_render
          [some 49, some 48, some 48, none, some 32, some 111, some 107]), []) :=
  ⟨⟨by decide, by decide⟩,
   (literal_spec example_ext example_P
     [some 49, some 48, some 48, none, some 32, some 111, some 107] (by decide) 9
     (by decide)).1⟩

/-! ## Missing closing brace and `expect_char` (C13) -/

theorem plain_word_nonzero (k : List Nat) (hk : plain_word k) : ∀ b ∈ k, b ≠ 0 := by
  intro b hb h0
  subst h0
  have := hk.2 0 hb
  simp [FcCharIsPunct] at this

theorem expect_char_miss (c : FcFormatContext) (X : Nat) (h : peek c ≠ X) :
    expect_char c X
      = (false, message c (if offset c = c.format_len then Message.format_ended X
          else Message.expected_char X (offset c + 1))) := by
  unfold expect_char consume_char
  simp only [h, ne_eq, not_false_eq_true, if_true]
  split_ifs <;> rfl

/-- C13. Missing closing brace: for an element name `k`, a non-empty run of
non-punctuation bytes, the template `%{k` fails to render with the one diagnostic
`format ended while expecting '}'`. In general, when the byte under the cursor is
not `X`, `expect_char (c, X)` fails and leaves the cursor where it is, and in a
template without NUL bytes it writes `format ended while expecting 'X'` when the
cursor is at the end and `expected 'X' at N` otherwise, with `N` the offset of
the cursor counted from 1. -/
theorem missing_brace_spec {V : Type} (ext : Externals V) (fuel : Nat) (pat : FcPattern V)
    (k : List Nat) (hk : plain_word k) :
    FcPatternFormat ext (fuel + 3) pat (37 :: 123 :: k)
      = some (none, [Message.format_ended 125]) ∧
    (Message.format_ended 125).text = bytes "format ended while expecting '\x7d'" ∧
    (∀ (c : FcFormatContext) (X : Nat), peek c ≠ X →
      (expect_char c X).1 = false ∧ (expect_char c X).2.format = c.format ∧
      (expect_char c X).2.err
        = c.err ++ [if offset c = c.format_len then Message.format_ended X
            else Message.expected_char X (offset c + 1)]) ∧
    (∀ (pre rest w : List Nat) (e : List Message) (X : Nat), (∀ b ∈ pre ++ rest, b ≠ 0) →
      rest.headD 0 ≠ X →
      (expect_char ⟨pre ++ rest, rest, (cstr (pre ++ rest)).length, w, e⟩ X).2.err
        = e ++ [if rest = [] then Message.format_ended X
            else Message.expected_char X (pre.length + 1)]) ∧
    (∀ X N : Nat, (Message.format_ended X).text
        = bytes "format ended while expecting '" ++ [X] ++ bytes "'" ∧
      (Message.expected_char X N).text
        = bytes "expected '" ++ [X] ++ bytes "' at " ++ snprintf_d N) := by
  refine ⟨?_, by decide, ?_, ?_, fun X N => ⟨rfl, rfl⟩⟩
  · have hz : ∀ b ∈ (37 :: 123 :: k), b ≠ 0 := by
      intro b hb
      simp only [List.mem_cons] at hb
      rcases hb with rfl | rfl | hb
      · decide
      · decide
      · exact plain_word_nonzero k hk b hb
    have hlen : (cstr (37 :: 123 :: k)).length = k.length + 2 := by
      rw [cstr_eq_self _ hz]; simp
    have hp : peek ⟨37 :: 123 :: k, 37 :: 123 :: k, (cstr (37 :: 123 :: k)).length, [], []⟩ = 37 :=
      rfl
    have hper : interpret_percent ext (fuel + 1 + 1)
        ⟨37 :: 123 :: k, 37 :: 123 :: k, (cstr (37 :: 123 :: k)).length, [], []⟩ pat ⟨[], false⟩
        = some (false, ⟨37 :: 123 :: k, [], (cstr (37 :: 123 :: k)).length, k,
            [Message.format_ended 125]⟩, ⟨[] ++ simple_value ext pat k, false⟩) := by
      conv_lhs => rw [show (⟨37 :: 123 :: k, 37 :: 123 :: k, (cstr (37 :: 123 :: k)).length, [], []⟩
          : FcFormatContext) = ⟨37 :: 123 :: k, 37 :: 123 :: (k ++ []),
            (cstr (37 :: 123 :: k)).length, [], []⟩ by simp]
      rw [interpret_percent_open]
      rw [if_neg (plain_word_dispatch k _ hk 123 (by decide)),
        if_neg (plain_word_dispatch k _ hk 43 (by decide)),
        if_neg (plain_word_dispatch k _ hk 45 (by decide)),
        if_neg (plain_word_dispatch k _ hk 63 (by decide)),
        if_neg (plain_word_dispatch k _ hk 35 (by decide))]
      rw [interpret_simple_value ext pat _ _ _ _ [] k [] hk (by left; rfl) (by simp)]
      simp only []
      rw [maybe_interpret_converts_none _ _ _ _ _ (by simp)]
      simp only []
      rw [align_zero _ _ (by simp)]
      simp only []
      rw [expect_char_miss _ _ (by simp [peek])]
      simp [offset, hlen, message]
    have hexpr : interpret_expr ext (fuel + 1 + 1 + 1)
        ⟨37 :: 123 :: k, 37 :: 123 :: k, (cstr (37 :: 123 :: k)).length, [], []⟩ pat ⟨[], false⟩ 0
        = some (false, ⟨37 :: 123 :: k, [], (cstr (37 :: 123 :: k)).length, k,
            [Message.format_ended 125]⟩, ⟨[] ++ simple_value ext pat k, false⟩) := by
      rw [interpret_expr, if_pos ⟨by rw [hp]; decide, by rw [hp]; decide⟩,
        if_neg (by rw [hp]; decide), if_pos hp, hper]
    show FcPatternFormat ext (fuel + 1 + 1 + 1) pat (37 :: 123 :: k) = _
    simp only [FcPatternFormat, FcFormatContextInit, FcStrBufInit, hexpr]
  · intro c X h
    rw [expect_char_miss c X h]
    exact ⟨rfl, rfl, rfl⟩
  · intro pre rest w e X hz hX
    rw [expect_char_miss _ _ (by simpa [peek] using hX)]
    have hlen : (cstr (pre ++ rest)).length = pre.length + rest.length := by
      rw [cstr_eq_self _ hz]; simp
    simp only [message, offset, hlen, List.length_append]
    congr 2
    by_cases hr : rest = []
    · subst hr; simp
    · have : 0 < rest.length := List.length_pos.mpr hr
      rw [if_neg (by omega), if_neg hr]
      congr 1
      omega

/-- C13, at the template `%{family` and the pattern `P` with fuel 3. -/
theorem missing_brace_spec_witness :
    plain_word (bytes "family") ∧
    FcPatternFormat example_ext (0 + 3) example_P (37 :: 123 :: bytes "family")
      = some (none, [Message.format_ended 125]) :=
  ⟨by decide, (missing_brace_spec example_ext 0 example_P (bytes "family") (by decide)).1⟩

/-! ## Cursor and diagnostics of the lexer primitives -/

theorem cursor_moved_refl (c : FcFormatContext) : cursor_moved c c :=
  ⟨rfl, rfl, [], rfl, by simp⟩

theorem cursor_moved_trans {a b c : FcFormatContext} (h1 : cursor_moved a b)
    (h2 : cursor_moved b c) : cursor_moved a c := by
  obtain ⟨o1, l1, x, hx, hxz⟩ := h1
  obtain ⟨o2, l2, y, hy, hyz⟩ := h2
  refine ⟨o2.trans o1, l2.trans l1, x ++ y, by rw [hx, hy, List.append_assoc], ?_⟩
  intro b hb
  rcases List.mem_append.mp hb with h | h
  · exact hxz b h
  · exact hyz b h

theorem cursor_moved_length {a b : FcFormatContext} (h : cursor_moved a b) :
    b.format.length ≤ a.format.length := by
  obtain ⟨_, _, x, hx, _⟩ := h
  rw [hx]; simp

theorem step_ok_refl (c : FcFormatContext) : step_ok true c c :=
  ⟨cursor_moved_refl c, rfl⟩

theorem step_ok_trans {a b c : FcFormatContext} {r : Bool} (h1 : step_ok true a b)
    (h2 : step_ok r b c) : step_ok r a c := by
  refine ⟨cursor_moved_trans h1.1 h2.1, ?_⟩
  have e1 : b.err = a.err := h1.2
  have := h2.2
  unfold one_diagnostic at this ⊢
  rw [e1] at this
  exact this

theorem step_ok_word {a b : FcFormatContext} (w : List Nat) (h : step_ok true a b) :
    step_ok true a { b with word := w } := h

theorem step_ok_word_left {a b : FcFormatContext} {r : Bool} (w : List Nat)
    (h : step_ok r { a with word := w } b) : step_ok r a b := h

theorem consume_char_ok (c c' : FcFormatContext) (t : Nat) (r : Bool) (ht : t ≠ 0)
    (h : consume_char c t = (r, c')) :
    step_ok true c c' ∧ (r = true → c.format = t :: c'.format) ∧ c'.word = c.word := by
  unfold consume_char at h
  by_cases hp : peek c = t
  · simp only [hp, ne_eq, not_true_eq_false, if_false, Prod.mk.injEq] at h
    obtain ⟨rfl, rfl⟩ := h
    have hf : c.format = t :: c.format.tail := by
      unfold peek at hp
      cases hc : c.format with
      | nil => rw [hc] at hp; exact absurd hp.symm ht
      | cons a l => rw [hc] at hp; simp at hp; simp [hp]
    refine ⟨⟨⟨rfl, rfl, [t], ?_, ?_⟩, rfl⟩, fun _ => hf, rfl⟩
    · simpa [advance] using hf
    · simpa using ht
  · simp only [hp, ne_eq, not_false_eq_true, if_true, Prod.mk.injEq] at h
    obtain ⟨rfl, rfl⟩ := h
    exact ⟨step_ok_refl c, fun h => absurd h (by simp), rfl⟩

theorem expect_char_ok (c c' : FcFormatContext) (t : Nat) (r : Bool) (ht : t ≠ 0)
    (h : expect_char c t = (r, c')) :
    step_ok r c c' ∧ (r = true → c.format = t :: c'.format) ∧ c'.word = c.word := by
  unfold expect_char at h
  rcases hc : consume_char c t with ⟨r1, c1⟩
  obtain ⟨h1, h2, h3⟩ := consume_char_ok c c1 t r1 ht hc
  rw [hc] at h
  cases r1 with
  | true =>
    simp only [Prod.mk.injEq] at h
    obtain ⟨rfl, rfl⟩ := h
    exact ⟨h1, h2, h3⟩
  | false =>
    simp only at h
    split_ifs at h with hoff
    · simp only [Prod.mk.injEq] at h
      obtain ⟨rfl, rfl⟩ := h
      exact ⟨⟨h1.1, ⟨.format_ended t, by rw [message, show c1.err = c.err from h1.2], hoff⟩⟩,
        fun h => absurd h (by simp), h3⟩
    · simp only [Prod.mk.injEq] at h
      obtain ⟨rfl, rfl⟩ := h
      exact ⟨⟨h1.1, ⟨.expected_char t (offset c1 + 1),
          by rw [message, show c1.err = c.err from h1.2], rfl, hoff⟩⟩,
        fun h => absurd h (by simp), h3⟩

theorem read_word_loop_moved (fmt p : List Nat) :
    ∃ consumed, fmt = consumed ++ (read_word_loop fmt p).1 ∧ (∀ b ∈ consumed, b ≠ 0) ∧
      (consumed = [] → (read_word_loop fmt p).2 = p) := by
  induction fmt, p using read_word_loop.induct with
  | case1 p => exact ⟨[], by simp [read_word_loop], by simp, fun _ => by simp [read_word_loop]⟩
  | case2 fmt p =>
    rw [read_word_loop_stop _ _ _ (Or.inl rfl)]
    exact ⟨[], rfl, by simp, fun _ => rfl⟩
  | case3 p h =>
    refine ⟨[92], ?_, by simp, by simp⟩
    rw [read_word_loop.eq_def]; simp
  | case4 p fmt h =>
    refine ⟨[92], ?_, by simp, by simp⟩
    rw [read_word_loop.eq_def]; simp
  | case5 p x fmt hx h ih =>
    rw [read_word_loop_esc _ _ _ hx]
    obtain ⟨cns, h1, h2, _⟩ := ih
    refine ⟨92 :: x :: cns, by simpa using h1, ?_, by simp⟩
    intro b hb
    simp only [List.mem_cons] at hb
    rcases hb with rfl | rfl | hb
    · decide
    · exact hx
    · exact h2 b hb
  | case6 ch fmt p h1 h2 h3 =>
    rw [read_word_loop_stop _ _ _ (Or.inr ⟨h2, h3⟩)]
    exact ⟨[], rfl, by simp, fun _ => rfl⟩
  | case7 ch fmt p h1 h2 h3 ih =>
    rw [read_word_loop_plain _ _ _ (by simpa using h3)]
    obtain ⟨cns, e1, e2, _⟩ := ih
    refine ⟨ch :: cns, by simpa using e1, ?_, by simp⟩
    intro b hb
    simp only [List.mem_cons] at hb
    rcases hb with rfl | hb
    · exact h1
    · exact e2 b hb

theorem read_chars_loop_moved (term : Nat) (fmt p : List Nat) :
    ∃ consumed, fmt = consumed ++ (read_chars_loop term fmt p).1 ∧ (∀ b ∈ consumed, b ≠ 0) ∧
      (consumed = [] → (read_chars_loop term fmt p).2 = p) := by
  induction fmt, p using read_chars_loop.induct term with
  | case1 p => exact ⟨[], by simp [read_chars_loop], by simp, fun _ => by simp [read_chars_loop]⟩
  | case2 ch fmt p h =>
    rw [read_chars_loop_stop _ _ _ _ h]
    exact ⟨[], rfl, by simp, fun _ => rfl⟩
  | case3 p h =>
    have ht : ¬ 92 = term := fun e => h (Or.inr (Or.inr e))
    refine ⟨[92], ?_, by simp, by simp⟩
    rw [read_chars_loop.eq_def]; simp [ht]
  | case4 p fmt h =>
    have ht : ¬ 92 = term := fun e => h (Or.inr (Or.inr e))
    refine ⟨[92], ?_, by simp, by simp⟩
    rw [read_chars_loop.eq_def]; simp [ht]
  | case5 p x fmt hx h ih =>
    rw [read_chars_loop_esc _ _ _ _ h hx]
    obtain ⟨cns, h1, h2, _⟩ := ih
    refine ⟨92 :: x :: cns, by simpa using h1, ?_, by simp⟩
    intro b hb
    simp only [List.mem_cons] at hb
    rcases hb with rfl | rfl | hb
    · decide
    · exact hx
    · exact h2 b hb
  | case6 ch fmt p h1 h2 ih =>
    rw [read_chars_loop_plain _ _ _ _ h1 h2]
    obtain ⟨cns, e1, e2, _⟩ := ih
    refine ⟨ch :: cns, by simpa using e1, ?_, by simp⟩
    intro b hb
    simp only [List.mem_cons] at hb
    rcases hb with rfl | hb
    · exact fun h0 => h1 (Or.inl h0)
    · exact e2 b hb

theorem read_word_ok (c c' : FcFormatContext) (r : Bool) (h : read_word c = (r, c')) :
    step_ok r c c' ∧ (r = true → c'.format.length < c.format.length) := by
  unfold read_word at h
  obtain ⟨cns, e1, e2, e3⟩ := read_word_loop_moved c.format []
  by_cases he : (read_word_loop c.format []).2 = []
  · simp only [he, if_true, Prod.mk.injEq] at h
    obtain ⟨rfl, rfl⟩ := h
    exact ⟨⟨⟨rfl, rfl, cns, e1, e2⟩, ⟨_, rfl, rfl⟩⟩, fun h => absurd h (by simp)⟩
  · simp only [he, if_false, Prod.mk.injEq] at h
    obtain ⟨rfl, rfl⟩ := h
    refine ⟨⟨⟨rfl, rfl, cns, e1, e2⟩, rfl⟩, fun _ => ?_⟩
    have hc : cns ≠ [] := fun hc => he (e3 hc)
    have := List.length_pos.mpr hc
    show (read_word_loop c.format []).1.length < c.format.length
    conv_rhs => rw [e1]
    simp only [List.length_append]; omega

theorem read_chars_ok (c c' : FcFormatContext) (term : Nat) (r : Bool)
    (h : read_chars c term = (r, c')) :
    step_ok r c c' ∧ (r = true → c'.format.length < c.format.length) := by
  unfold read_chars at h
  obtain ⟨cns, e1, e2, e3⟩ := read_chars_loop_moved term c.format []
  by_cases he : (read_chars_loop term c.format []).2 = []
  · simp only [he, if_true, Prod.mk.injEq] at h
    obtain ⟨rfl, rfl⟩ := h
    exact ⟨⟨⟨rfl, rfl, cns, e1, e2⟩, ⟨_, rfl, rfl⟩⟩, fun h => absurd h (by simp)⟩
  · simp only [he, if_false, Prod.mk.injEq] at h
    obtain ⟨rfl, rfl⟩ := h
    refine ⟨⟨⟨rfl, rfl, cns, e1, e2⟩, rfl⟩, fun _ => ?_⟩
    have hc : cns ≠ [] := fun hc => he (e3 hc)
    have := List.length_pos.mpr hc
    show (read_chars_loop term c.format []).1.length < c.format.length
    conv_rhs => rw [e1]
    simp only [List.length_append]; omega
theorem read_chars_fail_word (c c' : FcFormatContext) (term : Nat) (w : List Nat)
    (h : read_chars c term = (false, c')) : step_ok false c { c' with word := w } := by
  unfold read_chars at h
  obtain ⟨cns, e1, e2, e3⟩ := read_chars_loop_moved term c.format []
  by_cases he : (read_chars_loop term c.format []).2 = []
  · simp only [he, if_true, Prod.mk.injEq] at h
    obtain ⟨_, rfl⟩ := h
    exact ⟨⟨rfl, rfl, cns, e1, e2⟩, ⟨_, rfl, rfl⟩⟩
  · simp [he] at h

theorem strtol_digits_moved (s : List Nat) (acc : Nat) :
    ∃ d, s = d ++ (strtol_digits s acc).2 ∧ ∀ b ∈ d, b ≠ 0 := by
  induction s generalizing acc with
  | nil => exact ⟨[], by simp [strtol_digits], by simp⟩
  | cons a s ih =>
    rw [strtol_digits]
    by_cases h : 48 ≤ a ∧ a ≤ 57
    · rw [if_pos h]
      obtain ⟨d, e1, e2⟩ := ih (10 * acc + (a - 48))
      refine ⟨a :: d, by simpa using e1, ?_⟩
      intro b hb
      rcases List.mem_cons.mp hb with rfl | hb
      · omega
      · exact e2 b hb
    · rw [if_neg h]
      exact ⟨[], rfl, by simp⟩

theorem dropWhile_isspace_moved (s : List Nat) :
    ∃ d, s = d ++ s.dropWhile isspace ∧ ∀ b ∈ d, b ≠ 0 := by
  refine ⟨s.takeWhile isspace, (List.takeWhile_append_dropWhile _ s).symm, ?_⟩
  intro b hb h0
  have := List.mem_takeWhile_imp hb
  subst h0
  simp [isspace] at this

theorem strtol_moved (s : List Nat) :
    ∃ d, s = d ++ (strtol s).2 ∧ ∀ b ∈ d, b ≠ 0 := by
  obtain ⟨d1, e1, z1⟩ := dropWhile_isspace_moved s
  have hs : ∀ sign : Bool × List Nat,
      (match s.dropWhile isspace with
        | 45 :: r => (true, r)
        | 43 :: r => (false, r)
        | _ => (false, s.dropWhile isspace) : Bool × List Nat) = sign →
      ∃ d2, s.dropWhile isspace = d2 ++ sign.2 ∧ ∀ b ∈ d2, b ≠ 0 := by
    intro sign hsign
    rw [← hsign]
    split
    · next r h => exact ⟨[45], by simp [h], by simp⟩
    · next r h => exact ⟨[43], by simp [h], by simp⟩
    · exact ⟨[], rfl, by simp⟩
  obtain ⟨d2, e2, z2⟩ := hs _ rfl
  obtain ⟨d3, e3, z3⟩ := strtol_digits_moved (match s.dropWhile isspace with
      | 45 :: r => (true, r)
      | 43 :: r => (false, r)
      | _ => (false, s.dropWhile isspace) : Bool × List Nat).2 0
  have hpos : ∃ d, s = d ++ (strtol_digits (match s.dropWhile isspace with
      | 45 :: r => (true, r)
      | 43 :: r => (false, r)
      | _ => (false, s.dropWhile isspace) : Bool × List Nat).2 0).2 ∧ ∀ b ∈ d, b ≠ 0 := by
    refine ⟨d1 ++ d2 ++ d3, ?_, ?_⟩
    · simp only [List.append_assoc]
      exact e1.trans ((congrArg (fun z => d1 ++ z) e2).trans
        (congrArg (fun z => d1 ++ (d2 ++ z)) e3))
    · intro b hb
      simp only [List.mem_append] at hb
      rcases hb with (h | h) | h
      · exact z1 b h
      · exact z2 b h
      · exact z3 b h
  simp only [strtol]
  split_ifs
  · exact hpos
  · exact hpos
  · exact ⟨[], rfl, by simp⟩

theorem FcStrBufChar_failed (buf : FcStrBuf) (ch : Nat) :
    (FcStrBufChar buf ch).failed = buf.failed := by
  unfold FcStrBufChar; split_ifs <;> rfl

theorem FcStrBufString_failed (buf : FcStrBuf) (s : List Nat) :
    (FcStrBufString buf s).failed = buf.failed := by
  unfold FcStrBufString; split_ifs <;> rfl

theorem FcStrBufData_failed (buf : FcStrBuf) (s : List Nat) (n : Nat) :
    (FcStrBufData buf s n).failed = buf.failed := by
  unfold FcStrBufData; split_ifs <;> rfl

theorem cescape_loop_failed (str : List Nat) (buf : FcStrBuf) :
    (cescape_loop str buf).failed = buf.failed := by
  induction str generalizing buf with
  | nil => rfl
  | cons a str ih =>
    rw [cescape_loop]
    split_ifs
    · rfl
    · rw [ih, FcStrBufChar_failed, FcStrBufChar_failed]
    · rw [ih, FcStrBufChar_failed]

theorem shescape_loop_failed (str : List Nat) (buf : FcStrBuf) :
    (shescape_loop str buf).failed = buf.failed := by
  induction str generalizing buf with
  | nil => rfl
  | cons a str ih =>
    rw [shescape_loop]
    split_ifs
    · rfl
    · rw [ih, FcStrBufString_failed]
    · rw [ih, FcStrBufChar_failed]

theorem xmlescape_loop_failed (str : List Nat) (buf : FcStrBuf) :
    (xmlescape_loop str buf).failed = buf.failed := by
  induction str generalizing buf with
  | nil => rfl
  | cons a str ih =>
    rw [xmlescape_loop]
    split_ifs
    · rfl
    · rw [ih, FcStrBufString_failed]
    · rw [ih, FcStrBufString_failed]
    · rw [ih, FcStrBufString_failed]
    · rw [ih, FcStrBufChar_failed]

theorem delete_chars_loop_failed (word : List Nat) (fuel : Nat) (str : List Nat) (buf : FcStrBuf) :
    (delete_chars_loop word fuel str buf).failed = buf.failed := by
  induction fuel generalizing str buf with
  | zero => rfl
  | succ n ih =>
    rw [delete_chars_loop]
    split_ifs
    · rfl
    · split
      · rw [ih, FcStrBufData_failed]
      · rw [FcStrBufString_failed]

theorem escape_chars_loop_failed (word : List Nat) (fuel : Nat) (str : List Nat) (buf : FcStrBuf) :
    (escape_chars_loop word fuel str buf).failed = buf.failed := by
  induction fuel generalizing str buf with
  | zero => rfl
  | succ n ih =>
    rw [escape_chars_loop]
    split_ifs
    · rfl
    · split
      · simp only [ih, FcStrBufChar_failed, FcStrBufData_failed]
      · rw [FcStrBufString_failed]

theorem translate_chars_loop_failed (from_ to_ : List Nat) (to_len rep : Nat) (fuel : Nat)
    (str : List Nat) (buf : FcStrBuf) :
    (translate_chars_loop from_ to_ to_len rep fuel str buf).failed = buf.failed := by
  induction fuel generalizing str buf with
  | zero => rfl
  | succ n ih =>
    rw [translate_chars_loop]
    split_ifs
    · rfl
    · split
      · simp only [ih, FcStrBufChar_failed, FcStrBufData_failed]
      · rw [FcStrBufString_failed]

theorem FcStrBufDone_isSome (buf : FcStrBuf) (h : buf.failed = false) :
    (FcStrBufDone buf).isSome = true := by
  unfold FcStrBufDone; simp [h]
/-! ## Cursor and diagnostics of the converters -/

theorem delete_chars_ok (c c' : FcFormatContext) (str : List Nat) (o : Option (List Nat))
    (h : delete_chars c str = (o, c')) : step_ok o.isSome c c' := by
  unfold delete_chars at h
  rcases h1 : expect_char c 40 with ⟨r1, c1⟩
  have k1 := (expect_char_ok c c1 40 r1 (by decide) h1).1
  rw [h1] at h
  cases r1 with
  | false =>
    simp only [Prod.mk.injEq] at h; obtain ⟨rfl, rfl⟩ := h; exact k1
  | true =>
    simp only at h
    rcases h2 : read_chars c1 41 with ⟨r2, c2⟩
    have k2 := (read_chars_ok c1 c2 41 r2 h2).1
    rw [h2] at h
    cases r2 with
    | false =>
      simp only [Prod.mk.injEq] at h; obtain ⟨rfl, rfl⟩ := h; exact step_ok_trans k1 k2
    | true =>
      simp only at h
      rcases h3 : expect_char c2 41 with ⟨r3, c3⟩
      have k3 := (expect_char_ok c2 c3 41 r3 (by decide) h3).1
      rw [h3] at h
      cases r3 with
      | false =>
        simp only [Prod.mk.injEq] at h; obtain ⟨rfl, rfl⟩ := h
        exact step_ok_trans k1 (step_ok_trans k2 k3)
      | true =>
        simp only [Prod.mk.injEq] at h; obtain ⟨rfl, rfl⟩ := h
        rw [FcStrBufDone_isSome _ (by rw [delete_chars_loop_failed]; rfl)]
        exact step_ok_trans k1 (step_ok_trans k2 k3)

theorem escape_chars_ok (c c' : FcFormatContext) (str : List Nat) (o : Option (List Nat))
    (h : escape_chars c str = (o, c')) : step_ok o.isSome c c' := by
  unfold escape_chars at h
  rcases h1 : expect_char c 40 with ⟨r1, c1⟩
  have k1 := (expect_char_ok c c1 40 r1 (by decide) h1).1
  rw [h1] at h
  cases r1 with
  | false =>
    simp only [Prod.mk.injEq] at h; obtain ⟨rfl, rfl⟩ := h; exact k1
  | true =>
    simp only at h
    rcases h2 : read_chars c1 41 with ⟨r2, c2⟩
    have k2 := (read_chars_ok c1 c2 41 r2 h2).1
    rw [h2] at h
    cases r2 with
    | false =>
      simp only [Prod.mk.injEq] at h; obtain ⟨rfl, rfl⟩ := h; exact step_ok_trans k1 k2
    | true =>
      simp only at h
      rcases h3 : expect_char c2 41 with ⟨r3, c3⟩
      have k3 := (expect_char_ok c2 c3 41 r3 (by decide) h3).1
      rw [h3] at h
      cases r3 with
      | false =>
        simp only [Prod.mk.injEq] at h; obtain ⟨rfl, rfl⟩ := h
        exact step_ok_trans k1 (step_ok_trans k2 k3)
      | true =>
        simp only [Prod.mk.injEq] at h; obtain ⟨rfl, rfl⟩ := h
        rw [FcStrBufDone_isSome _ (by rw [escape_chars_loop_failed]; rfl)]
        exact step_ok_trans k1 (step_ok_trans k2 k3)

theorem translate_chars_ok (c c' : FcFormatContext) (str : List Nat) (o : Option (List Nat))
    (h : translate_chars c str = (o, c')) : step_ok o.isSome c c' := by
  unfold translate_chars at h
  rcases h1 : expect_char c 40 with ⟨r1, c1⟩
  have k1 := (expect_char_ok c c1 40 r1 (by decide) h1).1
  rw [h1] at h
  cases r1 with
  | false =>
    simp only [Prod.mk.injEq] at h; obtain ⟨rfl, rfl⟩ := h; exact k1
  | true =>
    simp only at h
    rcases h2 : read_chars c1 44 with ⟨r2, c2⟩
    have k2 := (read_chars_ok c1 c2 44 r2 h2).1
    rw [h2] at h
    cases r2 with
    | false =>
      simp only [Prod.mk.injEq] at h; obtain ⟨rfl, rfl⟩ := h; exact step_ok_trans k1 k2
    | true =>
      simp only at h
      rcases h3 : expect_char c2 44 with ⟨r3, c3⟩
      have k3 := (expect_char_ok c2 c3 44 r3 (by decide) h3).1
      rw [h3] at h
      cases r3 with
      | false =>
        simp only [Prod.mk.injEq] at h; obtain ⟨rfl, rfl⟩ := h
        exact step_ok_trans k1 (step_ok_trans k2 k3)
      | true =>
        simp only at h
        rcases h4 : read_chars c3 41 with ⟨r4, c4⟩
        have k4 := (read_chars_ok c3 c4 41 r4 h4).1
        rw [h4] at h
        cases r4 with
        | false =>
          simp only [Prod.mk.injEq] at h; obtain ⟨rfl, rfl⟩ := h
          exact step_ok_trans k1 (step_ok_trans k2 (step_ok_trans k3
            (read_chars_fail_word c3 c4 41 _ h4)))
        | true =>
          simp only at h
          rcases h5 : expect_char { c4 with word := c3.word } 41 with ⟨r5, c5⟩
          have k5 := (expect_char_ok _ c5 41 r5 (by decide) h5).1
          rw [h5] at h
          have k14 : step_ok true c { c4 with word := c3.word } :=
            step_ok_trans k1 (step_ok_trans k2 (step_ok_trans k3 (step_ok_word _ k4)))
          cases r5 with
          | false =>
            simp only [Prod.mk.injEq] at h; obtain ⟨rfl, rfl⟩ := h
            exact step_ok_trans k14 k5
          | true =>
            simp only [Prod.mk.injEq] at h; obtain ⟨rfl, rfl⟩ := h
            rw [FcStrBufDone_isSome _ (by rw [translate_chars_loop_failed]; rfl)]
            exact step_ok_trans k14 k5

theorem convert_ok {V : Type} (ext : Externals V) (c c' : FcFormatContext) (str : List Nat)
    (o : Option (List Nat)) (h : convert ext c str = (o, c')) :
    step_ok o.isSome c c' ∧ c'.format.length < c.format.length ∨
      (o = none ∧ step_ok false c c') := by
  unfold convert at h
  rcases h1 : read_word c with ⟨r1, c1⟩
  obtain ⟨k1, l1⟩ := read_word_ok c c1 r1 h1
  rw [h1] at h
  cases r1 with
  | false =>
    simp only [Prod.mk.injEq] at h; obtain ⟨rfl, rfl⟩ := h; exact Or.inr ⟨rfl, k1⟩
  | true =>
    have l1 := l1 rfl
    simp only at h
    have fin : ∀ (o2 : Option (List Nat)) (c2 : FcFormatContext), step_ok o2.isSome c1 c2 →
        step_ok o2.isSome c c2 ∧ c2.format.length < c.format.length ∨
          (o2 = none ∧ step_ok false c c2) := by
      intro o2 c2 hs
      have := cursor_moved_length hs.1
      exact Or.inl ⟨step_ok_trans k1 hs, by omega⟩
    split_ifs at h
    all_goals first
      | (simp only [Prod.mk.injEq] at h; obtain ⟨rfl, rfl⟩ := h
         exact fin _ _ (step_ok_refl _))
      | skip
    · simp only [Prod.mk.injEq] at h; obtain ⟨rfl, rfl⟩ := h
      have : (cescape str).isSome = true :=
        FcStrBufDone_isSome _ (by rw [cescape_loop_failed]; rfl)
      have hs : step_ok (cescape str).isSome c1 c1 := by rw [this]; exact step_ok_refl _
      exact fin _ _ hs
    · simp only [Prod.mk.injEq] at h; obtain ⟨rfl, rfl⟩ := h
      have : (shescape str).isSome = true :=
        FcStrBufDone_isSome _ (by rw [FcStrBufChar_failed, shescape_loop_failed]; rfl)
      have hs : step_ok (shescape str).isSome c1 c1 := by rw [this]; exact step_ok_refl _
      exact fin _ _ hs
    · simp only [Prod.mk.injEq] at h; obtain ⟨rfl, rfl⟩ := h
      have : (xmlescape str).isSome = true :=
        FcStrBufDone_isSome _ (by rw [xmlescape_loop_failed]; rfl)
      have hs : step_ok (xmlescape str).isSome c1 c1 := by rw [this]; exact step_ok_refl _
      exact fin _ _ hs
    · exact fin _ _ (delete_chars_ok c1 c' str o h)
    · exact fin _ _ (escape_chars_ok c1 c' str o h)
    · exact fin _ _ (translate_chars_ok c1 c' str o h)
    · simp only [Prod.mk.injEq] at h; obtain ⟨rfl, rfl⟩ := h
      refine Or.inr ⟨rfl, step_ok_trans k1 ⟨cursor_moved_refl _, ⟨_, rfl, rfl⟩⟩⟩

/-! ## Cursor and diagnostics of the evaluators -/

theorem pad_loop_failed (n : Nat) (buf : FcStrBuf) (h : buf.failed = false) :
    (pad_loop n buf).failed = false := by
  rw [pad_loop_eq n buf h]

theorem align_to_width_ok (buf : FcStrBuf) (start : Nat) (width : Int)
    (h : buf.failed = false) :
    (align_to_width buf start width).1 = true ∧
      (align_to_width buf start width).2.failed = false := by
  unfold align_to_width
  simp only [h, Bool.false_eq_true, if_false]
  split_ifs with h1 h2 h3
  · simp [pad_loop_failed _ _ h]
  · simp [pad_loop_failed _ _ h] at h3
  · simp [pad_loop_failed _ _ h]
  · simp [h]

theorem expect_char_len (c c' : FcFormatContext) (t : Nat) (r : Bool) (ht : t ≠ 0)
    (h : expect_char c t = (r, c')) :
    step_ok r c c' ∧ (r = true → c'.format.length + 1 = c.format.length) := by
  obtain ⟨h1, h2, _⟩ := expect_char_ok c c' t r ht h
  refine ⟨h1, fun hr => ?_⟩
  rw [h2 hr]; simp

theorem consume_char_len (c c' : FcFormatContext) (t : Nat) (r : Bool) (ht : t ≠ 0)
    (h : consume_char c t = (r, c')) :
    step_ok true c c' ∧ (r = true → c'.format.length + 1 = c.format.length) := by
  obtain ⟨h1, h2, _⟩ := consume_char_ok c c' t r ht h
  refine ⟨h1, fun hr => ?_⟩
  rw [h2 hr]; simp

theorem interpret_count_ok {V : Type} (c c' : FcFormatContext) (pat : FcPattern V)
    (buf buf' : FcStrBuf) (r : Bool) (hb : buf.failed = false)
    (h : interpret_count c pat buf = (r, c', buf')) :
    step_ok r c c' ∧ buf'.failed = false := by
  unfold interpret_count at h
  rcases h1 : expect_char c 35 with ⟨r1, c1⟩
  have k1 := (expect_char_len c c1 35 r1 (by decide) h1).1
  rw [h1] at h
  cases r1 with
  | false =>
    simp only [Prod.mk.injEq] at h; obtain ⟨rfl, rfl, rfl⟩ := h; exact ⟨k1, hb⟩
  | true =>
    simp only at h
    rcases h2 : read_word c1 with ⟨r2, c2⟩
    have k2 := (read_word_ok c1 c2 r2 h2).1
    rw [h2] at h
    cases r2 with
    | false =>
      simp only [Prod.mk.injEq] at h; obtain ⟨rfl, rfl, rfl⟩ := h
      exact ⟨step_ok_trans k1 k2, hb⟩
    | true =>
      simp only [Prod.mk.injEq] at h; obtain ⟨rfl, rfl, rfl⟩ := h
      exact ⟨step_ok_trans k1 k2, by rw [FcStrBufString_failed]; exact hb⟩

theorem interpret_simple_ok {V : Type} (ext : Externals V) (c c' : FcFormatContext)
    (pat : FcPattern V) (buf buf' : FcStrBuf) (r : Bool) (hb : buf.failed = false)
    (h : interpret_simple ext c pat buf = (r, c', buf')) :
    step_ok r c c' ∧ buf'.failed = false := by
  unfold interpret_simple at h
  rcases h1 : consume_char c 58 with ⟨r1, c1⟩
  have k1 := (consume_char_len c c1 58 r1 (by decide) h1).1
  rw [h1] at h
  simp only at h
  rcases h2 : read_word c1 with ⟨r2, c2⟩
  have k2 := (read_word_ok c1 c2 r2 h2).1
  rw [h2] at h
  cases r2 with
  | false =>
    simp only [Prod.mk.injEq] at h; obtain ⟨rfl, rfl, rfl⟩ := h
    exact ⟨step_ok_trans k1 k2, hb⟩
  | true =>
    simp only at h
    rcases h3 : consume_char c2 61 with ⟨r3, c3⟩
    have k3 := (consume_char_len c2 c3 61 r3 (by decide) h3).1
    rw [h3] at h
    simp only at h
    have k : step_ok true c c3 := step_ok_trans k1 (step_ok_trans k2 k3)
    cases hf : FcPatternObjectFindElt pat c3.word with
    | none =>
      rw [hf] at h
      simp only [Prod.mk.injEq] at h; obtain ⟨rfl, rfl, rfl⟩ := h
      exact ⟨k, hb⟩
    | some e =>
      rw [hf] at h
      simp only [Prod.mk.injEq] at h; obtain ⟨rfl, rfl, rfl⟩ := h
      refine ⟨k, ?_⟩
      unfold FcNameUnparseValueList
      rw [FcStrBufData_failed]
      split_ifs <;> simp [FcStrBufChar_failed, FcStrBufString_failed, hb]

theorem interpret_filter_loop_ok (fuel : Nat) (c c' : FcFormatContext) (os os' : List (List Nat))
    (r : Bool) (h : interpret_filter_loop fuel c os = some (r, c', os')) :
    step_ok r c c' ∧ (r = true → c'.format.length < c.format.length) := by
  induction fuel generalizing c os with
  | zero => simp [interpret_filter_loop] at h
  | succ fuel ih =>
    unfold interpret_filter_loop at h
    rcases h1 : read_word c with ⟨r1, c1⟩
    obtain ⟨k1, l1⟩ := read_word_ok c c1 r1 h1
    rw [h1] at h
    cases r1 with
    | false =>
      simp only [Option.some.injEq, Prod.mk.injEq] at h; obtain ⟨rfl, rfl, rfl⟩ := h
      exact ⟨k1, by simp⟩
    | true =>
      have l1 := l1 rfl
      simp only at h
      rcases h2 : consume_char c1 44 with ⟨r2, c2⟩
      have k2 := (consume_char_len c1 c2 44 r2 (by decide) h2).1
      have l2 := cursor_moved_length k2.1
      rw [h2] at h
      cases r2 with
      | false =>
        simp only [Option.some.injEq, Prod.mk.injEq] at h; obtain ⟨rfl, rfl, rfl⟩ := h
        exact ⟨step_ok_trans k1 k2, fun _ => by omega⟩
      | true =>
        simp only at h
        obtain ⟨k3, l3⟩ := ih c2 _ h
        exact ⟨step_ok_trans k1 (step_ok_trans k2 k3), fun hr => by have := l3 hr; omega⟩

theorem interpret_filter_loop_total (fuel : Nat) (c : FcFormatContext) (os : List (List Nat))
    (h : c.format.length + 1 ≤ fuel) : (interpret_filter_loop fuel c os).isSome = true := by
  induction fuel generalizing c os with
  | zero => omega
  | succ fuel ih =>
    unfold interpret_filter_loop
    rcases h1 : read_word c with ⟨r1, c1⟩
    obtain ⟨k1, l1⟩ := read_word_ok c c1 r1 h1
    cases r1 with
    | false => rfl
    | true =>
      have l1 := l1 rfl
      simp only
      rcases h2 : consume_char c1 44 with ⟨r2, c2⟩
      have k2 := (consume_char_len c1 c2 44 r2 (by decide) h2).1
      have l2 := cursor_moved_length k2.1
      cases r2 with
      | false => rfl
      | true => exact ih c2 _ (by omega)

theorem interpret_delete_loop_ok {V : Type} (fuel : Nat) (c c' : FcFormatContext)
    (sp sp' : FcPattern V) (r : Bool)
    (h : interpret_delete_loop fuel c sp = some (r, c', sp')) :
    step_ok r c c' ∧ (r = true → c'.format.length < c.format.length) := by
  induction fuel generalizing c sp with
  | zero => simp [interpret_delete_loop] at h
  | succ fuel ih =>
    unfold interpret_delete_loop at h
    rcases h1 : read_word c with ⟨r1, c1⟩
    obtain ⟨k1, l1⟩ := read_word_ok c c1 r1 h1
    rw [h1] at h
    cases r1 with
    | false =>
      simp only [Option.some.injEq, Prod.mk.injEq] at h; obtain ⟨rfl, rfl, rfl⟩ := h
      exact ⟨k1, by simp⟩
    | true =>
      have l1 := l1 rfl
      simp only at h
      rcases h2 : consume_char c1 44 with ⟨r2, c2⟩
      have k2 := (consume_char_len c1 c2 44 r2 (by decide) h2).1
      have l2 := cursor_moved_length k2.1
      rw [h2] at h
      cases r2 with
      | false =>
        simp only [Option.some.injEq, Prod.mk.injEq] at h; obtain ⟨rfl, rfl, rfl⟩ := h
        exact ⟨step_ok_trans k1 k2, fun _ => by omega⟩
      | true =>
        simp only at h
        obtain ⟨k3, l3⟩ := ih c2 _ h
        exact ⟨step_ok_trans k1 (step_ok_trans k2 k3), fun hr => by have := l3 hr; omega⟩

theorem interpret_delete_loop_total {V : Type} (fuel : Nat) (c : FcFormatContext)
    (sp : FcPattern V) (h : c.format.length + 1 ≤ fuel) :
    (interpret_delete_loop fuel c sp).isSome = true := by
  induction fuel generalizing c sp with
  | zero => omega
  | succ fuel ih =>
    unfold interpret_delete_loop
    rcases h1 : read_word c with ⟨r1, c1⟩
    obtain ⟨k1, l1⟩ := read_word_ok c c1 r1 h1
    cases r1 with
    | false => rfl
    | true =>
      have l1 := l1 rfl
      simp only
      rcases h2 : consume_char c1 44 with ⟨r2, c2⟩
      have k2 := (consume_char_len c1 c2 44 r2 (by decide) h2).1
      have l2 := cursor_moved_length k2.1
      cases r2 with
      | false => rfl
      | true => exact ih c2 _ (by omega)

theorem interpret_cond_loop_ok {V : Type} (pat : FcPattern V) (fuel : Nat)
    (c c' : FcFormatContext) (p p' : Bool) (r : Bool)
    (h : interpret_cond_loop pat fuel c p = some (r, c', p')) :
    step_ok r c c' ∧ (r = true → c'.format.length < c.format.length) := by
  induction fuel generalizing c p with
  | zero => simp [interpret_cond_loop] at h
  | succ fuel ih =>
    unfold interpret_cond_loop at h
    rcases h0 : consume_char c 33 with ⟨r0, c0⟩
    have k0 := (consume_char_len c c0 33 r0 (by decide) h0).1
    have l0 := cursor_moved_length k0.1
    rw [h0] at h
    simp only at h
    rcases h1 : read_word c0 with ⟨r1, c1⟩
    obtain ⟨k1, l1⟩ := read_word_ok c0 c1 r1 h1
    rw [h1] at h
    cases r1 with
    | false =>
      simp only [Option.some.injEq, Prod.mk.injEq] at h; obtain ⟨rfl, rfl, rfl⟩ := h
      exact ⟨step_ok_trans k0 k1, by simp⟩
    | true =>
      have l1 := l1 rfl
      simp only at h
      rcases h2 : consume_char c1 44 with ⟨r2, c2⟩
      have k2 := (consume_char_len c1 c2 44 r2 (by decide) h2).1
      have l2 := cursor_moved_length k2.1
      rw [h2] at h
      cases r2 with
      | false =>
        simp only [Option.some.injEq, Prod.mk.injEq] at h; obtain ⟨rfl, rfl, rfl⟩ := h
        exact ⟨step_ok_trans k0 (step_ok_trans k1 k2), fun _ => by omega⟩
      | true =>
        simp only at h
        obtain ⟨k3, l3⟩ := ih c2 _ h
        exact ⟨step_ok_trans k0 (step_ok_trans k1 (step_ok_trans k2 k3)),
          fun hr => by have := l3 hr; omega⟩

theorem interpret_cond_loop_total {V : Type} (pat : FcPattern V) (fuel : Nat)
    (c : FcFormatContext) (p : Bool) (h : c.format.length + 1 ≤ fuel) :
    (interpret_cond_loop pat fuel c p).isSome = true := by
  induction fuel generalizing c p with
  | zero => omega
  | succ fuel ih =>
    unfold interpret_cond_loop
    rcases h0 : consume_char c 33 with ⟨r0, c0⟩
    have k0 := (consume_char_len c c0 33 r0 (by decide) h0).1
    have l0 := cursor_moved_length k0.1
    simp only
    rcases h1 : read_word c0 with ⟨r1, c1⟩
    obtain ⟨k1, l1⟩ := read_word_ok c0 c1 r1 h1
    cases r1 with
    | false => rfl
    | true =>
      have l1 := l1 rfl
      simp only
      rcases h2 : consume_char c1 44 with ⟨r2, c2⟩
      have k2 := (consume_char_len c1 c2 44 r2 (by decide) h2).1
      have l2 := cursor_moved_length k2.1
      cases r2 with
      | false => rfl
      | true => exact ih c2 _ (by omega)
theorem convert_step {V : Type} (ext : Externals V) (c c' : FcFormatContext) (str : List Nat)
    (o : Option (List Nat)) (h : convert ext c str = (o, c')) : step_ok o.isSome c c' := by
  rcases convert_ok ext c c' str o h with h1 | ⟨rfl, h2⟩
  · exact h1.1
  · exact h2

theorem maybe_interpret_converts_ok {V : Type} (ext : Externals V) (fuel : Nat)
    (c c' : FcFormatContext) (buf buf' : FcStrBuf) (start : Nat) (r : Bool)
    (hb : buf.failed = false)
    (h : maybe_interpret_converts ext fuel c buf start = some (r, c', buf')) :
    step_ok r c c' ∧ buf'.failed = false := by
  induction fuel generalizing c buf with
  | zero => simp [maybe_interpret_converts] at h
  | succ fuel ih =>
    unfold maybe_interpret_converts at h
    rcases h1 : consume_char c 124 with ⟨r1, c1⟩
    have k1 := (consume_char_len c c1 124 r1 (by decide) h1).1
    rw [h1] at h
    cases r1 with
    | false =>
      simp only [Option.some.injEq, Prod.mk.injEq] at h; obtain ⟨rfl, rfl, rfl⟩ := h
      exact ⟨k1, hb⟩
    | true =>
      have hb1 : (FcStrBufChar buf 0).failed = false := by rw [FcStrBufChar_failed]; exact hb
      simp only [hb1, Bool.false_eq_true, if_false] at h
      rcases h2 : convert ext c1 ((FcStrBufChar buf 0).buf.drop start) with ⟨o, c2⟩
      have k2 := convert_step ext c1 c2 _ o h2
      rw [h2] at h
      cases o with
      | none =>
        simp only [Option.some.injEq, Prod.mk.injEq] at h; obtain ⟨rfl, rfl, rfl⟩ := h
        exact ⟨step_ok_trans k1 k2, hb1⟩
      | some s =>
        simp only at h
        obtain ⟨k3, b3⟩ := ih c2 _ (by simp [FcStrBufString_failed, hb1]) h
        exact ⟨step_ok_trans k1 (step_ok_trans k2 k3), b3⟩

theorem maybe_interpret_converts_total {V : Type} (ext : Externals V) (fuel : Nat)
    (c : FcFormatContext) (buf : FcStrBuf) (start : Nat) (h : c.format.length + 1 ≤ fuel) :
    (maybe_interpret_converts ext fuel c buf start).isSome = true := by
  induction fuel generalizing c buf with
  | zero => omega
  | succ fuel ih =>
    unfold maybe_interpret_converts
    rcases h1 : consume_char c 124 with ⟨r1, c1⟩
    obtain ⟨k1, l1⟩ := consume_char_len c c1 124 r1 (by decide) h1
    cases r1 with
    | false => rfl
    | true =>
      have l1 := l1 rfl
      simp only
      split_ifs
      · rfl
      · rcases h2 : convert ext c1 ((FcStrBufChar buf 0).buf.drop start) with ⟨o, c2⟩
        have k2 := convert_step ext c1 c2 _ o h2
        have l2 := cursor_moved_length k2.1
        cases o with
        | none => rfl
        | some s => exact ih c2 _ (by omega)

/-! ## Cursor and diagnostics of the skipper -/

theorem advance_ok (c : FcFormatContext) (h : peek c ≠ 0) :
    step_ok true c (advance c) ∧ (advance c).format.length + 1 = c.format.length := by
  unfold peek at h
  cases hf : c.format with
  | nil => rw [hf] at h; simp at h
  | cons x l =>
    rw [hf] at h
    simp only [List.headD_cons] at h
    refine ⟨⟨⟨rfl, rfl, [x], ?_, ?_⟩, rfl⟩, ?_⟩
    · simp [advance, hf]
    · simpa using h
    · simp [advance, hf]

theorem strtol_ok (c : FcFormatContext) :
    step_ok true c { c with format := (strtol c.format).2 } := by
  obtain ⟨d, h1, h2⟩ := strtol_moved c.format
  exact ⟨⟨rfl, rfl, d, h1, h2⟩, rfl⟩
theorem skip_ok (fuel : Nat) :
    (∀ c r c', skip_percent fuel c = some (r, c') →
      step_ok r c c' ∧ (r = true → c'.format.length < c.format.length)) ∧
    (∀ c r c', skip_percent_loop fuel c = some (r, c') → step_ok r c c') ∧
    (∀ c r c', skip_expr fuel c = some (r, c') → step_ok r c c') ∧
    (∀ c r c', skip_subexpr fuel c = some (r, c') →
      step_ok r c c' ∧ (r = true → c'.format.length < c.format.length)) := by
  induction fuel with
  | zero =>
    refine ⟨?_, ?_, ?_, ?_⟩ <;> intro c r c' h
    · simp [skip_percent] at h
    · simp [skip_percent_loop] at h
    · simp [skip_expr] at h
    · simp [skip_subexpr] at h
  | succ fuel ih =>
    obtain ⟨ihp, ihl, ihe, ihs⟩ := ih
    refine ⟨?_, ?_, ?_, ?_⟩ <;> intro c r c' h
    · /- skip_percent -/
      rw [skip_percent] at h
      rcases h1 : expect_char c 37 with ⟨r1, c1⟩
      obtain ⟨k1, l1⟩ := expect_char_len c c1 37 r1 (by decide) h1
      rw [h1] at h
      cases r1 with
      | false =>
        simp only [Option.some.injEq, Prod.mk.injEq] at h; obtain ⟨rfl, rfl⟩ := h
        exact ⟨k1, by simp⟩
      | true =>
        have l1 := l1 rfl
        simp only at h
        have k2 := strtol_ok c1
        rcases h3 : expect_char { c1 with format := (strtol c1.format).2 } 123 with ⟨r3, c3⟩
        obtain ⟨k3, l3⟩ := expect_char_len _ c3 123 r3 (by decide) h3
        rw [h3] at h
        have k13 : step_ok r3 c c3 := step_ok_trans k1 (step_ok_trans k2 k3)
        cases r3 with
        | false =>
          simp only [Option.some.injEq, Prod.mk.injEq] at h; obtain ⟨rfl, rfl⟩ := h
          exact ⟨k13, by simp⟩
        | true =>
          simp only at h
          have k4 := ihl c3 r c' h
          have l4 := cursor_moved_length k4.1
          have l13 := cursor_moved_length (step_ok_trans k2 k3).1
          exact ⟨step_ok_trans k13 k4, fun _ => by omega⟩
    · /- skip_percent_loop -/
      rw [skip_percent_loop] at h
      by_cases hp : peek c ≠ 0 ∧ peek c ≠ 125
      · rw [if_pos hp] at h
        obtain ⟨ka, _⟩ := advance_ok c hp.1
        by_cases hb : peek c = 92
        · rw [if_pos hb] at h
          dsimp only at h
          by_cases hn : peek (advance c) ≠ 0
          · rw [if_pos hn] at h
            obtain ⟨kb, _⟩ := advance_ok (advance c) hn
            exact step_ok_trans ka (step_ok_trans kb (ihl _ r c' h))
          · rw [if_neg hn] at h
            exact step_ok_trans ka (ihl _ r c' h)
        · rw [if_neg hb] at h
          by_cases hs : peek c = 123
          · rw [if_pos hs] at h
            cases hss : skip_subexpr fuel c with
            | none => rw [hss] at h; simp at h
            | some p =>
              obtain ⟨r2, c2⟩ := p
              have k2 := (ihs c r2 c2 hss).1
              rw [hss] at h
              cases r2 with
              | false =>
                simp only [Option.some.injEq, Prod.mk.injEq] at h; obtain ⟨rfl, rfl⟩ := h
                exact k2
              | true => exact step_ok_trans k2 (ihl _ r c' h)
          · rw [if_neg hs] at h
            exact step_ok_trans ka (ihl _ r c' h)
      · rw [if_neg hp] at h
        simp only [Option.some.injEq] at h
        exact (expect_char_len c c' 125 r (by decide) h).1
    · /- skip_expr -/
      rw [skip_expr] at h
      by_cases hp : peek c ≠ 0 ∧ peek c ≠ 125
      · rw [if_pos hp] at h
        obtain ⟨ka, _⟩ := advance_ok c hp.1
        by_cases hb : peek c = 92
        · rw [if_pos hb] at h
          dsimp only at h
          by_cases hn : peek (advance c) ≠ 0
          · rw [if_pos hn] at h
            obtain ⟨kb, _⟩ := advance_ok (advance c) hn
            exact step_ok_trans ka (step_ok_trans kb (ihe _ r c' h))
          · rw [if_neg hn] at h
            exact step_ok_trans ka (ihe _ r c' h)
        · rw [if_neg hb] at h
          by_cases hs : peek c = 37
          · rw [if_pos hs] at h
            cases hss : skip_percent fuel c with
            | none => rw [hss] at h; simp at h
            | some p =>
              obtain ⟨r2, c2⟩ := p
              have k2 := (ihp c r2 c2 hss).1
              rw [hss] at h
              cases r2 with
              | false =>
                simp only [Option.some.injEq, Prod.mk.injEq] at h; obtain ⟨rfl, rfl⟩ := h
                exact k2
              | true => exact step_ok_trans k2 (ihe _ r c' h)
          · rw [if_neg hs] at h
            exact step_ok_trans ka (ihe _ r c' h)
      · rw [if_neg hp] at h
        simp only [Option.some.injEq, Prod.mk.injEq] at h; obtain ⟨rfl, rfl⟩ := h
        exact step_ok_refl _
    · /- skip_subexpr -/
      rw [skip_subexpr] at h
      rcases h1 : expect_char c 123 with ⟨r1, c1⟩
      obtain ⟨k1, l1⟩ := expect_char_len c c1 123 r1 (by decide) h1
      rw [h1] at h
      cases r1 with
      | false =>
        simp only [Option.some.injEq, Prod.mk.injEq] at h; obtain ⟨rfl, rfl⟩ := h
        exact ⟨k1, by simp⟩
      | true =>
        have l1 := l1 rfl
        simp only at h
        cases hss : skip_expr fuel c1 with
        | none => rw [hss] at h; simp at h
        | some p =>
          obtain ⟨r2, c2⟩ := p
          have k2 := ihe c1 r2 c2 hss
          have l2 := cursor_moved_length k2.1
          rw [hss] at h
          cases r2 with
          | false =>
            simp only [Option.some.injEq, Prod.mk.injEq] at h; obtain ⟨rfl, rfl⟩ := h
            exact ⟨step_ok_trans k1 k2, by simp⟩
          | true =>
            simp only [Option.some.injEq] at h
            have k3 := (expect_char_len c2 c' 125 r (by decide) h).1
            have l3 := cursor_moved_length k3.1
            exact ⟨step_ok_trans k1 (step_ok_trans k2 k3), fun _ => by omega⟩

theorem maybe_skip_subexpr_ok (fuel : Nat) (c c' : FcFormatContext) (r : Bool)
    (h : maybe_skip_subexpr fuel c = some (r, c')) : step_ok r c c' := by
  unfold maybe_skip_subexpr at h
  split_ifs at h
  · exact ((skip_ok fuel).2.2.2 c r c' h).1
  · simp only [Option.some.injEq, Prod.mk.injEq] at h; obtain ⟨rfl, rfl⟩ := h
    exact step_ok_refl _

theorem interpret_ok {V : Type} (ext : Externals V) (fuel : Nat) :
    (∀ c (pat : FcPattern V) buf r c' buf', buf.failed = false →
      interpret_subexpr ext fuel c pat buf = some (r, c', buf') →
      step_ok r c c' ∧ buf'.failed = false) ∧
    (∀ c (pat : FcPattern V) buf r c' buf', buf.failed = false →
      maybe_interpret_subexpr ext fuel c pat buf = some (r, c', buf') →
      step_ok r c c' ∧ buf'.failed = false) ∧
    (∀ c (pat : FcPattern V) buf r c' buf', buf.failed = false →
      interpret_filter ext fuel c pat buf = some (r, c', buf') →
      step_ok r c c' ∧ buf'.failed = false) ∧
    (∀ c (pat : FcPattern V) buf r c' buf', buf.failed = false →
      interpret_delete ext fuel c pat buf = some (r, c', buf') →
      step_ok r c c' ∧ buf'.failed = false) ∧
    (∀ c (pat : FcPattern V) buf r c' buf', buf.failed = false →
      interpret_cond ext fuel c pat buf = some (r, c', buf') →
      step_ok r c c' ∧ buf'.failed = false) ∧
    (∀ c (pat : FcPattern V) buf r c' buf', buf.failed = false →
      interpret_percent ext fuel c pat buf = some (r, c', buf') →
      step_ok r c c' ∧ buf'.failed = false ∧ (r = true → c'.format.length < c.format.length)) ∧
    (∀ c (pat : FcPattern V) buf term r c' buf', buf.failed = false →
      interpret_expr ext fuel c pat buf term = some (r, c', buf') →
      step_ok r c c' ∧ buf'.failed = false) := by
  induction fuel with
  | zero =>
    refine ⟨?_, ?_, ?_, ?_, ?_, ?_, ?_⟩
    · intro c pat buf r c' buf' _ h; simp [interpret_subexpr] at h
    · intro c pat buf r c' buf' _ h; simp [maybe_interpret_subexpr] at h
    · intro c pat buf r c' buf' _ h; simp [interpret_filter] at h
    · intro c pat buf r c' buf' _ h; simp [interpret_delete] at h
    · intro c pat buf r c' buf' _ h; simp [interpret_cond] at h
    · intro c pat buf r c' buf' _ h; simp [interpret_percent] at h
    · intro c pat buf term r c' buf' _ h; simp [interpret_expr] at h
  | succ fuel ih =>
    obtain ⟨ihsub, ihmaybe, ihfilter, ihdelete, ihcond, ihpercent, ihexpr⟩ := ih
    refine ⟨?_, ?_, ?_, ?_, ?_, ?_, ?_⟩
    · /- interpret_subexpr -/
      intro c pat buf r c' buf' hbuf h
      rw [interpret_subexpr] at h
      rcases h1 : expect_char c 123 with ⟨r1, c1⟩
      obtain ⟨k1, l1⟩ := expect_char_len c c1 123 r1 (by decide) h1
      rw [h1] at h
      cases r1 with
      | false =>
        simp only [Option.some.injEq, Prod.mk.injEq] at h; obtain ⟨rfl, rfl, rfl⟩ := h
        exact ⟨k1, hbuf⟩
      | true =>
        simp only at h
        cases h2 : interpret_expr ext fuel c1 pat buf 125 with
        | none => rw [h2] at h; simp at h
        | some p =>
          obtain ⟨r2, c2, b2⟩ := p
          obtain ⟨k2, hb2⟩ := ihexpr c1 pat buf 125 r2 c2 b2 hbuf h2
          rw [h2] at h
          cases r2 with
          | false =>
            simp only [Option.some.injEq, Prod.mk.injEq] at h; obtain ⟨rfl, rfl, rfl⟩ := h
            exact ⟨step_ok_trans k1 k2, hb2⟩
          | true =>
            simp only at h
            rcases h3 : expect_char c2 125 with ⟨r3, c3⟩
            obtain ⟨k3, l3⟩ := expect_char_len c2 c3 125 r3 (by decide) h3
            rw [h3] at h
            simp only [Option.some.injEq, Prod.mk.injEq] at h; obtain ⟨rfl, rfl, rfl⟩ := h
            exact ⟨step_ok_trans k1 (step_ok_trans k2 k3), hb2⟩
    · /- maybe_interpret_subexpr -/
      intro c pat buf r c' buf' hbuf h
      rw [maybe_interpret_subexpr] at h
      split_ifs at h
      · exact ihsub c pat buf r c' buf' hbuf h
      · simp only [Option.some.injEq, Prod.mk.injEq] at h; obtain ⟨rfl, rfl, rfl⟩ := h
        exact ⟨step_ok_refl _, hbuf⟩
    · /- interpret_filter -/
      intro c pat buf r c' buf' hbuf h
      rw [interpret_filter] at h
      rcases h1 : expect_char c 43 with ⟨r1, c1⟩
      obtain ⟨k1, l1⟩ := expect_char_len c c1 43 r1 (by decide) h1
      rw [h1] at h
      cases r1 with
      | false =>
        simp only [Option.some.injEq, Prod.mk.injEq] at h; obtain ⟨rfl, rfl, rfl⟩ := h
        exact ⟨k1, hbuf⟩
      | true =>
        simp only at h
        cases h2 : interpret_filter_loop fuel c1 [] with
        | none => rw [h2] at h; simp at h
        | some p =>
          obtain ⟨r2, c2, os⟩ := p
          obtain ⟨k2, _⟩ := interpret_filter_loop_ok fuel c1 c2 [] os r2 h2
          rw [h2] at h
          cases r2 with
          | false =>
            simp only [Option.some.injEq, Prod.mk.injEq] at h; obtain ⟨rfl, rfl, rfl⟩ := h
            exact ⟨step_ok_trans k1 k2, hbuf⟩
          | true =>
            simp only at h
            obtain ⟨k3, hb3⟩ := ihsub c2 _ buf r c' buf' hbuf h
            exact ⟨step_ok_trans k1 (step_ok_trans k2 k3), hb3⟩
    · /- interpret_delete -/
      intro c pat buf r c' buf' hbuf h
      rw [interpret_delete] at h
      rcases h1 : expect_char c 45 with ⟨r1, c1⟩
      obtain ⟨k1, l1⟩ := expect_char_len c c1 45 r1 (by decide) h1
      rw [h1] at h
      cases r1 with
      | false =>
        simp only [Option.some.injEq, Prod.mk.injEq] at h; obtain ⟨rfl, rfl, rfl⟩ := h
        exact ⟨k1, hbuf⟩
      | true =>
        simp only at h
        cases h2 : interpret_delete_loop fuel c1 (FcPatternDuplicate pat) with
        | none => rw [h2] at h; simp at h
        | some p =>
          obtain ⟨r2, c2, sp⟩ := p
          obtain ⟨k2, _⟩ := interpret_delete_loop_ok fuel c1 c2 _ sp r2 h2
          rw [h2] at h
          cases r2 with
          | false =>
            simp only [Option.some.injEq, Prod.mk.injEq] at h; obtain ⟨rfl, rfl, rfl⟩ := h
            exact ⟨step_ok_trans k1 k2, hbuf⟩
          | true =>
            simp only at h
            obtain ⟨k3, hb3⟩ := ihsub c2 _ buf r c' buf' hbuf h
            exact ⟨step_ok_trans k1 (step_ok_trans k2 k3), hb3⟩
    · /- interpret_cond -/
      intro c pat buf r c' buf' hbuf h
      rw [interpret_cond] at h
      rcases h1 : expect_char c 63 with ⟨r1, c1⟩
      obtain ⟨k1, l1⟩ := expect_char_len c c1 63 r1 (by decide) h1
      rw [h1] at h
      cases r1 with
      | false =>
        simp only [Option.some.injEq, Prod.mk.injEq] at h; obtain ⟨rfl, rfl, rfl⟩ := h
        exact ⟨k1, hbuf⟩
      | true =>
        simp only at h
        cases h2 : interpret_cond_loop pat fuel c1 true with
        | none => rw [h2] at h; simp at h
        | some p =>
          obtain ⟨r2, c2, pass⟩ := p
          obtain ⟨k2, _⟩ := interpret_cond_loop_ok pat fuel c1 c2 true pass r2 h2
          have k12 := step_ok_trans k1 k2
          rw [h2] at h
          cases r2 with
          | false =>
            simp only [Option.some.injEq, Prod.mk.injEq] at h; obtain ⟨rfl, rfl, rfl⟩ := h
            exact ⟨k12, hbuf⟩
          | true =>
            cases pass with
            | true =>
              simp only at h
              cases h3 : interpret_subexpr ext fuel c2 pat buf with
              | none => rw [h3] at h; simp at h
              | some p =>
                obtain ⟨r3, c3, b3⟩ := p
                obtain ⟨k3, hb3⟩ := ihsub c2 pat buf r3 c3 b3 hbuf h3
                rw [h3] at h
                cases r3 with
                | false =>
                  simp only [Option.some.injEq, Prod.mk.injEq] at h; obtain ⟨rfl, rfl, rfl⟩ := h
                  exact ⟨step_ok_trans k12 k3, hb3⟩
                | true =>
                  simp only at h
                  cases h4 : maybe_skip_subexpr fuel c3 with
                  | none => rw [h4] at h; simp at h
                  | some p =>
                    obtain ⟨r4, c4⟩ := p
                    have k4 := maybe_skip_subexpr_ok fuel c3 c4 r4 h4
                    rw [h4] at h
                    simp only [Option.some.injEq, Prod.mk.injEq] at h
                    obtain ⟨rfl, rfl, rfl⟩ := h
                    exact ⟨step_ok_trans k12 (step_ok_trans k3 k4), hb3⟩
            | false =>
              simp only at h
              cases h3 : skip_subexpr fuel c2 with
              | none => rw [h3] at h; simp at h
              | some p =>
                obtain ⟨r3, c3⟩ := p
                have k3 := ((skip_ok fuel).2.2.2 c2 r3 c3 h3).1
                rw [h3] at h
                cases r3 with
                | false =>
                  simp only [Option.some.injEq, Prod.mk.injEq] at h; obtain ⟨rfl, rfl, rfl⟩ := h
                  exact ⟨step_ok_trans k12 k3, hbuf⟩
                | true =>
                  simp only at h
                  obtain ⟨k4, hb4⟩ := ihmaybe c3 pat buf r c' buf' hbuf h
                  exact ⟨step_ok_trans k12 (step_ok_trans k3 k4), hb4⟩
    · /- interpret_percent -/
      intro c pat buf r c' buf' hbuf h
      rw [interpret_percent] at h
      rcases h1 : expect_char c 37 with ⟨r1, c1⟩
      obtain ⟨k1, l1⟩ := expect_char_len c c1 37 r1 (by decide) h1
      rw [h1] at h
      cases r1 with
      | false =>
        simp only [Option.some.injEq, Prod.mk.injEq] at h; obtain ⟨rfl, rfl, rfl⟩ := h
        exact ⟨k1, hbuf, by simp⟩
      | true =>
        have l1 := l1 rfl
        simp only at h
        rcases h2 : consume_char c1 37 with ⟨r2, c2⟩
        obtain ⟨k2, _⟩ := consume_char_len c1 c2 37 r2 (by decide) h2
        have l2 := cursor_moved_length k2.1
        rw [h2] at h
        cases r2 with
        | true =>
          simp only [Option.some.injEq, Prod.mk.injEq] at h; obtain ⟨rfl, rfl, rfl⟩ := h
          exact ⟨step_ok_trans k1 k2, by rw [FcStrBufChar_failed]; exact hbuf, fun _ => by omega⟩
        | false =>
          dsimp only at h
          have k3 := strtol_ok c2
          rcases h4 : expect_char { c2 with format := (strtol c2.format).2 } 123 with ⟨r4, c4⟩
          obtain ⟨k4, _⟩ := expect_char_len _ c4 123 r4 (by decide) h4
          have k14 : step_ok r4 c c4 := step_ok_trans k1 (step_ok_trans k2 (step_ok_trans k3 k4))
          have l4 := cursor_moved_length (step_ok_trans k2 (step_ok_trans k3 k4)).1
          rw [h4] at h
          cases r4 with
          | false =>
            simp only [Option.some.injEq, Prod.mk.injEq] at h; obtain ⟨rfl, rfl, rfl⟩ := h
            exact ⟨k14, hbuf, by simp⟩
          | true =>
            dsimp only at h
            have hret : ∀ r5 c5 b5,
                (if peek c4 = 123 then interpret_subexpr ext fuel c4 pat buf
                 else if peek c4 = 43 then interpret_filter ext fuel c4 pat buf
                 else if peek c4 = 45 then interpret_delete ext fuel c4 pat buf
                 else if peek c4 = 63 then interpret_cond ext fuel c4 pat buf
                 else if peek c4 = 35 then some (interpret_count c4 pat buf)
                 else some (interpret_simple ext c4 pat buf)) = some (r5, c5, b5) →
                step_ok r5 c4 c5 ∧ b5.failed = false := by
              intro r5 c5 b5 h5
              split_ifs at h5
              · exact ihsub _ _ _ _ _ _ hbuf h5
              · exact ihfilter _ _ _ _ _ _ hbuf h5
              · exact ihdelete _ _ _ _ _ _ hbuf h5
              · exact ihcond _ _ _ _ _ _ hbuf h5
              · exact interpret_count_ok _ _ _ _ _ _ hbuf (Option.some.inj h5)
              · exact interpret_simple_ok _ _ _ _ _ _ _ hbuf (Option.some.inj h5)
            split at h
            · simp at h
            · next c5 b5 heq =>
              obtain ⟨k5, hb5⟩ := hret false c5 b5 heq
              simp only [Option.some.injEq, Prod.mk.injEq] at h; obtain ⟨rfl, rfl, rfl⟩ := h
              exact ⟨step_ok_trans k14 k5, hb5, by simp⟩
            · next c5 b5 heq =>
              obtain ⟨k5, hb5⟩ := hret true c5 b5 heq
              have k15 := step_ok_trans k14 k5
              cases h6 : maybe_interpret_converts ext fuel c5 b5 buf.buf.length with
              | none => rw [h6] at h; simp at h
              | some p =>
                obtain ⟨r6, c6, b6⟩ := p
                obtain ⟨k6, hb6⟩ := maybe_interpret_converts_ok ext fuel c5 c6 b5 b6 _ r6 hb5 h6
                rw [h6] at h
                cases r6 with
                | false =>
                  simp only [Option.some.injEq, Prod.mk.injEq] at h
                  obtain ⟨rfl, rfl, rfl⟩ := h
                  exact ⟨step_ok_trans k15 k6, hb6, by simp⟩
                | true =>
                  simp only at h
                  obtain ⟨a1, a2⟩ := align_to_width_ok b6 buf.buf.length
                    (toInt32 (strtol c2.format).1) hb6
                  rcases h7 : align_to_width b6 buf.buf.length (toInt32 (strtol c2.format).1)
                    with ⟨r7, b7⟩
                  rw [h7] at a1 a2 h
                  simp only at a1 a2
                  subst a1
                  simp only at h
                  rcases h8 : expect_char c6 125 with ⟨r8, c8⟩
                  obtain ⟨k8, _⟩ := expect_char_len c6 c8 125 r8 (by decide) h8
                  rw [h8] at h
                  simp only [Option.some.injEq, Prod.mk.injEq] at h
                  obtain ⟨rfl, rfl, rfl⟩ := h
                  have l5 := cursor_moved_length (step_ok_trans k5 (step_ok_trans k6 k8)).1
                  exact ⟨step_ok_trans k15 (step_ok_trans k6 k8), a2, fun _ => by omega⟩
    · /- interpret_expr -/
      intro c pat buf term r c' buf' hbuf h
      rw [interpret_expr] at h
      by_cases hp : peek c ≠ 0 ∧ peek c ≠ term
      · rw [if_pos hp] at h
        obtain ⟨ka, _⟩ := advance_ok c hp.1
        by_cases hb : peek c = 92
        · rw [if_pos hb] at h
          dsimp only at h
          by_cases hn : peek (advance c) ≠ 0
          · rw [if_pos hn] at h
            obtain ⟨kb, _⟩ := advance_ok (advance c) hn
            obtain ⟨k, hb'⟩ := ihexpr _ _ _ _ _ _ _ (by rw [FcStrBufChar_failed]; exact hbuf) h
            exact ⟨step_ok_trans ka (step_ok_trans kb k), hb'⟩
          · rw [if_neg hn] at h
            obtain ⟨k, hb'⟩ := ihexpr _ _ _ _ _ _ _ hbuf h
            exact ⟨step_ok_trans ka k, hb'⟩
        · rw [if_neg hb] at h
          by_cases hs : peek c = 37
          · rw [if_pos hs] at h
            cases hss : interpret_percent ext fuel c pat buf with
            | none => rw [hss] at h; simp at h
            | some p =>
              obtain ⟨r2, c2, b2⟩ := p
              obtain ⟨k2, hb2, _⟩ := ihpercent c pat buf r2 c2 b2 hbuf hss
              rw [hss] at h
              cases r2 with
              | false =>
                simp only [Option.some.injEq, Prod.mk.injEq] at h; obtain ⟨rfl, rfl, rfl⟩ := h
                exact ⟨k2, hb2⟩
              | true =>
                simp only at h
                obtain ⟨k, hb'⟩ := ihexpr _ _ _ _ _ _ _ hb2 h
                exact ⟨step_ok_trans k2 k, hb'⟩
          · rw [if_neg hs] at h
            obtain ⟨k, hb'⟩ := ihexpr _ _ _ _ _ _ _ (by rw [FcStrBufChar_failed]; exact hbuf) h
            exact ⟨step_ok_trans ka k, hb'⟩
      · rw [if_neg hp] at h
        simp only [Option.some.injEq, Prod.mk.injEq] at h; obtain ⟨rfl, rfl, rfl⟩ := h
        exact ⟨step_ok_refl _, hbuf⟩
/-! ## Termination: enough fuel gives a result -/

theorem skip_total (fuel : Nat) :
    (∀ c, 2 * c.format.length + 1 ≤ fuel → (skip_percent fuel c).isSome = true) ∧
    (∀ c, 2 * c.format.length + 2 ≤ fuel → (skip_percent_loop fuel c).isSome = true) ∧
    (∀ c, 2 * c.format.length + 2 ≤ fuel → (skip_expr fuel c).isSome = true) ∧
    (∀ c, 2 * c.format.length + 1 ≤ fuel → (skip_subexpr fuel c).isSome = true) := by
  induction fuel with
  | zero => refine ⟨?_, ?_, ?_, ?_⟩ <;> intro c h <;> omega
  | succ fuel ih =>
    obtain ⟨ihp, ihl, ihe, ihs⟩ := ih
    refine ⟨?_, ?_, ?_, ?_⟩ <;> intro c hf
    · /- skip_percent -/
      rw [skip_percent]
      rcases h1 : expect_char c 37 with ⟨r1, c1⟩
      obtain ⟨k1, l1⟩ := expect_char_len c c1 37 r1 (by decide) h1
      cases r1 with
      | false => rfl
      | true =>
        have l1 := l1 rfl
        simp only
        have k2 := strtol_ok c1
        rcases h3 : expect_char { c1 with format := (strtol c1.format).2 } 123 with ⟨r3, c3⟩
        obtain ⟨k3, l3⟩ := expect_char_len _ c3 123 r3 (by decide) h3
        cases r3 with
        | false => rfl
        | true =>
          have l3 := l3 rfl
          have l2 := cursor_moved_length k2.1
          simp only at l2 l3 ⊢
          exact ihl c3 (by omega)
    · /- skip_percent_loop -/
      rw [skip_percent_loop]
      by_cases hp : peek c ≠ 0 ∧ peek c ≠ 125
      · rw [if_pos hp]
        obtain ⟨_, la⟩ := advance_ok c hp.1
        by_cases hb : peek c = 92
        · rw [if_pos hb]
          dsimp only
          by_cases hn : peek (advance c) ≠ 0
          · rw [if_pos hn]
            obtain ⟨_, lb⟩ := advance_ok (advance c) hn
            exact ihl _ (by omega)
          · rw [if_neg hn]
            exact ihl _ (by omega)
        · rw [if_neg hb]
          by_cases hs : peek c = 123
          · rw [if_pos hs]
            have t := ihs c (by omega)
            cases hss : skip_subexpr fuel c with
            | none => rw [hss] at t; simp at t
            | some p =>
              obtain ⟨r2, c2⟩ := p
              obtain ⟨_, l2⟩ := (skip_ok fuel).2.2.2 c r2 c2 hss
              cases r2 with
              | false => rfl
              | true =>
                have l2 := l2 rfl
                exact ihl _ (by omega)
          · rw [if_neg hs]
            exact ihl _ (by omega)
      · rw [if_neg hp]; rfl
    · /- skip_expr -/
      rw [skip_expr]
      by_cases hp : peek c ≠ 0 ∧ peek c ≠ 125
      · rw [if_pos hp]
        obtain ⟨_, la⟩ := advance_ok c hp.1
        by_cases hb : peek c = 92
        · rw [if_pos hb]
          dsimp only
          by_cases hn : peek (advance c) ≠ 0
          · rw [if_pos hn]
            obtain ⟨_, lb⟩ := advance_ok (advance c) hn
            exact ihe _ (by omega)
          · rw [if_neg hn]
            exact ihe _ (by omega)
        · rw [if_neg hb]
          by_cases hs : peek c = 37
          · rw [if_pos hs]
            have t := ihp c (by omega)
            cases hss : skip_percent fuel c with
            | none => rw [hss] at t; simp at t
            | some p =>
              obtain ⟨r2, c2⟩ := p
              obtain ⟨_, l2⟩ := (skip_ok fuel).1 c r2 c2 hss
              cases r2 with
              | false => rfl
              | true =>
                have l2 := l2 rfl
                exact ihe _ (by omega)
          · rw [if_neg hs]
            exact ihe _ (by omega)
      · rw [if_neg hp]; rfl
    · /- skip_subexpr -/
      rw [skip_subexpr]
      rcases h1 : expect_char c 123 with ⟨r1, c1⟩
      obtain ⟨k1, l1⟩ := expect_char_len c c1 123 r1 (by decide) h1
      cases r1 with
      | false => rfl
      | true =>
        have l1 := l1 rfl
        simp only
        have t := ihe c1 (by omega)
        cases hss : skip_expr fuel c1 with
        | none => rw [hss] at t; simp at t
        | some p =>
          obtain ⟨r2, c2⟩ := p
          cases r2 with
          | false => rfl
          | true => rfl

theorem maybe_skip_subexpr_total (fuel : Nat) (c : FcFormatContext)
    (h : 2 * c.format.length + 1 ≤ fuel) : (maybe_skip_subexpr fuel c).isSome = true := by
  unfold maybe_skip_subexpr
  split_ifs
  · exact (skip_total fuel).2.2.2 c h
  · rfl
theorem directive_ok {V : Type} (ext : Externals V) (fuel : Nat) (c : FcFormatContext)
    (pat : FcPattern V) (buf : FcStrBuf) (r : Bool) (c' : FcFormatContext) (buf' : FcStrBuf)
    (hbuf : buf.failed = false)
    (h : (if peek c = 123 then interpret_subexpr ext fuel c pat buf
          else if peek c = 43 then interpret_filter ext fuel c pat buf
          else if peek c = 45 then interpret_delete ext fuel c pat buf
          else if peek c = 63 then interpret_cond ext fuel c pat buf
          else if peek c = 35 then some (interpret_count c pat buf)
          else some (interpret_simple ext c pat buf)) = some (r, c', buf')) :
    step_ok r c c' ∧ buf'.failed = false := by
  obtain ⟨ihsub, _, ihfilter, ihdelete, ihcond, _, _⟩ := interpret_ok ext fuel
  split_ifs at h
  · exact ihsub _ _ _ _ _ _ hbuf h
  · exact ihfilter _ _ _ _ _ _ hbuf h
  · exact ihdelete _ _ _ _ _ _ hbuf h
  · exact ihcond _ _ _ _ _ _ hbuf h
  · exact interpret_count_ok _ _ _ _ _ _ hbuf (Option.some.inj h)
  · exact interpret_simple_ok _ _ _ _ _ _ _ hbuf (Option.some.inj h)

theorem interpret_total {V : Type} (ext : Externals V) (fuel : Nat) :
    (∀ c (pat : FcPattern V) buf, buf.failed = false → 2 * c.format.length + 1 ≤ fuel →
      (interpret_subexpr ext fuel c pat buf).isSome = true) ∧
    (∀ c (pat : FcPattern V) buf, buf.failed = false → 2 * c.format.length + 2 ≤ fuel →
      (maybe_interpret_subexpr ext fuel c pat buf).isSome = true) ∧
    (∀ c (pat : FcPattern V) buf, buf.failed = false → 2 * c.format.length + 1 ≤ fuel →
      (interpret_filter ext fuel c pat buf).isSome = true) ∧
    (∀ c (pat : FcPattern V) buf, buf.failed = false → 2 * c.format.length + 1 ≤ fuel →
      (interpret_delete ext fuel c pat buf).isSome = true) ∧
    (∀ c (pat : FcPattern V) buf, buf.failed = false → 2 * c.format.length + 1 ≤ fuel →
      (interpret_cond ext fuel c pat buf).isSome = true) ∧
    (∀ c (pat : FcPattern V) buf, buf.failed = false → 2 * c.format.length + 1 ≤ fuel →
      (interpret_percent ext fuel c pat buf).isSome = true) ∧
    (∀ c (pat : FcPattern V) buf term, buf.failed = false → 2 * c.format.length + 2 ≤ fuel →
      (interpret_expr ext fuel c pat buf term).isSome = true) := by
  induction fuel with
  | zero =>
    refine ⟨?_, ?_, ?_, ?_, ?_, ?_, ?_⟩
    all_goals intros; omega
  | succ fuel ih =>
    obtain ⟨ihsub, ihmaybe, ihfilter, ihdelete, ihcond, ihpercent, ihexpr⟩ := ih
    obtain ⟨oksub, _, _, _, _, okpercent, okexpr⟩ := interpret_ok ext fuel
    refine ⟨?_, ?_, ?_, ?_, ?_, ?_, ?_⟩
    · /- interpret_subexpr -/
      intro c pat buf hbuf hf
      rw [interpret_subexpr]
      rcases h1 : expect_char c 123 with ⟨r1, c1⟩
      obtain ⟨k1, l1⟩ := expect_char_len c c1 123 r1 (by decide) h1
      cases r1 with
      | false => rfl
      | true =>
        have l1 := l1 rfl
        simp only
        have t := ihexpr c1 pat buf 125 hbuf (by omega)
        cases h2 : interpret_expr ext fuel c1 pat buf 125 with
        | none => rw [h2] at t; simp at t
        | some p =>
          obtain ⟨r2, c2, b2⟩ := p
          cases r2 with
          | false => rfl
          | true => rfl
    · /- maybe_interpret_subexpr -/
      intro c pat buf hbuf hf
      rw [maybe_interpret_subexpr]
      split_ifs
      · exact ihsub c pat buf hbuf (by omega)
      · rfl
    · /- interpret_filter -/
      intro c pat buf hbuf hf
      rw [interpret_filter]
      rcases h1 : expect_char c 43 with ⟨r1, c1⟩
      obtain ⟨k1, l1⟩ := expect_char_len c c1 43 r1 (by decide) h1
      cases r1 with
      | false => rfl
      | true =>
        have l1 := l1 rfl
        simp only
        have t := interpret_filter_loop_total fuel c1 [] (by omega)
        cases h2 : interpret_filter_loop fuel c1 [] with
        | none => rw [h2] at t; simp at t
        | some p =>
          obtain ⟨r2, c2, os⟩ := p
          obtain ⟨k2, _⟩ := interpret_filter_loop_ok fuel c1 c2 [] os r2 h2
          have l2 := cursor_moved_length k2.1
          cases r2 with
          | false => rfl
          | true => exact ihsub c2 _ buf hbuf (by omega)
    · /- interpret_delete -/
      intro c pat buf hbuf hf
      rw [interpret_delete]
      rcases h1 : expect_char c 45 with ⟨r1, c1⟩
      obtain ⟨k1, l1⟩ := expect_char_len c c1 45 r1 (by decide) h1
      cases r1 with
      | false => rfl
      | true =>
        have l1 := l1 rfl
        simp only
        have t := interpret_delete_loop_total fuel c1 (FcPatternDuplicate pat) (by omega)
        cases h2 : interpret_delete_loop fuel c1 (FcPatternDuplicate pat) with
        | none => rw [h2] at t; simp at t
        | some p =>
          obtain ⟨r2, c2, sp⟩ := p
          obtain ⟨k2, _⟩ := interpret_delete_loop_ok fuel c1 c2 _ sp r2 h2
          have l2 := cursor_moved_length k2.1
          cases r2 with
          | false => rfl
          | true => exact ihsub c2 _ buf hbuf (by omega)
    · /- interpret_cond -/
      intro c pat buf hbuf hf
      rw [interpret_cond]
      rcases h1 : expect_char c 63 with ⟨r1, c1⟩
      obtain ⟨k1, l1⟩ := expect_char_len c c1 63 r1 (by decide) h1
      cases r1 with
      | false => rfl
      | true =>
        have l1 := l1 rfl
        simp only
        have t := interpret_cond_loop_total pat fuel c1 true (by omega)
        cases h2 : interpret_cond_loop pat fuel c1 true with
        | none => rw [h2] at t; simp at t
        | some p =>
          obtain ⟨r2, c2, pass⟩ := p
          obtain ⟨k2, _⟩ := interpret_cond_loop_ok pat fuel c1 c2 true pass r2 h2
          have l2 := cursor_moved_length k2.1
          cases r2 with
          | false => rfl
          | true =>
            cases pass with
            | true =>
              simp only
              have t3 := ihsub c2 pat buf hbuf (by omega)
              cases h3 : interpret_subexpr ext fuel c2 pat buf with
              | none => rw [h3] at t3; simp at t3
              | some p =>
                obtain ⟨r3, c3, b3⟩ := p
                obtain ⟨k3, hb3⟩ := oksub c2 pat buf r3 c3 b3 hbuf h3
                have l3 := cursor_moved_length k3.1
                cases r3 with
                | false => rfl
                | true =>
                  simp only
                  have t4 := maybe_skip_subexpr_total fuel c3 (by omega)
                  cases h4 : maybe_skip_subexpr fuel c3 with
                  | none => rw [h4] at t4; simp at t4
                  | some p => rfl
            | false =>
              simp only
              have t3 := (skip_total fuel).2.2.2 c2 (by omega)
              cases h3 : skip_subexpr fuel c2 with
              | none => rw [h3] at t3; simp at t3
              | some p =>
                obtain ⟨r3, c3⟩ := p
                have k3 := ((skip_ok fuel).2.2.2 c2 r3 c3 h3).1
                have l3 := cursor_moved_length k3.1
                cases r3 with
                | false => rfl
                | true => exact ihmaybe c3 pat buf hbuf (by omega)
    · /- interpret_percent -/
      intro c pat buf hbuf hf
      rw [interpret_percent]
      rcases h1 : expect_char c 37 with ⟨r1, c1⟩
      obtain ⟨k1, l1⟩ := expect_char_len c c1 37 r1 (by decide) h1
      cases r1 with
      | false => rfl
      | true =>
        have l1 := l1 rfl
        simp only
        rcases h2 : consume_char c1 37 with ⟨r2, c2⟩
        obtain ⟨k2, _⟩ := consume_char_len c1 c2 37 r2 (by decide) h2
        have l2 := cursor_moved_length k2.1
        cases r2 with
        | true => rfl
        | false =>
          dsimp only
          have k3 := strtol_ok c2
          rcases h4 : expect_char { c2 with format := (strtol c2.format).2 } 123 with ⟨r4, c4⟩
          obtain ⟨k4, l4⟩ := expect_char_len _ c4 123 r4 (by decide) h4
          have l3 := cursor_moved_length k3.1
          cases r4 with
          | false => rfl
          | true =>
            have l4 := l4 rfl
            simp only at l3 l4
            dsimp only
            have hret :
                (if peek c4 = 123 then interpret_subexpr ext fuel c4 pat buf
                 else if peek c4 = 43 then interpret_filter ext fuel c4 pat buf
                 else if peek c4 = 45 then interpret_delete ext fuel c4 pat buf
                 else if peek c4 = 63 then interpret_cond ext fuel c4 pat buf
                 else if peek c4 = 35 then some (interpret_count c4 pat buf)
                 else some (interpret_simple ext c4 pat buf)).isSome = true := by
              split_ifs
              · exact ihsub _ _ _ hbuf (by omega)
              · exact ihfilter _ _ _ hbuf (by omega)
              · exact ihdelete _ _ _ hbuf (by omega)
              · exact ihcond _ _ _ hbuf (by omega)
              · rfl
              · rfl
            split
            · next heq => rw [heq] at hret; simp at hret
            · rfl
            · next c5 b5 heq =>
              obtain ⟨k5, hb5⟩ := directive_ok ext fuel c4 pat buf true c5 b5 hbuf heq
              have l5 := cursor_moved_length k5.1
              have t6 := maybe_interpret_converts_total ext fuel c5 b5 buf.buf.length (by omega)
              cases h6 : maybe_interpret_converts ext fuel c5 b5 buf.buf.length with
              | none => rw [h6] at t6; simp at t6
              | some p =>
                obtain ⟨r6, c6, b6⟩ := p
                cases r6 with
                | false => rfl
                | true =>
                  simp only
                  rcases h7 : align_to_width b6 buf.buf.length (toInt32 (strtol c2.format).1)
                    with ⟨r7, b7⟩
                  cases r7 with
                  | false => rfl
                  | true => rfl
    · /- interpret_expr -/
      intro c pat buf term hbuf hf
      rw [interpret_expr]
      by_cases hp : peek c ≠ 0 ∧ peek c ≠ term
      · rw [if_pos hp]
        obtain ⟨_, la⟩ := advance_ok c hp.1
        by_cases hb : peek c = 92
        · rw [if_pos hb]
          dsimp only
          by_cases hn : peek (advance c) ≠ 0
          · rw [if_pos hn]
            obtain ⟨_, lb⟩ := advance_ok (advance c) hn
            exact ihexpr _ _ _ _ (by rw [FcStrBufChar_failed]; exact hbuf) (by omega)
          · rw [if_neg hn]
            exact ihexpr _ _ _ _ hbuf (by omega)
        · rw [if_neg hb]
          by_cases hs : peek c = 37
          · rw [if_pos hs]
            have t := ihpercent c pat buf hbuf (by omega)
            cases hss : interpret_percent ext fuel c pat buf with
            | none => rw [hss] at t; simp at t
            | some p =>
              obtain ⟨r2, c2, b2⟩ := p
              obtain ⟨_, hb2, l2⟩ := okpercent c pat buf r2 c2 b2 hbuf hss
              cases r2 with
              | false => rfl
              | true =>
                have l2 := l2 rfl
                exact ihexpr _ _ _ _ hb2 (by omega)
          · rw [if_neg hs]
            exact ihexpr _ _ _ _ (by rw [FcStrBufChar_failed]; exact hbuf) (by omega)
      · rw [if_neg hp]; rfl

/-! ## The cursor stays inside the template -/

theorem cstr_append_nonzero (pre rest : List Nat) (h : ∀ b ∈ pre, b ≠ 0) :
    cstr (pre ++ rest) = pre ++ cstr rest := by
  induction pre with
  | nil => rfl
  | cons a pre ih =>
    have ha : a ≠ 0 := h a (by simp)
    rw [List.cons_append, cstr_cons, if_neg ha, ih (fun b hb => h b (by simp [hb]))]
    rfl

theorem cursor_ok_init (t : List Nat) : cursor_ok (FcFormatContextInit t) :=
  ⟨rfl, [], rfl, by simp⟩

theorem cursor_ok_offset (c : FcFormatContext) (h : cursor_ok c) :
    offset c ≤ c.format_len ∧ c.format = c.format_orig.drop (offset c) := by
  obtain ⟨h1, pre, h2, h3⟩ := h
  have e : offset c = pre.length := by unfold offset; rw [h2]; simp
  rw [e, h1, h2, cstr_append_nonzero pre _ h3]
  simp

theorem cursor_ok_moved (c c' : FcFormatContext) (h : cursor_ok c) (hm : cursor_moved c c') :
    cursor_ok c' ∧ offset c ≤ offset c' := by
  obtain ⟨h1, pre, h2, h3⟩ := h
  obtain ⟨m1, m2, cns, m3, m4⟩ := hm
  refine ⟨⟨by rw [m2, m1, h1], pre ++ cns, by rw [m1, h2, m3]; simp, ?_⟩, ?_⟩
  · intro b hb
    rcases List.mem_append.mp hb with hb | hb
    · exact h3 b hb
    · exact m4 b hb
  · unfold offset
    rw [m1, m3]; simp; omega

theorem cursor_ok_end (c : FcFormatContext) (h : cursor_ok c) (hp : peek c = 0) :
    offset c = c.format_len := by
  obtain ⟨h1, pre, h2, h3⟩ := h
  have e : offset c = pre.length := by unfold offset; rw [h2]; simp
  have hc : cstr c.format = [] := by
    unfold peek at hp
    cases hf : c.format with
    | nil => rfl
    | cons a l =>
      rw [hf] at hp
      simp only [List.headD_cons] at hp
      rw [cstr_cons, if_pos hp]
  rw [e, h1, h2, cstr_append_nonzero pre _ h3, hc]
  simp

theorem interpret_expr_end {V : Type} (ext : Externals V) (fuel : Nat) (c : FcFormatContext)
    (pat : FcPattern V) (buf : FcStrBuf) (term : Nat) (c' : FcFormatContext) (buf' : FcStrBuf)
    (h : interpret_expr ext fuel c pat buf term = some (true, c', buf')) :
    peek c' = 0 ∨ peek c' = term := by
  induction fuel generalizing c buf with
  | zero => simp [interpret_expr] at h
  | succ fuel ih =>
    rw [interpret_expr] at h
    by_cases hp : peek c ≠ 0 ∧ peek c ≠ term
    · rw [if_pos hp] at h
      by_cases hb : peek c = 92
      · rw [if_pos hb] at h
        dsimp only at h
        by_cases hn : peek (advance c) ≠ 0
        · rw [if_pos hn] at h; exact ih _ _ h
        · rw [if_neg hn] at h; exact ih _ _ h
      · rw [if_neg hb] at h
        by_cases hs : peek c = 37
        · rw [if_pos hs] at h
          cases hss : interpret_percent ext fuel c pat buf with
          | none => rw [hss] at h; simp at h
          | some p =>
            obtain ⟨r2, c2, b2⟩ := p
            rw [hss] at h
            cases r2 with
            | false => simp at h
            | true => exact ih _ _ h
        · rw [if_neg hs] at h; exact ih _ _ h
    · rw [if_neg hp] at h
      simp only [Option.some.injEq, Prod.mk.injEq, true_and] at h
      obtain ⟨rfl, rfl⟩ := h
      by_cases h0 : peek c = 0
      · exact Or.inl h0
      · by_cases h1 : peek c = term
        · exact Or.inr h1
        · exact absurd ⟨h0, h1⟩ hp

theorem render_result {V : Type} (ext : Externals V) (pat : FcPattern V) (t : List Nat)
    (fuel : Nat) (hfuel : 2 * t.length + 2 ≤ fuel) :
    ∃ r c' buf', interpret_expr ext fuel (FcFormatContextInit t) pat FcStrBufInit 0
        = some (r, c', buf') ∧
      step_ok r (FcFormatContextInit t) c' ∧ buf'.failed = false ∧
      FcPatternFormat ext fuel pat t
        = some (if r then some (cstr buf'.buf) else none, c'.err) := by
  have tot := (interpret_total ext fuel).2.2.2.2.2.2 (FcFormatContextInit t) pat FcStrBufInit 0
    rfl hfuel
  cases h : interpret_expr ext fuel (FcFormatContextInit t) pat FcStrBufInit 0 with
  | none => rw [h] at tot; simp at tot
  | some p =>
    obtain ⟨r, c', buf'⟩ := p
    obtain ⟨k, hb⟩ := (interpret_ok ext fuel).2.2.2.2.2.2 _ pat _ 0 r c' buf' rfl h
    refine ⟨r, c', buf', rfl, k, hb, ?_⟩
    unfold FcPatternFormat
    simp only [h]
    cases r with
    | false => rfl
    | true => simp [FcStrBufDone, hb]
/-! ## Diagnostics and failure coincide (C14) -/

/-- C14. Diagnostics and failure coincide. For every pattern and template, the
render with enough fuel ends; when it succeeds the error stream is empty and
when it fails the error stream holds exactly one diagnostic, which describes the
place where the cursor stopped. The same holds of every frame: each evaluator,
the converter pipeline, each converter and each skipper leaves the error stream
as it was when it succeeds and appends exactly one diagnostic when it fails,
whatever failed inside it. -/
theorem diagnostics_spec {V : Type} (ext : Externals V) (pat : FcPattern V) (t : List Nat)
    (fuel : Nat) (hfuel : 2 * t.length + 2 ≤ fuel) :
    (∃ out e, FcPatternFormat ext fuel pat t = some (out, e) ∧
      (out ≠ none → e = []) ∧
      (out = none → ∃ m, e = [m])) ∧
    (∃ r c' buf', interpret_expr ext fuel (FcFormatContextInit t) pat FcStrBufInit 0
        = some (r, c', buf') ∧
      FcPatternFormat ext fuel pat t = some (if r then some (cstr buf'.buf) else none, c'.err) ∧
      (r = true → c'.err = []) ∧
      (r = false → ∃ m, c'.err = [m] ∧ diagnostic_site c' m)) ∧
    (∀ n c (p : FcPattern V) buf r c' buf', buf.failed = false →
      (interpret_subexpr ext n c p buf = some (r, c', buf') ∨
       maybe_interpret_subexpr ext n c p buf = some (r, c', buf') ∨
       interpret_filter ext n c p buf = some (r, c', buf') ∨
       interpret_delete ext n c p buf = some (r, c', buf') ∨
       interpret_cond ext n c p buf = some (r, c', buf') ∨
       interpret_percent ext n c p buf = some (r, c', buf') ∨
       (∃ term, interpret_expr ext n c p buf term = some (r, c', buf')) ∨
       (∃ start, maybe_interpret_converts ext n c buf start = some (r, c', buf')) ∨
       interpret_count c p buf = (r, c', buf') ∨
       interpret_simple ext c p buf = (r, c', buf')) →
      one_diagnostic r c c') ∧
    (∀ n c r c',
      (skip_percent n c = some (r, c') ∨ skip_percent_loop n c = some (r, c') ∨
       skip_expr n c = some (r, c') ∨ skip_subexpr n c = some (r, c') ∨
       maybe_skip_subexpr n c = some (r, c')) →
      one_diagnostic r c c') ∧
    (∀ c str o c',
      (convert ext c str = (o, c') ∨ delete_chars c str = (o, c') ∨
       escape_chars c str = (o, c') ∨ translate_chars c str = (o, c')) →
      one_diagnostic o.isSome c c') := by
  obtain ⟨r, c', buf', h1, k, hb, h2⟩ := render_result ext pat t fuel hfuel
  refine ⟨?_, ⟨r, c', buf', h1, h2, ?_, ?_⟩, ?_, ?_, ?_⟩
  · refine ⟨_, _, h2, ?_, ?_⟩
    · intro hne
      cases r with
      | false => simp at hne
      | true => exact k.2
    · intro he
      cases r with
      | false =>
        obtain ⟨m, hm, _⟩ := k.2
        exact ⟨m, hm⟩
      | true => simp at he
  · intro hr; subst hr; exact k.2
  · intro hr; subst hr; exact k.2
  · intro n c p buf r c' buf' hbuf h
    obtain ⟨a1, a2, a3, a4, a5, a6, a7⟩ := interpret_ok ext n
    rcases h with h | h | h | h | h | h | ⟨term, h⟩ | ⟨start, h⟩ | h | h
    · exact (a1 _ _ _ _ _ _ hbuf h).1.2
    · exact (a2 _ _ _ _ _ _ hbuf h).1.2
    · exact (a3 _ _ _ _ _ _ hbuf h).1.2
    · exact (a4 _ _ _ _ _ _ hbuf h).1.2
    · exact (a5 _ _ _ _ _ _ hbuf h).1.2
    · exact (a6 _ _ _ _ _ _ hbuf h).1.2
    · exact (a7 _ _ _ _ _ _ _ hbuf h).1.2
    · exact (maybe_interpret_converts_ok ext n c c' buf buf' start r hbuf h).1.2
    · exact (interpret_count_ok c c' p buf buf' r hbuf h).1.2
    · exact (interpret_simple_ok ext c c' p buf buf' r hbuf h).1.2
  · intro n c r c' h
    obtain ⟨a1, a2, a3, a4⟩ := skip_ok n
    rcases h with h | h | h | h | h
    · exact (a1 _ _ _ h).1.2
    · exact (a2 _ _ _ h).2
    · exact (a3 _ _ _ h).2
    · exact (a4 _ _ _ h).1.2
    · exact (maybe_skip_subexpr_ok n c c' r h).2
  · intro c str o c' h
    rcases h with h | h | h | h
    · exact (convert_step ext c c' str o h).2
    · exact (delete_chars_ok c c' str o h).2
    · exact (escape_chars_ok c c' str o h).2
    · exact (translate_chars_ok c c' str o h).2

/-- C14, at the template `%{family|nope}x%{` and the pattern `P` with fuel 36:
the render fails and the error stream holds the one diagnostic of the unknown
converter, although the template has a second error behind it. -/
theorem diagnostics_spec_witness :
    2 * (bytes "%\x7bfamily|nope\x7dx%\x7b").length + 2 ≤ 36 ∧
    (∃ out e, FcPatternFormat example_ext 36 example_P (bytes "%\x7bfamily|nope\x7dx%\x7b")
        = some (out, e) ∧
      (out ≠ none → e = []) ∧ (out = none → ∃ m, e = [m])) ∧
    FcPatternFormat example_ext 36 example_P (bytes "%\x7bfamily|nope\x7dx%\x7b")
      = some (none, [Message.unknown_converter (bytes "nope")]) :=
  ⟨by decide,
   (diagnostics_spec example_ext example_P (bytes "%\x7bfamily|nope\x7dx%\x7b") 36
     (by decide)).1,
   by decide⟩
/-! ## Cursor bound (C18) -/

/-- C18. Cursor bound. For every pattern and template, the render with enough
fuel ends with the cursor inside the template, `offset ≤ template length`, what
is left under the cursor being the template from that offset on; when the render
succeeds the cursor is exactly at the template length. At every step: the
initial context is inside the template, a context that has moved from one inside
the template is inside the template with an offset at most the template length,
and every lexer primitive, converter-argument parser, skipper and evaluator
only moves the cursor forward over bytes other than NUL. -/
theorem cursor_bound_spec {V : Type} (ext : Externals V) (pat : FcPattern V) (t : List Nat)
    (fuel : Nat) (hfuel : 2 * t.length + 2 ≤ fuel) :
    (∃ r c' buf', interpret_expr ext fuel (FcFormatContextInit t) pat FcStrBufInit 0
        = some (r, c', buf') ∧
      FcPatternFormat ext fuel pat t = some (if r then some (cstr buf'.buf) else none, c'.err) ∧
      offset c' ≤ (cstr t).length ∧ c'.format = t.drop (offset c') ∧
      (r = true → offset c' = (cstr t).length)) ∧
    cursor_ok (FcFormatContextInit t) ∧
    (∀ c c', cursor_ok c → cursor_moved c c' →
      cursor_ok c' ∧ offset c ≤ offset c' ∧ offset c' ≤ c.format_len ∧
        c'.format = c.format_orig.drop (offset c')) ∧
    (∀ c term r c', term ≠ 0 →
      (consume_char c term = (r, c') ∨ expect_char c term = (r, c')) → cursor_moved c c') ∧
    (∀ c r c', (read_word c = (r, c') ∨ ∃ term, read_chars c term = (r, c')) →
      cursor_moved c c') ∧
    (∀ c, cursor_moved c { c with format := (strtol c.format).2 }) ∧
    (∀ c str o c',
      (convert ext c str = (o, c') ∨ delete_chars c str = (o, c') ∨
       escape_chars c str = (o, c') ∨ translate_chars c str = (o, c')) →
      cursor_moved c c') ∧
    (∀ n c r c',
      (skip_percent n c = some (r, c') ∨ skip_percent_loop n c = some (r, c') ∨
       skip_expr n c = some (r, c') ∨ skip_subexpr n c = some (r, c') ∨
       maybe_skip_subexpr n c = some (r, c')) →
      cursor_moved c c') ∧
    (∀ n c (p : FcPattern V) buf r c' buf', buf.failed = false →
      (interpret_subexpr ext n c p buf = some (r, c', buf') ∨
       maybe_interpret_subexpr ext n c p buf = some (r, c', buf') ∨
       interpret_filter ext n c p buf = some (r, c', buf') ∨
       interpret_delete ext n c p buf = some (r, c', buf') ∨
       interpret_cond ext n c p buf = some (r, c', buf') ∨
       interpret_percent ext n c p buf = some (r, c', buf') ∨
       (∃ term, interpret_expr ext n c p buf term = some (r, c', buf')) ∨
       (∃ start, maybe_interpret_converts ext n c buf start = some (r, c', buf')) ∨
       interpret_count c p buf = (r, c', buf') ∨
       interpret_simple ext c p buf = (r, c', buf')) →
      cursor_moved c c') := by
  obtain ⟨r, c', buf', h1, k, hb, h2⟩ := render_result ext pat t fuel hfuel
  have hmoved : ∀ c c', cursor_ok c → cursor_moved c c' →
      cursor_ok c' ∧ offset c ≤ offset c' ∧ offset c' ≤ c.format_len ∧
        c'.format = c.format_orig.drop (offset c') := by
    intro c c' hc hm
    obtain ⟨o1, o2⟩ := cursor_ok_moved c c' hc hm
    obtain ⟨o3, o4⟩ := cursor_ok_offset c' o1
    refine ⟨o1, o2, ?_, ?_⟩
    · rw [← hm.2.1]; exact o3
    · rw [← hm.1]; exact o4
  refine ⟨⟨r, c', buf', h1, h2, ?_, ?_, ?_⟩, cursor_ok_init t, hmoved, ?_, ?_, ?_, ?_, ?_, ?_⟩
  · exact (hmoved _ _ (cursor_ok_init t) k.1).2.2.1
  · exact (hmoved _ _ (cursor_ok_init t) k.1).2.2.2
  · intro hr
    subst hr
    have hend := cursor_ok_end c' (hmoved _ _ (cursor_ok_init t) k.1).1
      (by rcases interpret_expr_end ext fuel _ pat _ 0 c' buf' h1 with h | h <;> exact h)
    rw [hend, k.1.2.1]; rfl
  · intro c term r c' ht h
    rcases h with h | h
    · exact (consume_char_ok c c' term r ht h).1.1
    · exact (expect_char_ok c c' term r ht h).1.1
  · intro c r c' h
    rcases h with h | ⟨term, h⟩
    · exact (read_word_ok c c' r h).1.1
    · exact (read_chars_ok c c' term r h).1.1
  · intro c; exact (strtol_ok c).1
  · intro c str o c' h
    rcases h with h | h | h | h
    · exact (convert_step ext c c' str o h).1
    · exact (delete_chars_ok c c' str o h).1
    · exact (escape_chars_ok c c' str o h).1
    · exact (translate_chars_ok c c' str o h).1
  · intro n c r c' h
    obtain ⟨a1, a2, a3, a4⟩ := skip_ok n
    rcases h with h | h | h | h | h
    · exact (a1 _ _ _ h).1.1
    · exact (a2 _ _ _ h).1
    · exact (a3 _ _ _ h).1
    · exact (a4 _ _ _ h).1.1
    · exact (maybe_skip_subexpr_ok n c c' r h).1
  · intro n c p buf r c' buf' hbuf h
    obtain ⟨a1, a2, a3, a4, a5, a6, a7⟩ := interpret_ok ext n
    rcases h with h | h | h | h | h | h | ⟨term, h⟩ | ⟨start, h⟩ | h | h
    · exact (a1 _ _ _ _ _ _ hbuf h).1.1
    · exact (a2 _ _ _ _ _ _ hbuf h).1.1
    · exact (a3 _ _ _ _ _ _ hbuf h).1.1
    · exact (a4 _ _ _ _ _ _ hbuf h).1.1
    · exact (a5 _ _ _ _ _ _ hbuf h).1.1
    · exact (a6 _ _ _ _ _ _ hbuf h).1.1
    · exact (a7 _ _ _ _ _ _ _ hbuf h).1.1
    · exact (maybe_interpret_converts_ok ext n c c' buf buf' start r hbuf h).1.1
    · exact (interpret_count_ok c c' p buf buf' r hbuf h).1.1
    · exact (interpret_simple_ok ext c c' p buf buf' r hbuf h).1.1

/-- C18, at the template `%{family}` followed by NUL and two more bytes, and the
pattern `P` with fuel 26: the render succeeds with the cursor at offset 9, on
the NUL. -/
theorem cursor_bound_spec_witness :
    2 * (bytes "%\x7bfamily\x7d" ++ [0, 37, 123]).length + 2 ≤ 26 ∧
    (∃ r c' buf', interpret_expr example_ext 26
          (FcFormatContextInit (bytes "%\x7bfamily\x7d" ++ [0, 37, 123])) example_P
          FcStrBufInit 0 = some (r, c', buf') ∧
      FcPatternFormat example_ext 26 example_P (bytes "%\x7bfamily\x7d" ++ [0, 37, 123])
        = some (if r then some (cstr buf'.buf) else none, c'.err) ∧
      offset c' ≤ (cstr (bytes "%\x7bfamily\x7d" ++ [0, 37, 123])).length ∧
      c'.format = (bytes "%\x7bfamily\x7d" ++ [0, 37, 123]).drop (offset c') ∧
      (r = true → offset c' = (cstr (bytes "%\x7bfamily\x7d" ++ [0, 37, 123])).length)) ∧
    (interpret_expr example_ext 26
        (FcFormatContextInit (bytes "%\x7bfamily\x7d" ++ [0, 37, 123])) example_P
        FcStrBufInit 0).map (fun x => (x.1, offset x.2.1, x.2.1.format))
      = some (true, 9, [0, 37, 123]) :=
  ⟨by decide,
   (cursor_bound_spec example_ext example_P (bytes "%\x7bfamily\x7d" ++ [0, 37, 123]) 26
     (by decide)).1,
   by decide⟩

/-! ## `translate` with an empty argument (C15) -/

theorem read_chars_stop (c : FcFormatContext) (term : Nat)
    (h : peek c = 0 ∨ peek c = 125 ∨ peek c = term) :
    read_chars c term
      = (false, message { c with word := [] } (.expected_character_data (offset c + 1))) := by
  have hl : read_chars_loop term c.format [] = (c.format, []) := by
    unfold peek at h
    cases hf : c.format with
    | nil => simp [read_chars_loop]
    | cons ch fmt =>
      rw [hf] at h
      exact read_chars_loop_stop term ch fmt [] (by simpa using h)
  unfold read_chars
  simp only [hl, if_true]
  rfl

theorem read_chars_loop_run (term : Nat) (F rest p : List Nat)
    (hF : ∀ b ∈ F, b ≠ 0 ∧ b ≠ 125 ∧ b ≠ term ∧ b ≠ 92) :
    read_chars_loop term (F ++ rest) p = read_chars_loop term rest (p ++ F) := by
  induction F generalizing p with
  | nil => simp
  | cons a F ih =>
    obtain ⟨h0, h1, h2, h3⟩ := hF a (by simp)
    rw [List.cons_append, read_chars_loop_plain term a _ p (by simp [h0, h1, h2]) h3,
      ih _ (fun b hb => hF b (by simp [hb]))]
    simp

theorem read_chars_run (orig : List Nat) (len : Nat) (w : List Nat) (e : List Message)
    (term : Nat) (F rest : List Nat) (hne : F ≠ [])
    (hF : ∀ b ∈ F, b ≠ 0 ∧ b ≠ 125 ∧ b ≠ term ∧ b ≠ 92)
    (hr : rest.headD 0 = 0 ∨ rest.headD 0 = 125 ∨ rest.headD 0 = term) :
    read_chars ⟨orig, F ++ rest, len, w, e⟩ term = (true, ⟨orig, rest, len, F, e⟩) := by
  have hl : read_chars_loop term rest F = (rest, F) := by
    cases rest with
    | nil => simp [read_chars_loop]
    | cons ch fmt => exact read_chars_loop_stop term ch fmt F (by simpa using hr)
  unfold read_chars
  simp only [read_chars_loop_run term F rest [] hF, List.nil_append, hl, hne, if_false]

theorem translate_chars_empty_from (c c1 : FcFormatContext) (str : List Nat)
    (h1 : expect_char c 40 = (true, c1))
    (h : peek c1 = 0 ∨ peek c1 = 44 ∨ peek c1 = 125) :
    translate_chars c str
      = (none, message { c1 with word := [] } (.expected_character_data (offset c1 + 1))) := by
  unfold translate_chars
  simp only [h1]
  rw [read_chars_stop c1 44 (by rcases h with h | h | h <;> simp [h])]

theorem translate_chars_empty_to (c c1 c2 c3 : FcFormatContext) (str : List Nat)
    (h1 : expect_char c 40 = (true, c1)) (h2 : read_chars c1 44 = (true, c2))
    (h3 : expect_char c2 44 = (true, c3))
    (h : peek c3 = 0 ∨ peek c3 = 41 ∨ peek c3 = 125) :
    translate_chars c str
      = (none, message c3 (.expected_character_data (offset c3 + 1))) := by
  unfold translate_chars
  simp only [h1, h2, h3]
  rw [read_chars_stop c3 41 (by rcases h with h | h | h <;> simp [h])]
  rfl

theorem translate_chars_some (c c' : FcFormatContext) (str s : List Nat)
    (h : translate_chars c str = (some s, c')) :
    ∃ c1 c2 c3 c4, expect_char c 40 = (true, c1) ∧ read_chars c1 44 = (true, c2) ∧
      expect_char c2 44 = (true, c3) ∧ read_chars c3 41 = (true, c4) ∧
      expect_char { c4 with word := c3.word } 41 = (true, c') ∧
      c2.word ≠ [] ∧ c4.word ≠ [] := by
  unfold translate_chars at h
  rcases h1 : expect_char c 40 with ⟨r1, c1⟩
  rw [h1] at h
  cases r1 with
  | false => simp at h
  | true =>
    simp only at h
    rcases h2 : read_chars c1 44 with ⟨r2, c2⟩
    rw [h2] at h
    cases r2 with
    | false => simp at h
    | true =>
      simp only at h
      rcases h3 : expect_char c2 44 with ⟨r3, c3⟩
      rw [h3] at h
      cases r3 with
      | false => simp at h
      | true =>
        simp only at h
        rcases h4 : read_chars c3 41 with ⟨r4, c4⟩
        rw [h4] at h
        cases r4 with
        | false => simp at h
        | true =>
          simp only at h
          rcases h5 : expect_char { c4 with word := c3.word } 41 with ⟨r5, c5⟩
          rw [h5] at h
          cases r5 with
          | false => simp at h
          | true =>
            simp only [Prod.mk.injEq] at h
            obtain ⟨_, rfl⟩ := h
            exact ⟨c1, c2, c3, c4, rfl, h2, h3, h4, h5, (read_chars_word c1 c2 44 h2).1,
              (read_chars_word c3 c4 41 h4).1⟩

theorem convert_translate {V : Type} (ext : Externals V) (orig : List Nat) (len : Nat)
    (w : List Nat) (e : List Message) (rest str : List Nat) :
    convert ext ⟨orig, [116, 114, 97, 110, 115, 108, 97, 116, 101] ++ 40 :: rest, len, w, e⟩ str
      = translate_chars ⟨orig, 40 :: rest, len, [116, 114, 97, 110, 115, 108, 97, 116, 101], e⟩
          str := by
  unfold convert
  rw [read_word_plain orig len w e [116, 114, 97, 110, 115, 108, 97, 116, 101] (40 :: rest)
    (by decide) (by right; simp; decide)]
  simp

theorem render_convert_fail {V : Type} (ext : Externals V) (fuel : Nat) (pat : FcPattern V)
    (k t : List Nat) (hk : plain_word k) (c' : FcFormatContext)
    (h : convert ext ⟨37 :: 123 :: (k ++ 124 :: t), t,
        (cstr (37 :: 123 :: (k ++ 124 :: t))).length, k, []⟩ (simple_value ext pat k ++ [0])
      = (none, c')) :
    FcPatternFormat ext (fuel + 3) pat (37 :: 123 :: (k ++ 124 :: t)) = some (none, c'.err) := by
  have hp : peek ⟨37 :: 123 :: (k ++ 124 :: t), 37 :: 123 :: (k ++ 124 :: t),
      (cstr (37 :: 123 :: (k ++ 124 :: t))).length, [], []⟩ = 37 := rfl
  have hper : interpret_percent ext (fuel + 1 + 1)
      ⟨37 :: 123 :: (k ++ 124 :: t), 37 :: 123 :: (k ++ 124 :: t),
        (cstr (37 :: 123 :: (k ++ 124 :: t))).length, [], []⟩ pat ⟨[], false⟩
      = some (false, c', ⟨[] ++ simple_value ext pat k ++ [0], false⟩) := by
    rw [interpret_percent_open]
    rw [if_neg (plain_word_dispatch k _ hk 123 (by decide)),
      if_neg (plain_word_dispatch k _ hk 43 (by decide)),
      if_neg (plain_word_dispatch k _ hk 45 (by decide)),
      if_neg (plain_word_dispatch k _ hk 63 (by decide)),
      if_neg (plain_word_dispatch k _ hk 35 (by decide))]
    rw [interpret_simple_value ext pat _ _ _ _ [] k (124 :: t) hk (by right; simp; decide) (by simp)]
    simp only []
    rw [maybe_interpret_converts]
    simp only [consume_char_hit, FcStrBufChar, Bool.false_eq_true, if_false, List.nil_append,
      List.length_nil, List.drop_zero, h]
  have hexpr : interpret_expr ext (fuel + 1 + 1 + 1)
      ⟨37 :: 123 :: (k ++ 124 :: t), 37 :: 123 :: (k ++ 124 :: t),
        (cstr (37 :: 123 :: (k ++ 124 :: t))).length, [], []⟩ pat ⟨[], false⟩ 0
      = some (false, c', ⟨[] ++ simple_value ext pat k ++ [0], false⟩) := by
    rw [interpret_expr, if_pos ⟨by rw [hp]; decide, by rw [hp]; decide⟩,
      if_neg (by rw [hp]; decide), if_pos hp, hper]
  show FcPatternFormat ext (fuel + 1 + 1 + 1) pat (37 :: 123 :: (k ++ 124 :: t)) = _
  simp only [FcPatternFormat, FcFormatContextInit, FcStrBufInit, hexpr]
/-- C15. `translate` rejects an empty argument. For an element name `k` the
template `%{k|translate(` followed by `,`, `}` or the end of the template (an
empty `from`) fails to render with the one diagnostic `expected character data
at N`, and so does `%{k|translate(F,` followed by `)`, `}` or the end (an empty
`to`), `N` being the offset of that byte counted from one. In `translate_chars`
itself, after `(` an empty `from` fails with that diagnostic, and after `(from,`
an empty `to` does; `read_chars` succeeds only with a non-empty word without NUL,
so that where the last byte of `to` is computed `1 ≤ |to|` and the index
`|to| - 1` lies inside `to`; and `translate_chars` returns a string only when both
arguments were read non-empty. -/
theorem translate_empty_spec {V : Type} (ext : Externals V) (fuel : Nat) (pat : FcPattern V)
    (k F rest : List Nat) (hk : plain_word k)
    (hF : F ≠ [] ∧ ∀ b ∈ F, b ≠ 0 ∧ b ≠ 125 ∧ b ≠ 44 ∧ b ≠ 92) :
    ((rest.headD 0 = 0 ∨ rest.headD 0 = 44 ∨ rest.headD 0 = 125) →
      FcPatternFormat ext (fuel + 3) pat
          (37 :: 123 :: (k ++ 124 :: (bytes "translate" ++ 40 :: rest)))
        = some (none, [Message.expected_character_data (k.length + 14)])) ∧
    ((rest.headD 0 = 0 ∨ rest.headD 0 = 41 ∨ rest.headD 0 = 125) →
      FcPatternFormat ext (fuel + 3) pat
          (37 :: 123 :: (k ++ 124 :: (bytes "translate" ++ 40 :: (F ++ 44 :: rest))))
        = some (none, [Message.expected_character_data (k.length + F.length + 15)])) ∧
    (∀ N, (Message.expected_character_data N).text
      = bytes "expected character data at " ++ snprintf_d N) ∧
    (∀ c c1 str, expect_char c 40 = (true, c1) →
      (peek c1 = 0 ∨ peek c1 = 44 ∨ peek c1 = 125) →
      translate_chars c str
        = (none, message { c1 with word := [] } (.expected_character_data (offset c1 + 1)))) ∧
    (∀ c c1 c2 c3 str, expect_char c 40 = (true, c1) → read_chars c1 44 = (true, c2) →
      expect_char c2 44 = (true, c3) → (peek c3 = 0 ∨ peek c3 = 41 ∨ peek c3 = 125) →
      translate_chars c str
        = (none, message c3 (.expected_character_data (offset c3 + 1)))) ∧
    (∀ c term c', read_chars c term = (true, c') →
      1 ≤ (cstr c'.word).length ∧ (cstr c'.word).length - 1 < c'.word.length ∧
      c'.word.getD ((cstr c'.word).length - 1) 0 ≠ 0) ∧
    (∀ c str s c', translate_chars c str = (some s, c') →
      ∃ c1 c2 c3 c4, expect_char c 40 = (true, c1) ∧ read_chars c1 44 = (true, c2) ∧
        expect_char c2 44 = (true, c3) ∧ read_chars c3 41 = (true, c4) ∧
        expect_char { c4 with word := c3.word } 41 = (true, c') ∧
        c2.word ≠ [] ∧ c4.word ≠ []) := by
  have hT : bytes "translate" = [116, 114, 97, 110, 115, 108, 97, 116, 101] := by decide
  refine ⟨?_, ?_, fun N => rfl, translate_chars_empty_from, translate_chars_empty_to, ?_,
    fun c str s c' h => translate_chars_some c c' str s h⟩
  · intro hr
    rw [hT]
    rw [render_convert_fail ext fuel pat k _ hk _ (by
      rw [convert_translate]
      exact translate_chars_empty_from _ _ _ (expect_char_hit _ _ _ _ _ _)
        (by simpa [peek] using hr))]
    simp only [message, offset, List.nil_append, List.length_cons, List.length_append,
      List.length_nil]
    congr 4
    omega
  · intro hr
    rw [hT]
    rw [render_convert_fail ext fuel pat k _ hk _ (by
      rw [convert_translate]
      exact translate_chars_empty_to _ _ _ _ _ (expect_char_hit _ _ _ _ _ _)
        (read_chars_run _ _ _ _ 44 F (44 :: rest) hF.1 hF.2 (by simp))
        (expect_char_hit _ _ _ _ _ _) (by simpa [peek] using hr))]
    simp only [message, offset, List.nil_append, List.length_cons, List.length_append,
      List.length_nil]
    congr 4
    omega
  · intro c term c' h
    obtain ⟨hne, hz, hc⟩ := read_chars_word c c' term h
    have hpos : 0 < c'.word.length := List.length_pos.mpr hne
    rw [hc]
    refine ⟨hpos, by omega, ?_⟩
    rw [List.getD_eq_getElem _ _ (by omega)]
    exact hz _ (List.getElem_mem _)

/-- C15, at the pattern `P` with fuel 3: `%{family|translate(,x)}` fails with
`expected character data at 20` and `%{family|translate(ab,)}` with `expected
character data at 23`. -/
theorem translate_empty_spec_witness :
    (plain_word (bytes "family") ∧
      (bytes "ab" ≠ [] ∧ ∀ b ∈ bytes "ab", b ≠ 0 ∧ b ≠ 125 ∧ b ≠ 44 ∧ b ≠ 92)) ∧
    FcPatternFormat example_ext 3 example_P (bytes "%\x7bfamily|translate(,x)\x7d")
      = some (none, [Message.expected_character_data 20]) ∧
    FcPatternFormat example_ext 3 example_P (bytes "%\x7bfamily|translate(ab,)\x7d")
      = some (none, [Message.expected_character_data 23]) :=
  ⟨⟨by decide, by decide⟩,
   (translate_empty_spec example_ext 0 example_P (bytes "family") (bytes "ab")
      (bytes ",x)\x7d") (by decide) (by decide)).1 (by decide),
   (translate_empty_spec example_ext 0 example_P (bytes "family") (bytes "ab")
      (bytes ")\x7d") (by decide) (by decide)).2.1 (by decide)⟩

/-! ## The skipper on well-formed branch texts -/

theorem brace_free_nil : brace_free [] = true := rfl

theorem brace_free_pair (x : Nat) (t : List Nat) :
    brace_free (92 :: x :: t) = (x != 0 && brace_free t) := by
  rw [brace_free.eq_def]; simp

theorem brace_free_byte (b : Nat) (t : List Nat) (h : b ≠ 92) :
    brace_free (b :: t) = (b != 0 && b != 123 && b != 125 && brace_free t) := by
  rw [brace_free.eq_def]; simp [h]

/-- A brace-free run is empty, or a byte other than NUL, backslash and the
braces before a run, or a backslash pair before a run. -/
theorem brace_free_cases (p : List Nat) (h : brace_free p = true) :
    p = [] ∨
    (∃ b t, p = b :: t ∧ b ≠ 0 ∧ b ≠ 92 ∧ b ≠ 123 ∧ b ≠ 125 ∧ brace_free t = true) ∨
    (∃ x t, p = 92 :: x :: t ∧ x ≠ 0 ∧ brace_free t = true) := by
  cases p with
  | nil => exact Or.inl rfl
  | cons b t =>
    by_cases hb : b = 92
    · subst hb
      cases t with
      | nil => simp [brace_free] at h
      | cons x t' =>
        rw [brace_free_pair] at h
        simp only [Bool.and_eq_true, bne_iff_ne, ne_eq] at h
        exact Or.inr (Or.inr ⟨x, t', rfl, h.1, h.2⟩)
    · rw [brace_free_byte b t hb] at h
      simp only [Bool.and_eq_true, bne_iff_ne, ne_eq] at h
      exact Or.inr (Or.inl ⟨b, t, rfl, h.1.1.1, hb, h.1.1.2, h.1.2, h.2⟩)

theorem brace_free_head (p s : List Nat) (h : brace_free p = true) (x : Nat)
    (hx : x = 123 ∨ x = 125) (hp : (p ++ s).headD 0 = x) : p = [] := by
  rcases brace_free_cases p h with rfl | ⟨b, t, rfl, h0, h92, h123, h125, _⟩ |
    ⟨y, t, rfl, _, _⟩
  · rfl
  · simp only [List.cons_append, List.headD_cons] at hp
    rcases hx with rfl | rfl
    · exact absurd hp h123
    · exact absurd hp h125
  · simp only [List.cons_append, List.headD_cons] at hp
    rcases hx with rfl | rfl <;> simp at hp
theorem skip_percent_loop_run (orig : List Nat) (len : Nat) (w : List Nat) (e : List Message)
    (p : List Nat) : ∀ (fuel : Nat) (X : List Nat) (res : Bool × FcFormatContext),
    brace_free p = true →
    skip_percent_loop fuel ⟨orig, p ++ X, len, w, e⟩ = some res →
    ∃ fuel', skip_percent_loop fuel' ⟨orig, X, len, w, e⟩ = some res := by
  induction p using brace_free.induct with
  | case1 => intro fuel X res _ h; exact ⟨fuel, h⟩
  | case2 => intro fuel X res hp; simp [brace_free] at hp
  | case3 x t ih =>
    intro fuel X res hp h
    rw [brace_free_pair] at hp
    simp only [Bool.and_eq_true, bne_iff_ne, ne_eq] at hp
    cases fuel with
    | zero => simp [skip_percent_loop] at h
    | succ fuel =>
      rw [skip_percent_loop] at h
      have h1 : peek ⟨orig, 92 :: x :: t ++ X, len, w, e⟩ = 92 := rfl
      have h2 : peek (advance ⟨orig, 92 :: x :: t ++ X, len, w, e⟩) = x := rfl
      rw [if_pos ⟨by rw [h1]; decide, by rw [h1]; decide⟩, if_pos h1] at h
      dsimp only at h
      rw [if_pos (by rw [h2]; exact hp.1)] at h
      exact ih fuel X res hp.2 h
  | case4 b t hb ih =>
    intro fuel X res hp h
    rw [brace_free_byte b t hb] at hp
    simp only [Bool.and_eq_true, bne_iff_ne, ne_eq] at hp
    cases fuel with
    | zero => simp [skip_percent_loop] at h
    | succ fuel =>
      rw [skip_percent_loop] at h
      have h1 : peek ⟨orig, b :: t ++ X, len, w, e⟩ = b := rfl
      rw [if_pos ⟨by rw [h1]; exact hp.1.1.1, by rw [h1]; exact hp.1.2⟩,
        if_neg (by rw [h1]; exact hb), if_neg (by rw [h1]; exact hp.1.1.2)] at h
      exact ih fuel X res hp.2 h

theorem skip_percent_loop_close (orig : List Nat) (len : Nat) (w : List Nat) (e : List Message)
    (fuel : Nat) (Y : List Nat) (res : Bool × FcFormatContext)
    (h : skip_percent_loop fuel ⟨orig, 125 :: Y, len, w, e⟩ = some res) :
    res = (true, ⟨orig, Y, len, w, e⟩) := by
  cases fuel with
  | zero => simp [skip_percent_loop] at h
  | succ fuel =>
    rw [skip_percent_loop] at h
    have h1 : peek ⟨orig, 125 :: Y, len, w, e⟩ = 125 := rfl
    rw [if_neg (by rw [h1]; simp), expect_char_hit] at h
    exact (Option.some.inj h).symm

theorem skip_expr_close (orig : List Nat) (len : Nat) (w : List Nat) (e : List Message)
    (fuel : Nat) (Y : List Nat) (res : Bool × FcFormatContext)
    (h : skip_expr fuel ⟨orig, 125 :: Y, len, w, e⟩ = some res) :
    res = (true, ⟨orig, 125 :: Y, len, w, e⟩) := by
  cases fuel with
  | zero => simp [skip_expr] at h
  | succ fuel =>
    rw [skip_expr] at h
    have h1 : peek ⟨orig, 125 :: Y, len, w, e⟩ = 125 := rfl
    rw [if_neg (by rw [h1]; simp)] at h
    exact (Option.some.inj h).symm

/-- When `skip_expr` passes over the text of a branch it arrives at what follows
it: `skip_subexpr` on `{B}` stops behind the closing brace. -/
theorem skip_subexpr_of_expr (orig : List Nat) (len : Nat) (w : List Nat) (e : List Message)
    (T Z : List Nat)
    (hT : ∀ (fuel : Nat) (X : List Nat) (res : Bool × FcFormatContext),
      skip_expr fuel ⟨orig, T ++ X, len, w, e⟩ = some res →
      ∃ fuel', skip_expr fuel' ⟨orig, X, len, w, e⟩ = some res)
    (fuel : Nat) (res : Bool × FcFormatContext)
    (h : skip_subexpr fuel ⟨orig, 123 :: (T ++ 125 :: Z), len, w, e⟩ = some res) :
    res = (true, ⟨orig, Z, len, w, e⟩) := by
  cases fuel with
  | zero => simp [skip_subexpr] at h
  | succ fuel =>
    rw [skip_subexpr, expect_char_hit] at h
    simp only at h
    cases h2 : skip_expr fuel ⟨orig, T ++ 125 :: Z, len, w, e⟩ with
    | none => rw [h2] at h; simp at h
    | some r2 =>
      obtain ⟨f', h3⟩ := hT fuel _ r2 h2
      have h4 := skip_expr_close orig len w e f' Z r2 h3
      subst h4
      rw [h2] at h
      simp only [expect_char_hit] at h
      exact (Option.some.inj h).symm
theorem skip_percent_open (orig : List Nat) (len : Nat) (w : List Nat) (e : List Message)
    (fuel : Nat) (wd body : List Nat) (hw : width_text wd) :
    skip_percent (fuel + 1) ⟨orig, 37 :: (wd ++ 123 :: body), len, w, e⟩
      = skip_percent_loop fuel ⟨orig, body, len, w, e⟩ := by
  rw [skip_percent, expect_char_hit]
  simp only [hw body, expect_char_hit]

theorem skip_percent_loop_sub (orig : List Nat) (len : Nat) (w : List Nat) (e : List Message)
    (T Z : List Nat)
    (hT : ∀ (fuel : Nat) (X : List Nat) (res : Bool × FcFormatContext),
      skip_expr fuel ⟨orig, T ++ X, len, w, e⟩ = some res →
      ∃ fuel', skip_expr fuel' ⟨orig, X, len, w, e⟩ = some res)
    (fuel : Nat) (res : Bool × FcFormatContext)
    (h : skip_percent_loop fuel ⟨orig, 123 :: (T ++ 125 :: Z), len, w, e⟩ = some res) :
    ∃ fuel', skip_percent_loop fuel' ⟨orig, Z, len, w, e⟩ = some res := by
  cases fuel with
  | zero => simp [skip_percent_loop] at h
  | succ fuel =>
    rw [skip_percent_loop] at h
    have h1 : peek ⟨orig, 123 :: (T ++ 125 :: Z), len, w, e⟩ = 123 := rfl
    rw [if_pos ⟨by rw [h1]; decide, by rw [h1]; decide⟩, if_neg (by rw [h1]; decide),
      if_pos h1] at h
    cases h2 : skip_subexpr fuel ⟨orig, 123 :: (T ++ 125 :: Z), len, w, e⟩ with
    | none => rw [h2] at h; simp at h
    | some r2 =>
      have h3 := skip_subexpr_of_expr orig len w e T Z hT fuel r2 h2
      subst h3
      rw [h2] at h
      exact ⟨fuel, h⟩

theorem skip_percent_plain (orig : List Nat) (len : Nat) (w : List Nat) (e : List Message)
    (wd p Y : List Nat) (hw : width_text wd) (hp : brace_free p = true)
    (fuel : Nat) (res : Bool × FcFormatContext)
    (h : skip_percent fuel ⟨orig, 37 :: (wd ++ 123 :: (p ++ 125 :: Y)), len, w, e⟩ = some res) :
    res = (true, ⟨orig, Y, len, w, e⟩) := by
  cases fuel with
  | zero => simp [skip_percent] at h
  | succ fuel =>
    rw [skip_percent_open _ _ _ _ _ _ _ hw] at h
    obtain ⟨f1, h1⟩ := skip_percent_loop_run orig len w e p fuel _ res hp h
    exact skip_percent_loop_close orig len w e f1 Y res h1

theorem skip_percent_one (orig : List Nat) (len : Nat) (w : List Nat) (e : List Message)
    (wd r T p Y : List Nat) (hw : width_text wd) (hr : brace_free r = true)
    (hT : ∀ (fuel : Nat) (X : List Nat) (res : Bool × FcFormatContext),
      skip_expr fuel ⟨orig, T ++ X, len, w, e⟩ = some res →
      ∃ fuel', skip_expr fuel' ⟨orig, X, len, w, e⟩ = some res)
    (hp : brace_free p = true) (fuel : Nat) (res : Bool × FcFormatContext)
    (h : skip_percent fuel
      ⟨orig, 37 :: (wd ++ 123 :: (r ++ 123 :: (T ++ 125 :: (p ++ 125 :: Y)))), len, w, e⟩
      = some res) :
    res = (true, ⟨orig, Y, len, w, e⟩) := by
  cases fuel with
  | zero => simp [skip_percent] at h
  | succ fuel =>
    rw [skip_percent_open _ _ _ _ _ _ _ hw] at h
    obtain ⟨f1, h1⟩ := skip_percent_loop_run orig len w e r fuel _ res hr h
    obtain ⟨f2, h2⟩ := skip_percent_loop_sub orig len w e T _ hT f1 res h1
    obtain ⟨f3, h3⟩ := skip_percent_loop_run orig len w e p f2 _ res hp h2
    exact skip_percent_loop_close orig len w e f3 Y res h3

theorem skip_percent_two (orig : List Nat) (len : Nat) (w : List Nat) (e : List Message)
    (wd r T1 T2 p Y : List Nat) (hw : width_text wd) (hr : brace_free r = true)
    (hT1 : ∀ (fuel : Nat) (X : List Nat) (res : Bool × FcFormatContext),
      skip_expr fuel ⟨orig, T1 ++ X, len, w, e⟩ = some res →
      ∃ fuel', skip_expr fuel' ⟨orig, X, len, w, e⟩ = some res)
    (hT2 : ∀ (fuel : Nat) (X : List Nat) (res : Bool × FcFormatContext),
      skip_expr fuel ⟨orig, T2 ++ X, len, w, e⟩ = some res →
      ∃ fuel', skip_expr fuel' ⟨orig, X, len, w, e⟩ = some res)
    (hp : brace_free p = true) (fuel : Nat) (res : Bool × FcFormatContext)
    (h : skip_percent fuel
      ⟨orig, 37 :: (wd ++ 123 :: (r ++ 123 :: (T1 ++ 125 :: 123 ::
        (T2 ++ 125 :: (p ++ 125 :: Y))))), len, w, e⟩ = some res) :
    res = (true, ⟨orig, Y, len, w, e⟩) := by
  cases fuel with
  | zero => simp [skip_percent] at h
  | succ fuel =>
    rw [skip_percent_open _ _ _ _ _ _ _ hw] at h
    obtain ⟨f1, h1⟩ := skip_percent_loop_run orig len w e r fuel _ res hr h
    obtain ⟨f2, h2⟩ := skip_percent_loop_sub orig len w e T1 _ hT1 f1 res h1
    obtain ⟨f3, h3⟩ := skip_percent_loop_sub orig len w e T2 _ hT2 f2 res h2
    obtain ⟨f4, h4⟩ := skip_percent_loop_run orig len w e p f3 _ res hp h3
    exact skip_percent_loop_close orig len w e f4 Y res h4

theorem skip_expr_percent (orig : List Nat) (len : Nat) (w : List Nat) (e : List Message)
    (D Y : List Nat)
    (hD : ∀ (fuel : Nat) (res : Bool × FcFormatContext),
      skip_percent fuel ⟨orig, 37 :: D, len, w, e⟩ = some res →
      res = (true, ⟨orig, Y, len, w, e⟩))
    (fuel : Nat) (res : Bool × FcFormatContext)
    (h : skip_expr fuel ⟨orig, 37 :: D, len, w, e⟩ = some res) :
    ∃ fuel', skip_expr fuel' ⟨orig, Y, len, w, e⟩ = some res := by
  cases fuel with
  | zero => simp [skip_expr] at h
  | succ fuel =>
    rw [skip_expr] at h
    have h1 : peek ⟨orig, 37 :: D, len, w, e⟩ = 37 := rfl
    rw [if_pos ⟨by rw [h1]; decide, by rw [h1]; decide⟩, if_neg (by rw [h1]; decide),
      if_pos h1] at h
    cases h2 : skip_percent fuel ⟨orig, 37 :: D, len, w, e⟩ with
    | none => rw [h2] at h; simp at h
    | some r2 =>
      have h3 := hD fuel r2 h2
      subst h3
      rw [h2] at h
      exact ⟨fuel, h⟩

/-- The skipper passes over the text of a well-formed branch: `skip_expr` on the
text followed by `X` gives what it gives on `X`. -/
theorem skip_expr_branch (orig : List Nat) (len : Nat) (w : List Nat) (e : List Message)
    (B : Branch) (hB : B.ok) :
    ∀ (fuel : Nat) (X : List Nat) (res : Bool × FcFormatContext),
      skip_expr fuel ⟨orig, B.text ++ X, len, w, e⟩ = some res →
      ∃ fuel', skip_expr fuel' ⟨orig, X, len, w, e⟩ = some res := by
  induction B with
  | nil => intro fuel X res h; exact ⟨fuel, h⟩
  | lit b t ih =>
    intro fuel X res h
    obtain ⟨⟨h0, h37, h92, h125⟩, ht⟩ := hB
    cases fuel with
    | zero => simp [skip_expr] at h
    | succ fuel =>
      rw [skip_expr] at h
      have h1 : peek ⟨orig, (Branch.lit b t).text ++ X, len, w, e⟩ = b := rfl
      rw [if_pos ⟨by rw [h1]; exact h0, by rw [h1]; exact h125⟩,
        if_neg (by rw [h1]; exact h92), if_neg (by rw [h1]; exact h37)] at h
      exact ih ht fuel X res h
  | esc x t ih =>
    intro fuel X res h
    obtain ⟨hx, ht⟩ := hB
    cases fuel with
    | zero => simp [skip_expr] at h
    | succ fuel =>
      rw [skip_expr] at h
      have h1 : peek ⟨orig, (Branch.esc x t).text ++ X, len, w, e⟩ = 92 := rfl
      have h2 : peek (advance ⟨orig, (Branch.esc x t).text ++ X, len, w, e⟩) = x := rfl
      rw [if_pos ⟨by rw [h1]; decide, by rw [h1]; decide⟩, if_pos h1] at h
      dsimp only at h
      rw [if_pos (by rw [h2]; exact hx)] at h
      exact ih ht fuel X res h
  | plain wd p t ih =>
    intro fuel X res h
    obtain ⟨hw, hp, _, ht⟩ := hB
    have e1 : (Branch.plain wd p t).text ++ X
        = 37 :: (wd ++ 123 :: (p ++ 125 :: (t.text ++ X))) := by simp [Branch.text]
    rw [e1] at h
    obtain ⟨f1, h1⟩ := skip_expr_percent orig len w e _ (t.text ++ X)
      (skip_percent_plain orig len w e wd p _ hw hp) fuel res h
    exact ih ht f1 X res h1
  | one wd r b p t ihb ih =>
    intro fuel X res h
    obtain ⟨hw, hr, _, hb, hp, ht⟩ := hB
    have e1 : (Branch.one wd r b p t).text ++ X
        = 37 :: (wd ++ 123 :: (r ++ 123 :: (b.text ++ 125 :: (p ++ 125 :: (t.text ++ X))))) := by
      simp [Branch.text]
    rw [e1] at h
    obtain ⟨f1, h1⟩ := skip_expr_percent orig len w e _ (t.text ++ X)
      (skip_percent_one orig len w e wd r b.text p _ hw hr (ihb hb) hp) fuel res h
    exact ih ht f1 X res h1
  | two wd r b1 b2 p t ihb1 ihb2 ih =>
    intro fuel X res h
    obtain ⟨hw, hr, _, hb1, hb2, hp, ht⟩ := hB
    have e1 : (Branch.two wd r b1 b2 p t).text ++ X
        = 37 :: (wd ++ 123 :: (r ++ 123 :: (b1.text ++ 125 :: 123 ::
            (b2.text ++ 125 :: (p ++ 125 :: (t.text ++ X)))))) := by
      simp [Branch.text]
    rw [e1] at h
    obtain ⟨f1, h1⟩ := skip_expr_percent orig len w e _ (t.text ++ X)
      (skip_percent_two orig len w e wd r b1.text b2.text p _ hw hr (ihb1 hb1) (ihb2 hb2) hp)
      fuel res h
    exact ih ht f1 X res h1

/-- The skipper on a well-formed branch `{B}`: when `skip_subexpr` returns, it
has succeeded, with the cursor behind the closing brace and nothing written to
the error stream. -/
theorem skip_subexpr_branch (orig : List Nat) (len : Nat) (w : List Nat) (e : List Message)
    (B : Branch) (hB : B.ok) (Z : List Nat) (fuel : Nat) (res : Bool × FcFormatContext)
    (h : skip_subexpr fuel ⟨orig, 123 :: (B.text ++ 125 :: Z), len, w, e⟩ = some res) :
    res = (true, ⟨orig, Z, len, w, e⟩) :=
  skip_subexpr_of_expr orig len w e B.text Z (skip_expr_branch orig len w e B hB) fuel res h
/-! ## The lexer inside a brace-free run -/

theorem in_run_peek (S : List Nat) (c : FcFormatContext) (hc : in_run S c) (x : Nat)
    (hx : x = 123 ∨ x = 125) (hp : peek c = x) : c.format = S := by
  obtain ⟨p, hp1, hp2⟩ := hc
  have : p = [] := brace_free_head p S hp1 x hx (by rw [← hp2]; exact hp)
  rw [hp2, this]; rfl

theorem in_run_here (S : List Nat) (c : FcFormatContext) (h : c.format = S) : in_run S c :=
  ⟨[], rfl, by rw [h]; rfl⟩

theorem consume_char_in_run (S : List Nat) (c c' : FcFormatContext) (t : Nat) (r : Bool)
    (ht : t ≠ 0 ∧ t ≠ 92 ∧ t ≠ 123 ∧ t ≠ 125)
    (hS : S.headD 0 = 0 ∨ S.headD 0 = 123 ∨ S.headD 0 = 125)
    (hc : in_run S c) (h : consume_char c t = (r, c')) : in_run S c' := by
  unfold consume_char at h
  by_cases hp : peek c = t
  · simp only [hp, ne_eq, not_true_eq_false, if_false, Prod.mk.injEq] at h
    obtain ⟨_, rfl⟩ := h
    obtain ⟨p, hp1, hp2⟩ := hc
    unfold peek at hp
    rcases brace_free_cases p hp1 with rfl | ⟨b, u, rfl, _, _, _, _, hu⟩ | ⟨y, u, rfl, _, _⟩
    · rw [hp2] at hp
      simp only [List.nil_append] at hp
      rcases hS with hS | hS | hS <;> rw [hS] at hp <;> omega
    · exact ⟨u, hu, by simp [advance, hp2]⟩
    · rw [hp2] at hp
      simp only [List.cons_append, List.headD_cons] at hp
      omega
  · simp only [hp, ne_eq, not_false_eq_true, if_true, Prod.mk.injEq] at h
    obtain ⟨_, rfl⟩ := h
    exact hc

theorem expect_char_in_run (S : List Nat) (c c' : FcFormatContext) (t : Nat) (r : Bool)
    (ht : t ≠ 0 ∧ t ≠ 92 ∧ t ≠ 123 ∧ t ≠ 125)
    (hS : S.headD 0 = 0 ∨ S.headD 0 = 123 ∨ S.headD 0 = 125)
    (hc : in_run S c) (h : expect_char c t = (r, c')) : in_run S c' := by
  unfold expect_char at h
  rcases h1 : consume_char c t with ⟨r1, c1⟩
  have k1 := consume_char_in_run S c c1 t r1 ht hS hc h1
  rw [h1] at h
  cases r1 with
  | true =>
    simp only [Prod.mk.injEq] at h
    obtain ⟨_, rfl⟩ := h
    exact k1
  | false =>
    simp only at h
    split_ifs at h <;>
    · simp only [Prod.mk.injEq] at h
      obtain ⟨_, rfl⟩ := h
      exact k1

theorem read_word_loop_in_run (S : List Nat)
    (hS : S.headD 0 = 0 ∨ S.headD 0 = 123 ∨ S.headD 0 = 125) (p : List Nat) :
    ∀ acc, brace_free p = true →
      ∃ p', brace_free p' = true ∧ (read_word_loop (p ++ S) acc).1 = p' ++ S := by
  induction p using brace_free.induct with
  | case1 =>
    intro acc _
    refine ⟨[], rfl, ?_⟩
    cases S with
    | nil => simp [read_word_loop]
    | cons a S =>
      simp only [List.headD_cons] at hS
      rw [List.nil_append, read_word_loop_stop a S acc (by
        rcases hS with rfl | rfl | rfl
        · exact Or.inl rfl
        · exact Or.inr (by decide)
        · exact Or.inr (by decide))]
  | case2 => intro acc hp; simp [brace_free] at hp
  | case3 x t ih =>
    intro acc hp
    rw [brace_free_pair] at hp
    simp only [Bool.and_eq_true, bne_iff_ne, ne_eq] at hp
    obtain ⟨p', h1, h2⟩ := ih (acc ++ [escaped_char x]) hp.2
    refine ⟨p', h1, ?_⟩
    rw [← h2]
    exact congrArg Prod.fst (read_word_loop_esc x (t ++ S) acc hp.1)
  | case4 b t hb ih =>
    intro acc hp
    have hp0 := hp
    rw [brace_free_byte b t hb] at hp
    simp only [Bool.and_eq_true, bne_iff_ne, ne_eq] at hp
    by_cases hpunct : FcCharIsPunct b = true
    · refine ⟨b :: t, hp0, ?_⟩
      rw [List.cons_append, read_word_loop_stop b (t ++ S) acc (Or.inr ⟨hb, hpunct⟩)]
    · obtain ⟨p', h1, h2⟩ := ih (acc ++ [b]) hp.2
      refine ⟨p', h1, ?_⟩
      rw [← h2]
      exact congrArg Prod.fst (read_word_loop_plain b (t ++ S) acc (by simpa using hpunct))

theorem read_chars_loop_in_run (S : List Nat) (term : Nat)
    (hS : S.headD 0 = 0 ∨ S.headD 0 = 125) (p : List Nat) :
    ∀ acc, brace_free p = true →
      ∃ p', brace_free p' = true ∧ (read_chars_loop term (p ++ S) acc).1 = p' ++ S := by
  induction p using brace_free.induct with
  | case1 =>
    intro acc _
    refine ⟨[], rfl, ?_⟩
    cases S with
    | nil => simp [read_chars_loop]
    | cons a S =>
      simp only [List.headD_cons] at hS
      rw [List.nil_append, read_chars_loop_stop term a S acc (by
        rcases hS with rfl | rfl
        · exact Or.inl rfl
        · exact Or.inr (Or.inl rfl))]
  | case2 => intro acc hp; simp [brace_free] at hp
  | case3 x t ih =>
    intro acc hp
    have hp0 := hp
    rw [brace_free_pair] at hp
    simp only [Bool.and_eq_true, bne_iff_ne, ne_eq] at hp
    by_cases hterm : (92 : Nat) = term
    · refine ⟨92 :: x :: t, hp0, ?_⟩
      rw [List.cons_append, read_chars_loop_stop term 92 _ acc (Or.inr (Or.inr hterm))]
    · obtain ⟨p', h1, h2⟩ := ih (acc ++ [escaped_char x]) hp.2
      refine ⟨p', h1, ?_⟩
      rw [← h2]
      exact congrArg Prod.fst (read_chars_loop_esc term x (t ++ S) acc
        (by simp; exact hterm) hp.1)
  | case4 b t hb ih =>
    intro acc hp
    have hp0 := hp
    rw [brace_free_byte b t hb] at hp
    simp only [Bool.and_eq_true, bne_iff_ne, ne_eq] at hp
    by_cases hterm : b = term
    · refine ⟨b :: t, hp0, ?_⟩
      rw [List.cons_append, read_chars_loop_stop term b _ acc (Or.inr (Or.inr hterm))]
    · obtain ⟨p', h1, h2⟩ := ih (acc ++ [b]) hp.2
      refine ⟨p', h1, ?_⟩
      rw [← h2]
      exact congrArg Prod.fst (read_chars_loop_plain term b (t ++ S) acc
        (by simp [hp.1.1.1, hp.1.2, hterm]) hb)
theorem read_word_in_run (S : List Nat) (c c' : FcFormatContext) (r : Bool)
    (hS : S.headD 0 = 0 ∨ S.headD 0 = 123 ∨ S.headD 0 = 125)
    (hc : in_run S c) (h : read_word c = (r, c')) : in_run S c' := by
  obtain ⟨p, hp1, hp2⟩ := hc
  obtain ⟨p', h1, h2⟩ := read_word_loop_in_run S hS p [] hp1
  rw [← hp2] at h2
  unfold read_word at h
  dsimp only at h
  split_ifs at h <;>
  · simp only [Prod.mk.injEq] at h
    obtain ⟨_, rfl⟩ := h
    exact ⟨p', h1, h2⟩

theorem read_chars_in_run (S : List Nat) (c c' : FcFormatContext) (term : Nat) (r : Bool)
    (hS : S.headD 0 = 0 ∨ S.headD 0 = 125)
    (hc : in_run S c) (h : read_chars c term = (r, c')) : in_run S c' := by
  obtain ⟨p, hp1, hp2⟩ := hc
  obtain ⟨p', h1, h2⟩ := read_chars_loop_in_run S term hS p [] hp1
  rw [← hp2] at h2
  unfold read_chars at h
  dsimp only at h
  split_ifs at h <;>
  · simp only [Prod.mk.injEq] at h
    obtain ⟨_, rfl⟩ := h
    exact ⟨p', h1, h2⟩

theorem in_run_word (S : List Nat) (c : FcFormatContext) (w : List Nat) (hc : in_run S c) :
    in_run S { c with word := w } := hc

theorem interpret_filter_loop_in_run (S : List Nat)
    (hS : S.headD 0 = 0 ∨ S.headD 0 = 123 ∨ S.headD 0 = 125) (fuel : Nat)
    (c c' : FcFormatContext) (os os' : List (List Nat)) (r : Bool) (hc : in_run S c)
    (h : interpret_filter_loop fuel c os = some (r, c', os')) : in_run S c' := by
  induction fuel generalizing c os with
  | zero => simp [interpret_filter_loop] at h
  | succ fuel ih =>
    unfold interpret_filter_loop at h
    rcases h1 : read_word c with ⟨r1, c1⟩
    have k1 := read_word_in_run S c c1 r1 hS hc h1
    rw [h1] at h
    cases r1 with
    | false =>
      simp only [Option.some.injEq, Prod.mk.injEq] at h; obtain ⟨_, rfl, _⟩ := h
      exact k1
    | true =>
      simp only at h
      rcases h2 : consume_char c1 44 with ⟨r2, c2⟩
      have k2 := consume_char_in_run S c1 c2 44 r2 (by decide) hS k1 h2
      rw [h2] at h
      cases r2 with
      | false =>
        simp only [Option.some.injEq, Prod.mk.injEq] at h; obtain ⟨_, rfl, _⟩ := h
        exact k2
      | true => exact ih c2 _ k2 h

theorem interpret_delete_loop_in_run {V : Type} (S : List Nat)
    (hS : S.headD 0 = 0 ∨ S.headD 0 = 123 ∨ S.headD 0 = 125) (fuel : Nat)
    (c c' : FcFormatContext) (sp sp' : FcPattern V) (r : Bool) (hc : in_run S c)
    (h : interpret_delete_loop fuel c sp = some (r, c', sp')) : in_run S c' := by
  induction fuel generalizing c sp with
  | zero => simp [interpret_delete_loop] at h
  | succ fuel ih =>
    unfold interpret_delete_loop at h
    rcases h1 : read_word c with ⟨r1, c1⟩
    have k1 := read_word_in_run S c c1 r1 hS hc h1
    rw [h1] at h
    cases r1 with
    | false =>
      simp only [Option.some.injEq, Prod.mk.injEq] at h; obtain ⟨_, rfl, _⟩ := h
      exact k1
    | true =>
      simp only at h
      rcases h2 : consume_char c1 44 with ⟨r2, c2⟩
      have k2 := consume_char_in_run S c1 c2 44 r2 (by decide) hS k1 h2
      rw [h2] at h
      cases r2 with
      | false =>
        simp only [Option.some.injEq, Prod.mk.injEq] at h; obtain ⟨_, rfl, _⟩ := h
        exact k2
      | true => exact ih c2 _ k2 h

theorem interpret_cond_loop_in_run {V : Type} (pat : FcPattern V) (S : List Nat)
    (hS : S.headD 0 = 0 ∨ S.headD 0 = 123 ∨ S.headD 0 = 125) (fuel : Nat)
    (c c' : FcFormatContext) (ps ps' : Bool) (r : Bool) (hc : in_run S c)
    (h : interpret_cond_loop pat fuel c ps = some (r, c', ps')) : in_run S c' := by
  induction fuel generalizing c ps with
  | zero => simp [interpret_cond_loop] at h
  | succ fuel ih =>
    unfold interpret_cond_loop at h
    rcases h0 : consume_char c 33 with ⟨r0, c0⟩
    have k0 := consume_char_in_run S c c0 33 r0 (by decide) hS hc h0
    rw [h0] at h
    simp only at h
    rcases h1 : read_word c0 with ⟨r1, c1⟩
    have k1 := read_word_in_run S c0 c1 r1 hS k0 h1
    rw [h1] at h
    cases r1 with
    | false =>
      simp only [Option.some.injEq, Prod.mk.injEq] at h; obtain ⟨_, rfl, _⟩ := h
      exact k1
    | true =>
      simp only at h
      rcases h2 : consume_char c1 44 with ⟨r2, c2⟩
      have k2 := consume_char_in_run S c1 c2 44 r2 (by decide) hS k1 h2
      rw [h2] at h
      cases r2 with
      | false =>
        simp only [Option.some.injEq, Prod.mk.injEq] at h; obtain ⟨_, rfl, _⟩ := h
        exact k2
      | true => exact ih c2 _ k2 h

theorem interpret_count_in_run {V : Type} (S : List Nat)
    (hS : S.headD 0 = 0 ∨ S.headD 0 = 123 ∨ S.headD 0 = 125)
    (c c' : FcFormatContext) (pat : FcPattern V) (buf buf' : FcStrBuf) (r : Bool)
    (hc : in_run S c) (h : interpret_count c pat buf = (r, c', buf')) : in_run S c' := by
  unfold interpret_count at h
  rcases h1 : expect_char c 35 with ⟨r1, c1⟩
  have k1 := expect_char_in_run S c c1 35 r1 (by decide) hS hc h1
  rw [h1] at h
  cases r1 with
  | false =>
    simp only [Prod.mk.injEq] at h; obtain ⟨_, rfl, _⟩ := h; exact k1
  | true =>
    simp only at h
    rcases h2 : read_word c1 with ⟨r2, c2⟩
    have k2 := read_word_in_run S c1 c2 r2 hS k1 h2
    rw [h2] at h
    cases r2 with
    | false =>
      simp only [Prod.mk.injEq] at h; obtain ⟨_, rfl, _⟩ := h; exact k2
    | true =>
      simp only [Prod.mk.injEq] at h; obtain ⟨_, rfl, _⟩ := h; exact k2

theorem interpret_simple_in_run {V : Type} (ext : Externals V) (S : List Nat)
    (hS : S.headD 0 = 0 ∨ S.headD 0 = 123 ∨ S.headD 0 = 125)
    (c c' : FcFormatContext) (pat : FcPattern V) (buf buf' : FcStrBuf) (r : Bool)
    (hc : in_run S c) (h : interpret_simple ext c pat buf = (r, c', buf')) : in_run S c' := by
  unfold interpret_simple at h
  rcases h1 : consume_char c 58 with ⟨r1, c1⟩
  have k1 := consume_char_in_run S c c1 58 r1 (by decide) hS hc h1
  rw [h1] at h
  simp only at h
  rcases h2 : read_word c1 with ⟨r2, c2⟩
  have k2 := read_word_in_run S c1 c2 r2 hS k1 h2
  rw [h2] at h
  cases r2 with
  | false =>
    simp only [Prod.mk.injEq] at h; obtain ⟨_, rfl, _⟩ := h; exact k2
  | true =>
    simp only at h
    rcases h3 : consume_char c2 61 with ⟨r3, c3⟩
    have k3 := consume_char_in_run S c2 c3 61 r3 (by decide) hS k2 h3
    rw [h3] at h
    simp only at h
    cases hf : FcPatternObjectFindElt pat c3.word with
    | none =>
      rw [hf] at h
      simp only [Prod.mk.injEq] at h; obtain ⟨_, rfl, _⟩ := h; exact k3
    | some el =>
      rw [hf] at h
      simp only [Prod.mk.injEq] at h; obtain ⟨_, rfl, _⟩ := h; exact k3

theorem delete_chars_in_run (S : List Nat) (hS : S.headD 0 = 0 ∨ S.headD 0 = 125)
    (c c' : FcFormatContext) (str : List Nat) (o : Option (List Nat)) (hc : in_run S c)
    (h : delete_chars c str = (o, c')) : in_run S c' := by
  have hS3 : S.headD 0 = 0 ∨ S.headD 0 = 123 ∨ S.headD 0 = 125 := by
    rcases hS with h | h
    · exact Or.inl h
    · exact Or.inr (Or.inr h)
  unfold delete_chars at h
  rcases h1 : expect_char c 40 with ⟨r1, c1⟩
  have k1 := expect_char_in_run S c c1 40 r1 (by decide) hS3 hc h1
  rw [h1] at h
  cases r1 with
  | false => simp only [Prod.mk.injEq] at h; obtain ⟨_, rfl⟩ := h; exact k1
  | true =>
    simp only at h
    rcases h2 : read_chars c1 41 with ⟨r2, c2⟩
    have k2 := read_chars_in_run S c1 c2 41 r2 hS k1 h2
    rw [h2] at h
    cases r2 with
    | false => simp only [Prod.mk.injEq] at h; obtain ⟨_, rfl⟩ := h; exact k2
    | true =>
      simp only at h
      rcases h3 : expect_char c2 41 with ⟨r3, c3⟩
      have k3 := expect_char_in_run S c2 c3 41 r3 (by decide) hS3 k2 h3
      rw [h3] at h
      cases r3 with
      | false => simp only [Prod.mk.injEq] at h; obtain ⟨_, rfl⟩ := h; exact k3
      | true => simp only [Prod.mk.injEq] at h; obtain ⟨_, rfl⟩ := h; exact k3

theorem escape_chars_in_run (S : List Nat) (hS : S.headD 0 = 0 ∨ S.headD 0 = 125)
    (c c' : FcFormatContext) (str : List Nat) (o : Option (List Nat)) (hc : in_run S c)
    (h : escape_chars c str = (o, c')) : in_run S c' := by
  have hS3 : S.headD 0 = 0 ∨ S.headD 0 = 123 ∨ S.headD 0 = 125 := by
    rcases hS with h | h
    · exact Or.inl h
    · exact Or.inr (Or.inr h)
  unfold escape_chars at h
  rcases h1 : expect_char c 40 with ⟨r1, c1⟩
  have k1 := expect_char_in_run S c c1 40 r1 (by decide) hS3 hc h1
  rw [h1] at h
  cases r1 with
  | false => simp only [Prod.mk.injEq] at h; obtain ⟨_, rfl⟩ := h; exact k1
  | true =>
    simp only at h
    rcases h2 : read_chars c1 41 with ⟨r2, c2⟩
    have k2 := read_chars_in_run S c1 c2 41 r2 hS k1 h2
    rw [h2] at h
    cases r2 with
    | false => simp only [Prod.mk.injEq] at h; obtain ⟨_, rfl⟩ := h; exact k2
    | true =>
      simp only at h
      rcases h3 : expect_char c2 41 with ⟨r3, c3⟩
      have k3 := expect_char_in_run S c2 c3 41 r3 (by decide) hS3 k2 h3
      rw [h3] at h
      cases r3 with
      | false => simp only [Prod.mk.injEq] at h; obtain ⟨_, rfl⟩ := h; exact k3
      | true => simp only [Prod.mk.injEq] at h; obtain ⟨_, rfl⟩ := h; exact k3

theorem translate_chars_in_run (S : List Nat) (hS : S.headD 0 = 0 ∨ S.headD 0 = 125)
    (c c' : FcFormatContext) (str : List Nat) (o : Option (List Nat)) (hc : in_run S c)
    (h : translate_chars c str = (o, c')) : in_run S c' := by
  have hS3 : S.headD 0 = 0 ∨ S.headD 0 = 123 ∨ S.headD 0 = 125 := by
    rcases hS with h | h
    · exact Or.inl h
    · exact Or.inr (Or.inr h)
  unfold translate_chars at h
  rcases h1 : expect_char c 40 with ⟨r1, c1⟩
  have k1 := expect_char_in_run S c c1 40 r1 (by decide) hS3 hc h1
  rw [h1] at h
  cases r1 with
  | false => simp only [Prod.mk.injEq] at h; obtain ⟨_, rfl⟩ := h; exact k1
  | true =>
    simp only at h
    rcases h2 : read_chars c1 44 with ⟨r2, c2⟩
    have k2 := read_chars_in_run S c1 c2 44 r2 hS k1 h2
    rw [h2] at h
    cases r2 with
    | false => simp only [Prod.mk.injEq] at h; obtain ⟨_, rfl⟩ := h; exact k2
    | true =>
      simp only at h
      rcases h3 : expect_char c2 44 with ⟨r3, c3⟩
      have k3 := expect_char_in_run S c2 c3 44 r3 (by decide) hS3 k2 h3
      rw [h3] at h
      cases r3 with
      | false => simp only [Prod.mk.injEq] at h; obtain ⟨_, rfl⟩ := h; exact k3
      | true =>
        simp only at h
        rcases h4 : read_chars c3 41 with ⟨r4, c4⟩
        have k4 := read_chars_in_run S c3 c4 41 r4 hS k3 h4
        rw [h4] at h
        cases r4 with
        | false =>
          simp only [Prod.mk.injEq] at h; obtain ⟨_, rfl⟩ := h
          exact in_run_word S c4 _ k4
        | true =>
          simp only at h
          rcases h5 : expect_char { c4 with word := c3.word } 41 with ⟨r5, c5⟩
          have k5 := expect_char_in_run S _ c5 41 r5 (by decide) hS3
            (in_run_word S c4 c3.word k4) h5
          rw [h5] at h
          cases r5 with
          | false => simp only [Prod.mk.injEq] at h; obtain ⟨_, rfl⟩ := h; exact k5
          | true => simp only [Prod.mk.injEq] at h; obtain ⟨_, rfl⟩ := h; exact k5

theorem convert_in_run {V : Type} (ext : Externals V) (S : List Nat)
    (hS : S.headD 0 = 0 ∨ S.headD 0 = 125)
    (c c' : FcFormatContext) (str : List Nat) (o : Option (List Nat)) (hc : in_run S c)
    (h : convert ext c str = (o, c')) : in_run S c' := by
  have hS3 : S.headD 0 = 0 ∨ S.headD 0 = 123 ∨ S.headD 0 = 125 := by
    rcases hS with h | h
    · exact Or.inl h
    · exact Or.inr (Or.inr h)
  unfold convert at h
  rcases h1 : read_word c with ⟨r1, c1⟩
  have k1 := read_word_in_run S c c1 r1 hS3 hc h1
  rw [h1] at h
  cases r1 with
  | false => simp only [Prod.mk.injEq] at h; obtain ⟨_, rfl⟩ := h; exact k1
  | true =>
    simp only at h
    split_ifs at h
    all_goals first
      | (simp only [Prod.mk.injEq] at h; obtain ⟨_, rfl⟩ := h; exact k1)
      | skip
    · exact delete_chars_in_run S hS c1 c' str o k1 h
    · exact escape_chars_in_run S hS c1 c' str o k1 h
    · exact translate_chars_in_run S hS c1 c' str o k1 h

theorem maybe_interpret_converts_in_run {V : Type} (ext : Externals V) (S : List Nat)
    (hS : S.headD 0 = 0 ∨ S.headD 0 = 125) (fuel : Nat)
    (c c' : FcFormatContext) (buf buf' : FcStrBuf) (start : Nat) (r : Bool)
    (hc : in_run S c)
    (h : maybe_interpret_converts ext fuel c buf start = some (r, c', buf')) :
    in_run S c' := by
  have hS3 : S.headD 0 = 0 ∨ S.headD 0 = 123 ∨ S.headD 0 = 125 := by
    rcases hS with h | h
    · exact Or.inl h
    · exact Or.inr (Or.inr h)
  induction fuel generalizing c buf with
  | zero => simp [maybe_interpret_converts] at h
  | succ fuel ih =>
    unfold maybe_interpret_converts at h
    rcases h1 : consume_char c 124 with ⟨r1, c1⟩
    have k1 := consume_char_in_run S c c1 124 r1 (by decide) hS3 hc h1
    rw [h1] at h
    cases r1 with
    | false =>
      simp only [Option.some.injEq, Prod.mk.injEq] at h; obtain ⟨_, rfl, _⟩ := h
      exact k1
    | true =>
      dsimp only at h
      split_ifs at h
      · simp only [Option.some.injEq, Prod.mk.injEq] at h; obtain ⟨_, rfl, _⟩ := h
        exact k1
      · rcases h2 : convert ext c1 ((FcStrBufChar buf 0).buf.drop start) with ⟨o, c2⟩
        have k2 := convert_in_run ext S hS c1 c2 _ o k1 h2
        rw [h2] at h
        cases o with
        | none =>
          simp only [Option.some.injEq, Prod.mk.injEq] at h; obtain ⟨_, rfl, _⟩ := h
          exact k2
        | some s => exact ih c2 _ k2 h

/-- The end of a directive: after the branches of the body the converter
pipeline is a brace-free run `p` in front of the closing brace; when the
pipeline, the alignment and `expect_char (c, '}')` succeed, the cursor is behind
that brace. -/
theorem directive_close {V : Type} (ext : Externals V) (Y : List Nat) (fuel : Nat)
    (c c' : FcFormatContext) (buf buf' : FcStrBuf) (start : Nat) (width : Int)
    (hc : in_run (125 :: Y) c)
    (h : (match maybe_interpret_converts ext fuel c buf start with
          | none => none
          | some (false, c, buf) => some (false, c, buf)
          | some (true, c, buf) =>
            match align_to_width buf start width with
            | (false, buf) => some (false, c, buf)
            | (true, buf) =>
              match expect_char c 125 with
              | (res, c) => some (res, c, buf)) = some (true, c', buf')) :
    c'.format = Y := by
  cases h6 : maybe_interpret_converts ext fuel c buf start with
  | none => rw [h6] at h; simp at h
  | some p =>
    obtain ⟨r6, c6, b6⟩ := p
    have k6 := maybe_interpret_converts_in_run ext (125 :: Y) (Or.inr rfl) fuel c c6 buf b6
      start r6 hc h6
    rw [h6] at h
    cases r6 with
    | false => simp at h
    | true =>
      simp only at h
      rcases h7 : align_to_width b6 start width with ⟨r7, b7⟩
      rw [h7] at h
      cases r7 with
      | false => simp at h
      | true =>
        simp only at h
        rcases h8 : expect_char c6 125 with ⟨r8, c8⟩
        rw [h8] at h
        simp only [Option.some.injEq, Prod.mk.injEq] at h
        obtain ⟨rfl, rfl, _⟩ := h
        have hfmt := (expect_char_ok c6 c8 125 true (by decide) h8).2.1 rfl
        have hpk : peek c6 = 125 := by unfold peek; rw [hfmt]; rfl
        have := in_run_peek (125 :: Y) c6 k6 125 (Or.inr rfl) hpk
        rw [this] at hfmt
        exact (List.cons.inj hfmt).2.symm
/-! ## The interpreter on well-formed branch texts -/

theorem interpret_expr_at_term {V : Type} (ext : Externals V) (fuel : Nat) (c : FcFormatContext)
    (pat : FcPattern V) (buf : FcStrBuf) (term : Nat) (r : Bool) (c' : FcFormatContext)
    (buf' : FcStrBuf) (hp : peek c = term)
    (h : interpret_expr ext fuel c pat buf term = some (r, c', buf')) : c' = c := by
  cases fuel with
  | zero => simp [interpret_expr] at h
  | succ fuel =>
    rw [interpret_expr, if_neg (by simp [hp])] at h
    simp only [Option.some.injEq, Prod.mk.injEq] at h
    exact h.2.1.symm

theorem run_head_ne_open (p Y : List Nat) (hp : brace_free p = true) :
    (p ++ 125 :: Y).headD 0 ≠ 123 := by
  rcases brace_free_cases p hp with rfl | ⟨b, t, rfl, _, _, h123, _, _⟩ | ⟨x, t, rfl, _, _⟩
  · simp
  · simpa using h123
  · simp

theorem width_head (wd s : List Nat) (hw : width_text wd) : (wd ++ 123 :: s).headD 0 ≠ 37 := by
  intro h
  have h1 := hw s
  rw [strtol_no_digits (wd ++ 123 :: s) (by rw [h]; decide) (by rw [h]; decide)
    (by rw [h]; decide) (by rw [h]; decide) (by rw [h]; decide)] at h1
  simp only at h1
  rw [h1] at h
  simp at h

/-- The interpreter on `{T}`, for a text `T` that `interpret_expr` passes over:
when `interpret_subexpr` succeeds from inside a brace-free run in front of `{T}`,
the cursor was at the brace and ends behind the closing brace. -/
theorem interpret_subexpr_in_run {V : Type} (ext : Externals V) (T Z : List Nat)
    (hT : ∀ (fuel : Nat) (c : FcFormatContext) (pat : FcPattern V) (buf : FcStrBuf)
      (X : List Nat) (c' : FcFormatContext) (buf' : FcStrBuf), c.format = T ++ X →
      interpret_expr ext fuel c pat buf 125 = some (true, c', buf') →
      ∃ fuel' c1 buf1, c1.format = X ∧
        interpret_expr ext fuel' c1 pat buf1 125 = some (true, c', buf'))
    (fuel : Nat) (c : FcFormatContext) (pat : FcPattern V) (buf : FcStrBuf)
    (c' : FcFormatContext) (buf' : FcStrBuf) (hc : in_run (123 :: (T ++ 125 :: Z)) c)
    (h : interpret_subexpr ext fuel c pat buf = some (true, c', buf')) : c'.format = Z := by
  cases fuel with
  | zero => simp [interpret_subexpr] at h
  | succ fuel =>
    rw [interpret_subexpr] at h
    rcases h1 : expect_char c 123 with ⟨r1, c1⟩
    rw [h1] at h
    cases r1 with
    | false => simp at h
    | true =>
      simp only at h
      have hfmt := (expect_char_ok c c1 123 true (by decide) h1).2.1 rfl
      have hpk : peek c = 123 := by unfold peek; rw [hfmt]; rfl
      have hat := in_run_peek _ c hc 123 (Or.inl rfl) hpk
      rw [hat] at hfmt
      have hc1 : c1.format = T ++ 125 :: Z := (List.cons.inj hfmt).2.symm
      cases h2 : interpret_expr ext fuel c1 pat buf 125 with
      | none => rw [h2] at h; simp at h
      | some q =>
        obtain ⟨r2, c2, b2⟩ := q
        rw [h2] at h
        cases r2 with
        | false => simp at h
        | true =>
          simp only at h
          obtain ⟨f', c1', buf1, e1, e2⟩ := hT fuel c1 pat buf _ c2 b2 hc1 h2
          have e3 := interpret_expr_at_term ext f' c1' pat buf1 125 true c2 b2
            (by unfold peek; rw [e1]; rfl) e2
          subst e3
          rcases h3 : expect_char c2 125 with ⟨r3, c3⟩
          rw [h3] at h
          simp only [Option.some.injEq, Prod.mk.injEq] at h
          obtain ⟨rfl, rfl, _⟩ := h
          have hfmt3 := (expect_char_ok c2 c3 125 true (by decide) h3).2.1 rfl
          rw [e1] at hfmt3
          exact (List.cons.inj hfmt3).2.symm

/-- The skipper on `{B}` from inside a brace-free run in front of it: when
`skip_subexpr` succeeds the cursor was at the brace and ends behind the closing
brace. -/
theorem skip_subexpr_in_run (B : Branch) (hB : B.ok) (Z : List Nat) (fuel : Nat)
    (c c' : FcFormatContext) (hc : in_run (123 :: (B.text ++ 125 :: Z)) c)
    (h : skip_subexpr fuel c = some (true, c')) : c'.format = Z := by
  have hat : c.format = 123 :: (B.text ++ 125 :: Z) := by
    cases fuel with
    | zero => simp [skip_subexpr] at h
    | succ fuel =>
      rw [skip_subexpr] at h
      rcases h1 : expect_char c 123 with ⟨r1, c1⟩
      rw [h1] at h
      cases r1 with
      | false => simp at h
      | true =>
        have hfmt := (expect_char_ok c c1 123 true (by decide) h1).2.1 rfl
        have hpk : peek c = 123 := by unfold peek; rw [hfmt]; rfl
        exact in_run_peek _ c hc 123 (Or.inl rfl) hpk
  obtain ⟨orig, fmt, len, w, e⟩ := c
  simp only at hat
  subst hat
  have := skip_subexpr_branch orig len w e B hB Z fuel _ h
  simp only [Prod.mk.injEq, true_and] at this
  rw [this]
theorem interpret_filter_in_run {V : Type} (ext : Externals V) (T Z : List Nat)
    (hT : ∀ (fuel : Nat) (c : FcFormatContext) (pat : FcPattern V) (buf : FcStrBuf)
      (X : List Nat) (c' : FcFormatContext) (buf' : FcStrBuf), c.format = T ++ X →
      interpret_expr ext fuel c pat buf 125 = some (true, c', buf') →
      ∃ fuel' c1 buf1, c1.format = X ∧
        interpret_expr ext fuel' c1 pat buf1 125 = some (true, c', buf'))
    (fuel : Nat) (c : FcFormatContext) (pat : FcPattern V) (buf : FcStrBuf)
    (c' : FcFormatContext) (buf' : FcStrBuf) (hc : in_run (123 :: (T ++ 125 :: Z)) c)
    (h : interpret_filter ext fuel c pat buf = some (true, c', buf')) : c'.format = Z := by
  have hS : (123 :: (T ++ 125 :: Z)).headD 0 = 0 ∨ (123 :: (T ++ 125 :: Z)).headD 0 = 123 ∨
      (123 :: (T ++ 125 :: Z)).headD 0 = 125 := Or.inr (Or.inl rfl)
  cases fuel with
  | zero => simp [interpret_filter] at h
  | succ fuel =>
    rw [interpret_filter] at h
    rcases h1 : expect_char c 43 with ⟨r1, c1⟩
    have k1 := expect_char_in_run _ c c1 43 r1 (by decide) hS hc h1
    rw [h1] at h
    cases r1 with
    | false => simp at h
    | true =>
      simp only at h
      cases h2 : interpret_filter_loop fuel c1 [] with
      | none => rw [h2] at h; simp at h
      | some q =>
        obtain ⟨r2, c2, os⟩ := q
        have k2 := interpret_filter_loop_in_run _ hS fuel c1 c2 [] os r2 k1 h2
        rw [h2] at h
        cases r2 with
        | false => simp at h
        | true => exact interpret_subexpr_in_run ext T Z hT fuel c2 _ buf c' buf' k2 h

theorem interpret_delete_in_run {V : Type} (ext : Externals V) (T Z : List Nat)
    (hT : ∀ (fuel : Nat) (c : FcFormatContext) (pat : FcPattern V) (buf : FcStrBuf)
      (X : List Nat) (c' : FcFormatContext) (buf' : FcStrBuf), c.format = T ++ X →
      interpret_expr ext fuel c pat buf 125 = some (true, c', buf') →
      ∃ fuel' c1 buf1, c1.format = X ∧
        interpret_expr ext fuel' c1 pat buf1 125 = some (true, c', buf'))
    (fuel : Nat) (c : FcFormatContext) (pat : FcPattern V) (buf : FcStrBuf)
    (c' : FcFormatContext) (buf' : FcStrBuf) (hc : in_run (123 :: (T ++ 125 :: Z)) c)
    (h : interpret_delete ext fuel c pat buf = some (true, c', buf')) : c'.format = Z := by
  have hS : (123 :: (T ++ 125 :: Z)).headD 0 = 0 ∨ (123 :: (T ++ 125 :: Z)).headD 0 = 123 ∨
      (123 :: (T ++ 125 :: Z)).headD 0 = 125 := Or.inr (Or.inl rfl)
  cases fuel with
  | zero => simp [interpret_delete] at h
  | succ fuel =>
    rw [interpret_delete] at h
    rcases h1 : expect_char c 45 with ⟨r1, c1⟩
    have k1 := expect_char_in_run _ c c1 45 r1 (by decide) hS hc h1
    rw [h1] at h
    cases r1 with
    | false => simp at h
    | true =>
      simp only at h
      cases h2 : interpret_delete_loop fuel c1 (FcPatternDuplicate pat) with
      | none => rw [h2] at h; simp at h
      | some q =>
        obtain ⟨r2, c2, sp⟩ := q
        have k2 := interpret_delete_loop_in_run _ hS fuel c1 c2 _ sp r2 k1 h2
        rw [h2] at h
        cases r2 with
        | false => simp at h
        | true => exact interpret_subexpr_in_run ext T Z hT fuel c2 _ buf c' buf' k2 h

/-- The conditional from inside its head: the then-branch `{B}` is followed by
`Z1`, and `Z` is where the optional else-branch ends, whether it is skipped
(`hskip`) or rendered (`hrender`). -/
theorem interpret_cond_in_run {V : Type} (ext : Externals V) (B : Branch) (hB : B.ok)
    (Z1 Z : List Nat)
    (hT : ∀ (fuel : Nat) (c : FcFormatContext) (pat : FcPattern V) (buf : FcStrBuf)
      (X : List Nat) (c' : FcFormatContext) (buf' : FcStrBuf), c.format = B.text ++ X →
      interpret_expr ext fuel c pat buf 125 = some (true, c', buf') →
      ∃ fuel' c1 buf1, c1.format = X ∧
        interpret_expr ext fuel' c1 pat buf1 125 = some (true, c', buf'))
    (hskip : ∀ (fuel : Nat) (c c' : FcFormatContext), c.format = Z1 →
      maybe_skip_subexpr fuel c = some (true, c') → c'.format = Z)
    (hrender : ∀ (fuel : Nat) (c : FcFormatContext) (pat : FcPattern V) (buf : FcStrBuf)
      (c' : FcFormatContext) (buf' : FcStrBuf), c.format = Z1 →
      maybe_interpret_subexpr ext fuel c pat buf = some (true, c', buf') → c'.format = Z)
    (fuel : Nat) (c : FcFormatContext) (pat : FcPattern V) (buf : FcStrBuf)
    (c' : FcFormatContext) (buf' : FcStrBuf)
    (hc : in_run (123 :: (B.text ++ 125 :: Z1)) c)
    (h : interpret_cond ext fuel c pat buf = some (true, c', buf')) : c'.format = Z := by
  have hS : (123 :: (B.text ++ 125 :: Z1)).headD 0 = 0 ∨
      (123 :: (B.text ++ 125 :: Z1)).headD 0 = 123 ∨
      (123 :: (B.text ++ 125 :: Z1)).headD 0 = 125 := Or.inr (Or.inl rfl)
  cases fuel with
  | zero => simp [interpret_cond] at h
  | succ fuel =>
    rw [interpret_cond] at h
    rcases h1 : expect_char c 63 with ⟨r1, c1⟩
    have k1 := expect_char_in_run _ c c1 63 r1 (by decide) hS hc h1
    rw [h1] at h
    cases r1 with
    | false => simp at h
    | true =>
      simp only at h
      cases h2 : interpret_cond_loop pat fuel c1 true with
      | none => rw [h2] at h; simp at h
      | some q =>
        obtain ⟨r2, c2, pass⟩ := q
        have k2 := interpret_cond_loop_in_run pat _ hS fuel c1 c2 true pass r2 k1 h2
        rw [h2] at h
        cases r2 with
        | false => simp at h
        | true =>
          cases pass with
          | true =>
            simp only at h
            cases h3 : interpret_subexpr ext fuel c2 pat buf with
            | none => rw [h3] at h; simp at h
            | some q3 =>
              obtain ⟨r3, c3, b3⟩ := q3
              rw [h3] at h
              cases r3 with
              | false => simp at h
              | true =>
                simp only at h
                have k3 := interpret_subexpr_in_run ext B.text Z1 hT fuel c2 pat buf c3 b3 k2 h3
                cases h4 : maybe_skip_subexpr fuel c3 with
                | none => rw [h4] at h; simp at h
                | some q4 =>
                  obtain ⟨r4, c4⟩ := q4
                  rw [h4] at h
                  simp only [Option.some.injEq, Prod.mk.injEq] at h
                  obtain ⟨rfl, rfl, _⟩ := h
                  exact hskip fuel c3 c4 k3 h4
          | false =>
            simp only at h
            cases h3 : skip_subexpr fuel c2 with
            | none => rw [h3] at h; simp at h
            | some q3 =>
              obtain ⟨r3, c3⟩ := q3
              rw [h3] at h
              cases r3 with
              | false => simp at h
              | true =>
                simp only at h
                have k3 := skip_subexpr_in_run B hB Z1 fuel c2 c3 k2 h3
                exact hrender fuel c3 pat buf c' buf' k3 h

theorem maybe_skip_subexpr_none (Z : List Nat) (hZ : Z.headD 0 ≠ 123) (fuel : Nat)
    (c c' : FcFormatContext) (hc : c.format = Z)
    (h : maybe_skip_subexpr fuel c = some (true, c')) : c'.format = Z := by
  unfold maybe_skip_subexpr at h
  rw [if_neg (by unfold peek; rw [hc]; exact hZ)] at h
  simp only [Option.some.injEq, Prod.mk.injEq, true_and] at h
  rw [← h]; exact hc

theorem maybe_interpret_subexpr_none {V : Type} (ext : Externals V) (Z : List Nat)
    (hZ : Z.headD 0 ≠ 123) (fuel : Nat) (c : FcFormatContext) (pat : FcPattern V)
    (buf : FcStrBuf) (c' : FcFormatContext) (buf' : FcStrBuf) (hc : c.format = Z)
    (h : maybe_interpret_subexpr ext fuel c pat buf = some (true, c', buf')) :
    c'.format = Z := by
  cases fuel with
  | zero => simp [maybe_interpret_subexpr] at h
  | succ fuel =>
    rw [maybe_interpret_subexpr, if_neg (by unfold peek; rw [hc]; exact hZ)] at h
    simp only [Option.some.injEq, Prod.mk.injEq, true_and] at h
    rw [← h.1]; exact hc

theorem maybe_skip_subexpr_branch (B : Branch) (hB : B.ok) (Z : List Nat) (fuel : Nat)
    (c c' : FcFormatContext) (hc : c.format = 123 :: (B.text ++ 125 :: Z))
    (h : maybe_skip_subexpr fuel c = some (true, c')) : c'.format = Z := by
  unfold maybe_skip_subexpr at h
  rw [if_pos (by unfold peek; rw [hc]; rfl)] at h
  exact skip_subexpr_in_run B hB Z fuel c c' (in_run_here _ c hc) h

theorem maybe_interpret_subexpr_branch {V : Type} (ext : Externals V) (T Z : List Nat)
    (hT : ∀ (fuel : Nat) (c : FcFormatContext) (pat : FcPattern V) (buf : FcStrBuf)
      (X : List Nat) (c' : FcFormatContext) (buf' : FcStrBuf), c.format = T ++ X →
      interpret_expr ext fuel c pat buf 125 = some (true, c', buf') →
      ∃ fuel' c1 buf1, c1.format = X ∧
        interpret_expr ext fuel' c1 pat buf1 125 = some (true, c', buf'))
    (fuel : Nat) (c : FcFormatContext) (pat : FcPattern V) (buf : FcStrBuf)
    (c' : FcFormatContext) (buf' : FcStrBuf) (hc : c.format = 123 :: (T ++ 125 :: Z))
    (h : maybe_interpret_subexpr ext fuel c pat buf = some (true, c', buf')) :
    c'.format = Z := by
  cases fuel with
  | zero => simp [maybe_interpret_subexpr] at h
  | succ fuel =>
    rw [maybe_interpret_subexpr, if_pos (by unfold peek; rw [hc]; rfl)] at h
    exact interpret_subexpr_in_run ext T Z hT fuel c pat buf c' buf' (in_run_here _ c hc) h

/-- The directive `%w{body}` when `interpret_percent` succeeds: the evaluator
chosen by the first byte of the body has succeeded, and then the converter
pipeline, the alignment and the closing brace. -/
theorem interpret_percent_body {V : Type} (ext : Externals V) (wd body : List Nat)
    (hw : width_text wd) (fuel : Nat) (orig : List Nat) (len : Nat) (w : List Nat)
    (e : List Message) (pat : FcPattern V) (buf : FcStrBuf) (c' : FcFormatContext)
    (buf' : FcStrBuf)
    (h : interpret_percent ext fuel ⟨orig, 37 :: (wd ++ 123 :: body), len, w, e⟩ pat buf
      = some (true, c', buf')) :
    ∃ f c5 b5,
      (if peek ⟨orig, body, len, w, e⟩ = 123 then
          interpret_subexpr ext f ⟨orig, body, len, w, e⟩ pat buf
        else if peek ⟨orig, body, len, w, e⟩ = 43 then
          interpret_filter ext f ⟨orig, body, len, w, e⟩ pat buf
        else if peek ⟨orig, body, len, w, e⟩ = 45 then
          interpret_delete ext f ⟨orig, body, len, w, e⟩ pat buf
        else if peek ⟨orig, body, len, w, e⟩ = 63 then
          interpret_cond ext f ⟨orig, body, len, w, e⟩ pat buf
        else if peek ⟨orig, body, len, w, e⟩ = 35 then
          some (interpret_count ⟨orig, body, len, w, e⟩ pat buf)
        else some (interpret_simple ext ⟨orig, body, len, w, e⟩ pat buf))
        = some (true, c5, b5) ∧
      (match maybe_interpret_converts ext f c5 b5 buf.buf.length with
        | none => none
        | some (false, c, buf) => some (false, c, buf)
        | some (true, c, buf2) =>
          match align_to_width buf2 buf.buf.length
              (toInt32 (strtol (wd ++ 123 :: body)).1) with
          | (false, buf) => some (false, c, buf)
          | (true, buf) =>
            match expect_char c 125 with
            | (res, c) => some (res, c, buf)) = some (true, c', buf') := by
  cases fuel with
  | zero => simp [interpret_percent] at h
  | succ fuel =>
    rw [interpret_percent, expect_char_hit] at h
    dsimp only at h
    rw [consume_char_miss _ _ (width_head wd body hw)] at h
    dsimp only at h
    rw [hw body, expect_char_hit] at h
    dsimp only at h
    split at h
    · simp at h
    · simp at h
    · next c5 b5 heq => exact ⟨fuel, c5, b5, heq, h⟩
theorem head_append_ne (p Y : List Nat) (x : Nat) (h : p.headD 0 ≠ x) (hx : x ≠ 125) :
    (p ++ 125 :: Y).headD 0 ≠ x := by
  cases p with
  | nil => simpa using fun h => hx h.symm
  | cons a p => simpa using h

theorem head_append_eq (r s : List Nat) (x : Nat) (h : r.headD 0 = x) (hx : x ≠ 0) :
    (r ++ s).headD 0 = x := by
  cases r with
  | nil => simp at h; exact absurd h.symm hx
  | cons a r => simpa using h

theorem interpret_percent_plain {V : Type} (ext : Externals V) (wd p Y : List Nat)
    (hw : width_text wd) (hp : brace_free p = true)
    (hh : p.headD 0 ≠ 43 ∧ p.headD 0 ≠ 45 ∧ p.headD 0 ≠ 63)
    (fuel : Nat) (orig : List Nat) (len : Nat) (w : List Nat) (e : List Message)
    (pat : FcPattern V) (buf : FcStrBuf) (c' : FcFormatContext) (buf' : FcStrBuf)
    (h : interpret_percent ext fuel ⟨orig, 37 :: (wd ++ 123 :: (p ++ 125 :: Y)), len, w, e⟩ pat
      buf = some (true, c', buf')) : c'.format = Y := by
  obtain ⟨f, c5, b5, h5, h6⟩ := interpret_percent_body ext wd _ hw fuel orig len w e pat buf
    c' buf' h
  have hS : (125 :: Y).headD 0 = 0 ∨ (125 :: Y).headD 0 = 123 ∨ (125 :: Y).headD 0 = 125 :=
    Or.inr (Or.inr rfl)
  have hc4 : in_run (125 :: Y) ⟨orig, p ++ 125 :: Y, len, w, e⟩ := ⟨p, hp, rfl⟩
  have hpk : peek ⟨orig, p ++ 125 :: Y, len, w, e⟩ = (p ++ 125 :: Y).headD 0 := rfl
  rw [if_neg (by rw [hpk]; exact run_head_ne_open p Y hp),
    if_neg (by rw [hpk]; exact head_append_ne p Y 43 hh.1 (by decide)),
    if_neg (by rw [hpk]; exact head_append_ne p Y 45 hh.2.1 (by decide)),
    if_neg (by rw [hpk]; exact head_append_ne p Y 63 hh.2.2 (by decide))] at h5
  have k5 : in_run (125 :: Y) c5 := by
    split_ifs at h5
    · exact interpret_count_in_run _ hS _ c5 pat buf b5 true hc4 (Option.some.inj h5)
    · exact interpret_simple_in_run ext _ hS _ c5 pat buf b5 true hc4 (Option.some.inj h5)
  exact directive_close ext Y f c5 c' b5 buf' _ _ k5 h6

theorem interpret_percent_one {V : Type} (ext : Externals V) (wd r : List Nat) (B : Branch)
    (p Y : List Nat) (hw : width_text wd) (hr : brace_free r = true)
    (hh : r = [] ∨ r.headD 0 = 43 ∨ r.headD 0 = 45 ∨ r.headD 0 = 63) (hB : B.ok)
    (hT : ∀ (fuel : Nat) (c : FcFormatContext) (pat : FcPattern V) (buf : FcStrBuf)
      (X : List Nat) (c' : FcFormatContext) (buf' : FcStrBuf), c.format = B.text ++ X →
      interpret_expr ext fuel c pat buf 125 = some (true, c', buf') →
      ∃ fuel' c1 buf1, c1.format = X ∧
        interpret_expr ext fuel' c1 pat buf1 125 = some (true, c', buf'))
    (hp : brace_free p = true)
    (fuel : Nat) (orig : List Nat) (len : Nat) (w : List Nat) (e : List Message)
    (pat : FcPattern V) (buf : FcStrBuf) (c' : FcFormatContext) (buf' : FcStrBuf)
    (h : interpret_percent ext fuel
      ⟨orig, 37 :: (wd ++ 123 :: (r ++ 123 :: (B.text ++ 125 :: (p ++ 125 :: Y)))), len, w, e⟩
      pat buf = some (true, c', buf')) : c'.format = Y := by
  obtain ⟨f, c5, b5, h5, h6⟩ := interpret_percent_body ext wd _ hw fuel orig len w e pat buf
    c' buf' h
  have hc4 : in_run (123 :: (B.text ++ 125 :: (p ++ 125 :: Y)))
      ⟨orig, r ++ 123 :: (B.text ++ 125 :: (p ++ 125 :: Y)), len, w, e⟩ := ⟨r, hr, rfl⟩
  have hpk : peek ⟨orig, r ++ 123 :: (B.text ++ 125 :: (p ++ 125 :: Y)), len, w, e⟩
      = (r ++ 123 :: (B.text ++ 125 :: (p ++ 125 :: Y))).headD 0 := rfl
  have hZ : (p ++ 125 :: Y).headD 0 ≠ 123 := run_head_ne_open p Y hp
  have k5 : c5.format = p ++ 125 :: Y := by
    rcases hh with rfl | hh | hh | hh
    · rw [if_pos (by rw [hpk]; rfl)] at h5
      exact interpret_subexpr_in_run ext B.text _ hT f _ pat buf c5 b5 hc4 h5
    · have hx := head_append_eq r (123 :: (B.text ++ 125 :: (p ++ 125 :: Y))) 43 hh (by decide)
      rw [if_neg (by rw [hpk, hx]; decide), if_pos (by rw [hpk, hx])] at h5
      exact interpret_filter_in_run ext B.text _ hT f _ pat buf c5 b5 hc4 h5
    · have hx := head_append_eq r (123 :: (B.text ++ 125 :: (p ++ 125 :: Y))) 45 hh (by decide)
      rw [if_neg (by rw [hpk, hx]; decide), if_neg (by rw [hpk, hx]; decide),
        if_pos (by rw [hpk, hx])] at h5
      exact interpret_delete_in_run ext B.text _ hT f _ pat buf c5 b5 hc4 h5
    · have hx := head_append_eq r (123 :: (B.text ++ 125 :: (p ++ 125 :: Y))) 63 hh (by decide)
      rw [if_neg (by rw [hpk, hx]; decide), if_neg (by rw [hpk, hx]; decide),
        if_neg (by rw [hpk, hx]; decide), if_pos (by rw [hpk, hx])] at h5
      exact interpret_cond_in_run ext B hB _ _ hT
        (maybe_skip_subexpr_none _ hZ) (maybe_interpret_subexpr_none ext _ hZ)
        f _ pat buf c5 b5 hc4 h5
  exact directive_close ext Y f c5 c' b5 buf' _ _ ⟨p, hp, k5⟩ h6

theorem interpret_percent_two {V : Type} (ext : Externals V) (wd r : List Nat) (B1 B2 : Branch)
    (p Y : List Nat) (hw : width_text wd) (hr : brace_free r = true) (hh : r.headD 0 = 63)
    (hB1 : B1.ok) (hB2 : B2.ok)
    (hT1 : ∀ (fuel : Nat) (c : FcFormatContext) (pat : FcPattern V) (buf : FcStrBuf)
      (X : List Nat) (c' : FcFormatContext) (buf' : FcStrBuf), c.format = B1.text ++ X →
      interpret_expr ext fuel c pat buf 125 = some (true, c', buf') →
      ∃ fuel' c1 buf1, c1.format = X ∧
        interpret_expr ext fuel' c1 pat buf1 125 = some (true, c', buf'))
    (hT2 : ∀ (fuel : Nat) (c : FcFormatContext) (pat : FcPattern V) (buf : FcStrBuf)
      (X : List Nat) (c' : FcFormatContext) (buf' : FcStrBuf), c.format = B2.text ++ X →
      interpret_expr ext fuel c pat buf 125 = some (true, c', buf') →
      ∃ fuel' c1 buf1, c1.format = X ∧
        interpret_expr ext fuel' c1 pat buf1 125 = some (true, c', buf'))
    (hp : brace_free p = true)
    (fuel : Nat) (orig : List Nat) (len : Nat) (w : List Nat) (e : List Message)
    (pat : FcPattern V) (buf : FcStrBuf) (c' : FcFormatContext) (buf' : FcStrBuf)
    (h : interpret_percent ext fuel
      ⟨orig, 37 :: (wd ++ 123 :: (r ++ 123 :: (B1.text ++ 125 :: 123 ::
        (B2.text ++ 125 :: (p ++ 125 :: Y))))), len, w, e⟩
      pat buf = some (true, c', buf')) : c'.format = Y := by
  obtain ⟨f, c5, b5, h5, h6⟩ := interpret_percent_body ext wd _ hw fuel orig len w e pat buf
    c' buf' h
  have hc4 : in_run (123 :: (B1.text ++ 125 :: 123 :: (B2.text ++ 125 :: (p ++ 125 :: Y))))
      ⟨orig, r ++ 123 :: (B1.text ++ 125 :: 123 :: (B2.text ++ 125 :: (p ++ 125 :: Y))),
        len, w, e⟩ := ⟨r, hr, rfl⟩
  have hpk : peek ⟨orig, r ++ 123 :: (B1.text ++ 125 :: 123 ::
        (B2.text ++ 125 :: (p ++ 125 :: Y))), len, w, e⟩
      = (r ++ 123 :: (B1.text ++ 125 :: 123 :: (B2.text ++ 125 :: (p ++ 125 :: Y)))).headD 0 :=
    rfl
  have hx := head_append_eq r
    (123 :: (B1.text ++ 125 :: 123 :: (B2.text ++ 125 :: (p ++ 125 :: Y)))) 63 hh (by decide)
  rw [if_neg (by rw [hpk, hx]; decide), if_neg (by rw [hpk, hx]; decide),
    if_neg (by rw [hpk, hx]; decide), if_pos (by rw [hpk, hx])] at h5
  have k5 : c5.format = p ++ 125 :: Y :=
    interpret_cond_in_run ext B1 hB1 _ _ hT1
      (fun fuel c c' hc h => maybe_skip_subexpr_branch B2 hB2 _ fuel c c' hc h)
      (fun fuel c pat buf c' buf' hc h =>
        maybe_interpret_subexpr_branch ext B2.text _ hT2 fuel c pat buf c' buf' hc h)
      f _ pat buf c5 b5 hc4 h5
  exact directive_close ext Y f c5 c' b5 buf' _ _ ⟨p, hp, k5⟩ h6

theorem interpret_expr_percent {V : Type} (ext : Externals V) (D Y : List Nat) (term : Nat)
    (hterm : term = 0 ∨ term = 125)
    (hD : ∀ (fuel : Nat) (orig : List Nat) (len : Nat) (w : List Nat) (e : List Message)
      (pat : FcPattern V) (buf : FcStrBuf) (c' : FcFormatContext) (buf' : FcStrBuf),
      interpret_percent ext fuel ⟨orig, 37 :: D, len, w, e⟩ pat buf = some (true, c', buf') →
      c'.format = Y)
    (fuel : Nat) (c : FcFormatContext) (pat : FcPattern V) (buf : FcStrBuf)
    (c' : FcFormatContext) (buf' : FcStrBuf) (hc : c.format = 37 :: D)
    (h : interpret_expr ext fuel c pat buf term = some (true, c', buf')) :
    ∃ fuel' c1 buf1, c1.format = Y ∧
      interpret_expr ext fuel' c1 pat buf1 term = some (true, c', buf') := by
  obtain ⟨orig, fmt, len, w, e⟩ := c
  simp only at hc
  subst hc
  cases fuel with
  | zero => simp [interpret_expr] at h
  | succ fuel =>
    rw [interpret_expr] at h
    have h1 : peek ⟨orig, 37 :: D, len, w, e⟩ = 37 := rfl
    rw [if_pos ⟨by rw [h1]; decide, by rw [h1]; rcases hterm with rfl | rfl <;> decide⟩,
      if_neg (by rw [h1]; decide), if_pos h1] at h
    cases h2 : interpret_percent ext fuel ⟨orig, 37 :: D, len, w, e⟩ pat buf with
    | none => rw [h2] at h; simp at h
    | some q =>
      obtain ⟨r2, c2, b2⟩ := q
      rw [h2] at h
      cases r2 with
      | false => simp at h
      | true => exact ⟨fuel, c2, b2, hD fuel orig len w e pat buf c2 b2 h2, h⟩

/-- The interpreter passes over the text of a well-formed branch: when
`interpret_expr` succeeds on the text followed by `X`, it has arrived at `X` on
the way and has gone on from there. -/
theorem interpret_expr_branch {V : Type} (ext : Externals V) (B : Branch) (hB : B.ok) :
    ∀ (term : Nat), (term = 0 ∨ term = 125) →
    ∀ (fuel : Nat) (c : FcFormatContext) (pat : FcPattern V) (buf : FcStrBuf)
      (X : List Nat) (c' : FcFormatContext) (buf' : FcStrBuf), c.format = B.text ++ X →
      interpret_expr ext fuel c pat buf term = some (true, c', buf') →
      ∃ fuel' c1 buf1, c1.format = X ∧
        interpret_expr ext fuel' c1 pat buf1 term = some (true, c', buf') := by
  induction B with
  | nil => intro term _ fuel c pat buf X c' buf' hc h; exact ⟨fuel, c, buf, hc, h⟩
  | lit b t ih =>
    intro term hterm fuel c pat buf X c' buf' hc h
    obtain ⟨⟨h0, h37, h92, h125⟩, ht⟩ := hB
    have hc' : c.format = b :: (t.text ++ X) := hc
    have hpk : peek c = b := by unfold peek; rw [hc']; rfl
    cases fuel with
    | zero => simp [interpret_expr] at h
    | succ fuel =>
      rw [interpret_expr, if_pos ⟨by rw [hpk]; exact h0,
          by rw [hpk]; rcases hterm with rfl | rfl <;> assumption⟩,
        if_neg (by rw [hpk]; exact h92), if_neg (by rw [hpk]; exact h37)] at h
      exact ih ht term hterm fuel (advance c) pat _ X c' buf' (by simp [advance, hc']) h
  | esc x t ih =>
    intro term hterm fuel c pat buf X c' buf' hc h
    obtain ⟨hx, ht⟩ := hB
    have hc' : c.format = 92 :: x :: (t.text ++ X) := hc
    have hpk : peek c = 92 := by unfold peek; rw [hc']; rfl
    have hpk2 : peek (advance c) = x := by unfold peek advance; rw [hc']; rfl
    cases fuel with
    | zero => simp [interpret_expr] at h
    | succ fuel =>
      rw [interpret_expr, if_pos ⟨by rw [hpk]; decide,
          by rw [hpk]; rcases hterm with rfl | rfl <;> decide⟩, if_pos hpk] at h
      dsimp only at h
      rw [if_pos (by rw [hpk2]; exact hx)] at h
      exact ih ht term hterm fuel (advance (advance c)) pat _ X c' buf'
        (by simp [advance, hc']) h
  | plain wd p t ih =>
    intro term hterm fuel c pat buf X c' buf' hc h
    obtain ⟨hw, hp, hh, ht⟩ := hB
    have hc' : c.format = 37 :: (wd ++ 123 :: (p ++ 125 :: (t.text ++ X))) := by
      rw [hc]; simp [Branch.text]
    obtain ⟨f1, c1, b1, e1, e2⟩ := interpret_expr_percent ext _ (t.text ++ X) term hterm
      (fun fuel orig len w e pat buf c' buf' h =>
        interpret_percent_plain ext wd p _ hw hp hh fuel orig len w e pat buf c' buf' h)
      fuel c pat buf c' buf' hc' h
    exact ih ht term hterm f1 c1 pat b1 X c' buf' e1 e2
  | one wd r b p t ihb ih =>
    intro term hterm fuel c pat buf X c' buf' hc h
    obtain ⟨hw, hr, hh, hb, hp, ht⟩ := hB
    have hc' : c.format
        = 37 :: (wd ++ 123 :: (r ++ 123 :: (b.text ++ 125 :: (p ++ 125 :: (t.text ++ X))))) := by
      rw [hc]; simp [Branch.text]
    obtain ⟨f1, c1, b1, e1, e2⟩ := interpret_expr_percent ext _ (t.text ++ X) term hterm
      (fun fuel orig len w e pat buf c' buf' h =>
        interpret_percent_one ext wd r b p _ hw hr hh hb (ihb hb 125 (Or.inr rfl)) hp
          fuel orig len w e pat buf c' buf' h)
      fuel c pat buf c' buf' hc' h
    exact ih ht term hterm f1 c1 pat b1 X c' buf' e1 e2
  | two wd r b1 b2 p t ihb1 ihb2 ih =>
    intro term hterm fuel c pat buf X c' buf' hc h
    obtain ⟨hw, hr, hh, hb1, hb2, hp, ht⟩ := hB
    have hc' : c.format
        = 37 :: (wd ++ 123 :: (r ++ 123 :: (b1.text ++ 125 :: 123 ::
            (b2.text ++ 125 :: (p ++ 125 :: (t.text ++ X)))))) := by
      rw [hc]; simp [Branch.text]
    obtain ⟨f1, c1, bb1, e1, e2⟩ := interpret_expr_percent ext _ (t.text ++ X) term hterm
      (fun fuel orig len w e pat buf c' buf' h =>
        interpret_percent_two ext wd r b1 b2 p _ hw hr hh hb1 hb2 (ihb1 hb1 125 (Or.inr rfl))
          (ihb2 hb2 125 (Or.inr rfl)) hp fuel orig len w e pat buf c' buf' h)
      fuel c pat buf c' buf' hc' h
    exact ih ht term hterm f1 c1 pat bb1 X c' buf' e1 e2

/-! ## Skipping and evaluation (C16) -/

theorem width_text_nil : width_text [] := fun s => by rw [List.nil_append, strtol_brace]

theorem skip_subexpr_branch_eq (orig : List Nat) (len : Nat) (w : List Nat) (e : List Message)
    (B : Branch) (hB : B.ok) (Z : List Nat) (fuel : Nat)
    (hfuel : 2 * (B.text.length + Z.length + 2) + 1 ≤ fuel) :
    skip_subexpr fuel ⟨orig, 123 :: (B.text ++ 125 :: Z), len, w, e⟩
      = some (true, ⟨orig, Z, len, w, e⟩) := by
  have tot := (skip_total fuel).2.2.2 ⟨orig, 123 :: (B.text ++ 125 :: Z), len, w, e⟩
    (by simp only [List.length_cons, List.length_append]; omega)
  cases h : skip_subexpr fuel ⟨orig, 123 :: (B.text ++ 125 :: Z), len, w, e⟩ with
  | none => rw [h] at tot; simp at tot
  | some res => rw [skip_subexpr_branch orig len w e B hB Z fuel res h]

/-- C16, as amended. Skipping mirrors evaluation on brace-disciplined branches.
For well-formed branch texts `T` and `E` (`Branch.ok`: literal bytes, backslash
pairs and directives `%w{...}` whose heads and converter pipelines hold no brace
without a backslash, every `%` opening a directive), `skip_subexpr` on `{T}` with
enough fuel succeeds, leaves the word and the error stream as they were (it has
no output buffer) and leaves the cursor behind the matching `}`; whenever it
returns at all, it returns that; and whenever `interpret_subexpr` succeeds on
`{T}`, for any pattern and buffer, its cursor is at that same place. Hence for a
conditional `?ts{T}{E}` over a pattern with non-empty value lists: when the
predicate is true and `{T}` renders with success the conditional succeeds with
that rendering and the cursor behind `{E}`, and when the predicate is false the
conditional is the rendering of `{E}`. -/
theorem skip_mirror_spec {V : Type} (ext : Externals V) (pat : FcPattern V) (T E : Branch)
    (hT : T.ok) (hE : E.ok) (orig : List Nat) (len : Nat) (w : List Nat) (e : List Message)
    (Z : List Nat) (fuel : Nat)
    (hfuel : 2 * (T.text.length + E.text.length + Z.length + 4) + 1 ≤ fuel)
    (ts : List (Bool × List Nat)) (hne : ts ≠ []) (hts : ∀ t ∈ ts, plain_word t.2)
    (hlen : ts.length ≤ fuel) (hpat : ∀ el ∈ pat, el.values ≠ []) :
    skip_subexpr fuel ⟨orig, 123 :: (T.text ++ 125 :: Z), len, w, e⟩
      = some (true, ⟨orig, Z, len, w, e⟩) ∧
    (∀ n res, skip_subexpr n ⟨orig, 123 :: (T.text ++ 125 :: Z), len, w, e⟩ = some res →
      res = (true, ⟨orig, Z, len, w, e⟩)) ∧
    (∀ n (p : FcPattern V) buf c' buf',
      interpret_subexpr ext n ⟨orig, 123 :: (T.text ++ 125 :: Z), len, w, e⟩ p buf
        = some (true, c', buf') → c'.format = Z) ∧
    (cond_pass pat ts = true → ∀ buf c1 b1,
      interpret_subexpr ext fuel
          ⟨orig, 123 :: (T.text ++ 125 :: 123 :: (E.text ++ 125 :: Z)), len,
            (ts.map (fun t => t.2)).getLastD w, e⟩ pat buf = some (true, c1, b1) →
      interpret_cond ext (fuel + 1)
          ⟨orig, 63 :: (cond_list ts ++ 123 :: (T.text ++ 125 :: 123 :: (E.text ++ 125 :: Z))),
            len, w, e⟩ pat buf
        = some (true, { c1 with format := Z }, b1)) ∧
    (cond_pass pat ts = false → ∀ buf,
      interpret_cond ext (fuel + 2)
          ⟨orig, 63 :: (cond_list ts ++ 123 :: (T.text ++ 125 :: 123 :: (E.text ++ 125 :: Z))),
            len, w, e⟩ pat buf
        = interpret_subexpr ext fuel
            ⟨orig, 123 :: (E.text ++ 125 :: Z), len, (ts.map (fun t => t.2)).getLastD w, e⟩
            pat buf) := by
  refine ⟨skip_subexpr_branch_eq orig len w e T hT Z fuel (by omega),
    fun n res h => skip_subexpr_branch orig len w e T hT Z n res h, ?_, ?_, ?_⟩
  · intro n p buf c' buf' h
    exact interpret_subexpr_in_run ext T.text Z
      (fun fuel c pat buf X c' buf' hc h =>
        interpret_expr_branch ext T hT 125 (Or.inr rfl) fuel c pat buf X c' buf' hc h)
      n _ p buf c' buf' (in_run_here _ _ rfl) h
  · intro hpass buf c1 b1 h1
    rw [interpret_cond_eq ext fuel pat orig len w e buf ts _ hne hts hlen hpat, if_pos hpass, h1]
    have hc1 : c1.format = 123 :: (E.text ++ 125 :: Z) :=
      interpret_subexpr_in_run ext T.text _
        (fun fuel c pat buf X c' buf' hc h =>
          interpret_expr_branch ext T hT 125 (Or.inr rfl) fuel c pat buf X c' buf' hc h)
        fuel _ pat buf c1 b1 (in_run_here _ _ rfl) h1
    obtain ⟨o1, f1, l1, w1, e1⟩ := c1
    simp only at hc1
    subst hc1
    simp only [maybe_skip_subexpr, peek, List.headD_cons, if_true]
    rw [skip_subexpr_branch_eq o1 l1 w1 e1 E hE Z fuel (by omega)]
  · intro hpass buf
    rw [interpret_cond_eq ext (fuel + 1) pat orig len w e buf ts _ hne hts (by omega) hpat,
      if_neg (by simp [hpass])]
    rw [skip_subexpr_branch_eq orig len _ e T hT _ (fuel + 1) (by
      simp only [List.length_cons, List.length_append]; omega)]
    simp only [maybe_interpret_subexpr, peek, List.headD_cons, if_true]

/-- C16 as stated fails: on the branch text `{%{family|delete({)}}` and the
pattern `P`, `interpret_subexpr` succeeds (it renders `DejaVu Sans`, the cursor at
the end), but `skip_subexpr` fails at the same cursor with `format ended while
expecting '}'`: it balances the `{` of the converter argument against the brace
that closes the directive. So the conditional `%{?style{%{family|delete({)}}}`
renders on `P`, where the branch is taken, and fails on `Q`, where it is
skipped. -/
theorem skip_mirror_counterexample :
    (interpret_subexpr example_ext 30
        (FcFormatContextInit (bytes "\x7b%\x7bfamily|delete(\x7b)\x7d\x7d")) example_P
        FcStrBufInit).map (fun x => (x.1, x.2.1.format, x.2.1.err, x.2.2.buf))
      = some (true, [], [], bytes "DejaVu Sans") ∧
    (skip_subexpr 30
        (FcFormatContextInit (bytes "\x7b%\x7bfamily|delete(\x7b)\x7d\x7d"))).map
        (fun x => (x.1, x.2.format, x.2.err))
      = some (false, [], [Message.format_ended 125]) ∧
    FcPatternFormat example_ext 40 example_P
        (bytes "%\x7b?style\x7b%\x7bfamily|delete(\x7b)\x7d\x7d\x7d")
      = some (some (bytes "DejaVu Sans"), []) ∧
    FcPatternFormat example_ext 40 example_Q
        (bytes "%\x7b?style\x7b%\x7bfamily|delete(\x7b)\x7d\x7d\x7d")
      = some (none, [Message.format_ended 125]) := by
  decide

/-- The form `%%` in a branch that is skipped: `interpret_subexpr` renders
`{100%%}` as `100%`, `skip_subexpr` fails on it with `expected '{' at 6`, and
`%{?style{yes}{100%%}}` renders `100%` on `Q`, where the else-branch is taken,
and fails on `P`, where it is skipped. -/
theorem example_skip_percent :
    (interpret_subexpr example_ext 30 (FcFormatContextInit (bytes "\x7b100%%\x7d")) example_P
        FcStrBufInit).map (fun x => (x.1, x.2.1.format, x.2.1.err, x.2.2.buf))
      = some (true, [], [], bytes "100%") ∧
    (skip_subexpr 30 (FcFormatContextInit (bytes "\x7b100%%\x7d"))).map
        (fun x => (x.1, x.2.format, x.2.err))
      = some (false, bytes "%\x7d", [Message.expected_char 123 6]) ∧
    FcPatternFormat example_ext 40 example_Q (bytes "%\x7b?style\x7byes\x7d\x7b100%%\x7d\x7d")
      = some (some (bytes "100%"), []) ∧
    FcPatternFormat example_ext 40 example_P (bytes "%\x7b?style\x7byes\x7d\x7b100%%\x7d\x7d")
      = some (none, [Message.expected_char 123 19]) := by
  decide

/-- C16 as amended, at the branches `%{family|downcase}` and `no %{#size}`, the
condition `style`, the pattern `Q` and fuel 69: the skipper passes over
`{%{family|downcase}}` and stops in front of the `}` that follows, and the
conditional `?style{%{family|downcase}}{no %{#size}}`, whose predicate is false
in `Q`, is the rendering of `{no %{#size}}`. -/
theorem skip_mirror_spec_witness :
    ((Branch.plain [] (bytes "family|downcase") Branch.nil).ok ∧
      (Branch.lit 110 (Branch.lit 111 (Branch.lit 32
        (Branch.plain [] (bytes "#size") Branch.nil)))).ok ∧
      2 * ((Branch.plain [] (bytes "family|downcase") Branch.nil).text.length
        + (Branch.lit 110 (Branch.lit 111 (Branch.lit 32
            (Branch.plain [] (bytes "#size") Branch.nil)))).text.length
        + (bytes "\x7d").length + 4) + 1 ≤ 69 ∧
      ([(false, bytes "style")] : List (Bool × List Nat)) ≠ [] ∧
      (∀ t ∈ [(false, bytes "style")], plain_word t.2) ∧
      [(false, bytes "style")].length ≤ 69 ∧
      (∀ el ∈ example_Q, el.values ≠ [])) ∧
    skip_subexpr 69 ⟨[], bytes "\x7b%\x7bfamily|downcase\x7d\x7d\x7d", 0, [], []⟩
      = some (true, ⟨[], bytes "\x7d", 0, [], []⟩) ∧
    interpret_cond example_ext 71
        ⟨[], bytes "?style\x7b%\x7bfamily|downcase\x7d\x7d\x7bno %\x7b#size\x7d\x7d\x7d", 0, [],
          []⟩ example_Q FcStrBufInit
      = interpret_subexpr example_ext 69
          ⟨[], bytes "\x7bno %\x7b#size\x7d\x7d\x7d", 0, bytes "style", []⟩ example_Q
          FcStrBufInit :=
  ⟨⟨⟨width_text_nil, by decide, by decide, trivial⟩,
    ⟨by decide, by decide, by decide, width_text_nil, by decide, by decide, trivial⟩,
    by decide, by decide, by decide, by decide, by decide⟩,
   (skip_mirror_spec example_ext example_Q
      (Branch.plain [] (bytes "family|downcase") Branch.nil)
      (Branch.lit 110 (Branch.lit 111 (Branch.lit 32
        (Branch.plain [] (bytes "#size") Branch.nil))))
      ⟨width_text_nil, by decide, by decide, trivial⟩
      ⟨by decide, by decide, by decide, width_text_nil, by decide, by decide, trivial⟩
      [] 0 [] [] (bytes "\x7d") 69 (by decide) [(false, bytes "style")] (by decide)
      (by decide) (by decide) (by decide)).1,
   (skip_mirror_spec example_ext example_Q
      (Branch.plain [] (bytes "family|downcase") Branch.nil)
      (Branch.lit 110 (Branch.lit 111 (Branch.lit 32
        (Branch.plain [] (bytes "#size") Branch.nil))))
      ⟨width_text_nil, by decide, by decide, trivial⟩
      ⟨by decide, by decide, by decide, width_text_nil, by decide, by decide, trivial⟩
      [] 0 [] [] (bytes "\x7d") 69 (by decide) [(false, bytes "style")] (by decide)
      (by decide) (by decide) (by decide)).2.2.2.2 (by decide) FcStrBufInit⟩

/-! ## The skipper only balances braces (C17) -/

theorem brace_free_append (a b : List Nat) (ha : brace_free a = true)
    (hb : brace_free b = true) : brace_free (a ++ b) = true := by
  induction a using brace_free.induct with
  | case1 => exact hb
  | case2 => simp [brace_free] at ha
  | case3 x t ih =>
    rw [brace_free_pair] at ha
    simp only [Bool.and_eq_true, bne_iff_ne, ne_eq] at ha
    rw [List.cons_append, List.cons_append, brace_free_pair]
    simp only [Bool.and_eq_true, bne_iff_ne, ne_eq]
    exact ⟨ha.1, ih ha.2⟩
  | case4 x t hx ih =>
    rw [brace_free_byte x t hx] at ha
    simp only [Bool.and_eq_true, bne_iff_ne, ne_eq] at ha
    rw [List.cons_append, brace_free_byte x _ hx]
    simp only [Bool.and_eq_true, bne_iff_ne, ne_eq]
    exact ⟨ha.1, ih ha.2⟩

theorem brace_free_of_not_punct (k : List Nat) (h : ∀ b ∈ k, FcCharIsPunct b = false) :
    brace_free k = true := by
  induction k with
  | nil => rfl
  | cons a k ih =>
    have ha := h a (by simp)
    have h0 : a ≠ 0 := by rintro rfl; simp [FcCharIsPunct] at ha
    have h92 : a ≠ 92 := by rintro rfl; simp [FcCharIsPunct] at ha
    have h123 : a ≠ 123 := by rintro rfl; simp [FcCharIsPunct] at ha
    have h125 : a ≠ 125 := by rintro rfl; simp [FcCharIsPunct] at ha
    rw [brace_free_byte a k h92]
    simp only [Bool.and_eq_true, bne_iff_ne, ne_eq]
    exact ⟨⟨⟨h0, h123⟩, h125⟩, ih (fun b hb => h b (by simp [hb]))⟩

theorem convert_unknown {V : Type} (ext : Externals V) (orig : List Nat) (len : Nat)
    (w : List Nat) (e : List Message) (name rest str : List Nat) (hname : plain_word name)
    (hrest : word_end rest) (hnot : name ∉ converter_names) :
    convert ext ⟨orig, name ++ rest, len, w, e⟩ str
      = (none, ⟨orig, rest, len, name, e ++ [Message.unknown_converter name]⟩) := by
  have hb : ∀ s : String, bytes s ∈ converter_names → name ≠ bytes s := by
    intro s hs hn
    exact hnot (hn ▸ hs)
  have h1 : name ≠ [100, 111, 119, 110, 99, 97, 115, 101] := hb "downcase" (by decide)
  have h2 : name ≠ [98, 97, 115, 101, 110, 97, 109, 101] := hb "basename" (by decide)
  have h3 : name ≠ [100, 105, 114, 110, 97, 109, 101] := hb "dirname" (by decide)
  have h4 : name ≠ [99, 101, 115, 99, 97, 112, 101] := hb "cescape" (by decide)
  have h5 : name ≠ [115, 104, 101, 115, 99, 97, 112, 101] := hb "shescape" (by decide)
  have h6 : name ≠ [120, 109, 108, 101, 115, 99, 97, 112, 101] := hb "xmlescape" (by decide)
  have h7 : name ≠ [100, 101, 108, 101, 116, 101] := hb "delete" (by decide)
  have h8 : name ≠ [101, 115, 99, 97, 112, 101] := hb "escape" (by decide)
  have h9 : name ≠ [116, 114, 97, 110, 115, 108, 97, 116, 101] := hb "translate" (by decide)
  unfold convert
  rw [read_word_plain orig len w e name rest hname hrest]
  simp only
  rw [if_neg h1, if_neg h2, if_neg h3, if_neg h4, if_neg h5, if_neg h6, if_neg h7, if_neg h8,
    if_neg h9]
  rfl

theorem interpret_percent_convert_fail {V : Type} (ext : Externals V) (fuel : Nat)
    (pat : FcPattern V) (orig : List Nat) (len : Nat) (w : List Nat) (e : List Message)
    (b k t : List Nat) (hk : plain_word k) (c' : FcFormatContext)
    (h : convert ext ⟨orig, t, len, k, e⟩ (simple_value ext pat k ++ [0]) = (none, c')) :
    interpret_percent ext (fuel + 1 + 1) ⟨orig, 37 :: 123 :: (k ++ 124 :: t), len, w, e⟩ pat
        ⟨b, false⟩
      = some (false, c', ⟨b ++ simple_value ext pat k ++ [0], false⟩) := by
  rw [interpret_percent_open]
  rw [if_neg (plain_word_dispatch k _ hk 123 (by decide)),
    if_neg (plain_word_dispatch k _ hk 43 (by decide)),
    if_neg (plain_word_dispatch k _ hk 45 (by decide)),
    if_neg (plain_word_dispatch k _ hk 63 (by decide)),
    if_neg (plain_word_dispatch k _ hk 35 (by decide))]
  rw [interpret_simple_value ext pat _ _ _ _ b k (124 :: t) hk (by right; simp; decide)
    (by simp)]
  simp only []
  rw [maybe_interpret_converts]
  simp only [consume_char_hit, FcStrBufChar, Bool.false_eq_true, if_false, List.append_assoc,
    List.drop_left, h]

theorem skip_subexpr_plain (orig : List Nat) (len : Nat) (w : List Nat) (e : List Message)
    (p Z : List Nat) (hp : brace_free p = true) (fuel : Nat)
    (hfuel : 2 * (p.length + Z.length + 5) + 1 ≤ fuel) :
    skip_subexpr fuel ⟨orig, 123 :: 37 :: 123 :: (p ++ 125 :: 125 :: Z), len, w, e⟩
      = some (true, ⟨orig, Z, len, w, e⟩) := by
  have tot := (skip_total fuel).2.2.2
    ⟨orig, 123 :: 37 :: 123 :: (p ++ 125 :: 125 :: Z), len, w, e⟩
    (by simp only [List.length_cons, List.length_append]; omega)
  cases h : skip_subexpr fuel ⟨orig, 123 :: 37 :: 123 :: (p ++ 125 :: 125 :: Z), len, w, e⟩ with
  | none => rw [h] at tot; simp at tot
  | some res =>
    have := skip_subexpr_of_expr orig len w e (37 :: 123 :: (p ++ [125])) Z
      (fun fuel X res h => by
        have h' : skip_expr fuel ⟨orig, 37 :: ([] ++ 123 :: (p ++ 125 :: X)), len, w, e⟩
            = some res := by simpa using h
        exact skip_expr_percent orig len w e _ X
          (skip_percent_plain orig len w e [] p X width_text_nil hp) fuel res h')
      fuel res (by simpa using h)
    rw [this]
theorem interpret_subexpr_convert_fail {V : Type} (ext : Externals V) (fuel : Nat)
    (pat : FcPattern V) (orig : List Nat) (len : Nat) (w : List Nat) (e : List Message)
    (b k t : List Nat) (hk : plain_word k) (c' : FcFormatContext)
    (h : convert ext ⟨orig, t, len, k, e⟩ (simple_value ext pat k ++ [0]) = (none, c')) :
    interpret_subexpr ext (fuel + 1 + 1 + 1 + 1)
        ⟨orig, 123 :: 37 :: 123 :: (k ++ 124 :: t), len, w, e⟩ pat ⟨b, false⟩
      = some (false, c', ⟨b ++ simple_value ext pat k ++ [0], false⟩) := by
  have hp : peek ⟨orig, 37 :: 123 :: (k ++ 124 :: t), len, w, e⟩ = 37 := rfl
  rw [interpret_subexpr, expect_char_hit]
  simp only
  rw [interpret_expr, if_pos ⟨by rw [hp]; decide, by rw [hp]; decide⟩,
    if_neg (by rw [hp]; decide), if_pos hp,
    interpret_percent_convert_fail ext fuel pat orig len w e b k t hk c' h]

/-- C17, as amended. The skipper enforces only brace balance and backslash
handling, for directive bodies in which no brace stands without a backslash. It
takes no pattern, and on `{%{p}}` it succeeds and stops behind the closing brace
for every directive body `p` without an unescaped brace (whatever element name,
converter names and converter arguments `p` holds), as on every well-formed
branch `{B}`. So for element names `k` and `name`, `name` not in the converter
table, and a pattern with non-empty value lists: when the condition `ts` is
false, the directive `?ts{%{k|name}}{...` is the rendering of the else-branch
that follows; when it is true the directive fails with the one diagnostic
`unknown converter "name"`. -/
theorem skipper_balance_spec {V : Type} (ext : Externals V) (pat : FcPattern V) (fuel : Nat)
    (orig : List Nat) (len : Nat) (w : List Nat) (e : List Message) (b : List Nat)
    (ts : List (Bool × List Nat)) (k name rest : List Nat)
    (hne : ts ≠ []) (hts : ∀ t ∈ ts, plain_word t.2) (hpat : ∀ el ∈ pat, el.values ≠ [])
    (hk : plain_word k) (hname : plain_word name) (hnot : name ∉ converter_names)
    (hlen : ts.length ≤ fuel)
    (hfuel : 2 * (k.length + name.length + rest.length + 8) + 1 ≤ fuel) :
    (∀ (p Z : List Nat) (n : Nat) (o : List Nat) (l : Nat) (w1 : List Nat) (e1 : List Message),
      brace_free p = true → 2 * (p.length + Z.length + 5) + 1 ≤ n →
      skip_subexpr n ⟨o, 123 :: 37 :: 123 :: (p ++ 125 :: 125 :: Z), l, w1, e1⟩
        = some (true, ⟨o, Z, l, w1, e1⟩)) ∧
    (∀ (B : Branch) (Z : List Nat) (n : Nat) (o : List Nat) (l : Nat) (w1 : List Nat)
      (e1 : List Message), B.ok → 2 * (B.text.length + Z.length + 2) + 1 ≤ n →
      skip_subexpr n ⟨o, 123 :: (B.text ++ 125 :: Z), l, w1, e1⟩
        = some (true, ⟨o, Z, l, w1, e1⟩)) ∧
    (cond_pass pat ts = false → ∀ buf,
      interpret_cond ext (fuel + 2)
          ⟨orig, 63 :: (cond_list ts ++ 123 :: 37 :: 123 ::
            (k ++ 124 :: (name ++ 125 :: 125 :: 123 :: rest))), len, w, e⟩ pat buf
        = interpret_subexpr ext fuel
            ⟨orig, 123 :: rest, len, (ts.map (fun t => t.2)).getLastD w, e⟩ pat buf) ∧
    (cond_pass pat ts = true →
      interpret_cond ext (fuel + 5)
          ⟨orig, 63 :: (cond_list ts ++ 123 :: 37 :: 123 ::
            (k ++ 124 :: (name ++ 125 :: 125 :: 123 :: rest))), len, w, e⟩ pat ⟨b, false⟩
        = some (false,
            ⟨orig, 125 :: 125 :: 123 :: rest, len, name, e ++ [Message.unknown_converter name]⟩,
            ⟨b ++ simple_value ext pat k ++ [0], false⟩)) ∧
    (Message.unknown_converter name).text
      = bytes "unknown converter \"" ++ name ++ bytes "\"" := by
  refine ⟨fun p Z n o l w1 e1 hp hn => skip_subexpr_plain o l w1 e1 p Z hp n hn,
    fun B Z n o l w1 e1 hB hn => skip_subexpr_branch_eq o l w1 e1 B hB Z n hn, ?_, ?_, rfl⟩
  · intro hpass buf
    have hp : brace_free (k ++ 124 :: name) = true :=
      brace_free_append k (124 :: name) (brace_free_of_not_punct k hk.2)
        (by
          rw [brace_free_byte 124 name (by decide)]
          simp only [Bool.and_eq_true, bne_iff_ne, ne_eq]
          exact ⟨⟨⟨by decide, by decide⟩, by decide⟩, brace_free_of_not_punct name hname.2⟩)
    have hsk := skip_subexpr_plain orig len ((ts.map (fun t => t.2)).getLastD w) e
      (k ++ 124 :: name) (123 :: rest) hp (fuel + 1)
      (by simp only [List.length_cons, List.length_append]; omega)
    simp only [List.append_assoc, List.cons_append] at hsk
    rw [interpret_cond_eq ext (fuel + 1) pat orig len w e buf ts _ hne hts (by omega) hpat,
      if_neg (by simp [hpass]), hsk]
    simp only [maybe_interpret_subexpr, peek, List.headD_cons, if_true]
  · intro hpass
    show interpret_cond ext (fuel + 1 + 1 + 1 + 1 + 1) _ _ _ = _
    rw [interpret_cond_eq ext (fuel + 1 + 1 + 1 + 1) pat orig len w e ⟨b, false⟩ ts _ hne hts
      (by omega) hpat, if_pos hpass,
      interpret_subexpr_convert_fail ext fuel pat orig len _ e b k _ hk _
        (convert_unknown ext orig len k e name (125 :: 125 :: 123 :: rest) _ hname
          (by right; simp; decide) hnot)]

/-- C17, at the condition `style`, the element name `family` and the word `nope`
with fuel 45: in `Q`, where `style` is absent, the conditional is the rendering of
the else-branch, and `%{?style{%{family|nope}}{no}}` renders `no`; in `P`, where
`style` is present, the same template fails with `unknown converter "nope"`. -/
theorem skipper_balance_spec_witness :
    (([(false, bytes "style")] : List (Bool × List Nat)) ≠ [] ∧
      (∀ t ∈ [(false, bytes "style")], plain_word t.2) ∧
      (∀ el ∈ example_Q, el.values ≠ []) ∧
      plain_word (bytes "family") ∧ plain_word (bytes "nope") ∧
      bytes "nope" ∉ converter_names ∧ [(false, bytes "style")].length ≤ 45 ∧
      2 * ((bytes "family").length + (bytes "nope").length + (bytes "no\x7d\x7d").length + 8)
        + 1 ≤ 45 ∧ cond_pass example_Q [(false, bytes "style")] = false) ∧
    interpret_cond example_ext 47
        ⟨[], bytes "?style\x7b%\x7bfamily|nope\x7d\x7d\x7bno\x7d\x7d", 0, [], []⟩ example_Q
        FcStrBufInit
      = interpret_subexpr example_ext 45 ⟨[], bytes "\x7bno\x7d\x7d", 0, bytes "style", []⟩
          example_Q FcStrBufInit ∧
    FcPatternFormat example_ext 60 example_Q
        (bytes "%\x7b?style\x7b%\x7bfamily|nope\x7d\x7d\x7bno\x7d\x7d")
      = some (some (bytes "no"), []) ∧
    FcPatternFormat example_ext 60 example_P
        (bytes "%\x7b?style\x7b%\x7bfamily|nope\x7d\x7d\x7bno\x7d\x7d")
      = some (none, [Message.unknown_converter (bytes "nope")]) :=
  ⟨⟨by decide, by decide, by decide, by decide, by decide, by decide, by decide, by decide,
    by decide⟩,
   (skipper_balance_spec example_ext example_Q 45 [] 0 [] [] [] [(false, bytes "style")]
      (bytes "family") (bytes "nope") (bytes "no\x7d\x7d") (by decide) (by decide) (by decide)
      (by decide) (by decide) (by decide) (by decide) (by decide)).2.2.1 (by decide)
      FcStrBufInit,
   by decide, by decide⟩

/-- C17 as stated fails: the success of `skip_subexpr` depends on the converter
argument. The branch texts `{%{family|delete(x)}}` and `{%{family|delete({)}}`
differ in the argument of `delete` only, and both are rendered with success on
the pattern `P`; the skipper passes over the first and fails on the second with
`format ended while expecting '}'`, since it balances the `{` of the argument. -/
theorem skipper_balance_counterexample :
    (skip_subexpr 30
        (FcFormatContextInit (bytes "\x7b%\x7bfamily|delete(x)\x7d\x7d"))).map
        (fun x => (x.1, x.2.format, x.2.err))
      = some (true, [], []) ∧
    (skip_subexpr 30
        (FcFormatContextInit (bytes "\x7b%\x7bfamily|delete(\x7b)\x7d\x7d"))).map
        (fun x => (x.1, x.2.format, x.2.err))
      = some (false, [], [Message.format_ended 125]) ∧
    (interpret_subexpr example_ext 30
        (FcFormatContextInit (bytes "\x7b%\x7bfamily|delete(x)\x7d\x7d")) example_P
        FcStrBufInit).map (fun x => (x.1, x.2.1.format, x.2.1.err))
      = some (true, [], []) ∧
    (interpret_subexpr example_ext 30
        (FcFormatContextInit (bytes "\x7b%\x7bfamily|delete(\x7b)\x7d\x7d")) example_P
        FcStrBufInit).map (fun x => (x.1, x.2.1.format, x.2.1.err))
      = some (true, [], []) := by
  decide

/-! ## Subpattern lifetime (C19) -/

/-- The live subpatterns of `interpret_filter` and `interpret_delete` follow
their results: when the call succeeds none is left, and when it fails the
subpattern is left exactly when the body `{...}` was reached and failed. -/
theorem interpret_delete_live_body {V : Type} (ext : Externals V) (fuel : Nat)
    (c c1 c2 c' : FcFormatContext) (pat sp : FcPattern V) (buf buf' : FcStrBuf)
    (h1 : expect_char c 45 = (true, c1))
    (h2 : interpret_delete_loop fuel c1 (FcPatternDuplicate pat) = some (true, c2, sp))
    (h3 : interpret_subexpr ext fuel c2 sp buf = some (false, c', buf')) :
    interpret_delete ext (fuel + 1) c pat buf = some (false, c', buf') ∧
    interpret_delete_live ext (fuel + 1) c pat buf = some [sp] := by
  constructor
  · rw [interpret_delete]; simp only [h1, h2, h3]
  · rw [interpret_delete_live]; simp only [h1, h2, h3]

theorem interpret_filter_live_body {V : Type} (ext : Externals V) (fuel : Nat)
    (c c1 c2 c' : FcFormatContext) (pat : FcPattern V) (os : List (List Nat))
    (buf buf' : FcStrBuf)
    (h1 : expect_char c 43 = (true, c1))
    (h2 : interpret_filter_loop fuel c1 [] = some (true, c2, os))
    (h3 : interpret_subexpr ext fuel c2 (FcPatternFilter pat os) buf = some (false, c', buf')) :
    interpret_filter ext (fuel + 1) c pat buf = some (false, c', buf') ∧
    interpret_filter_live ext (fuel + 1) c pat buf = some [FcPatternFilter pat os] := by
  constructor
  · rw [interpret_filter]; simp only [h1, h2, h3]
  · rw [interpret_filter_live]; simp only [h1, h2, h3]

/-- C19 fails on the code. At the directive texts `-size{%{family}` (the body is
not closed) and `+family{%{family|nope}}` (the body names an unknown converter)
and the pattern `P`, `interpret_delete` and `interpret_filter` return failure
with one subpattern live: the `return FcFalse` behind the failed body does not
call `FcPatternDestroy`. On the other exit paths none is live: success
(`-size{%{family}}`, `+family{%{family}}`) and a missing key name (`-{x}`,
`+{x}`). -/
theorem subpattern_lifetime_failure :
    ((interpret_delete example_ext 30 (FcFormatContextInit (bytes "-size\x7b%\x7bfamily\x7d"))
          example_P FcStrBufInit).map (fun x => (x.1, x.2.1.err))
        = some (false, [Message.format_ended 125]) ∧
      (interpret_delete_live example_ext 30
          (FcFormatContextInit (bytes "-size\x7b%\x7bfamily\x7d")) example_P FcStrBufInit).map
          List.length = some 1) ∧
    ((interpret_filter example_ext 30
          (FcFormatContextInit (bytes "+family\x7b%\x7bfamily|nope\x7d\x7d")) example_P
          FcStrBufInit).map (fun x => (x.1, x.2.1.err))
        = some (false, [Message.unknown_converter (bytes "nope")]) ∧
      (interpret_filter_live example_ext 30
          (FcFormatContextInit (bytes "+family\x7b%\x7bfamily|nope\x7d\x7d")) example_P
          FcStrBufInit).map List.length = some 1) ∧
    ((interpret_delete_live example_ext 30
          (FcFormatContextInit (bytes "-size\x7b%\x7bfamily\x7d\x7d")) example_P
          FcStrBufInit).map List.length = some 0 ∧
      (interpret_filter_live example_ext 30
          (FcFormatContextInit (bytes "+family\x7b%\x7bfamily\x7d\x7d")) example_P
          FcStrBufInit).map List.length = some 0 ∧
      (interpret_delete_live example_ext 30 (FcFormatContextInit (bytes "-\x7bx\x7d"))
          example_P FcStrBufInit).map List.length = some 0 ∧
      (interpret_filter_live example_ext 30 (FcFormatContextInit (bytes "+\x7bx\x7d"))
          example_P FcStrBufInit).map List.length = some 0) ∧
    FcPatternFormat example_ext 40 example_P (bytes "%\x7b-size\x7b%\x7bfamily\x7d")
      = some (none, [Message.format_ended 125]) := by
  decide

/-! ## Conditional directive, as amended (C3) -/

/-- C3, as amended. Conditional directive: for a pattern whose value lists are
not empty and a non-empty condition list of terms `key` or `!key`, the predicate
is `cond_pass`, the conjunction over the terms of (key present) XOR (term
negated), and the output of `?conds{T}{E}` is exactly the rendering of the branch
that is taken, provided the branch that is not taken is a well-formed branch
text (`Branch.ok`: no brace without a backslash in the heads and converter
pipelines of its directives, every `%` opening a directive). When the predicate
is true and `{T}` is rendered with success up to the brace that closes it, the
directive succeeds with the buffer that `{T}` has rendered and the cursor behind
`{E}`, or behind `{T}` when no else-branch follows; when `{T}` fails the
directive fails as `{T}` does. When the predicate is false the directive is the
rendering of `{E}` behind the well-formed `{T}`, and succeeds with nothing
appended when no else-branch follows. A well-formed `{T}` that is rendered with
success is always rendered up to the brace that closes it, so that with both
branches well-formed and the predicate true the directive gives the result and
the buffer of `{T}`, whatever they are. -/
theorem interpret_cond_spec {V : Type} (ext : Externals V) (fuel : Nat) (pat : FcPattern V)
    (orig : List Nat) (len : Nat) (w : List Nat) (e : List Message) (buf : FcStrBuf)
    (ts : List (Bool × List Nat))
    (hne : ts ≠ []) (hts : ∀ t ∈ ts, plain_word t.2) (hfuel : ts.length ≤ fuel)
    (hpat : ∀ el ∈ pat, el.values ≠ []) :
    (cond_pass pat ts = true → ∀ (T : List Nat) (E : Branch) (Z : List Nat), E.ok →
      2 * (E.text.length + Z.length + 2) + 1 ≤ fuel → ∀ c1 b1,
      interpret_subexpr ext fuel
          ⟨orig, 123 :: (T ++ 125 :: 123 :: (E.text ++ 125 :: Z)), len,
            (ts.map (fun t => t.2)).getLastD w, e⟩ pat buf = some (true, c1, b1) →
      c1.format = 123 :: (E.text ++ 125 :: Z) →
      interpret_cond ext (fuel + 1)
          ⟨orig, 63 :: (cond_list ts ++ 123 :: (T ++ 125 :: 123 :: (E.text ++ 125 :: Z))),
            len, w, e⟩ pat buf
        = some (true, { c1 with format := Z }, b1)) ∧
    (cond_pass pat ts = true → ∀ (T Z : List Nat), Z.headD 0 ≠ 123 → ∀ c1 b1,
      interpret_subexpr ext fuel
          ⟨orig, 123 :: (T ++ 125 :: Z), len, (ts.map (fun t => t.2)).getLastD w, e⟩ pat buf
        = some (true, c1, b1) →
      c1.format = Z →
      interpret_cond ext (fuel + 1)
          ⟨orig, 63 :: (cond_list ts ++ 123 :: (T ++ 125 :: Z)), len, w, e⟩ pat buf
        = some (true, c1, b1)) ∧
    (cond_pass pat ts = true → ∀ (rest : List Nat) c1 b1,
      interpret_subexpr ext fuel
          ⟨orig, 123 :: rest, len, (ts.map (fun t => t.2)).getLastD w, e⟩ pat buf
        = some (false, c1, b1) →
      interpret_cond ext (fuel + 1) ⟨orig, 63 :: (cond_list ts ++ 123 :: rest), len, w, e⟩ pat
          buf
        = some (false, c1, b1)) ∧
    (cond_pass pat ts = false → ∀ (T : Branch) (R : List Nat), T.ok →
      2 * (T.text.length + R.length + 3) ≤ fuel →
      interpret_cond ext (fuel + 2)
          ⟨orig, 63 :: (cond_list ts ++ 123 :: (T.text ++ 125 :: 123 :: R)), len, w, e⟩ pat buf
        = interpret_subexpr ext fuel
            ⟨orig, 123 :: R, len, (ts.map (fun t => t.2)).getLastD w, e⟩ pat buf) ∧
    (cond_pass pat ts = false → ∀ (T : Branch) (Z : List Nat), T.ok → Z.headD 0 ≠ 123 →
      2 * (T.text.length + Z.length + 2) ≤ fuel →
      interpret_cond ext (fuel + 2)
          ⟨orig, 63 :: (cond_list ts ++ 123 :: (T.text ++ 125 :: Z)), len, w, e⟩ pat buf
        = some (true, ⟨orig, Z, len, (ts.map (fun t => t.2)).getLastD w, e⟩, buf)) ∧
    (∀ (T : Branch) (Z : List Nat) (n : Nat) (c : FcFormatContext) (p : FcPattern V)
      (b : FcStrBuf) (c1 : FcFormatContext) (b1 : FcStrBuf), T.ok →
      c.format = 123 :: (T.text ++ 125 :: Z) →
      interpret_subexpr ext n c p b = some (true, c1, b1) → c1.format = Z) ∧
    (cond_pass pat ts = true → ∀ (T E : Branch) (Z : List Nat), T.ok → E.ok →
      2 * (E.text.length + Z.length + 2) + 1 ≤ fuel → ∀ r c1 b1,
      interpret_subexpr ext fuel
          ⟨orig, 123 :: (T.text ++ 125 :: 123 :: (E.text ++ 125 :: Z)), len,
            (ts.map (fun t => t.2)).getLastD w, e⟩ pat buf = some (r, c1, b1) →
      interpret_cond ext (fuel + 1)
          ⟨orig, 63 :: (cond_list ts ++ 123 :: (T.text ++ 125 :: 123 :: (E.text ++ 125 :: Z))),
            len, w, e⟩ pat buf
        = some (r, if r = true then { c1 with format := Z } else c1, b1)) := by
  refine ⟨?_, ?_, ?_, ?_, ?_, ?_, ?_⟩
  · intro hp T E Z hE hf c1 b1 h1 hc1
    rw [interpret_cond_eq ext fuel pat orig len w e buf ts _ hne hts hfuel hpat, if_pos hp, h1]
    obtain ⟨o1, f1, l1, w1, e1⟩ := c1
    simp only at hc1
    subst hc1
    simp only [maybe_skip_subexpr, peek, List.headD_cons, if_true]
    rw [skip_subexpr_branch_eq o1 l1 w1 e1 E hE Z fuel hf]
  · intro hp T Z hZ c1 b1 h1 hc1
    rw [interpret_cond_eq ext fuel pat orig len w e buf ts _ hne hts hfuel hpat, if_pos hp, h1]
    simp only [maybe_skip_subexpr]
    rw [if_neg (by unfold peek; rw [hc1]; exact hZ)]
  · intro hp rest c1 b1 h1
    rw [interpret_cond_eq ext fuel pat orig len w e buf ts _ hne hts hfuel hpat, if_pos hp, h1]
  · intro hp T R hT hf
    rw [interpret_cond_eq ext (fuel + 1) pat orig len w e buf ts _ hne hts (by omega) hpat,
      if_neg (by simp [hp])]
    rw [skip_subexpr_branch_eq orig len _ e T hT _ (fuel + 1) (by
      simp only [List.length_cons]; omega)]
    simp only [maybe_interpret_subexpr, peek, List.headD_cons, if_true]
  · intro hp T Z hT hZ hf
    rw [interpret_cond_eq ext (fuel + 1) pat orig len w e buf ts _ hne hts (by omega) hpat,
      if_neg (by simp [hp])]
    rw [skip_subexpr_branch_eq orig len _ e T hT _ (fuel + 1) (by omega)]
    simp only [maybe_interpret_subexpr]
    rw [if_neg (by unfold peek; exact hZ)]
  · intro T Z n c p b c1 b1 hT hc h
    exact interpret_subexpr_in_run ext T.text Z
      (fun fuel c pat buf X c' buf' hc h =>
        interpret_expr_branch ext T hT 125 (Or.inr rfl) fuel c pat buf X c' buf' hc h)
      n c p b c1 b1 (in_run_here _ c hc) h
  · intro hp T E Z hT hE hf r c1 b1 h1
    rw [interpret_cond_eq ext fuel pat orig len w e buf ts _ hne hts hfuel hpat, if_pos hp, h1]
    cases r with
    | false => simp
    | true =>
      have hc1 : c1.format = 123 :: (E.text ++ 125 :: Z) :=
        interpret_subexpr_in_run ext T.text _
          (fun fuel c pat buf X c' buf' hc h =>
            interpret_expr_branch ext T hT 125 (Or.inr rfl) fuel c pat buf X c' buf' hc h)
          fuel _ pat buf c1 b1 (in_run_here _ _ rfl) h1
      obtain ⟨o1, f1, l1, w1, e1⟩ := c1
      simp only at hc1
      subst hc1
      simp only [maybe_skip_subexpr, peek, List.headD_cons, if_true]
      rw [skip_subexpr_branch_eq o1 l1 w1 e1 E hE Z fuel hf]

/-- C3 as amended, at the directive text `?style{yes}{no}` with fuel 20. In the
pattern `Q` the predicate is false, the well-formed then-branch `yes` is passed
over and the directive is the rendering of `{no}`, which appends `no`; in the
pattern `P` the predicate is true, `{yes}` is rendered, the well-formed
else-branch `no` is passed over and the directive has appended `yes`. -/
theorem interpret_cond_spec_witness :
    (([(false, bytes "style")] : List (Bool × List Nat)) ≠ [] ∧
      (∀ t ∈ [(false, bytes "style")], plain_word t.2) ∧
      [(false, bytes "style")].length ≤ 20 ∧
      (∀ el ∈ example_Q, el.values ≠ []) ∧ (∀ el ∈ example_P, el.values ≠ []) ∧
      cond_pass example_Q [(false, bytes "style")] = false ∧
      cond_pass example_P [(false, bytes "style")] = true ∧
      (Branch.lit 121 (Branch.lit 101 (Branch.lit 115 Branch.nil))).ok ∧
      (Branch.lit 110 (Branch.lit 111 Branch.nil)).ok ∧
      2 * ((Branch.lit 121 (Branch.lit 101 (Branch.lit 115 Branch.nil))).text.length
        + (bytes "no\x7d\x7d").length + 3) ≤ 20 ∧
      2 * ((Branch.lit 110 (Branch.lit 111 Branch.nil)).text.length + (bytes "\x7d").length + 2)
        + 1 ≤ 20) ∧
    (interpret_cond example_ext 22
        ⟨[], bytes "?style\x7byes\x7d\x7bno\x7d\x7d", 0, [], []⟩ example_Q FcStrBufInit
      = interpret_subexpr example_ext 20 ⟨[], bytes "\x7bno\x7d\x7d", 0, bytes "style", []⟩
          example_Q FcStrBufInit ∧
      interpret_subexpr example_ext 20 ⟨[], bytes "\x7bno\x7d\x7d", 0, bytes "style", []⟩
          example_Q FcStrBufInit
        = some (true, ⟨[], bytes "\x7d", 0, bytes "style", []⟩, ⟨bytes "no", false⟩)) ∧
    interpret_cond example_ext 21
        ⟨[], bytes "?style\x7byes\x7d\x7bno\x7d\x7d", 0, [], []⟩ example_P FcStrBufInit
      = some (true, ⟨[], bytes "\x7d", 0, bytes "style", []⟩, ⟨bytes "yes", false⟩) :=
  ⟨⟨by decide, by decide, by decide, by decide, by decide, by decide, by decide,
    ⟨by decide, by decide, by decide, trivial⟩, ⟨by decide, by decide, trivial⟩,
    by decide, by decide⟩,
   ⟨(interpret_cond_spec example_ext 20 example_Q [] 0 [] [] FcStrBufInit
      [(false, bytes "style")] (by decide) (by decide) (by decide) (by decide)).2.2.2.1
      (by decide) (Branch.lit 121 (Branch.lit 101 (Branch.lit 115 Branch.nil)))
      (bytes "no\x7d\x7d") ⟨by decide, by decide, by decide, trivial⟩ (by decide),
    by decide⟩,
   (interpret_cond_spec example_ext 20 example_P [] 0 [] [] FcStrBufInit
      [(false, bytes "style")] (by decide) (by decide) (by decide) (by decide)).1
      (by decide) (bytes "yes") (Branch.lit 110 (Branch.lit 111 Branch.nil)) (bytes "\x7d")
      ⟨by decide, by decide, trivial⟩ (by decide)
      ⟨[], bytes "\x7bno\x7d\x7d", 0, bytes "style", []⟩ ⟨bytes "yes", false⟩ (by decide)
      (by decide)⟩

end FcFormat
